import Mathlib

/-!
# The push parser of json_parser.c: a shallow embedding of the push parser and its contract

The definitions below follow `src/json_parser.c` function by function.

* Bytes (`u_char`) are natural numbers; character constants are written as
  their ASCII codes with the character in a comment.
* `struct json_parser` becomes the record `json_parser_t`.  The stack is the
  array `jp_stack` of `jp_stackdepth` cells together with the index
  `jp_depth` of the top frame, exactly as in C (cells above `jp_depth` keep
  their stale contents; `jp_depth` may be decremented below `-1` by a failed
  pop).  Cells that `malloc`/`realloc` leave uninitialised are `0`; the code
  never reads a cell it has not written.  The C `int`s `jp_depth` and
  `jp_stackdepth` are integers without a bound: nesting stays below 2^31 - 16
  frames.
* The user state behind `void *jp_ctx` is the history of callback
  invocations (`json_ctx`).  Every callback of `json_parser_settings` takes
  that history and its arguments and returns the C `int`; the embedding
  appends the invocation to the history.
* A `(pointer, length)` callback argument is a `json_slice`: `none` is the
  null pointer with length 0, `some bs` a pointer to the `bs.length` bytes
  `bs`.
* What the C code takes from its host (whether `realloc` succeeds, and the
  locale-dependent part of `isspace`/`isprint` on bytes above 0x7F) is the
  record `json_host`.
* `json_parser_exec` returns the C return value together with the parser
  and the callback history after the call.
-/

namespace JsonParser

/-- Host behaviour the parser depends on: whether `realloc` to a given size
succeeds, and how the locale classifies bytes with the high bit set. -/
structure json_host where
  realloc_ok : Nat → Bool
  isspace_high : Nat → Bool
  isprint_high : Nat → Bool

/-- The `isspace` of `<ctype.h>`: space, `\t \n \v \f \r`, and whatever the
locale adds above 0x7F. -/
def isspace (h : json_host) (c : Nat) : Bool :=
  c == 32 || (decide (9 ≤ c) && decide (c ≤ 13)) || (decide (128 ≤ c) && h.isspace_high c)

/-- The `isdigit` of `<ctype.h>` (never locale-dependent). -/
def isdigit (c : Nat) : Bool :=
  decide (48 ≤ c) && decide (c ≤ 57)

/-- The `isprint` of `<ctype.h>`: 0x20..0x7E, and whatever the locale adds
above 0x7F. -/
def isprint (h : json_host) (c : Nat) : Bool :=
  (decide (32 ≤ c) && decide (c ≤ 126)) || (decide (128 ≤ c) && h.isprint_high c)

/-- Frame tag `JSON_PARSER_NONE`, the character `' '`. -/
def JSON_PARSER_NONE : Nat := 32

/-- Frame tag `JSON_PARSER_OBJECT`, the character `'{'`. -/
def JSON_PARSER_OBJECT : Nat := 123

/-- Frame tag `JSON_PARSER_ARRAY`, the character `'['`. -/
def JSON_PARSER_ARRAY : Nat := 91

/-- The constant `JSON_PARSER_DEFAULT_DEPTH`. -/
def JSON_PARSER_DEFAULT_DEPTH : Nat := 16

/-- The states of `enum json_parser_state`, in declaration order. -/
inductive json_parser_state
  | s_dead
  | s_init
  | s_next
  | s_delim
  | s_done
  | s_null_N
  | s_null_NU
  | s_null_NUL
  | s_true_T
  | s_true_TR
  | s_true_TRU
  | s_false_F
  | s_false_FA
  | s_false_FAL
  | s_false_FALS
  | s_number_negative
  | s_number_zero
  | s_number
  | s_number_point
  | s_number_decimals
  | s_number_e
  | s_number_e_sign
  | s_number_e_digits
  | s_string_start
  | s_string_mark
  | s_string_escape
  | s_string_u
  | s_string_u0
  | s_string_u00
  | s_string_u00X
  | s_string
  | s_object_start
  | s_object_next
  | s_object
  | s_object_key_start
  | s_object_key_mark
  | s_object_key_escape
  | s_object_key_u
  | s_object_key_u0
  | s_object_key_u00
  | s_object_key_u00X
  | s_object_key
  | s_object_key_end
  deriving DecidableEq, Repr

open json_parser_state

/-- The parser context `struct json_parser` (without the opaque `jp_ctx`
handle, whose target is threaded as a `json_ctx`). -/
structure json_parser_t where
  jp_stack : List Nat
  jp_state : json_parser_state
  jp_depth : Int
  jp_stackdepth : Int
  jp_uchar : Nat
  deriving DecidableEq, Repr

/-- A `(const char *, size_t)` callback argument. -/
abbrev json_slice := Option (List Nat)

/-- One callback invocation with its arguments. -/
inductive json_event
  | on_null
  | on_bool (v : Int)
  | on_number (s : json_slice)
  | on_string (s : json_slice)
  | on_object_start
  | on_object_key (s : json_slice)
  | on_object_end
  | on_array_start
  | on_array_end
  | on_separator
  deriving DecidableEq, Repr

/-- The user state reachable through `jp_ctx`: the invocations so far, oldest
first. -/
abbrev json_ctx := List json_event

/-- The callback table `struct json_parser_settings`. -/
structure json_parser_settings where
  on_null : json_ctx → Int
  on_bool : json_ctx → Int → Int
  on_number : json_ctx → json_slice → Int
  on_string : json_ctx → json_slice → Int
  on_object_start : json_ctx → Int
  on_object_key : json_ctx → json_slice → Int
  on_object_end : json_ctx → Int
  on_array_start : json_ctx → Int
  on_array_end : json_ctx → Int
  on_separator : json_ctx → Int

/-- The parser `json_parser_new` returns when both allocations succeed. -/
def json_parser_new : json_parser_t :=
  { jp_stack := List.replicate JSON_PARSER_DEFAULT_DEPTH 0
    jp_state := s_init
    jp_depth := -1
    jp_stackdepth := JSON_PARSER_DEFAULT_DEPTH
    jp_uchar := 0 }

/-- The function `json_parser_top`. -/
def json_parser_top (jp : json_parser_t) : Nat :=
  if jp.jp_depth ≥ 0 then jp.jp_stack.getD jp.jp_depth.toNat 0 else JSON_PARSER_NONE

/-- The function `json_parser_push`: grow the array by 16 cells when full
(failing with `-1` when `realloc` fails), then store the tag above the top. -/
def json_parser_push (h : json_host) (jp : json_parser_t) (type : Nat) : Int × json_parser_t :=
  if jp.jp_depth + 1 ≥ jp.jp_stackdepth then
    if h.realloc_ok (jp.jp_stackdepth + 16).toNat then
      (0, { jp with
            jp_stack := (jp.jp_stack ++ List.replicate 16 0).set (jp.jp_depth + 1).toNat type
            jp_stackdepth := jp.jp_stackdepth + 16
            jp_depth := jp.jp_depth + 1 })
    else
      (-1, jp)
  else
    (0, { jp with
          jp_stack := jp.jp_stack.set (jp.jp_depth + 1).toNat type
          jp_depth := jp.jp_depth + 1 })

/-- The function `json_parser_pop`: `jp_depth` is decremented first, then the
old top is compared with the expected tag. -/
def json_parser_pop (jp : json_parser_t) (type : Nat) : Int × json_parser_t :=
  let depth := jp.jp_depth
  let jp1 := { jp with jp_depth := jp.jp_depth - 1 }
  if depth < 0 ∨ jp.jp_stack.getD depth.toNat 0 ≠ type then
    (-1, { jp1 with jp_state := s_dead })
  else
    (0, jp1)

/-- The function `json_parser_push_object`. -/
def json_parser_push_object (h : json_host) (jp : json_parser_t)
    (settings : json_parser_settings) (ctx : json_ctx) : Int × json_parser_t × json_ctx :=
  match json_parser_push h jp JSON_PARSER_OBJECT with
  | (rv, jp1) =>
    if rv = -1 then (-1, jp1, ctx)
    else (settings.on_object_start ctx, jp1, ctx ++ [json_event.on_object_start])

/-- The function `json_parser_pop_object`. -/
def json_parser_pop_object (jp : json_parser_t)
    (settings : json_parser_settings) (ctx : json_ctx) : Int × json_parser_t × json_ctx :=
  match json_parser_pop jp JSON_PARSER_OBJECT with
  | (rv, jp1) =>
    if rv = -1 then (-1, jp1, ctx)
    else (settings.on_object_end ctx, jp1, ctx ++ [json_event.on_object_end])

/-- The function `json_parser_push_array`. -/
def json_parser_push_array (h : json_host) (jp : json_parser_t)
    (settings : json_parser_settings) (ctx : json_ctx) : Int × json_parser_t × json_ctx :=
  match json_parser_push h jp JSON_PARSER_ARRAY with
  | (rv, jp1) =>
    if rv = -1 then (-1, jp1, ctx)
    else (settings.on_array_start ctx, jp1, ctx ++ [json_event.on_array_start])

/-- The function `json_parser_pop_array`. -/
def json_parser_pop_array (jp : json_parser_t)
    (settings : json_parser_settings) (ctx : json_ctx) : Int × json_parser_t × json_ctx :=
  match json_parser_pop jp JSON_PARSER_ARRAY with
  | (rv, jp1) =>
    if rv = -1 then (-1, jp1, ctx)
    else (settings.on_array_end ctx, jp1, ctx ++ [json_event.on_array_end])

/-- The function `json_parser_uchar`. -/
def json_parser_uchar (digit : Nat) : Int :=
  if 48 ≤ digit ∧ digit ≤ 57 then (digit : Int) - 48        -- '0'..'9': digit - '0'
  else if 97 ≤ digit ∧ digit ≤ 102 then (digit : Int) - 97  -- 'a'..'f': digit - 'a'
  else if 65 ≤ digit ∧ digit ≤ 70 then (digit : Int) - 65   -- 'A'..'F': digit - 'A'
  else -1

/-- The function `json_parser_echar`. -/
def json_parser_echar (digit : Nat) : Int :=
  if digit = 98 then 8            -- 'b' => '\b'
  else if digit = 116 then 9      -- 't' => '\t'
  else if digit = 110 then 10     -- 'n' => '\n'
  else if digit = 102 then 12     -- 'f' => '\f'
  else if digit = 114 then 13     -- 'r' => '\r'
  else if digit = 34 then 34      -- '"'
  else if digit = 47 then 47      -- '/'
  else if digit = 92 then 92      -- '\\'
  else if digit = 117 then 117    -- 'u'
  else -1

/-- The bytes of `buf` from `mark` up to `data`: the argument pair
`(mark, data - mark)`.  `mark` is `NULL` only where no span is taken. -/
def json_span (buf : List Nat) (mark : Option Nat) (data : Nat) : json_slice :=
  some ((buf.drop (mark.getD 0)).take (data - mark.getD 0))

/-- The function `json_parser_on_number`. -/
def json_parser_on_number (settings : json_parser_settings) (ctx : json_ctx)
    (buf : List Nat) (mark : Option Nat) (data : Nat) : Int × json_ctx :=
  if mark = some data then (0, ctx)
  else (settings.on_number ctx (json_span buf mark data),
        ctx ++ [json_event.on_number (json_span buf mark data)])

/-- The function `json_parser_next`. -/
def json_parser_next (jp : json_parser_t) : json_parser_state :=
  if json_parser_top jp = JSON_PARSER_ARRAY then s_next
  else if json_parser_top jp = JSON_PARSER_OBJECT then s_object_next
  else s_done

/-- The function `json_parser_number_end`; `c` is the byte `*data`. -/
def json_parser_number_end (h : json_host) (jp : json_parser_t)
    (settings : json_parser_settings) (ctx : json_ctx)
    (buf : List Nat) (mark : Option Nat) (data : Nat) (c : Nat) :
    Int × json_parser_t × json_ctx :=
  if isspace h c then
    match json_parser_on_number settings ctx buf mark data with
    | (rv, ctx1) =>
      if rv ≠ 0 then (-1, jp, ctx1)
      else (1, { jp with jp_state := json_parser_next jp }, ctx1)
  else if c = 125 then            -- '}'
    match json_parser_on_number settings ctx buf mark data with
    | (rv, ctx1) =>
      if rv ≠ 0 then (-1, jp, ctx1)
      else
        match json_parser_pop_object jp settings ctx1 with
        | (rv2, jp2, ctx2) =>
          if rv2 ≠ 0 then (-1, jp2, ctx2)
          else (1, { jp2 with jp_state := json_parser_next jp2 }, ctx2)
  else if c = 93 then             -- ']'
    match json_parser_on_number settings ctx buf mark data with
    | (rv, ctx1) =>
      if rv ≠ 0 then (-1, jp, ctx1)
      else
        match json_parser_pop_array jp settings ctx1 with
        | (rv2, jp2, ctx2) =>
          if rv2 ≠ 0 then (-1, jp2, ctx2)
          else (1, { jp2 with jp_state := json_parser_next jp2 }, ctx2)
  else if c = 44 then             -- ','
    if json_parser_top jp = JSON_PARSER_NONE then
      (-1, { jp with jp_state := s_dead }, ctx)
    else
      match json_parser_on_number settings ctx buf mark data with
      | (rv, ctx1) =>
        if rv ≠ 0 then (-1, jp, ctx1)
        else if settings.on_separator ctx1 ≠ 0 then
          (-1, jp, ctx1 ++ [json_event.on_separator])
        else
          (1, { jp with jp_state :=
                  if json_parser_top jp = JSON_PARSER_OBJECT then s_object else s_delim },
            ctx1 ++ [json_event.on_separator])
  else
    (0, jp, ctx)

/-- How one iteration of the byte loop of `json_parser_exec` leaves the
`switch`: `next` is `break`/`continue` (the loop goes on with the next byte),
`die` is `goto die`, `onerr` is `goto onerr`. -/
inductive json_step
  | next (jp : json_parser_t) (ctx : json_ctx) (mark : Option Nat)
  | die (jp : json_parser_t) (ctx : json_ctx)
  | onerr (jp : json_parser_t) (ctx : json_ctx)
  deriving DecidableEq, Repr

/-- The `case s_init:` body of `json_parser_exec` (also reached by fall
through from `case s_delim:`). -/
def json_parser_exec_init (h : json_host) (settings : json_parser_settings)
    (data c : Nat) (jp : json_parser_t) (ctx : json_ctx) (mark : Option Nat) : json_step :=
  if c = 123 then                 -- '{'
    match json_parser_push_object h jp settings ctx with
    | (rv, jp1, ctx1) =>
      if rv ≠ 0 then .onerr jp1 ctx1
      else .next { jp1 with jp_state := s_object_start } ctx1 mark
  else if c = 125 then            -- '}'
    match json_parser_pop_object jp settings ctx with
    | (rv, jp1, ctx1) =>
      if rv ≠ 0 then .onerr jp1 ctx1
      else .next { jp1 with jp_state := json_parser_next jp1 } ctx1 mark
  else if c = 91 then             -- '['
    match json_parser_push_array h jp settings ctx with
    | (rv, jp1, ctx1) =>
      if rv = -1 then .onerr jp1 ctx1
      else .next { jp1 with jp_state := s_init } ctx1 mark
  else if c = 93 then             -- ']'
    match json_parser_pop_array jp settings ctx with
    | (rv, jp1, ctx1) =>
      if rv ≠ 0 then .onerr jp1 ctx1
      else .next { jp1 with jp_state := json_parser_next jp1 } ctx1 mark
  else if c = 110 then            -- 'n'
    .next { jp with jp_state := s_null_N } ctx mark
  else if c = 116 then            -- 't'
    .next { jp with jp_state := s_true_T } ctx mark
  else if c = 102 then            -- 'f'
    .next { jp with jp_state := s_false_F } ctx mark
  else if c = 34 then             -- '"'
    .next { jp with jp_state := s_string_start } ctx mark
  else if c = 45 then             -- '-'
    .next { jp with jp_state := s_number_negative } ctx (some data)
  else if c = 48 then             -- '0'
    .next { jp with jp_state := s_number_zero } ctx (some data)
  else if isspace h c then
    .next jp ctx mark
  else if isdigit c then
    .next { jp with jp_state := s_number } ctx (some data)
  else
    .die jp ctx

/-- The `case s_object_key:` body of `json_parser_exec` (also reached by fall
through from `s_object_key_start` and `s_object_key_mark`). -/
def json_parser_exec_object_key (h : json_host) (settings : json_parser_settings)
    (buf : List Nat) (data c : Nat) (jp : json_parser_t) (ctx : json_ctx)
    (mark : Option Nat) : json_step :=
  if c = 92 then                  -- '\\'
    if mark ≠ some data then
      if settings.on_object_key ctx (json_span buf mark data) ≠ 0 then
        .onerr jp (ctx ++ [json_event.on_object_key (json_span buf mark data)])
      else
        .next { jp with jp_state := s_object_key_escape }
          (ctx ++ [json_event.on_object_key (json_span buf mark data)]) mark
    else
      .next { jp with jp_state := s_object_key_escape } ctx mark
  else if c = 34 then             -- '"'
    if mark ≠ some data then
      if settings.on_object_key ctx (json_span buf mark data) ≠ 0 then
        .onerr jp (ctx ++ [json_event.on_object_key (json_span buf mark data)])
      else
        .next { jp with jp_state := s_object_key_end }
          (ctx ++ [json_event.on_object_key (json_span buf mark data)]) mark
    else
      .next { jp with jp_state := s_object_key_end } ctx mark
  else if !isprint h c then
    .die jp ctx
  else
    .next jp ctx mark

/-- The `case s_string:` body of `json_parser_exec` (also reached by fall
through from `s_string_start` and `s_string_mark`). -/
def json_parser_exec_string (h : json_host) (settings : json_parser_settings)
    (buf : List Nat) (data c : Nat) (jp : json_parser_t) (ctx : json_ctx)
    (mark : Option Nat) : json_step :=
  if c = 92 then                  -- '\\'
    if mark ≠ some data then
      if settings.on_string ctx (json_span buf mark data) ≠ 0 then
        .onerr jp (ctx ++ [json_event.on_string (json_span buf mark data)])
      else
        .next { jp with jp_state := s_string_escape }
          (ctx ++ [json_event.on_string (json_span buf mark data)]) mark
    else
      .next { jp with jp_state := s_string_escape } ctx mark
  else if c = 34 then             -- '"'
    if mark ≠ some data then
      if settings.on_string ctx (json_span buf mark data) ≠ 0 then
        .onerr jp (ctx ++ [json_event.on_string (json_span buf mark data)])
      else
        .next { jp with jp_state := json_parser_next jp }
          (ctx ++ [json_event.on_string (json_span buf mark data)]) mark
    else
      .next { jp with jp_state := json_parser_next jp } ctx mark
  else if !isprint h c then
    .die jp ctx
  else
    .next jp ctx mark

/-- The shared body of `case s_next:`, `case s_object_start:` and
`case s_object_next:` for the byte `'}'`: pop an object frame and move on. -/
def json_parser_exec_close_object (settings : json_parser_settings)
    (jp : json_parser_t) (ctx : json_ctx) (mark : Option Nat) : json_step :=
  match json_parser_pop_object jp settings ctx with
  | (rv, jp1, ctx1) =>
    if rv ≠ 0 then .onerr jp1 ctx1
    else .next { jp1 with jp_state := json_parser_next jp1 } ctx1 mark

/-- The code after a call of `json_parser_number_end` in the four number
states that may end a number: `rv == -1` is `goto onerr`, `rv == 1` is
`break`, and otherwise `rest` (the remainder of the case) runs. -/
def json_parser_exec_number (h : json_host) (settings : json_parser_settings)
    (buf : List Nat) (data c : Nat) (jp : json_parser_t) (ctx : json_ctx)
    (mark : Option Nat) (rest : json_step) : json_step :=
  match json_parser_number_end h jp settings ctx buf mark data c with
  | (rv, jp1, ctx1) =>
    if rv = -1 then .onerr jp1 ctx1
    else if rv = 1 then .next jp1 ctx1 mark
    else rest

/-- One iteration of the `for` loop of `json_parser_exec`: the `switch` on
`jp_state` for the byte `c = buf[data]`. -/
def json_parser_exec_byte (h : json_host) (settings : json_parser_settings)
    (buf : List Nat) (data c : Nat) (jp : json_parser_t) (ctx : json_ctx)
    (mark : Option Nat) : json_step :=
  match jp.jp_state with
  | s_delim =>
    if c = 125 ∨ c = 93 then .die jp ctx                     -- '}' ']'
    else json_parser_exec_init h settings data c jp ctx mark
  | s_init => json_parser_exec_init h settings data c jp ctx mark
  | s_next =>
    if isspace h c then .next jp ctx mark
    else if c = 44 then                                      -- ','
      if settings.on_separator ctx ≠ 0 then .onerr jp (ctx ++ [json_event.on_separator])
      else .next { jp with jp_state := s_delim } (ctx ++ [json_event.on_separator]) mark
    else if c = 125 then                                     -- '}'
      json_parser_exec_close_object settings jp ctx mark
    else if c = 93 then                                      -- ']'
      match json_parser_pop_array jp settings ctx with
      | (rv, jp1, ctx1) =>
        if rv ≠ 0 then .onerr jp1 ctx1
        else .next { jp1 with jp_state := json_parser_next jp1 } ctx1 mark
    else .die jp ctx
  | s_done =>
    if isspace h c then .next jp ctx mark else .die jp ctx
  | s_object_start =>
    if isspace h c then .next jp ctx mark
    else if c = 34 then .next { jp with jp_state := s_object_key_start } ctx mark
    else if c = 125 then json_parser_exec_close_object settings jp ctx mark
    else .die jp ctx
  | s_object_next =>
    if isspace h c then .next jp ctx mark
    else if c = 44 then
      if settings.on_separator ctx ≠ 0 then .onerr jp (ctx ++ [json_event.on_separator])
      else .next { jp with jp_state := s_object } (ctx ++ [json_event.on_separator]) mark
    else if c = 125 then json_parser_exec_close_object settings jp ctx mark
    else .die jp ctx
  | s_object =>
    if isspace h c then .next jp ctx mark
    else if c ≠ 34 then .die jp ctx
    else .next { jp with jp_state := s_object_key_start } ctx mark
  | s_object_key_start =>
    if c = 34 then
      -- callback on empty key
      if settings.on_object_key ctx none ≠ 0 then
        .onerr jp (ctx ++ [json_event.on_object_key none])
      else
        .next { jp with jp_state := s_object_key_end }
          (ctx ++ [json_event.on_object_key none]) mark
    else
      json_parser_exec_object_key h settings buf data c
        { jp with jp_state := s_object_key } ctx (some data)
  | s_object_key_mark =>
    json_parser_exec_object_key h settings buf data c
      { jp with jp_state := s_object_key } ctx (some data)
  | s_object_key => json_parser_exec_object_key h settings buf data c jp ctx mark
  | s_object_key_escape =>
    if json_parser_echar c = 117 then                        -- 'u'
      .next { jp with jp_state := s_object_key_u } ctx mark
    else if json_parser_echar c = -1 then .die jp ctx
    else if settings.on_object_key ctx (some [(json_parser_echar c).toNat]) ≠ 0 then
      .die jp (ctx ++ [json_event.on_object_key (some [(json_parser_echar c).toNat])])
    else
      .next { jp with jp_state := s_object_key_mark }
        (ctx ++ [json_event.on_object_key (some [(json_parser_echar c).toNat])]) mark
  | s_object_key_u00X =>
    if json_parser_uchar c = -1 then .die jp ctx
    else
      -- jp->jp_uchar |= rv
      let jp1 := { jp with jp_uchar := (jp.jp_uchar ||| (json_parser_uchar c).toNat) % 256 }
      if settings.on_object_key ctx (some [jp1.jp_uchar]) ≠ 0 then
        .die jp1 (ctx ++ [json_event.on_object_key (some [jp1.jp_uchar])])
      else
        .next { jp1 with jp_state := s_object_key_mark }
          (ctx ++ [json_event.on_object_key (some [jp1.jp_uchar])]) mark
  | s_object_key_end =>
    if isspace h c then .next jp ctx mark
    else if c ≠ 58 then .die jp ctx                          -- ':'
    else .next { jp with jp_state := s_delim } ctx mark
  | s_string_start =>
    if c = 34 then
      -- callback on empty string
      if settings.on_string ctx none ≠ 0 then
        .onerr jp (ctx ++ [json_event.on_string none])
      else
        .next { jp with jp_state := json_parser_next jp }
          (ctx ++ [json_event.on_string none]) mark
    else
      json_parser_exec_string h settings buf data c
        { jp with jp_state := s_string } ctx (some data)
  | s_string_mark =>
    json_parser_exec_string h settings buf data c
      { jp with jp_state := s_string } ctx (some data)
  | s_string => json_parser_exec_string h settings buf data c jp ctx mark
  | s_string_escape =>
    if json_parser_echar c = 117 then                        -- 'u'
      .next { jp with jp_state := s_string_u } ctx mark
    else if json_parser_echar c = -1 then .die jp ctx
    else if settings.on_string ctx (some [(json_parser_echar c).toNat]) ≠ 0 then
      .die jp (ctx ++ [json_event.on_string (some [(json_parser_echar c).toNat])])
    else
      .next { jp with jp_state := s_string_mark }
        (ctx ++ [json_event.on_string (some [(json_parser_echar c).toNat])]) mark
  -- the four cases below end in `jp->jp_state++`
  | s_string_u =>
    if c ≠ 48 then .die jp ctx else .next { jp with jp_state := s_string_u0 } ctx mark
  | s_object_key_u =>
    if c ≠ 48 then .die jp ctx else .next { jp with jp_state := s_object_key_u0 } ctx mark
  | s_string_u0 =>
    if c ≠ 48 then .die jp ctx else .next { jp with jp_state := s_string_u00 } ctx mark
  | s_object_key_u0 =>
    if c ≠ 48 then .die jp ctx else .next { jp with jp_state := s_object_key_u00 } ctx mark
  -- the two cases below set `jp->jp_uchar = rv << 4` and end in `jp->jp_state++`
  | s_string_u00 =>
    if json_parser_uchar c = -1 then .die jp ctx
    else .next { jp with jp_uchar := ((json_parser_uchar c).toNat * 16) % 256
                         jp_state := s_string_u00X } ctx mark
  | s_object_key_u00 =>
    if json_parser_uchar c = -1 then .die jp ctx
    else .next { jp with jp_uchar := ((json_parser_uchar c).toNat * 16) % 256
                         jp_state := s_object_key_u00X } ctx mark
  | s_string_u00X =>
    if json_parser_uchar c = -1 then .die jp ctx
    else
      -- jp->jp_uchar |= rv
      let jp1 := { jp with jp_uchar := (jp.jp_uchar ||| (json_parser_uchar c).toNat) % 256 }
      if settings.on_string ctx (some [jp1.jp_uchar]) ≠ 0 then
        .die jp1 (ctx ++ [json_event.on_string (some [jp1.jp_uchar])])
      else
        .next { jp1 with jp_state := s_string_mark }
          (ctx ++ [json_event.on_string (some [jp1.jp_uchar])]) mark
  | s_number_negative =>
    if c = 48 then .next { jp with jp_state := s_number_zero } ctx mark
    else if isdigit c then .next { jp with jp_state := s_number } ctx mark
    else .die jp ctx
  | s_number_zero =>
    json_parser_exec_number h settings buf data c jp ctx mark
      (if c = 46 then .next { jp with jp_state := s_number_point } ctx mark   -- '.'
       else .die jp ctx)
  | s_number =>
    json_parser_exec_number h settings buf data c jp ctx mark
      (if isdigit c then .next jp ctx mark
       else if c = 46 then .next { jp with jp_state := s_number_point } ctx mark
       else if c = 101 ∨ c = 69 then .next { jp with jp_state := s_number_e } ctx mark  -- 'e' 'E'
       else .die jp ctx)
  | s_number_point =>
    if isdigit c then .next { jp with jp_state := s_number_decimals } ctx mark
    else .die jp ctx
  | s_number_decimals =>
    json_parser_exec_number h settings buf data c jp ctx mark
      (if isdigit c then .next jp ctx mark
       else if c = 101 ∨ c = 69 then .next { jp with jp_state := s_number_e } ctx mark
       else .die jp ctx)
  | s_number_e =>
    if isdigit c then .next { jp with jp_state := s_number_e_digits } ctx mark
    else if c = 43 ∨ c = 45 then .next { jp with jp_state := s_number_e_sign } ctx mark  -- '+' '-'
    else .die jp ctx
  | s_number_e_sign =>
    if isdigit c then .next { jp with jp_state := s_number_e_digits } ctx mark
    else .die jp ctx
  | s_number_e_digits =>
    json_parser_exec_number h settings buf data c jp ctx mark
      (if isdigit c then .next jp ctx mark else .die jp ctx)
  | s_null_N =>
    if c ≠ 117 then .die jp ctx else .next { jp with jp_state := s_null_NU } ctx mark    -- 'u'
  | s_null_NU =>
    if c ≠ 108 then .die jp ctx else .next { jp with jp_state := s_null_NUL } ctx mark   -- 'l'
  | s_null_NUL =>
    if c ≠ 108 then .die jp ctx
    else if settings.on_null ctx ≠ 0 then
      .onerr { jp with jp_state := json_parser_next jp } (ctx ++ [json_event.on_null])
    else .next { jp with jp_state := json_parser_next jp } (ctx ++ [json_event.on_null]) mark
  | s_true_T =>
    if c ≠ 114 then .die jp ctx else .next { jp with jp_state := s_true_TR } ctx mark    -- 'r'
  | s_true_TR =>
    if c ≠ 117 then .die jp ctx else .next { jp with jp_state := s_true_TRU } ctx mark   -- 'u'
  | s_true_TRU =>
    if c ≠ 101 then .die jp ctx                                                          -- 'e'
    else if settings.on_bool ctx 1 ≠ 0 then
      .onerr { jp with jp_state := json_parser_next jp } (ctx ++ [json_event.on_bool 1])
    else .next { jp with jp_state := json_parser_next jp } (ctx ++ [json_event.on_bool 1]) mark
  | s_false_F =>
    if c ≠ 97 then .die jp ctx else .next { jp with jp_state := s_false_FA } ctx mark    -- 'a'
  | s_false_FA =>
    if c ≠ 108 then .die jp ctx else .next { jp with jp_state := s_false_FAL } ctx mark  -- 'l'
  | s_false_FAL =>
    if c ≠ 115 then .die jp ctx else .next { jp with jp_state := s_false_FALS } ctx mark -- 's'
  | s_false_FALS =>
    if c ≠ 101 then .die jp ctx                                                          -- 'e'
    else if settings.on_bool ctx 0 ≠ 0 then
      .onerr { jp with jp_state := json_parser_next jp } (ctx ++ [json_event.on_bool 0])
    else .next { jp with jp_state := json_parser_next jp } (ctx ++ [json_event.on_bool 0]) mark
  | s_dead => .onerr jp ctx   -- we should never end up here

/-- The `switch` after the loop of `json_parser_exec`: the pending span of a
number, key or string is handed to its callback; `data` is the chunk length.
A refusal there is `goto die`. -/
def json_parser_exec_end (settings : json_parser_settings)
    (buf : List Nat) (data : Nat) (jp : json_parser_t) (ctx : json_ctx)
    (mark : Option Nat) : Nat × json_parser_t × json_ctx :=
  match jp.jp_state with
  | s_number_negative | s_number_zero | s_number | s_number_decimals
  | s_number_e | s_number_e_sign | s_number_e_digits =>
    if mark ≠ some data then
      if settings.on_number ctx (json_span buf mark data) ≠ 0 then
        (data, { jp with jp_state := s_dead },
          ctx ++ [json_event.on_number (json_span buf mark data)])
      else (data, jp, ctx ++ [json_event.on_number (json_span buf mark data)])
    else (data, jp, ctx)
  | s_object_key =>
    if mark ≠ some data then
      if settings.on_object_key ctx (json_span buf mark data) ≠ 0 then
        (data, { jp with jp_state := s_dead },
          ctx ++ [json_event.on_object_key (json_span buf mark data)])
      else (data, jp, ctx ++ [json_event.on_object_key (json_span buf mark data)])
    else (data, jp, ctx)
  | s_string =>
    if mark ≠ some data then
      if settings.on_string ctx (json_span buf mark data) ≠ 0 then
        (data, { jp with jp_state := s_dead },
          ctx ++ [json_event.on_string (json_span buf mark data)])
      else (data, jp, ctx ++ [json_event.on_string (json_span buf mark data)])
    else (data, jp, ctx)
  | _ => (data, jp, ctx)

/-- The `for` loop of `json_parser_exec` over the bytes still to be read,
`data` being the offset of the first of them in `buf`; at the end of the
chunk the pending span is flushed.  The result is the return value
`data - buf`, the parser and the callback history. -/
def json_parser_exec_loop (h : json_host) (settings : json_parser_settings)
    (buf : List Nat) : List Nat → Nat → json_parser_t → json_ctx → Option Nat →
    Nat × json_parser_t × json_ctx
  | [], data, jp, ctx, mark => json_parser_exec_end settings buf data jp ctx mark
  | c :: rest, data, jp, ctx, mark =>
    match json_parser_exec_byte h settings buf data c jp ctx mark with
    | .next jp1 ctx1 mark1 => json_parser_exec_loop h settings buf rest (data + 1) jp1 ctx1 mark1
    | .die jp1 ctx1 => (data, { jp1 with jp_state := s_dead }, ctx1)
    | .onerr jp1 ctx1 => (data, jp1, ctx1)

/-- The `switch` before the loop of `json_parser_exec`: in a span-bearing
state the mark is the start of the chunk, otherwise it stays `NULL`. -/
def json_parser_exec_mark (jp : json_parser_t) : Option Nat :=
  match jp.jp_state with
  | s_number_negative | s_number_zero | s_number | s_number_point
  | s_number_decimals | s_number_e | s_number_e_sign | s_number_e_digits
  | s_string | s_object_key => some 0
  | _ => none

/-- The function `json_parser_exec` on the chunk `buf` (`len = buf.length`). -/
def json_parser_exec (h : json_host) (settings : json_parser_settings)
    (jp : json_parser_t) (ctx : json_ctx) (buf : List Nat) : Nat × json_parser_t × json_ctx :=
  if jp.jp_state = s_dead then (0, jp, ctx)
  else if buf.length = 0 then
    -- end of input
    match jp.jp_state with
    | s_done | s_number_zero | s_number | s_number_decimals | s_number_e_digits => (0, jp, ctx)
    | _ => (1, { jp with jp_state := s_dead }, ctx)
  else
    json_parser_exec_loop h settings buf buf 0 jp ctx (json_parser_exec_mark jp)

/-- The function `json_parser_isdead`. -/
def json_parser_isdead (jp : json_parser_t) : Bool :=
  jp.jp_state == s_dead

/-- A caller that submits the chunks in order to `json_parser_exec`, with the
same callbacks, whatever each call returns. -/
def json_parser_feed (h : json_host) (settings : json_parser_settings) :
    json_parser_t → json_ctx → List (List Nat) → json_parser_t × json_ctx
  | jp, ctx, [] => (jp, ctx)
  | jp, ctx, buf :: rest =>
    json_parser_feed h settings (json_parser_exec h settings jp ctx buf).2.1
      (json_parser_exec h settings jp ctx buf).2.2 rest

/-- A host on which `realloc` always succeeds and the locale is "C". -/
def json_host_c : json_host :=
  { realloc_ok := fun _ => true
    isspace_high := fun _ => false
    isprint_high := fun _ => false }

/-- Callbacks that all return 0. -/
def json_settings_ok : json_parser_settings :=
  { on_null := fun _ => 0
    on_bool := fun _ _ => 0
    on_number := fun _ _ => 0
    on_string := fun _ _ => 0
    on_object_start := fun _ => 0
    on_object_key := fun _ _ => 0
    on_object_end := fun _ => 0
    on_array_start := fun _ => 0
    on_array_end := fun _ => 0
    on_separator := fun _ => 0 }

/-- The loop of `json_parser_exec` run over the bytes `pre` only, starting at
offset `data`: the parser, history and mark with which the loop reaches the
byte after `pre`, or `none` when one of the bytes of `pre` left the loop by
`goto die` or `goto onerr`. -/
def json_parser_exec_upto (h : json_host) (settings : json_parser_settings)
    (buf : List Nat) : List Nat → Nat → json_parser_t → json_ctx → Option Nat →
    Option (json_parser_t × json_ctx × Option Nat)
  | [], _, jp, ctx, mark => some (jp, ctx, mark)
  | c :: rest, data, jp, ctx, mark =>
    match json_parser_exec_byte h settings buf data c jp ctx mark with
    | .next jp1 ctx1 mark1 => json_parser_exec_upto h settings buf rest (data + 1) jp1 ctx1 mark1
    | .die _ _ => none
    | .onerr _ _ => none

/-- Whether an iteration of the loop left the parser DEAD: by `goto die`, or
by `goto onerr` after `json_parser_pop` had set the state to `s_dead`. -/
def json_step_isdead : json_step → Bool
  | .next _ _ _ => false
  | .die _ _ => true
  | .onerr jp _ => jp.jp_state == s_dead

/-- How one callback invocation changes the containers that are open,
innermost first: a start event opens a container of its kind, an end event
must close the innermost open container and that container must be of the
same kind (`none` when it is not), every other event leaves them alone. -/
def json_open_step (opened : Option (List Nat)) (e : json_event) : Option (List Nat) :=
  match opened, e with
  | none, _ => none
  | some l, json_event.on_object_start => some (JSON_PARSER_OBJECT :: l)
  | some l, json_event.on_array_start => some (JSON_PARSER_ARRAY :: l)
  | some (t :: l), json_event.on_object_end => if t = JSON_PARSER_OBJECT then some l else none
  | some [], json_event.on_object_end => none
  | some (t :: l), json_event.on_array_end => if t = JSON_PARSER_ARRAY then some l else none
  | some [], json_event.on_array_end => none
  | some l, _ => some l

/-- The containers left open by a history of callback invocations, innermost
first; `none` when some end event did not close the innermost open container
of its own kind. -/
def json_open_containers (ctx : json_ctx) : Option (List Nat) :=
  ctx.foldl json_open_step (some [])

/-- The start and end events of a history form a well-nested two-bracket
word: each end event closes the most recent unclosed start event, which is of
the same kind, and no start event is left unclosed. -/
def json_well_nested (ctx : json_ctx) : Prop :=
  json_open_containers ctx = some []

/-- The frames on the parser's stack, innermost first: the cells
`jp_stack[jp_depth]`, ..., `jp_stack[0]`. -/
def json_parser_frames (jp : json_parser_t) : List Nat :=
  (jp.jp_stack.take (jp.jp_depth + 1).toNat).reverse

/-- The stack of the parser is in step with the history of callbacks: the top
index is within the array, the array has `jp_stackdepth` cells, and the
frames are the containers the history has left open. -/
structure json_stack_inv (jp : json_parser_t) (ctx : json_ctx) : Prop where
  depth_ge : -1 ≤ jp.jp_depth
  depth_lt : jp.jp_depth + 1 ≤ jp.jp_stack.length
  cap : jp.jp_stackdepth = jp.jp_stack.length
  tags : ∀ x ∈ json_parser_frames jp, x = JSON_PARSER_OBJECT ∨ x = JSON_PARSER_ARRAY
  nest : json_open_containers ctx = some (json_parser_frames jp)

/-- The invariant of a parser that has only seen callbacks returning 0: unless
it is DEAD its stack is in step with the history, and in state DONE the stack
is empty. -/
def json_parser_inv (jp : json_parser_t) (ctx : json_ctx) : Prop :=
  jp.jp_state = s_dead ∨
    (json_stack_inv jp ctx ∧ (jp.jp_state = s_done → jp.jp_depth = -1))

/-- The parser and history with which an iteration of the loop goes on or
returns satisfy the invariant (nothing is asked after `goto die`). -/
def json_step_inv : json_step → Prop
  | .next jp ctx _ => json_parser_inv jp ctx
  | .die _ _ => True
  | .onerr jp ctx => json_parser_inv jp ctx

/-- Callbacks that all return 0 except `on_array_start`, which returns 1. -/
def json_settings_array_start_1 : json_parser_settings :=
  { json_settings_ok with on_array_start := fun _ => 1 }

/-- Callbacks that all return 0 except `on_object_start`, which returns 1. -/
def json_settings_object_start_1 : json_parser_settings :=
  { json_settings_ok with on_object_start := fun _ => 1 }

/-- Callbacks that all return 0 except `on_string`, which returns 1. -/
def json_settings_string_1 : json_parser_settings :=
  { json_settings_ok with on_string := fun _ _ => 1 }

/-- The slices a history handed to `on_number`, concatenated in order. -/
def json_number_bytes : json_ctx → List Nat
  | [] => []
  | json_event.on_number s :: rest => s.getD [] ++ json_number_bytes rest
  | _ :: rest => json_number_bytes rest

/-- The value of a hexadecimal digit as the contract states it: `0`-`9` are
0..9, `a`-`f` and `A`-`F` are 10..15 (`none` for any other byte). -/
def spec_hex_value (digit : Nat) : Option Nat :=
  if 48 ≤ digit ∧ digit ≤ 57 then some (digit - 48)
  else if 97 ≤ digit ∧ digit ≤ 102 then some (digit - 97 + 10)
  else if 65 ≤ digit ∧ digit ≤ 70 then some (digit - 65 + 10)
  else none

/-- The contract's number grammar, part `(0|[1-9][0-9]*)`: what is left of
the input after an integer part, `none` when there is none. -/
def spec_number_int : List Nat → Option (List Nat)
  | 48 :: rest => some rest
  | d :: rest => if 49 ≤ d ∧ d ≤ 57 then some (rest.dropWhile isdigit) else none
  | [] => none

/-- The contract's number grammar, part `(.[0-9]+)?`: what is left of the
input after an optional fraction. -/
def spec_number_frac : List Nat → List Nat
  | 46 :: d :: rest => if isdigit d then rest.dropWhile isdigit else 46 :: d :: rest
  | w => w

/-- The contract's number grammar, part `[0-9]+`: what is left of the input
after one or more digits, `none` when there is no digit. -/
def spec_number_digits : List Nat → Option (List Nat)
  | d :: rest => if isdigit d then some (rest.dropWhile isdigit) else none
  | [] => none

/-- The contract's number grammar, part `([eE][+-]?[0-9]+)?` followed by the
end of the input. -/
def spec_number_exp (w : List Nat) : Bool :=
  match w with
  | [] => true
  | e :: rest =>
    if e = 101 ∨ e = 69 then
      match rest with
      | sign :: rest1 =>
        if sign = 43 ∨ sign = 45 then spec_number_digits rest1 == some []
        else spec_number_digits rest == some []
      | [] => false
    else false

/-- The contract's number grammar
`-?(0|[1-9][0-9]*)(.[0-9]+)?([eE][+-]?[0-9]+)?` as a matcher on bytes. -/
def spec_number_grammar (w : List Nat) : Bool :=
  match spec_number_int (match w with | 45 :: rest => rest | _ => w) with
  | some rest => spec_number_exp (spec_number_frac rest)
  | none => false

/-- The eight number states, in which the mark anchors a number in
progress. -/
def json_state_is_number : json_parser_state → Bool
  | s_number_negative | s_number_zero | s_number | s_number_point
  | s_number_decimals | s_number_e | s_number_e_sign | s_number_e_digits => true
  | _ => false

/-- The seven number states listed in the `switch` after the loop of
`json_parser_exec` (all number states but `s_number_point`). -/
def json_state_flushes_number : json_parser_state → Bool
  | s_number_negative | s_number_zero | s_number
  | s_number_decimals | s_number_e | s_number_e_sign | s_number_e_digits => true
  | _ => false

/-- In a number state the mark is set, at or before the offset `data`. -/
def json_mark_ok (data : Nat) (jp : json_parser_t) (mark : Option Nat) : Prop :=
  json_state_is_number jp.jp_state = true → ∃ m, mark = some m ∧ m ≤ data

/-- When an iteration of the loop at offset `data` goes on in a number state,
the mark is set, at or before `data`. -/
def json_step_mark_ok (data : Nat) : json_step → Prop
  | .next jp _ mark => json_mark_ok data jp mark
  | .die _ _ => True
  | .onerr _ _ => True

/-- The history after an iteration of the loop extends the history before
it. -/
def json_step_extends (ctx : json_ctx) : json_step → Prop
  | .next _ ctx1 _ => ctx <+: ctx1
  | .die _ ctx1 => ctx <+: ctx1
  | .onerr _ ctx1 => ctx <+: ctx1

/-- The four number states in which a number may end. -/
def json_state_accepts_number : json_parser_state → Bool
  | s_number_zero | s_number | s_number_decimals | s_number_e_digits => true
  | _ => false

/-- The three states of a string body. -/
def json_state_in_string : json_parser_state → Bool
  | s_string_start | s_string_mark | s_string => true
  | _ => false

/-- The three states of an object key body. -/
def json_state_in_key : json_parser_state → Bool
  | s_object_key_start | s_object_key_mark | s_object_key => true
  | _ => false

/-- The value a callback table returns for an invocation, given the history
before it. -/
def json_settings_call (settings : json_parser_settings) (ctx : json_ctx) : json_event → Int
  | json_event.on_null => settings.on_null ctx
  | json_event.on_bool v => settings.on_bool ctx v
  | json_event.on_number s => settings.on_number ctx s
  | json_event.on_string s => settings.on_string ctx s
  | json_event.on_object_start => settings.on_object_start ctx
  | json_event.on_object_key s => settings.on_object_key ctx s
  | json_event.on_object_end => settings.on_object_end ctx
  | json_event.on_array_start => settings.on_array_start ctx
  | json_event.on_array_end => settings.on_array_end ctx
  | json_event.on_separator => settings.on_separator ctx

/-- What has already happened to the parser context when a callback refuses
at a `goto onerr` site: the frame is pushed before `on_object_start` and
`on_array_start` are called, popped before `on_object_end` and
`on_array_end` are called, the state is advanced before `on_null` and
`on_bool` are called, and nothing is done before the other callbacks. -/
def json_refusal_effect (h : json_host) (jp : json_parser_t) : json_event → json_parser_t
  | json_event.on_object_start => (json_parser_push h jp JSON_PARSER_OBJECT).2
  | json_event.on_array_start => (json_parser_push h jp JSON_PARSER_ARRAY).2
  | json_event.on_object_end => { jp with jp_depth := jp.jp_depth - 1 }
  | json_event.on_array_end => { jp with jp_depth := jp.jp_depth - 1 }
  | json_event.on_null => { jp with jp_state := json_parser_next jp }
  | json_event.on_bool _ => { jp with jp_state := json_parser_next jp }
  | _ => jp

/-- How an iteration of the loop on the byte `c` may leave a parser that was
not DEAD: when it goes on, the parser is still not DEAD; when it leaves by
`goto onerr`, either the parser is DEAD (a pop failed, or a `,` ended a
number at the root), or `realloc` failed on a `{` or `[` and nothing has
changed, or the last callback invoked returned non-zero and the parser
context is what `json_refusal_effect` says. -/
def json_step_sound (h : json_host) (settings : json_parser_settings) (c : Nat)
    (jp : json_parser_t) (ctx : json_ctx) : json_step → Prop
  | .next jp1 _ _ => jp1.jp_state ≠ s_dead
  | .die _ _ => True
  | .onerr jp1 ctx1 =>
    jp1.jp_state = s_dead ∨
    (ctx1 = ctx ∧ jp1 = jp ∧ (c = 123 ∨ c = 91) ∧
      h.realloc_ok (jp.jp_stackdepth + 16).toNat = false) ∨
    (∃ evs e, ctx1 = ctx ++ evs ++ [e] ∧ json_settings_call settings (ctx ++ evs) e ≠ 0 ∧
      jp1 = json_refusal_effect h jp e)

/-- Callbacks that all return 0 except `on_object_end`, which returns 1. -/
def json_settings_object_end_1 : json_parser_settings :=
  { json_settings_ok with on_object_end := fun _ => 1 }

/-- Callbacks that all return 0 except `on_null`, which returns 1. -/
def json_settings_null_1 : json_parser_settings :=
  { json_settings_ok with on_null := fun _ => 1 }

/-- A host on which `realloc` always fails (locale "C"). -/
def json_host_nomem : json_host :=
  { realloc_ok := fun _ => false
    isspace_high := fun _ => false
    isprint_high := fun _ => false }

/-- The states inside an object: OBJECT_START, OBJECT_NEXT, OBJECT, every
OBJECT_KEY state and OBJECT_KEY_END. -/
def json_state_in_object : json_parser_state → Bool
  | s_object_start | s_object_next | s_object | s_object_key_start | s_object_key_mark
  | s_object_key_escape | s_object_key_u | s_object_key_u0 | s_object_key_u00
  | s_object_key_u00X | s_object_key | s_object_key_end => true
  | _ => false

/-- The state agrees with the stack: NEXT has an ARRAY frame on top, the
states inside an object an OBJECT frame, DELIM some frame, DONE none. -/
def json_state_frame_ok (jp : json_parser_t) : Prop :=
  (jp.jp_state = s_next → json_parser_top jp = JSON_PARSER_ARRAY) ∧
  (json_state_in_object jp.jp_state = true → json_parser_top jp = JSON_PARSER_OBJECT) ∧
  (jp.jp_state = s_delim → 0 ≤ jp.jp_depth) ∧
  (jp.jp_state = s_done → jp.jp_depth = -1)

/-- The parser with which an iteration of the loop goes on or returns is DEAD
or has a state that agrees with its stack. -/
def json_step_frame : json_step → Prop
  | .next jp _ _ => json_state_frame_ok jp
  | .die _ _ => True
  | .onerr jp _ => jp.jp_state = s_dead ∨ json_state_frame_ok jp

/-- The invariant behind the state/stack agreement: unless the parser is DEAD
its stack is in step with the history and its state agrees with the stack. -/
def json_parser_inv2 (jp : json_parser_t) (ctx : json_ctx) : Prop :=
  jp.jp_state = s_dead ∨ (json_stack_inv jp ctx ∧ json_state_frame_ok jp)

/-- Where an iteration on the byte `,` may leave the parser: the loop goes on
in state DELIM or OBJECT, or the parser is DEAD. -/
def json_step_awaits : json_step → Prop
  | .next jp1 _ _ => jp1.jp_state = s_delim ∨ jp1.jp_state = s_object
  | .die _ _ => True
  | .onerr jp1 _ => jp1.jp_state = s_dead

/-- The first byte of `bytes` that is not whitespace, if there is one. -/
def json_first_nonspace (h : json_host) (bytes : List Nat) : Option Nat :=
  bytes.find? (fun c => !isspace h c)

/-- An item of a string or key body as the specification reads it: a raw
byte, or a backslash followed by the letter `c`. -/
inductive spec_body_item
  | raw (c : Nat)
  | esc (c : Nat)
  deriving DecidableEq, Repr

/-- The byte a single-character escape stands for, in the specification's
words: `\b` 0x08, `\t` 0x09, `\n` 0x0A, `\f` 0x0C, `\r` 0x0D, `\"` 0x22,
`\/` 0x2F, `\\` 0x5C. -/
def spec_escape_value (c : Nat) : Option Nat :=
  if c = 98 then some 8
  else if c = 116 then some 9
  else if c = 110 then some 10
  else if c = 102 then some 12
  else if c = 114 then some 13
  else if c = 34 then some 34
  else if c = 47 then some 47
  else if c = 92 then some 92
  else none

/-- The items the specification's sentence speaks of: raw bytes 0x20-0x7E
other than `"` and `\`, and the eight single-character escapes. -/
def spec_body_item_ok : spec_body_item → Bool
  | .raw c => decide (32 ≤ c) && decide (c ≤ 126) && decide (c ≠ 34) && decide (c ≠ 92)
  | .esc c => (spec_escape_value c).isSome

/-- The bytes of a body in the document. -/
def spec_body_bytes : List spec_body_item → List Nat
  | [] => []
  | .raw c :: rest => c :: spec_body_bytes rest
  | .esc c :: rest => 92 :: c :: spec_body_bytes rest

/-- The decoded value of a body. -/
def spec_body_value : List spec_body_item → List Nat
  | [] => []
  | .raw c :: rest => c :: spec_body_value rest
  | .esc c :: rest => (spec_escape_value c).getD 0 :: spec_body_value rest

/-- The slices the specification expects, `run` being the raw bytes read
since the last escape: a maximal run of raw bytes is one slice and an escape
is a one-byte slice of its own. -/
def spec_body_slices_run : List Nat → List spec_body_item → List (List Nat)
  | run, [] => if run = [] then [] else [run]
  | run, .raw c :: rest => spec_body_slices_run (run ++ [c]) rest
  | run, .esc c :: rest =>
    (if run = [] then [] else [run]) ++
      [(spec_escape_value c).getD 0] :: spec_body_slices_run [] rest

/-- The slices the specification expects for a body. -/
def spec_body_slices (body : List spec_body_item) : List (List Nat) :=
  spec_body_slices_run [] body

/-- How an iteration of the loop at offset `data` treats the mark of a
number: when the loop goes on in a number state, either the parser was in a
number state already and the mark is kept, or it was not and the mark is
set to `data`, the offset of the byte that began the number. -/
def json_step_mark_origin (data : Nat) (jp : json_parser_t) (mark : Option Nat) :
    json_step → Prop
  | .next jp1 _ mark1 =>
    json_state_is_number jp1.jp_state = true →
      (json_state_is_number jp.jp_state = true ∧ mark1 = mark) ∨
      (json_state_is_number jp.jp_state = false ∧ mark1 = some data)
  | .die _ _ => True
  | .onerr _ _ => True

/-- The mark of a number in progress, seen from the call of
`json_parser_exec` on the chunk `buf` that was entered with `jp0` and `ctx0`:
when the loop stands at offset `data` in a number state, the mark is an
offset `m` at or before `data`; after each byte from `m` on the loop was in a
number state with this same mark; and the byte at `m` was read in a state
that is not a number state (it began the number), unless `m = 0` and the call
was entered in a number state (the number began in an earlier chunk). -/
def json_number_origin (h : json_host) (settings : json_parser_settings) (buf : List Nat)
    (jp0 : json_parser_t) (ctx0 : json_ctx) (data : Nat) (jp : json_parser_t)
    (mark : Option Nat) : Prop :=
  json_state_is_number jp.jp_state = true →
    ∃ m, mark = some m ∧ m ≤ data ∧
      (∀ k, m < k → k ≤ data →
        ∃ jpk ctxk, json_parser_exec_upto h settings buf (buf.take k) 0 jp0 ctx0
            (json_parser_exec_mark jp0) = some (jpk, ctxk, some m) ∧
          json_state_is_number jpk.jp_state = true) ∧
      ((m = 0 ∧ json_state_is_number jp0.jp_state = true) ∨
        ∃ jpm ctxm markm, json_parser_exec_upto h settings buf (buf.take m) 0 jp0 ctx0
            (json_parser_exec_mark jp0) = some (jpm, ctxm, markm) ∧
          json_state_is_number jpm.jp_state = false)

/-- The parser with which an iteration of the loop leaves the `switch`:
`goto die` sets the state to `s_dead`. -/
def json_step_jp : json_step → json_parser_t
  | .next jp1 _ _ => jp1
  | .die jp1 _ => { jp1 with jp_state := s_dead }
  | .onerr jp1 _ => jp1

/-- The parser after the loop of `json_parser_exec` has processed the byte
`c`, every callback returning 0.  With such callbacks the parser reached does
not depend on the chunk, the offset, the mark or the history. -/
def json_parser_step (h : json_host) (jp : json_parser_t) (c : Nat) : json_parser_t :=
  json_step_jp (json_parser_exec_byte h json_settings_ok [] 0 c jp [] none)

/-- The parser after the bytes `bytes`, every callback returning 0. -/
def json_parser_run (h : json_host) (jp : json_parser_t) (bytes : List Nat) : json_parser_t :=
  bytes.foldl (json_parser_step h) jp

/-- An item of a string or key body as the specification reads it: a raw
byte, a backslash followed by the letter `c`, or the escape that starts with
a backslash, `u`, `0`, `0` and ends with the two hex digits `a` and `b`. -/
inductive spec_text_item
  | raw (c : Nat)
  | esc (c : Nat)
  | hex (a b : Nat)

/-- Whether the byte is a hexadecimal digit, `0`-`9`, `a`-`f` or `A`-`F`. -/
def spec_hex_digit (c : Nat) : Bool :=
  (decide (48 ≤ c) && decide (c ≤ 57)) || (decide (97 ≤ c) && decide (c ≤ 102)) ||
    (decide (65 ≤ c) && decide (c ≤ 70))

/-- The items of a body the specification allows: a raw byte is printable on
the host and is neither `"` nor a backslash, an escape letter is one of the
eight single-character escapes, and the last two digits of a `u` escape are
hexadecimal. -/
def spec_text_item_ok (h : json_host) : spec_text_item → Bool
  | .raw c => isprint h c && decide (c ≠ 34) && decide (c ≠ 92)
  | .esc c => (spec_escape_value c).isSome
  | .hex a b => spec_hex_digit a && spec_hex_digit b

/-- The bytes of a body in the document. -/
def spec_text_bytes : List spec_text_item → List Nat
  | [] => []
  | .raw c :: rest => c :: spec_text_bytes rest
  | .esc c :: rest => 92 :: c :: spec_text_bytes rest
  | .hex a b :: rest => 92 :: 117 :: 48 :: 48 :: a :: b :: spec_text_bytes rest

/-- Whether every item of a string or key body is allowed. -/
def spec_text_ok (h : json_host) (body : List spec_text_item) : Bool :=
  body.all (spec_text_item_ok h)

/-- A number as the specification's grammar builds it: an optional minus, an
integer part, the digits of a fraction (none when there is no fraction) and
an optional exponent made of the letter, the sign (at most one byte) and the
digits. -/
structure spec_number where
  neg : Bool
  int : List Nat
  frac : List Nat
  exp : Option (Nat × List Nat × List Nat)
  deriving Repr

/-- The numbers of the parser's syntax: the integer part is `0` or a non-zero
digit followed by digits, the fraction is made of digits, the exponent is
`e` or `E`, an optional `+` or `-`, and at least one digit; after a bare `0`
integer part there is no exponent (state NUM_ZERO accepts only `.`). -/
def spec_number_ok (n : spec_number) : Bool :=
  (match n.int with
    | [] => false
    | d :: ds =>
      (d == 48 && ds == []) || (decide (49 ≤ d) && decide (d ≤ 57) && ds.all isdigit)) &&
  n.frac.all isdigit &&
  (match n.exp with
    | none => true
    | some (e, sign, ds) =>
      (e == 101 || e == 69) && (sign == [] || sign == [43] || sign == [45]) &&
      !ds.isEmpty && ds.all isdigit && !(n.int == [48] && n.frac.isEmpty))

/-- The bytes of a number. -/
def spec_number_text (n : spec_number) : List Nat :=
  (if n.neg then [45] else []) ++ n.int ++
  (if n.frac.isEmpty then [] else 46 :: n.frac) ++
  (match n.exp with
    | none => []
    | some (e, sign, ds) => e :: (sign ++ ds))

mutual
/-- A JSON value as the specification's grammar builds it, with the
whitespace that may stand inside arrays and objects. -/
inductive spec_value
  | lit_null
  | lit_true
  | lit_false
  | number (n : spec_number)
  | string (body : List spec_text_item)
  | array_empty (ws : List Nat)
  | array (items : spec_items)
  | object_empty (ws : List Nat)
  | object (members : spec_members)
/-- The elements of a non-empty array, each with the whitespace before and
after it. -/
inductive spec_items
  | last (wsb : List Nat) (v : spec_value) (wsa : List Nat)
  | cons (wsb : List Nat) (v : spec_value) (wsa : List Nat) (rest : spec_items)
/-- The members of a non-empty object: whitespace, key, whitespace, colon,
whitespace, value, whitespace. -/
inductive spec_members
  | last (wsb : List Nat) (key : List spec_text_item) (wsk wsc : List Nat) (v : spec_value)
      (wsa : List Nat)
  | cons (wsb : List Nat) (key : List spec_text_item) (wsk wsc : List Nat) (v : spec_value)
      (wsa : List Nat) (rest : spec_members)
end

mutual
/-- The bytes of a value. -/
def spec_value_text : spec_value → List Nat
  | .lit_null => [110, 117, 108, 108]
  | .lit_true => [116, 114, 117, 101]
  | .lit_false => [102, 97, 108, 115, 101]
  | .number n => spec_number_text n
  | .string body => 34 :: (spec_text_bytes body ++ [34])
  | .array_empty ws => 91 :: (ws ++ [93])
  | .array items => 91 :: (spec_items_text items ++ [93])
  | .object_empty ws => 123 :: (ws ++ [125])
  | .object members => 123 :: (spec_members_text members ++ [125])
/-- The bytes of the elements of an array, separated by commas. -/
def spec_items_text : spec_items → List Nat
  | .last wsb v wsa => wsb ++ (spec_value_text v ++ wsa)
  | .cons wsb v wsa rest => wsb ++ (spec_value_text v ++ (wsa ++ 44 :: spec_items_text rest))
/-- The bytes of the members of an object, separated by commas. -/
def spec_members_text : spec_members → List Nat
  | .last wsb key wsk wsc v wsa =>
    wsb ++ (34 :: (spec_text_bytes key ++ [34]) ++ (wsk ++ 58 :: (wsc ++
      (spec_value_text v ++ wsa))))
  | .cons wsb key wsk wsc v wsa rest =>
    wsb ++ (34 :: (spec_text_bytes key ++ [34]) ++ (wsk ++ 58 :: (wsc ++
      (spec_value_text v ++ (wsa ++ 44 :: spec_members_text rest)))))
end

/-- Whether every byte of `ws` is whitespace on the host. -/
def spec_ws_ok (h : json_host) (ws : List Nat) : Bool :=
  ws.all (isspace h)

mutual
/-- The values the theorem on complete values speaks of: numbers of the
parser's syntax, string and key bodies of allowed items, whitespace that is
whitespace on the host. -/
def spec_value_ok (h : json_host) : spec_value → Bool
  | .lit_null => true
  | .lit_true => true
  | .lit_false => true
  | .number n => spec_number_ok n
  | .string body => spec_text_ok h body
  | .array_empty ws => spec_ws_ok h ws
  | .array items => spec_items_ok h items
  | .object_empty ws => spec_ws_ok h ws
  | .object members => spec_members_ok h members
/-- The elements of an array are values of this kind. -/
def spec_items_ok (h : json_host) : spec_items → Bool
  | .last wsb v wsa => spec_ws_ok h wsb && spec_value_ok h v && spec_ws_ok h wsa
  | .cons wsb v wsa rest =>
    spec_ws_ok h wsb && spec_value_ok h v && spec_ws_ok h wsa && spec_items_ok h rest
/-- The members of an object are made of keys and values of this kind. -/
def spec_members_ok (h : json_host) : spec_members → Bool
  | .last wsb key wsk wsc v wsa =>
    spec_ws_ok h wsb && spec_text_ok h key && spec_ws_ok h wsk && spec_ws_ok h wsc &&
      spec_value_ok h v && spec_ws_ok h wsa
  | .cons wsb key wsk wsc v wsa rest =>
    spec_ws_ok h wsb && spec_text_ok h key && spec_ws_ok h wsk && spec_ws_ok h wsc &&
      spec_value_ok h v && spec_ws_ok h wsa && spec_members_ok h rest
end

/-- Whether the value is a number. -/
def spec_value_is_number : spec_value → Bool
  | .number _ => true
  | _ => false

/-- The top index of the stack is within the array, and the array has
`jp_stackdepth` cells. -/
def json_stack_shape (jp : json_parser_t) : Prop :=
  -1 ≤ jp.jp_depth ∧ jp.jp_depth + 1 ≤ jp.jp_stack.length ∧
    jp.jp_stackdepth = jp.jp_stack.length

/-- The parser `jp1` has the frames of `jp`: the same depth and the same
cells up to the top. -/
def json_same_frames (jp jp1 : json_parser_t) : Prop :=
  jp1.jp_depth = jp.jp_depth ∧ json_stack_shape jp1 ∧
    jp1.jp_stack.take (jp.jp_depth + 1).toNat = jp.jp_stack.take (jp.jp_depth + 1).toNat

/-- The parser `jp1` has the frames of `jp` but the top one. -/
def json_popped_frames (jp jp1 : json_parser_t) : Prop :=
  jp1.jp_depth = jp.jp_depth - 1 ∧ json_stack_shape jp1 ∧
    jp1.jp_stack.take jp.jp_depth.toNat = jp.jp_stack.take jp.jp_depth.toNat

/-- The states in which the loop skips whitespace. -/
def json_state_skips_space : json_parser_state → Bool
  | s_init | s_delim | s_next | s_done | s_object_start | s_object_next | s_object
  | s_object_key_end => true
  | _ => false

/-! ## The byte loop, piece by piece -/

/-- Once the bytes `pre` have been consumed, the loop over `pre ++ rest` goes
on with `rest` from the parser, history and mark reached. -/
theorem exec_loop_append (h : json_host) (settings : json_parser_settings) (buf : List Nat)
    (pre rest : List Nat) (data : Nat) (jp : json_parser_t) (ctx : json_ctx) (mark : Option Nat)
    (jp1 : json_parser_t) (ctx1 : json_ctx) (mark1 : Option Nat)
    (hpre : json_parser_exec_upto h settings buf pre data jp ctx mark = some (jp1, ctx1, mark1)) :
    json_parser_exec_loop h settings buf (pre ++ rest) data jp ctx mark =
      json_parser_exec_loop h settings buf rest (data + pre.length) jp1 ctx1 mark1 := by
  induction pre generalizing data jp ctx mark with
  | nil =>
    simp only [json_parser_exec_upto, Option.some.injEq, Prod.mk.injEq] at hpre
    obtain ⟨rfl, rfl, rfl⟩ := hpre
    simp
  | cons c pre ih =>
    simp only [json_parser_exec_upto] at hpre
    simp only [List.cons_append, json_parser_exec_loop, List.length_cons]
    cases hstep : json_parser_exec_byte h settings buf data c jp ctx mark with
    | next jp2 ctx2 mark2 =>
      rw [hstep] at hpre
      simp only at hpre ⊢
      have hrec := ih (data + 1) jp2 ctx2 mark2 hpre
      have hidx : data + 1 + pre.length = data + (pre.length + 1) := by omega
      rw [hidx] at hrec
      exact hrec
    | die jp2 ctx2 => rw [hstep] at hpre; simp at hpre
    | onerr jp2 ctx2 => rw [hstep] at hpre; simp at hpre

/-! ## Dead parsers and end of input -/

/-- C1: on a DEAD parser `json_parser_exec` returns 0 for every buffer (the
empty one included), invokes no callback (the history is unchanged) and
leaves the parser context as it was; so however many chunks are submitted
afterwards the context stays the same and `json_parser_isdead` stays true. -/
theorem exec_dead_noop (h : json_host) (settings : json_parser_settings)
    (jp : json_parser_t) (ctx : json_ctx) (buf : List Nat)
    (hdead : json_parser_isdead jp = true) :
    json_parser_exec h settings jp ctx buf = (0, jp, ctx) ∧
    (∀ chunks : List (List Nat),
      json_parser_feed h settings jp ctx chunks = (jp, ctx) ∧
      json_parser_isdead (json_parser_feed h settings jp ctx chunks).1 = true) := by
  have hst : jp.jp_state = s_dead := by simpa [json_parser_isdead] using hdead
  have hexec : ∀ b : List Nat, json_parser_exec h settings jp ctx b = (0, jp, ctx) := by
    intro b
    simp [json_parser_exec, hst]
  refine ⟨hexec buf, ?_⟩
  intro chunks
  have hfeed : json_parser_feed h settings jp ctx chunks = (jp, ctx) := by
    induction chunks with
    | nil => rfl
    | cons b rest ih => simp only [json_parser_feed, hexec b]; exact ih
  rw [hfeed]
  exact ⟨rfl, hdead⟩

/-- C1 at a dead parser and the chunk `{,}`. -/
theorem exec_dead_noop_witness :
    json_parser_isdead { json_parser_new with jp_state := s_dead } = true ∧
    json_parser_exec json_host_c json_settings_ok
      { json_parser_new with jp_state := s_dead } [json_event.on_null] [123, 44, 125]
      = (0, { json_parser_new with jp_state := s_dead }, [json_event.on_null]) :=
  ⟨by decide,
   (exec_dead_noop json_host_c json_settings_ok { json_parser_new with jp_state := s_dead }
      [json_event.on_null] [123, 44, 125] (by decide)).1⟩

/-- C2: at end of input (`len = 0`) a parser that is not DEAD returns 0 and
keeps its state when the state is DONE, NUM_ZERO, NUM, NUM_DEC or NUM_EDIG;
in every other state it becomes DEAD and the call returns 1.  No callback is
invoked either way. -/
theorem exec_end_of_input (h : json_host) (settings : json_parser_settings)
    (jp : json_parser_t) (ctx : json_ctx) (hlive : jp.jp_state ≠ s_dead) :
    json_parser_exec h settings jp ctx [] =
      if jp.jp_state = s_done ∨ jp.jp_state = s_number_zero ∨ jp.jp_state = s_number ∨
          jp.jp_state = s_number_decimals ∨ jp.jp_state = s_number_e_digits
      then (0, jp, ctx)
      else (1, { jp with jp_state := s_dead }, ctx) := by
  obtain ⟨stack, st, depth, sd, uc⟩ := jp
  cases st <;> simp_all [json_parser_exec]

/-- C2 at a fresh parser (state INIT, not accepting): the end-of-input call
returns 1 and the parser is DEAD. -/
theorem exec_end_of_input_witness :
    json_parser_new.jp_state ≠ s_dead ∧
    json_parser_exec json_host_c json_settings_ok json_parser_new [] [] =
      (1, { json_parser_new with jp_state := s_dead }, []) :=
  ⟨by decide, by
    have := exec_end_of_input json_host_c json_settings_ok json_parser_new [] (by decide)
    simpa [json_parser_new] using this⟩

/-! ## The return value when a byte is rejected -/

/-- C3 as stated fails: on the chunk `{,}` a fresh parser goes DEAD on the
`,` at offset 1 and `json_parser_exec` returns 1, the offset itself, not the
offset plus one. -/
theorem exec_rejected_not_offset_plus_one :
    (json_parser_exec json_host_c json_settings_ok json_parser_new [] [123, 44, 125]).1 = 1 ∧
    json_parser_isdead
      (json_parser_exec json_host_c json_settings_ok json_parser_new [] [123, 44, 125]).2.1 = true ∧
    [123, 44, 125].indexOf 44 = 1 ∧
    (json_parser_exec json_host_c json_settings_ok json_parser_new [] [123, 44, 125]).1
      ≠ [123, 44, 125].indexOf 44 + 1 := by
  decide

/-- C3, amended: when the loop of `json_parser_exec` has consumed the bytes
`pre` of a chunk `pre ++ c :: suf` and the parser goes DEAD on the byte `c`,
the call returns the offset of `c` (not the offset plus one), the parser is
DEAD, and the rejected byte is `buf[return]`. -/
theorem exec_rejected_byte_offset (h : json_host) (settings : json_parser_settings)
    (jp : json_parser_t) (ctx : json_ctx) (pre : List Nat) (c : Nat) (suf : List Nat)
    (jp1 : json_parser_t) (ctx1 : json_ctx) (mark1 : Option Nat)
    (hlive : jp.jp_state ≠ s_dead)
    (hpre : json_parser_exec_upto h settings (pre ++ c :: suf) pre 0 jp ctx
      (json_parser_exec_mark jp) = some (jp1, ctx1, mark1))
    (hrej : json_step_isdead
      (json_parser_exec_byte h settings (pre ++ c :: suf) pre.length c jp1 ctx1 mark1) = true) :
    (json_parser_exec h settings jp ctx (pre ++ c :: suf)).1 = pre.length ∧
    json_parser_isdead (json_parser_exec h settings jp ctx (pre ++ c :: suf)).2.1 = true ∧
    (pre ++ c :: suf)[(json_parser_exec h settings jp ctx (pre ++ c :: suf)).1]? = some c := by
  have hexec : json_parser_exec h settings jp ctx (pre ++ c :: suf) =
      json_parser_exec_loop h settings (pre ++ c :: suf) (c :: suf) pre.length jp1 ctx1 mark1 := by
    have hne : (pre ++ c :: suf).length ≠ 0 := by simp
    simp only [json_parser_exec, hlive, hne, if_false]
    rw [exec_loop_append h settings _ pre (c :: suf) 0 jp ctx _ jp1 ctx1 mark1 hpre]
    simp
  have hget : (pre ++ c :: suf)[pre.length]? = some c := by
    rw [List.getElem?_append_right (Nat.le_refl _)]
    simp
  rw [hexec]
  simp only [json_parser_exec_loop]
  cases hstep : json_parser_exec_byte h settings (pre ++ c :: suf) pre.length c jp1 ctx1 mark1 with
  | next jp2 ctx2 mark2 => rw [hstep] at hrej; simp [json_step_isdead] at hrej
  | die jp2 ctx2 => exact ⟨rfl, by simp [json_parser_isdead], hget⟩
  | onerr jp2 ctx2 =>
    rw [hstep] at hrej
    simp only [json_step_isdead, beq_iff_eq] at hrej
    exact ⟨rfl, by simp [json_parser_isdead, hrej], hget⟩

/-- C3, amended, on the chunk `{,}` given to a fresh parser: `{` is consumed,
`,` is rejected, and the call returns 1, the offset of `,`. -/
theorem exec_rejected_byte_offset_witness :
    (json_parser_exec json_host_c json_settings_ok json_parser_new [] [123, 44, 125]).1 = 1 ∧
    json_parser_isdead
      (json_parser_exec json_host_c json_settings_ok json_parser_new [] [123, 44, 125]).2.1 = true ∧
    [123, 44, 125][(json_parser_exec json_host_c json_settings_ok json_parser_new []
      [123, 44, 125]).1]? = some 44 :=
  exec_rejected_byte_offset json_host_c json_settings_ok json_parser_new [] [123] 44 [125]
    { json_parser_new with
      jp_stack := 123 :: List.replicate 15 0, jp_state := s_object_start, jp_depth := 0 }
    [json_event.on_object_start] none (by decide) (by decide) (by decide)

/-! ## The stack and the start/end events -/

theorem take_set_succ (l : List Nat) (n t : Nat) (hn : n < l.length) :
    (l.set n t).take (n + 1) = l.take n ++ [t] := by
  induction l generalizing n with
  | nil => simp at hn
  | cons a l ih =>
    cases n with
    | zero => simp
    | succ n =>
      simp only [List.length_cons, Nat.add_lt_add_iff_right] at hn
      simp [ih n hn]

theorem take_succ_getD (l : List Nat) (n : Nat) (hn : n < l.length) :
    l.take (n + 1) = l.take n ++ [l.getD n 0] := by
  induction l generalizing n with
  | nil => simp at hn
  | cons a l ih =>
    cases n with
    | zero => simp
    | succ n =>
      simp only [List.length_cons, Nat.add_lt_add_iff_right] at hn
      simp [ih n hn]

theorem open_containers_snoc (ctx : json_ctx) (e : json_event) :
    json_open_containers (ctx ++ [e]) = json_open_step (json_open_containers ctx) e := by
  simp [json_open_containers, List.foldl_append]

theorem frames_eq (stack : List Nat) (st : json_parser_state) (n : Nat) (sd : Int) (uc : Nat) :
    json_parser_frames ⟨stack, st, (n : Int) - 1, sd, uc⟩ = (stack.take n).reverse := by
  have e1 : ((n : Int) - 1 + 1).toNat = n := by omega
  simp [json_parser_frames, e1]

theorem push_stack_inv (h : json_host) (jp : json_parser_t) (ctx : json_ctx) (t : Nat)
    (e : json_event) (hinv : json_stack_inv jp ctx)
    (ht : t = JSON_PARSER_OBJECT ∨ t = JSON_PARSER_ARRAY)
    (he : ∀ l, json_open_step (some l) e = some (t :: l)) :
    json_parser_push h jp t = (-1, jp) ∨
    ((json_parser_push h jp t).1 = 0 ∧
      (json_parser_push h jp t).2.jp_state = jp.jp_state ∧
      json_stack_inv (json_parser_push h jp t).2 (ctx ++ [e])) := by
  obtain ⟨stack, st, depth, sd, uc⟩ := jp
  obtain ⟨h1, h2, h3, h4, h5⟩ := hinv
  simp only at h1 h2 h3
  obtain ⟨n, rfl⟩ : ∃ n : Nat, depth = (n : Int) - 1 := ⟨(depth + 1).toNat, by omega⟩
  have hn : n ≤ stack.length := by omega
  rw [frames_eq] at h4 h5
  have e1 : ((n : Int) - 1 + 1).toNat = n := by omega
  have e2 : ((n : Int) - 1 + 1 : Int) = ((n + 1 : Nat) : Int) - 1 := by push_cast; ring
  unfold json_parser_push
  simp only [e1]
  by_cases hfull : (n : Int) - 1 + 1 ≥ sd
  · rw [if_pos hfull]
    by_cases hre : h.realloc_ok (sd + 16).toNat = true
    · right
      rw [if_pos hre]
      have hlen : n = stack.length := by omega
      have hlt : n < (stack ++ List.replicate 16 0).length := by simp; omega
      refine ⟨rfl, rfl, ?_⟩
      rw [e2]
      refine ⟨by simp only; omega, by simp; omega, by simp; omega, ?_, ?_⟩
      · rw [frames_eq, take_set_succ _ _ _ hlt, List.take_append_of_le_length hn]
        intro x hx
        simp only [List.reverse_append, List.reverse_cons, List.reverse_nil, List.nil_append,
          List.singleton_append, List.mem_cons] at hx
        rcases hx with rfl | hx
        · exact ht
        · exact h4 x hx
      · rw [frames_eq, take_set_succ _ _ _ hlt, List.take_append_of_le_length hn,
          open_containers_snoc, h5, he]
        simp
    · left
      rw [if_neg hre]
  · right
    rw [if_neg hfull]
    have hlt : n < stack.length := by omega
    refine ⟨rfl, rfl, ?_⟩
    rw [e2]
    refine ⟨by simp only; omega, by simp; omega, by simp; omega, ?_, ?_⟩
    · rw [frames_eq, take_set_succ _ _ _ hlt]
      intro x hx
      simp only [List.reverse_append, List.reverse_cons, List.reverse_nil, List.nil_append,
        List.singleton_append, List.mem_cons] at hx
      rcases hx with rfl | hx
      · exact ht
      · exact h4 x hx
    · rw [frames_eq, take_set_succ _ _ _ hlt, open_containers_snoc, h5, he]
      simp

theorem pop_stack_inv (jp : json_parser_t) (ctx : json_ctx) (t : Nat)
    (e : json_event) (hinv : json_stack_inv jp ctx)
    (he : ∀ l, json_open_step (some (t :: l)) e = some l) :
    ((json_parser_pop jp t).1 = -1 ∧ (json_parser_pop jp t).2.jp_state = s_dead) ∨
    ((json_parser_pop jp t).1 = 0 ∧
      (json_parser_pop jp t).2.jp_state = jp.jp_state ∧
      json_stack_inv (json_parser_pop jp t).2 (ctx ++ [e])) := by
  obtain ⟨stack, st, depth, sd, uc⟩ := jp
  obtain ⟨h1, h2, h3, h4, h5⟩ := hinv
  simp only at h1 h2 h3
  obtain ⟨n, rfl⟩ : ∃ n : Nat, depth = (n : Int) - 1 := ⟨(depth + 1).toNat, by omega⟩
  have hn : n ≤ stack.length := by omega
  rw [frames_eq] at h4 h5
  unfold json_parser_pop
  simp only
  by_cases hbad : (n : Int) - 1 < 0 ∨ stack.getD ((n : Int) - 1).toNat 0 ≠ t
  · left
    rw [if_pos hbad]
    exact ⟨rfl, rfl⟩
  · right
    rw [if_neg hbad]
    push_neg at hbad
    obtain ⟨hpos, htop⟩ := hbad
    obtain ⟨m, rfl⟩ : ∃ m : Nat, n = m + 1 := ⟨n - 1, by omega⟩
    have e3 : (((m + 1 : Nat) : Int) - 1).toNat = m := by omega
    have e4 : (((m + 1 : Nat) : Int) - 1 - 1 : Int) = (m : Int) - 1 := by push_cast; ring
    rw [e3] at htop
    have hlt : m < stack.length := by omega
    rw [take_succ_getD _ _ hlt, htop] at h4 h5
    refine ⟨rfl, rfl, ?_⟩
    rw [e4]
    refine ⟨by simp only; omega, by simp only; omega, by simp only; omega, ?_, ?_⟩
    · rw [frames_eq]
      intro x hx
      exact h4 x (by simp [hx])
    · rw [frames_eq, open_containers_snoc, h5]
      simp [he]

theorem next_done_depth (jp : json_parser_t) (ctx : json_ctx) (hs : json_stack_inv jp ctx)
    (hdone : json_parser_next jp = s_done) : jp.jp_depth = -1 := by
  obtain ⟨stack, st, depth, sd, uc⟩ := jp
  obtain ⟨h1, h2, h3, h4, h5⟩ := hs
  simp only at h1 h2 h3
  obtain ⟨n, rfl⟩ : ∃ n : Nat, depth = (n : Int) - 1 := ⟨(depth + 1).toNat, by omega⟩
  rw [frames_eq] at h4
  cases n with
  | zero => simp
  | succ m =>
    exfalso
    have hlt : m < stack.length := by push_cast at h2; omega
    have e3 : (((m + 1 : Nat) : Int) - 1).toNat = m := by omega
    have hpos : ((m + 1 : Nat) : Int) - 1 ≥ 0 := by omega
    have htag := h4 (stack.getD m 0) (by rw [take_succ_getD _ _ hlt]; simp)
    simp only [json_parser_next, json_parser_top, hpos, if_true, e3] at hdone
    rcases htag with htag | htag <;> rw [htag] at hdone <;>
      simp [JSON_PARSER_OBJECT, JSON_PARSER_ARRAY] at hdone

theorem inv_keep (jp jp1 : json_parser_t) (ctx : json_ctx) (hs : json_stack_inv jp ctx)
    (h1 : jp1.jp_stack = jp.jp_stack) (h2 : jp1.jp_depth = jp.jp_depth)
    (h3 : jp1.jp_stackdepth = jp.jp_stackdepth)
    (hd : jp1.jp_state = s_done → jp.jp_depth = -1) : json_parser_inv jp1 ctx := by
  right
  refine ⟨⟨by rw [h2]; exact hs.depth_ge, by rw [h1, h2]; exact hs.depth_lt,
    by rw [h1, h3]; exact hs.cap, ?_, ?_⟩, fun hdone => by rw [h2]; exact hd hdone⟩
  · have : json_parser_frames jp1 = json_parser_frames jp := by simp [json_parser_frames, h1, h2]
    rw [this]; exact hs.tags
  · have : json_parser_frames jp1 = json_parser_frames jp := by simp [json_parser_frames, h1, h2]
    rw [this]; exact hs.nest

theorem stack_inv_event (jp : json_parser_t) (ctx : json_ctx) (e : json_event)
    (hs : json_stack_inv jp ctx) (he : ∀ l, json_open_step (some l) e = some l) :
    json_stack_inv jp (ctx ++ [e]) :=
  ⟨hs.depth_ge, hs.depth_lt, hs.cap, hs.tags, by rw [open_containers_snoc, hs.nest, he]⟩

theorem inv_keep_event (jp jp1 : json_parser_t) (ctx : json_ctx) (e : json_event)
    (hs : json_stack_inv jp ctx) (he : ∀ l, json_open_step (some l) e = some l)
    (h1 : jp1.jp_stack = jp.jp_stack) (h2 : jp1.jp_depth = jp.jp_depth)
    (h3 : jp1.jp_stackdepth = jp.jp_stackdepth)
    (hd : jp1.jp_state = s_done → jp.jp_depth = -1) : json_parser_inv jp1 (ctx ++ [e]) :=
  inv_keep jp jp1 (ctx ++ [e]) (stack_inv_event jp ctx e hs he) h1 h2 h3 hd

theorem open_step_number (s : json_slice) (l : List Nat) :
    json_open_step (some l) (json_event.on_number s) = some l := by
  cases l <;> rfl

theorem open_step_string (s : json_slice) (l : List Nat) :
    json_open_step (some l) (json_event.on_string s) = some l := by
  cases l <;> rfl

theorem open_step_object_key (s : json_slice) (l : List Nat) :
    json_open_step (some l) (json_event.on_object_key s) = some l := by
  cases l <;> rfl

theorem open_step_separator (l : List Nat) :
    json_open_step (some l) json_event.on_separator = some l := by
  cases l <;> rfl

theorem open_step_null (l : List Nat) :
    json_open_step (some l) json_event.on_null = some l := by
  cases l <;> rfl

theorem open_step_bool (v : Int) (l : List Nat) :
    json_open_step (some l) (json_event.on_bool v) = some l := by
  cases l <;> rfl

/-- After a complete value the parser moves to `json_parser_next`, and the
invariant holds there: DONE is chosen only with an empty stack. -/
theorem inv_after_value (jp : json_parser_t) (ctx : json_ctx) (hs : json_stack_inv jp ctx) :
    json_parser_inv { jp with jp_state := json_parser_next jp } ctx := by
  refine inv_keep jp _ ctx hs rfl rfl rfl ?_
  intro hdone
  exact next_done_depth jp ctx hs hdone

theorem pop_object_result (jp : json_parser_t) (ctx : json_ctx) (hs : json_stack_inv jp ctx) :
    ((json_parser_pop_object jp json_settings_ok ctx).1 ≠ 0 ∧
      (json_parser_pop_object jp json_settings_ok ctx).2.1.jp_state = s_dead) ∨
    ((json_parser_pop_object jp json_settings_ok ctx).1 = 0 ∧
      json_stack_inv (json_parser_pop_object jp json_settings_ok ctx).2.1
        (json_parser_pop_object jp json_settings_ok ctx).2.2) := by
  unfold json_parser_pop_object
  rcases pop_stack_inv jp ctx JSON_PARSER_OBJECT json_event.on_object_end hs
    (by intro l; simp [json_open_step]) with ⟨h1, h2⟩ | ⟨h1, _, h3⟩
  · left
    rcases hp : json_parser_pop jp JSON_PARSER_OBJECT with ⟨rv, jp1⟩
    rw [hp] at h1 h2
    simp only at h1 h2
    simp [h1, h2]
  · right
    rcases hp : json_parser_pop jp JSON_PARSER_OBJECT with ⟨rv, jp1⟩
    rw [hp] at h1 h3
    simp only at h1 h3
    simp [h1, h3, json_settings_ok]

theorem pop_array_result (jp : json_parser_t) (ctx : json_ctx) (hs : json_stack_inv jp ctx) :
    ((json_parser_pop_array jp json_settings_ok ctx).1 ≠ 0 ∧
      (json_parser_pop_array jp json_settings_ok ctx).2.1.jp_state = s_dead) ∨
    ((json_parser_pop_array jp json_settings_ok ctx).1 = 0 ∧
      json_stack_inv (json_parser_pop_array jp json_settings_ok ctx).2.1
        (json_parser_pop_array jp json_settings_ok ctx).2.2) := by
  unfold json_parser_pop_array
  rcases pop_stack_inv jp ctx JSON_PARSER_ARRAY json_event.on_array_end hs
    (by intro l; simp [json_open_step]) with ⟨h1, h2⟩ | ⟨h1, _, h3⟩
  · left
    rcases hp : json_parser_pop jp JSON_PARSER_ARRAY with ⟨rv, jp1⟩
    rw [hp] at h1 h2
    simp only at h1 h2
    simp [h1, h2]
  · right
    rcases hp : json_parser_pop jp JSON_PARSER_ARRAY with ⟨rv, jp1⟩
    rw [hp] at h1 h3
    simp only at h1 h3
    simp [h1, h3, json_settings_ok]

theorem push_object_result (h : json_host) (jp : json_parser_t) (ctx : json_ctx)
    (hs : json_stack_inv jp ctx) :
    json_parser_push_object h jp json_settings_ok ctx = (-1, jp, ctx) ∨
    ((json_parser_push_object h jp json_settings_ok ctx).1 = 0 ∧
      json_stack_inv (json_parser_push_object h jp json_settings_ok ctx).2.1
        (json_parser_push_object h jp json_settings_ok ctx).2.2) := by
  unfold json_parser_push_object
  rcases push_stack_inv h jp ctx JSON_PARSER_OBJECT json_event.on_object_start hs
    (Or.inl rfl) (by intro l; simp [json_open_step]) with h1 | ⟨h1, _, h3⟩
  · left
    rw [h1]
    simp
  · right
    rcases hp : json_parser_push h jp JSON_PARSER_OBJECT with ⟨rv, jp1⟩
    rw [hp] at h1 h3
    simp only at h1 h3
    simp [h1, h3, json_settings_ok]

theorem push_array_result (h : json_host) (jp : json_parser_t) (ctx : json_ctx)
    (hs : json_stack_inv jp ctx) :
    json_parser_push_array h jp json_settings_ok ctx = (-1, jp, ctx) ∨
    ((json_parser_push_array h jp json_settings_ok ctx).1 = 0 ∧
      json_stack_inv (json_parser_push_array h jp json_settings_ok ctx).2.1
        (json_parser_push_array h jp json_settings_ok ctx).2.2) := by
  unfold json_parser_push_array
  rcases push_stack_inv h jp ctx JSON_PARSER_ARRAY json_event.on_array_start hs
    (Or.inr rfl) (by intro l; simp [json_open_step]) with h1 | ⟨h1, _, h3⟩
  · left
    rw [h1]
    simp
  · right
    rcases hp : json_parser_push h jp JSON_PARSER_ARRAY with ⟨rv, jp1⟩
    rw [hp] at h1 h3
    simp only at h1 h3
    simp [h1, h3, json_settings_ok]

theorem pop_result_step_inv (r : Int × json_parser_t × json_ctx) (mark : Option Nat)
    (hr : (r.1 ≠ 0 ∧ r.2.1.jp_state = s_dead) ∨ (r.1 = 0 ∧ json_stack_inv r.2.1 r.2.2)) :
    json_step_inv (if r.1 ≠ 0 then json_step.onerr r.2.1 r.2.2
      else json_step.next { r.2.1 with jp_state := json_parser_next r.2.1 } r.2.2 mark) := by
  rcases hr with ⟨h1, h2⟩ | ⟨h1, h2⟩
  · rw [if_pos h1]
    exact Or.inl h2
  · rw [if_neg (by simp [h1])]
    exact inv_after_value _ _ h2

theorem close_object_step_inv (jp : json_parser_t) (ctx : json_ctx) (mark : Option Nat)
    (hs : json_stack_inv jp ctx) :
    json_step_inv (json_parser_exec_close_object json_settings_ok jp ctx mark) :=
  pop_result_step_inv _ mark (pop_object_result jp ctx hs)

theorem close_array_step_inv (jp : json_parser_t) (ctx : json_ctx) (mark : Option Nat)
    (hs : json_stack_inv jp ctx) :
    json_step_inv (match json_parser_pop_array jp json_settings_ok ctx with
      | (rv, jp1, ctx1) =>
        if rv ≠ 0 then json_step.onerr jp1 ctx1
        else json_step.next { jp1 with jp_state := json_parser_next jp1 } ctx1 mark) :=
  pop_result_step_inv _ mark (pop_array_result jp ctx hs)

theorem push_result_step_inv (jp : json_parser_t) (ctx : json_ctx)
    (st : json_parser_state) (hst : st ≠ s_done)
    (r : Int × json_parser_t × json_ctx) (mark : Option Nat)
    (hs : json_stack_inv jp ctx) (hd : jp.jp_state = s_done → jp.jp_depth = -1)
    (hr : r = (-1, jp, ctx) ∨ (r.1 = 0 ∧ json_stack_inv r.2.1 r.2.2)) :
    json_step_inv (if r.1 ≠ 0 then json_step.onerr r.2.1 r.2.2
      else json_step.next { r.2.1 with jp_state := st } r.2.2 mark) ∧
    json_step_inv (if r.1 = -1 then json_step.onerr r.2.1 r.2.2
      else json_step.next { r.2.1 with jp_state := st } r.2.2 mark) := by
  rcases hr with rfl | ⟨h1, h2⟩
  · simp only [ne_eq, Int.reduceNeg, neg_eq_zero, one_ne_zero, not_false_eq_true, if_true,
      json_step_inv]
    exact ⟨inv_keep jp jp ctx hs rfl rfl rfl hd, inv_keep jp jp ctx hs rfl rfl rfl hd⟩
  · simp only [h1, ne_eq, not_true_eq_false, if_false, json_step_inv]
    exact ⟨inv_keep r.2.1 _ r.2.2 h2 rfl rfl rfl (fun hx => absurd hx hst),
      inv_keep r.2.1 _ r.2.2 h2 rfl rfl rfl (fun hx => absurd hx hst)⟩

theorem init_step_inv (h : json_host) (data c : Nat) (jp : json_parser_t) (ctx : json_ctx)
    (mark : Option Nat) (hs : json_stack_inv jp ctx)
    (hd : jp.jp_state = s_done → jp.jp_depth = -1) :
    json_step_inv (json_parser_exec_init h json_settings_ok data c jp ctx mark) := by
  unfold json_parser_exec_init
  by_cases h1 : c = 123
  · rw [if_pos h1]
    exact (push_result_step_inv jp ctx s_object_start (by decide) _ mark hs hd
      (push_object_result h jp ctx hs)).1
  rw [if_neg h1]
  by_cases h2 : c = 125
  · rw [if_pos h2]
    exact pop_result_step_inv _ mark (pop_object_result jp ctx hs)
  rw [if_neg h2]
  by_cases h3 : c = 91
  · rw [if_pos h3]
    exact (push_result_step_inv jp ctx s_init (by decide) _ mark hs hd
      (push_array_result h jp ctx hs)).2
  rw [if_neg h3]
  by_cases h4 : c = 93
  · rw [if_pos h4]
    exact pop_result_step_inv _ mark (pop_array_result jp ctx hs)
  rw [if_neg h4]
  by_cases h5 : c = 110
  · rw [if_pos h5]
    exact inv_keep jp _ ctx hs rfl rfl rfl (fun hx => by cases hx)
  rw [if_neg h5]
  by_cases h6 : c = 116
  · rw [if_pos h6]
    exact inv_keep jp _ ctx hs rfl rfl rfl (fun hx => by cases hx)
  rw [if_neg h6]
  by_cases h7 : c = 102
  · rw [if_pos h7]
    exact inv_keep jp _ ctx hs rfl rfl rfl (fun hx => by cases hx)
  rw [if_neg h7]
  by_cases h8 : c = 34
  · rw [if_pos h8]
    exact inv_keep jp _ ctx hs rfl rfl rfl (fun hx => by cases hx)
  rw [if_neg h8]
  by_cases h9 : c = 45
  · rw [if_pos h9]
    exact inv_keep jp _ ctx hs rfl rfl rfl (fun hx => by cases hx)
  rw [if_neg h9]
  by_cases h10 : c = 48
  · rw [if_pos h10]
    exact inv_keep jp _ ctx hs rfl rfl rfl (fun hx => by cases hx)
  rw [if_neg h10]
  by_cases h11 : isspace h c = true
  · rw [if_pos h11]
    exact inv_keep jp jp ctx hs rfl rfl rfl hd
  rw [if_neg h11]
  by_cases h12 : isdigit c = true
  · rw [if_pos h12]
    exact inv_keep jp _ ctx hs rfl rfl rfl (fun hx => by cases hx)
  rw [if_neg h12]
  trivial

theorem ok_returns_zero :
    (∀ ctx, json_settings_ok.on_null ctx = 0) ∧
    (∀ ctx v, json_settings_ok.on_bool ctx v = 0) ∧
    (∀ ctx sl, json_settings_ok.on_number ctx sl = 0) ∧
    (∀ ctx sl, json_settings_ok.on_string ctx sl = 0) ∧
    (∀ ctx, json_settings_ok.on_object_start ctx = 0) ∧
    (∀ ctx sl, json_settings_ok.on_object_key ctx sl = 0) ∧
    (∀ ctx, json_settings_ok.on_object_end ctx = 0) ∧
    (∀ ctx, json_settings_ok.on_array_start ctx = 0) ∧
    (∀ ctx, json_settings_ok.on_array_end ctx = 0) ∧
    (∀ ctx, json_settings_ok.on_separator ctx = 0) :=
  ⟨fun _ => rfl, fun _ _ => rfl, fun _ _ => rfl, fun _ _ => rfl, fun _ => rfl,
    fun _ _ => rfl, fun _ => rfl, fun _ => rfl, fun _ => rfl, fun _ => rfl⟩

theorem on_number_result (jp : json_parser_t) (ctx : json_ctx) (buf : List Nat)
    (mark : Option Nat) (data : Nat) (hs : json_stack_inv jp ctx) :
    (json_parser_on_number json_settings_ok ctx buf mark data).1 = 0 ∧
    json_stack_inv jp (json_parser_on_number json_settings_ok ctx buf mark data).2 := by
  unfold json_parser_on_number
  by_cases hm : mark = some data
  · rw [if_pos hm]
    exact ⟨rfl, hs⟩
  · rw [if_neg hm]
    exact ⟨rfl, stack_inv_event jp ctx _ hs (open_step_number _)⟩

theorem number_end_result (h : json_host) (jp : json_parser_t) (ctx : json_ctx)
    (buf : List Nat) (mark : Option Nat) (data c : Nat) (hs : json_stack_inv jp ctx) :
    json_parser_number_end h jp json_settings_ok ctx buf mark data c = (0, jp, ctx) ∨
    ((json_parser_number_end h jp json_settings_ok ctx buf mark data c).1 = -1 ∧
      (json_parser_number_end h jp json_settings_ok ctx buf mark data c).2.1.jp_state = s_dead) ∨
    ((json_parser_number_end h jp json_settings_ok ctx buf mark data c).1 = 1 ∧
      json_parser_inv (json_parser_number_end h jp json_settings_ok ctx buf mark data c).2.1
        (json_parser_number_end h jp json_settings_ok ctx buf mark data c).2.2) := by
  unfold json_parser_number_end
  obtain ⟨hn1, hn2⟩ := on_number_result jp ctx buf mark data hs
  rcases hon : json_parser_on_number json_settings_ok ctx buf mark data with ⟨rv, ctx1⟩
  rw [hon] at hn1 hn2
  simp only at hn1 hn2
  subst hn1
  by_cases h1 : isspace h c = true
  · rw [if_pos h1]
    right; right
    exact ⟨rfl, inv_after_value jp ctx1 hn2⟩
  rw [if_neg h1]
  by_cases h2 : c = 125
  · rw [if_pos h2]
    right
    show (_ ∧ _) ∨ (_ ∧ _)
    simp only [ne_eq, not_true_eq_false, if_false]
    have hres := pop_object_result jp ctx1 hn2
    rcases hp : json_parser_pop_object jp json_settings_ok ctx1 with ⟨rv2, jp2, ctx2⟩
    rw [hp] at hres
    simp only at hres
    rcases hres with ⟨hp1, hp2⟩ | ⟨hp1, hp2⟩
    · left
      rw [if_pos hp1]
      exact ⟨rfl, hp2⟩
    · right
      subst hp1
      exact ⟨rfl, inv_after_value jp2 ctx2 hp2⟩
  rw [if_neg h2]
  by_cases h3 : c = 93
  · rw [if_pos h3]
    right
    show (_ ∧ _) ∨ (_ ∧ _)
    simp only [ne_eq, not_true_eq_false, if_false]
    have hres := pop_array_result jp ctx1 hn2
    rcases hp : json_parser_pop_array jp json_settings_ok ctx1 with ⟨rv2, jp2, ctx2⟩
    rw [hp] at hres
    simp only at hres
    rcases hres with ⟨hp1, hp2⟩ | ⟨hp1, hp2⟩
    · left
      rw [if_pos hp1]
      exact ⟨rfl, hp2⟩
    · right
      subst hp1
      exact ⟨rfl, inv_after_value jp2 ctx2 hp2⟩
  rw [if_neg h3]
  by_cases h4 : c = 44
  · rw [if_pos h4]
    right
    by_cases h5 : json_parser_top jp = JSON_PARSER_NONE
    · rw [if_pos h5]
      left
      exact ⟨rfl, rfl⟩
    · rw [if_neg h5]
      right
      simp only [json_settings_ok, ne_eq, not_true_eq_false, if_false]
      refine ⟨trivial, ?_⟩
      refine inv_keep_event jp _ ctx1 _ hn2 open_step_separator rfl rfl rfl ?_
      intro hx
      simp only at hx
      split at hx <;> cases hx
  rw [if_neg h4]
  left
  rfl

theorem number_step_inv (h : json_host) (buf : List Nat) (data c : Nat) (jp : json_parser_t)
    (ctx : json_ctx) (mark : Option Nat) (rest : json_step)
    (hs : json_stack_inv jp ctx) (hrest : json_step_inv rest) :
    json_step_inv (json_parser_exec_number h json_settings_ok buf data c jp ctx mark rest) := by
  unfold json_parser_exec_number
  rcases number_end_result h jp ctx buf mark data c hs with hr | ⟨hr1, hr2⟩ | ⟨hr1, hr2⟩
  · rw [hr]
    simpa using hrest
  · rcases hp : json_parser_number_end h jp json_settings_ok ctx buf mark data c with
      ⟨rv, jp1, ctx1⟩
    rw [hp] at hr1 hr2
    simp only at hr1 hr2
    subst hr1
    exact Or.inl hr2
  · rcases hp : json_parser_number_end h jp json_settings_ok ctx buf mark data c with
      ⟨rv, jp1, ctx1⟩
    rw [hp] at hr1 hr2
    simp only at hr1 hr2
    subst hr1
    exact hr2

theorem object_key_step_inv (h : json_host) (buf : List Nat) (data c : Nat) (jp : json_parser_t)
    (ctx : json_ctx) (mark : Option Nat)
    (hs : json_stack_inv jp ctx) (hd : jp.jp_state = s_done → jp.jp_depth = -1) :
    json_step_inv (json_parser_exec_object_key h json_settings_ok buf data c jp ctx mark) := by
  unfold json_parser_exec_object_key
  simp only [ok_returns_zero.2.2.2.2.2.1, ne_eq, not_true_eq_false, if_false]
  split_ifs
  all_goals first
    | trivial
    | exact inv_keep jp jp ctx hs rfl rfl rfl hd
    | exact inv_keep jp _ ctx hs rfl rfl rfl (fun hx => by cases hx)
    | exact inv_keep_event jp _ ctx _ hs (open_step_object_key _) rfl rfl rfl
        (fun hx => by cases hx)

theorem string_step_inv (h : json_host) (buf : List Nat) (data c : Nat) (jp : json_parser_t)
    (ctx : json_ctx) (mark : Option Nat)
    (hs : json_stack_inv jp ctx) (hd : jp.jp_state = s_done → jp.jp_depth = -1) :
    json_step_inv (json_parser_exec_string h json_settings_ok buf data c jp ctx mark) := by
  unfold json_parser_exec_string
  simp only [ok_returns_zero.2.2.2.1, ne_eq, not_true_eq_false, if_false]
  split_ifs
  all_goals first
    | trivial
    | exact inv_keep jp jp ctx hs rfl rfl rfl hd
    | exact inv_keep jp _ ctx hs rfl rfl rfl (fun hx => by cases hx)
    | exact inv_keep_event jp _ ctx _ hs (open_step_string _) rfl rfl rfl
        (fun hx => by cases hx)
    | exact inv_after_value jp ctx hs
    | exact inv_keep_event jp _ ctx _ hs (open_step_string _) rfl rfl rfl
        (fun hx => next_done_depth jp ctx hs hx)

theorem stack_inv_keep (jp jp1 : json_parser_t) (ctx : json_ctx) (hs : json_stack_inv jp ctx)
    (h1 : jp1.jp_stack = jp.jp_stack) (h2 : jp1.jp_depth = jp.jp_depth)
    (h3 : jp1.jp_stackdepth = jp.jp_stackdepth) : json_stack_inv jp1 ctx := by
  have hf : json_parser_frames jp1 = json_parser_frames jp := by
    simp [json_parser_frames, h1, h2]
  exact ⟨by rw [h2]; exact hs.depth_ge, by rw [h1, h2]; exact hs.depth_lt,
    by rw [h1, h3]; exact hs.cap, by rw [hf]; exact hs.tags, by rw [hf]; exact hs.nest⟩

set_option maxHeartbeats 2000000 in
/-- One iteration of the loop keeps the invariant when every callback
returns 0. -/
theorem exec_byte_inv (h : json_host) (buf : List Nat) (data c : Nat) (jp : json_parser_t)
    (ctx : json_ctx) (mark : Option Nat) (hinv : json_parser_inv jp ctx) :
    json_step_inv (json_parser_exec_byte h json_settings_ok buf data c jp ctx mark) := by
  obtain ⟨z1, z2, z3, z4, z5, z6, z7, z8, z9, z10⟩ := ok_returns_zero
  rcases hinv with hdead | ⟨hs, hd⟩
  · unfold json_parser_exec_byte
    rw [hdead]
    exact Or.inl hdead
  · unfold json_parser_exec_byte
    cases hst : jp.jp_state <;> simp only []
    case s_dead => exact Or.inl hst
    case s_init => exact init_step_inv h data c jp ctx mark hs hd
    case s_delim =>
      split_ifs
      · trivial
      · exact init_step_inv h data c jp ctx mark hs hd
    case s_next =>
      by_cases h1 : isspace h c = true
      · rw [if_pos h1]
        exact inv_keep jp jp ctx hs rfl rfl rfl hd
      rw [if_neg h1]
      by_cases h2 : c = 44
      · rw [if_pos h2]
        simp only [z10, ne_eq, not_true_eq_false, if_false]
        exact inv_keep_event jp _ ctx _ hs open_step_separator rfl rfl rfl
          (fun hx => by cases hx)
      rw [if_neg h2]
      by_cases h3 : c = 125
      · rw [if_pos h3]
        exact close_object_step_inv jp ctx mark hs
      rw [if_neg h3]
      by_cases h4 : c = 93
      · rw [if_pos h4]
        exact close_array_step_inv jp ctx mark hs
      rw [if_neg h4]
      trivial
    case s_object_key_start =>
      simp only [z6, ne_eq, not_true_eq_false, if_false]
      split_ifs
      · exact inv_keep_event jp _ ctx _ hs (open_step_object_key _) rfl rfl rfl
          (fun hx => by cases hx)
      · exact object_key_step_inv h buf data c _ ctx _ (stack_inv_keep jp _ ctx hs rfl rfl rfl)
          (fun hx => by cases hx)
    case s_object_key_mark =>
      exact object_key_step_inv h buf data c _ ctx _ (stack_inv_keep jp _ ctx hs rfl rfl rfl)
        (fun hx => by cases hx)
    case s_object_key => exact object_key_step_inv h buf data c jp ctx mark hs hd
    case s_string_start =>
      simp only [z4, ne_eq, not_true_eq_false, if_false]
      split_ifs
      · exact inv_keep_event jp _ ctx _ hs (open_step_string _) rfl rfl rfl
          (fun hx => next_done_depth jp ctx hs hx)
      · exact string_step_inv h buf data c _ ctx _ (stack_inv_keep jp _ ctx hs rfl rfl rfl)
          (fun hx => by cases hx)
    case s_string_mark =>
      exact string_step_inv h buf data c _ ctx _ (stack_inv_keep jp _ ctx hs rfl rfl rfl)
        (fun hx => by cases hx)
    case s_string => exact string_step_inv h buf data c jp ctx mark hs hd
    case s_number_zero =>
      refine number_step_inv h buf data c jp ctx mark _ hs ?_
      split_ifs
      · exact inv_keep jp _ ctx hs rfl rfl rfl (fun hx => by cases hx)
      · trivial
    case s_number =>
      refine number_step_inv h buf data c jp ctx mark _ hs ?_
      split_ifs
      · exact inv_keep jp jp ctx hs rfl rfl rfl hd
      · exact inv_keep jp _ ctx hs rfl rfl rfl (fun hx => by cases hx)
      · exact inv_keep jp _ ctx hs rfl rfl rfl (fun hx => by cases hx)
      · trivial
    case s_number_decimals =>
      refine number_step_inv h buf data c jp ctx mark _ hs ?_
      split_ifs
      · exact inv_keep jp jp ctx hs rfl rfl rfl hd
      · exact inv_keep jp _ ctx hs rfl rfl rfl (fun hx => by cases hx)
      · trivial
    case s_number_e_digits =>
      refine number_step_inv h buf data c jp ctx mark _ hs ?_
      split_ifs
      · exact inv_keep jp jp ctx hs rfl rfl rfl hd
      · trivial
    all_goals
      try simp only [z1, z2, z3, z4, z5, z6, z7, z8, z9, z10, ne_eq, not_true_eq_false, if_false]
      split_ifs
      all_goals first
        | trivial
        | exact inv_keep jp jp ctx hs rfl rfl rfl hd
        | exact inv_keep jp _ ctx hs rfl rfl rfl (fun hx => by cases hx)
        | exact inv_after_value jp ctx hs
        | exact close_object_step_inv jp ctx mark hs
        | exact inv_keep_event jp _ ctx _ hs open_step_separator rfl rfl rfl
            (fun hx => by cases hx)
        | exact inv_keep_event jp _ ctx _ hs (open_step_object_key _) rfl rfl rfl
            (fun hx => by cases hx)
        | exact inv_keep_event jp _ ctx _ hs (open_step_string _) rfl rfl rfl
            (fun hx => by cases hx)
        | exact inv_keep_event jp _ ctx _ hs open_step_null rfl rfl rfl
            (fun hx => next_done_depth jp ctx hs hx)
        | exact inv_keep_event jp _ ctx _ hs (open_step_bool _) rfl rfl rfl
            (fun hx => next_done_depth jp ctx hs hx)

theorem exec_end_inv (buf : List Nat) (data : Nat) (jp : json_parser_t) (ctx : json_ctx)
    (mark : Option Nat) (hinv : json_parser_inv jp ctx) :
    json_parser_inv (json_parser_exec_end json_settings_ok buf data jp ctx mark).2.1
      (json_parser_exec_end json_settings_ok buf data jp ctx mark).2.2 := by
  obtain ⟨_, _, z3, z4, _, z6, _, _, _, _⟩ := ok_returns_zero
  rcases hinv with hdead | ⟨hs, hd⟩
  · unfold json_parser_exec_end
    rw [hdead]
    exact Or.inl hdead
  · unfold json_parser_exec_end
    cases hst : jp.jp_state <;>
      simp only [z3, z4, z6, ne_eq, not_true_eq_false, if_false] <;>
      (try split_ifs) <;>
      first
        | exact inv_keep jp jp ctx hs rfl rfl rfl hd
        | exact inv_keep_event jp jp ctx _ hs (open_step_number _) rfl rfl rfl hd
        | exact inv_keep_event jp jp ctx _ hs (open_step_string _) rfl rfl rfl hd
        | exact inv_keep_event jp jp ctx _ hs (open_step_object_key _) rfl rfl rfl hd

theorem exec_loop_inv (h : json_host) (buf rest : List Nat) (data : Nat) (jp : json_parser_t)
    (ctx : json_ctx) (mark : Option Nat) (hinv : json_parser_inv jp ctx) :
    json_parser_inv (json_parser_exec_loop h json_settings_ok buf rest data jp ctx mark).2.1
      (json_parser_exec_loop h json_settings_ok buf rest data jp ctx mark).2.2 := by
  induction rest generalizing data jp ctx mark with
  | nil => exact exec_end_inv buf data jp ctx mark hinv
  | cons c rest ih =>
    have hstep := exec_byte_inv h buf data c jp ctx mark hinv
    simp only [json_parser_exec_loop]
    cases hb : json_parser_exec_byte h json_settings_ok buf data c jp ctx mark with
    | next jp1 ctx1 mark1 =>
      rw [hb] at hstep
      exact ih (data + 1) jp1 ctx1 mark1 hstep
    | die jp1 ctx1 => exact Or.inl rfl
    | onerr jp1 ctx1 =>
      rw [hb] at hstep
      exact hstep

/-- A call of `json_parser_exec` with callbacks returning 0 keeps the
invariant. -/
theorem exec_inv (h : json_host) (buf : List Nat) (jp : json_parser_t) (ctx : json_ctx)
    (hinv : json_parser_inv jp ctx) :
    json_parser_inv (json_parser_exec h json_settings_ok jp ctx buf).2.1
      (json_parser_exec h json_settings_ok jp ctx buf).2.2 := by
  unfold json_parser_exec
  by_cases hdead : jp.jp_state = s_dead
  · rw [if_pos hdead]
    exact hinv
  rw [if_neg hdead]
  by_cases hlen : buf.length = 0
  · rw [if_pos hlen]
    rcases hinv with hd | hinv
    · exact absurd hd hdead
    · cases hst : jp.jp_state <;> simp only [] <;>
        first
          | exact Or.inl rfl
          | exact Or.inr hinv
  · rw [if_neg hlen]
    exact exec_loop_inv h buf buf 0 jp ctx _ hinv

theorem feed_inv (h : json_host) (chunks : List (List Nat)) (jp : json_parser_t) (ctx : json_ctx)
    (hinv : json_parser_inv jp ctx) :
    json_parser_inv (json_parser_feed h json_settings_ok jp ctx chunks).1
      (json_parser_feed h json_settings_ok jp ctx chunks).2 := by
  induction chunks generalizing jp ctx with
  | nil => exact hinv
  | cons buf rest ih =>
    simp only [json_parser_feed]
    exact ih _ _ (exec_inv h buf jp ctx hinv)

theorem new_inv : json_parser_inv json_parser_new [] := by
  right
  refine ⟨⟨by decide, by decide, by decide, ?_, by decide⟩, fun _ => rfl⟩
  intro x hx
  simp [json_parser_frames, json_parser_new] at hx

/-! ## Start and end events are well nested -/

/-- C7: whatever the chunking of the input (and whatever the host), when a
fresh parser fed with callbacks returning 0 ends in state DONE, the start and
end events it has emitted form a well-nested two-bracket word: every
`on_object_end`/`on_array_end` closes the most recent unclosed start event,
which is of the same kind, and no start event is left unclosed. -/
theorem done_well_nested (h : json_host) (chunks : List (List Nat))
    (hdone : (json_parser_feed h json_settings_ok json_parser_new [] chunks).1.jp_state
      = s_done) :
    json_well_nested (json_parser_feed h json_settings_ok json_parser_new [] chunks).2 := by
  rcases feed_inv h chunks json_parser_new [] new_inv with hdead | ⟨hs, hd⟩
  · rw [hdone] at hdead
    cases hdead
  · have hdepth := hd hdone
    have hnest := hs.nest
    simp only [json_parser_frames, hdepth] at hnest
    simpa [json_well_nested] using hnest

/-- C7 on the input `[{}, []]` cut into the chunks `[{`, `}, [` and `]]`. -/
theorem done_well_nested_witness :
    (json_parser_feed json_host_c json_settings_ok json_parser_new []
      [[91, 123], [125, 44, 32, 91], [93, 93]]).1.jp_state = s_done ∧
    json_well_nested (json_parser_feed json_host_c json_settings_ok json_parser_new []
      [[91, 123], [125, 44, 32, 91], [93, 93]]).2 :=
  ⟨by decide, done_well_nested json_host_c [[91, 123], [125, 44, 32, 91], [93, 93]] (by decide)⟩

/-! ## Callbacks that refuse -/

/-- C4 fails for `on_array_start`: on the chunk `[1]`, with `on_array_start`
returning 1 and every other callback 0, `json_parser_exec` does not stop at
the `[`; it consumes all 3 bytes and goes on to invoke `on_number` and
`on_array_end`, because `json_parser_push_array`'s result is compared with
`-1` only.  The sibling `on_object_start` returning 1 on `{}` does stop the
call at offset 0 with no further callback. -/
theorem exec_array_start_refusal_ignored :
    json_parser_exec json_host_c json_settings_array_start_1 json_parser_new [] [91, 49, 93] =
      (3, { json_parser_new with
            jp_stack := 91 :: List.replicate 15 0, jp_state := s_done, jp_depth := -1 },
        [json_event.on_array_start, json_event.on_number (some [49]), json_event.on_array_end]) ∧
    json_parser_exec json_host_c json_settings_object_start_1 json_parser_new [] [123, 125] =
      (0, { json_parser_new with
            jp_stack := 123 :: List.replicate 15 0, jp_state := s_init, jp_depth := 0 },
        [json_event.on_object_start]) := by
  decide

/-- C5 fails at the escape and flush sites: with `on_string` returning 1, the
chunk `"\t"` makes the parser DEAD at the escape-decoded byte (return 2), and
the chunk `"ab` makes it DEAD at the end-of-chunk flush (return 3, the chunk
length); whereas on `"ab\` the same refusal of the span `ab` at the `\`
returns the offset 3 and leaves the parser alive in state STRING. -/
theorem exec_string_refusal_dead :
    ((json_parser_exec json_host_c json_settings_string_1 json_parser_new []
        [34, 92, 116, 34]).1 = 2 ∧
      json_parser_isdead (json_parser_exec json_host_c json_settings_string_1 json_parser_new []
        [34, 92, 116, 34]).2.1 = true ∧
      (json_parser_exec json_host_c json_settings_string_1 json_parser_new []
        [34, 92, 116, 34]).2.2 = [json_event.on_string (some [9])]) ∧
    ((json_parser_exec json_host_c json_settings_string_1 json_parser_new []
        [34, 97, 98]).1 = 3 ∧
      json_parser_isdead (json_parser_exec json_host_c json_settings_string_1 json_parser_new []
        [34, 97, 98]).2.1 = true ∧
      (json_parser_exec json_host_c json_settings_string_1 json_parser_new []
        [34, 97, 98]).2.2 = [json_event.on_string (some [97, 98])]) ∧
    ((json_parser_exec json_host_c json_settings_string_1 json_parser_new []
        [34, 97, 98, 92]).1 = 3 ∧
      (json_parser_exec json_host_c json_settings_string_1 json_parser_new []
        [34, 97, 98, 92]).2.1.jp_state = s_string ∧
      (json_parser_exec json_host_c json_settings_string_1 json_parser_new []
        [34, 97, 98, 92]).2.2 = [json_event.on_string (some [97, 98])]) := by
  decide

/-! ## Chunk boundaries inside a number -/

/-- C6 fails when a chunk ends just after the decimal point: the input `1.5`
given as one chunk yields `on_number("1.5")`, but given as `1.` then `5` it
yields only `on_number("5")` (nothing is flushed in state NUM_POINT, and the
next call restarts the mark at its own first byte), although both parsers
end in state NUM_DEC and both end-of-input calls return 0. -/
theorem exec_chunking_loses_number_bytes :
    json_parser_feed json_host_c json_settings_ok json_parser_new [] [[49, 46, 53]] =
      ({ json_parser_new with jp_state := s_number_decimals },
        [json_event.on_number (some [49, 46, 53])]) ∧
    json_parser_feed json_host_c json_settings_ok json_parser_new [] [[49, 46], [53]] =
      ({ json_parser_new with jp_state := s_number_decimals },
        [json_event.on_number (some [53])]) ∧
    json_number_bytes (json_parser_feed json_host_c json_settings_ok json_parser_new []
      [[49, 46, 53]]).2 = [49, 46, 53] ∧
    json_number_bytes (json_parser_feed json_host_c json_settings_ok json_parser_new []
      [[49, 46], [53]]).2 = [53] ∧
    (json_parser_exec json_host_c json_settings_ok
      { json_parser_new with jp_state := s_number_decimals } [] []).1 = 0 := by
  decide

/-! ## Numbers and hexadecimal escapes -/

/-- C9 fails on `0e5`: the string matches the number grammar of the contract,
but a fresh parser goes DEAD on the `e` (offset 1) without any callback,
state NUM_ZERO accepting only `.` as a continuation; the same exponent after
a non-zero integer part, `1e5`, is accepted and emitted whole. -/
theorem exec_zero_exponent_rejected :
    spec_number_grammar [48, 101, 53] = true ∧
    json_parser_exec json_host_c json_settings_ok json_parser_new [] [48, 101, 53] =
      (1, { json_parser_new with jp_state := s_dead }, []) ∧
    spec_number_grammar [49, 101, 53] = true ∧
    json_parser_exec json_host_c json_settings_ok json_parser_new [] [49, 101, 53] =
      (3, { json_parser_new with jp_state := s_number_e_digits },
        [json_event.on_number (some [49, 101, 53])]) := by
  decide

/-- C10 fails for the digits `a`-`f` and `A`-`F`: `json_parser_uchar` maps
them to 0..5 instead of 10..15, so the string `"\u00ff"` yields the one-byte
slice 0x55 where the contract says 16*15 + 15 = 0xFF, and the key escape
`\u000A` yields 0x00 instead of 0x0A; a purely decimal pair such as
`\u0041` yields 0x41 as stated. -/
theorem exec_hex_escape_wrong_value :
    json_parser_uchar 102 = 5 ∧ spec_hex_value 102 = some 15 ∧
    (json_parser_exec json_host_c json_settings_ok json_parser_new []
      [34, 92, 117, 48, 48, 102, 102, 34]).2.2 = [json_event.on_string (some [85])] ∧
    (json_parser_exec json_host_c json_settings_ok json_parser_new []
      [123, 34, 92, 117, 48, 48, 48, 65, 34]).2.2 =
        [json_event.on_object_start, json_event.on_object_key (some [0])] ∧
    (json_parser_exec json_host_c json_settings_ok json_parser_new []
      [34, 92, 117, 48, 48, 52, 49, 34]).2.2 = [json_event.on_string (some [65])] := by
  decide

/-! ## The mark of a number in progress -/

theorem next_not_number (jp : json_parser_t) :
    json_state_is_number (json_parser_next jp) = false := by
  unfold json_parser_next
  split_ifs <;> rfl

theorem number_end_not_number (h : json_host) (settings : json_parser_settings)
    (jp : json_parser_t) (ctx : json_ctx) (buf : List Nat) (mark : Option Nat) (data c : Nat)
    (hrv : (json_parser_number_end h jp settings ctx buf mark data c).1 = 1) :
    json_state_is_number
      (json_parser_number_end h jp settings ctx buf mark data c).2.1.jp_state = false := by
  revert hrv
  unfold json_parser_number_end
  rcases json_parser_on_number settings ctx buf mark data with ⟨rv, ctx1⟩
  simp only []
  rcases json_parser_pop_object jp settings ctx1 with ⟨rv2, jp2, ctx2⟩
  rcases json_parser_pop_array jp settings ctx1 with ⟨rv3, jp3, ctx3⟩
  simp only []
  split_ifs <;> intro hrv <;>
    first
      | exact next_not_number _
      | (simp at hrv; done)
      | rfl

theorem result_mark_state (data : Nat) (r : Int × json_parser_t × json_ctx)
    (st : json_parser_state) (mark : Option Nat) (hst : json_state_is_number st = false) :
    json_step_mark_ok data (if r.1 ≠ 0 then json_step.onerr r.2.1 r.2.2
      else json_step.next { r.2.1 with jp_state := st } r.2.2 mark) ∧
    json_step_mark_ok data (if r.1 = -1 then json_step.onerr r.2.1 r.2.2
      else json_step.next { r.2.1 with jp_state := st } r.2.2 mark) := by
  constructor <;> split_ifs <;>
    first
      | trivial
      | (intro hx; exact absurd hx (ne_true_of_eq_false hst))

theorem result_mark_next (data : Nat) (r : Int × json_parser_t × json_ctx)
    (mark : Option Nat) :
    json_step_mark_ok data (if r.1 ≠ 0 then json_step.onerr r.2.1 r.2.2
      else json_step.next { r.2.1 with jp_state := json_parser_next r.2.1 } r.2.2 mark) :=
  (result_mark_state data r _ mark (next_not_number r.2.1)).1

theorem state_mark (data : Nat) (jp : json_parser_t) (ctx : json_ctx)
    (mark : Option Nat) (hst : json_state_is_number jp.jp_state = false) :
    json_step_mark_ok data (json_step.next jp ctx mark) :=
  fun hx => absurd hx (ne_true_of_eq_false hst)

theorem init_mark (h : json_host) (settings : json_parser_settings) (data c : Nat)
    (jp : json_parser_t) (ctx : json_ctx) (mark : Option Nat) (hm : json_mark_ok data jp mark) :
    json_step_mark_ok data (json_parser_exec_init h settings data c jp ctx mark) := by
  unfold json_parser_exec_init
  by_cases h1 : c = 123
  · rw [if_pos h1]
    exact (result_mark_state data _ s_object_start mark rfl).1
  rw [if_neg h1]
  by_cases h2 : c = 125
  · rw [if_pos h2]
    exact result_mark_next data _ mark
  rw [if_neg h2]
  by_cases h3 : c = 91
  · rw [if_pos h3]
    exact (result_mark_state data _ s_init mark rfl).2
  rw [if_neg h3]
  by_cases h4 : c = 93
  · rw [if_pos h4]
    exact result_mark_next data _ mark
  rw [if_neg h4]
  split_ifs <;>
    first
      | trivial
      | exact hm
      | exact fun _ => ⟨data, rfl, le_refl _⟩
      | exact state_mark data _ ctx mark rfl

theorem number_mark (h : json_host) (settings : json_parser_settings) (buf : List Nat)
    (data c : Nat) (jp : json_parser_t) (ctx : json_ctx) (mark : Option Nat) (rest : json_step)
    (hrest : json_step_mark_ok data rest) :
    json_step_mark_ok data (json_parser_exec_number h settings buf data c jp ctx mark rest) := by
  unfold json_parser_exec_number
  have hnum := number_end_not_number h settings jp ctx buf mark data c
  revert hnum
  rcases json_parser_number_end h jp settings ctx buf mark data c with ⟨rv, jp1, ctx1⟩
  intro hnum
  simp only [] at hnum ⊢
  split_ifs with h1 h2
  · trivial
  · exact state_mark data _ _ _ (hnum h2)
  · exact hrest

theorem object_key_mark (h : json_host) (settings : json_parser_settings) (buf : List Nat)
    (data c : Nat) (jp : json_parser_t) (ctx : json_ctx) (mark : Option Nat)
    (hm : json_mark_ok data jp mark) :
    json_step_mark_ok data (json_parser_exec_object_key h settings buf data c jp ctx mark) := by
  unfold json_parser_exec_object_key
  split_ifs <;>
    first
      | trivial
      | exact hm
      | exact state_mark data _ _ _ rfl

theorem string_mark (h : json_host) (settings : json_parser_settings) (buf : List Nat)
    (data c : Nat) (jp : json_parser_t) (ctx : json_ctx) (mark : Option Nat)
    (hm : json_mark_ok data jp mark) :
    json_step_mark_ok data (json_parser_exec_string h settings buf data c jp ctx mark) := by
  unfold json_parser_exec_string
  split_ifs <;>
    first
      | trivial
      | exact hm
      | exact state_mark data _ _ _ rfl
      | exact state_mark data _ _ _ (next_not_number _)

theorem close_object_mark (settings : json_parser_settings) (data : Nat)
    (jp : json_parser_t) (ctx : json_ctx) (mark : Option Nat) :
    json_step_mark_ok data (json_parser_exec_close_object settings jp ctx mark) := by
  unfold json_parser_exec_close_object
  rcases json_parser_pop_object jp settings ctx with ⟨rv2, jp2, ctx2⟩
  simp only []
  split_ifs <;>
    first
      | trivial
      | exact state_mark data _ _ _ rfl
      | exact state_mark data _ _ _ (next_not_number _)

set_option maxHeartbeats 2000000 in
/-- One iteration of the loop leaves the mark set whenever it goes on in a
number state. -/
theorem exec_byte_mark (h : json_host) (settings : json_parser_settings) (buf : List Nat)
    (data c : Nat) (jp : json_parser_t) (ctx : json_ctx) (mark : Option Nat)
    (hm : json_mark_ok data jp mark) :
    json_step_mark_ok data (json_parser_exec_byte h settings buf data c jp ctx mark) := by
  unfold json_parser_exec_byte
  cases hst : jp.jp_state <;> simp only []
  case s_init => exact init_mark h settings data c jp ctx mark hm
  case s_delim =>
    split_ifs
    · trivial
    · exact init_mark h settings data c jp ctx mark hm
  case s_next =>
    rcases json_parser_pop_array jp settings ctx with ⟨rv4, jp4, ctx4⟩
    simp only []
    split_ifs <;>
      first
        | trivial
        | exact hm
        | exact close_object_mark settings data jp ctx mark
        | exact state_mark data _ _ _ rfl
        | exact state_mark data _ _ _ (next_not_number _)
  case s_number_zero =>
    refine number_mark h settings buf data c jp ctx mark _ ?_
    split_ifs <;> first | trivial | exact fun _ => hm (by rw [hst]; rfl)
  case s_number =>
    refine number_mark h settings buf data c jp ctx mark _ ?_
    split_ifs <;> first | trivial | exact fun _ => hm (by rw [hst]; rfl)
  case s_number_decimals =>
    refine number_mark h settings buf data c jp ctx mark _ ?_
    split_ifs <;> first | trivial | exact fun _ => hm (by rw [hst]; rfl)
  case s_number_e_digits =>
    refine number_mark h settings buf data c jp ctx mark _ ?_
    split_ifs <;> trivial
  all_goals
    try split_ifs
    all_goals first
      | trivial
      | exact hm
      | exact fun _ => hm (by rw [hst]; rfl)
      | exact close_object_mark settings data jp ctx mark
      | exact object_key_mark h settings buf data c _ ctx _ (fun hx => Bool.noConfusion hx)
      | exact object_key_mark h settings buf data c jp ctx mark hm
      | exact string_mark h settings buf data c _ ctx _ (fun hx => Bool.noConfusion hx)
      | exact string_mark h settings buf data c jp ctx mark hm
      | exact state_mark data _ _ _ rfl
      | exact state_mark data _ _ _ (next_not_number _)

/-! ## The history only grows -/

theorem push_object_ext (h : json_host) (settings : json_parser_settings) (jp : json_parser_t)
    (ctx : json_ctx) : ctx <+: (json_parser_push_object h jp settings ctx).2.2 := by
  unfold json_parser_push_object
  rcases json_parser_push h jp JSON_PARSER_OBJECT with ⟨rv, jp1⟩
  dsimp only
  split_ifs <;> simp

theorem push_array_ext (h : json_host) (settings : json_parser_settings) (jp : json_parser_t)
    (ctx : json_ctx) : ctx <+: (json_parser_push_array h jp settings ctx).2.2 := by
  unfold json_parser_push_array
  rcases json_parser_push h jp JSON_PARSER_ARRAY with ⟨rv, jp1⟩
  dsimp only
  split_ifs <;> simp

theorem pop_object_ext (settings : json_parser_settings) (jp : json_parser_t)
    (ctx : json_ctx) : ctx <+: (json_parser_pop_object jp settings ctx).2.2 := by
  unfold json_parser_pop_object
  rcases json_parser_pop jp JSON_PARSER_OBJECT with ⟨rv, jp1⟩
  dsimp only
  split_ifs <;> simp

theorem pop_array_ext (settings : json_parser_settings) (jp : json_parser_t)
    (ctx : json_ctx) : ctx <+: (json_parser_pop_array jp settings ctx).2.2 := by
  unfold json_parser_pop_array
  rcases json_parser_pop jp JSON_PARSER_ARRAY with ⟨rv, jp1⟩
  dsimp only
  split_ifs <;> simp

theorem on_number_ext (settings : json_parser_settings) (ctx : json_ctx) (buf : List Nat)
    (mark : Option Nat) (data : Nat) :
    ctx <+: (json_parser_on_number settings ctx buf mark data).2 := by
  unfold json_parser_on_number
  split_ifs <;> simp

theorem number_end_ext (h : json_host) (settings : json_parser_settings)
    (jp : json_parser_t) (ctx : json_ctx) (buf : List Nat) (mark : Option Nat) (data c : Nat) :
    ctx <+: (json_parser_number_end h jp settings ctx buf mark data c).2.2 := by
  unfold json_parser_number_end
  have h1 := on_number_ext settings ctx buf mark data
  revert h1
  rcases json_parser_on_number settings ctx buf mark data with ⟨rv, ctx1⟩
  intro h1
  have h2 := pop_object_ext settings jp ctx1
  have h3 := pop_array_ext settings jp ctx1
  revert h2 h3
  dsimp only
  rcases json_parser_pop_object jp settings ctx1 with ⟨rv2, jp2, ctx2⟩
  rcases json_parser_pop_array jp settings ctx1 with ⟨rv3, jp3, ctx3⟩
  intro h2 h3
  dsimp only at h1 h2 h3 ⊢
  split_ifs <;>
    first
      | exact List.prefix_rfl
      | exact h1
      | exact h1.trans h2
      | exact h1.trans h3
      | exact h1.trans (List.prefix_append _ _)

theorem result_ext (ctx : json_ctx) (r : Int × json_parser_t × json_ctx)
    (st : json_parser_state) (mark : Option Nat) (hr : ctx <+: r.2.2) :
    json_step_extends ctx (if r.1 ≠ 0 then json_step.onerr r.2.1 r.2.2
      else json_step.next { r.2.1 with jp_state := st } r.2.2 mark) ∧
    json_step_extends ctx (if r.1 = -1 then json_step.onerr r.2.1 r.2.2
      else json_step.next { r.2.1 with jp_state := st } r.2.2 mark) := by
  constructor <;> split_ifs <;> exact hr

theorem init_ext (h : json_host) (settings : json_parser_settings) (data c : Nat)
    (jp : json_parser_t) (ctx : json_ctx) (mark : Option Nat) :
    json_step_extends ctx (json_parser_exec_init h settings data c jp ctx mark) := by
  unfold json_parser_exec_init
  by_cases h1 : c = 123
  · rw [if_pos h1]
    exact (result_ext ctx _ _ mark (push_object_ext h settings jp ctx)).1
  rw [if_neg h1]
  by_cases h2 : c = 125
  · rw [if_pos h2]
    exact (result_ext ctx _ _ mark (pop_object_ext settings jp ctx)).1
  rw [if_neg h2]
  by_cases h3 : c = 91
  · rw [if_pos h3]
    exact (result_ext ctx _ _ mark (push_array_ext h settings jp ctx)).2
  rw [if_neg h3]
  by_cases h4 : c = 93
  · rw [if_pos h4]
    exact (result_ext ctx _ _ mark (pop_array_ext settings jp ctx)).1
  rw [if_neg h4]
  split_ifs <;> exact List.prefix_rfl

theorem close_object_ext (settings : json_parser_settings)
    (jp : json_parser_t) (ctx : json_ctx) (mark : Option Nat) :
    json_step_extends ctx (json_parser_exec_close_object settings jp ctx mark) :=
  (result_ext ctx _ _ mark (pop_object_ext settings jp ctx)).1

theorem number_ext (h : json_host) (settings : json_parser_settings) (buf : List Nat)
    (data c : Nat) (jp : json_parser_t) (ctx : json_ctx) (mark : Option Nat) (rest : json_step)
    (hrest : json_step_extends ctx rest) :
    json_step_extends ctx (json_parser_exec_number h settings buf data c jp ctx mark rest) := by
  unfold json_parser_exec_number
  have hnum := number_end_ext h settings jp ctx buf mark data c
  revert hnum
  rcases json_parser_number_end h jp settings ctx buf mark data c with ⟨rv, jp1, ctx1⟩
  intro hnum
  dsimp only at hnum ⊢
  split_ifs
  · exact hnum
  · exact hnum
  · exact hrest

theorem object_key_ext (h : json_host) (settings : json_parser_settings) (buf : List Nat)
    (data c : Nat) (jp : json_parser_t) (ctx : json_ctx) (mark : Option Nat) :
    json_step_extends ctx (json_parser_exec_object_key h settings buf data c jp ctx mark) := by
  unfold json_parser_exec_object_key
  split_ifs <;> first | exact List.prefix_rfl | exact List.prefix_append _ _

theorem string_ext (h : json_host) (settings : json_parser_settings) (buf : List Nat)
    (data c : Nat) (jp : json_parser_t) (ctx : json_ctx) (mark : Option Nat) :
    json_step_extends ctx (json_parser_exec_string h settings buf data c jp ctx mark) := by
  unfold json_parser_exec_string
  split_ifs <;> first | exact List.prefix_rfl | exact List.prefix_append _ _

set_option maxHeartbeats 2000000 in
/-- One iteration of the loop only appends to the history. -/
theorem exec_byte_ext (h : json_host) (settings : json_parser_settings) (buf : List Nat)
    (data c : Nat) (jp : json_parser_t) (ctx : json_ctx) (mark : Option Nat) :
    json_step_extends ctx (json_parser_exec_byte h settings buf data c jp ctx mark) := by
  unfold json_parser_exec_byte
  cases jp.jp_state <;> dsimp only
  case s_init => exact init_ext h settings data c jp ctx mark
  case s_delim =>
    split_ifs
    · exact List.prefix_rfl
    · exact init_ext h settings data c jp ctx mark
  case s_next =>
    have h4 := pop_array_ext settings jp ctx
    revert h4
    rcases json_parser_pop_array jp settings ctx with ⟨rv4, jp4, ctx4⟩
    intro h4
    dsimp only at h4 ⊢
    split_ifs <;>
      first
        | exact List.prefix_rfl
        | exact List.prefix_append _ _
        | exact close_object_ext settings jp ctx mark
        | exact h4
  case s_number_zero =>
    refine number_ext h settings buf data c jp ctx mark _ ?_
    split_ifs <;> exact List.prefix_rfl
  case s_number =>
    refine number_ext h settings buf data c jp ctx mark _ ?_
    split_ifs <;> exact List.prefix_rfl
  case s_number_decimals =>
    refine number_ext h settings buf data c jp ctx mark _ ?_
    split_ifs <;> exact List.prefix_rfl
  case s_number_e_digits =>
    refine number_ext h settings buf data c jp ctx mark _ ?_
    split_ifs <;> exact List.prefix_rfl
  all_goals
    try split_ifs
    all_goals first
      | exact List.prefix_rfl
      | exact List.prefix_append _ _
      | exact close_object_ext settings jp ctx mark
      | exact object_key_ext h settings buf data c _ ctx _
      | exact string_ext h settings buf data c _ ctx _

/-! ## Numbers at the end of a chunk -/

theorem exec_end_number_flush (settings : json_parser_settings) (buf : List Nat) (data : Nat)
    (jp : json_parser_t) (ctx : json_ctx) (mark : Option Nat)
    (hm : json_state_is_number jp.jp_state = true → ∃ m, mark = some m ∧ m < data)
    (hnum : json_state_flushes_number
      (json_parser_exec_end settings buf data jp ctx mark).2.1.jp_state = true) :
    ∃ m, m < data ∧ (json_parser_exec_end settings buf data jp ctx mark).2.2 =
      ctx ++ [json_event.on_number (json_span buf (some m) data)] := by
  revert hnum
  unfold json_parser_exec_end
  cases hst : jp.jp_state <;> dsimp only <;> rw [hst] at hm <;>
    first
      | (obtain ⟨m, rfl, hlt⟩ := hm rfl
         have hne : some m ≠ some data := by
           intro heq
           injection heq with heq
           omega
         rw [if_pos hne]
         split_ifs
         · intro hnum
           simp [json_state_flushes_number] at hnum
         · intro _
           exact ⟨m, hlt, rfl⟩)
      | (split_ifs <;> intro hnum <;> simp [json_state_flushes_number, hst] at hnum)
      | (intro hnum; simp [json_state_flushes_number, hst] at hnum)

/-- When the loop runs to the end of the chunk and leaves the parser in one
of the seven flushing number states, the last thing it did was to hand the
span from the mark to the end of the chunk to `on_number`. -/
theorem exec_loop_number_flush (h : json_host) (settings : json_parser_settings)
    (buf rest : List Nat) (data : Nat) (jp : json_parser_t) (ctx : json_ctx) (mark : Option Nat)
    (hm : json_state_is_number jp.jp_state = true →
      ∃ m, mark = some m ∧ m ≤ data ∧ (rest = [] → m < data))
    (hret : (json_parser_exec_loop h settings buf rest data jp ctx mark).1 = data + rest.length)
    (hnum : json_state_flushes_number
      (json_parser_exec_loop h settings buf rest data jp ctx mark).2.1.jp_state = true) :
    ∃ evs m, m < data + rest.length ∧
      (json_parser_exec_loop h settings buf rest data jp ctx mark).2.2 =
        ctx ++ evs ++ [json_event.on_number (json_span buf (some m) (data + rest.length))] := by
  induction rest generalizing data jp ctx mark with
  | nil =>
    simp only [json_parser_exec_loop] at hnum ⊢
    have hm1 : json_state_is_number jp.jp_state = true → ∃ m, mark = some m ∧ m < data := by
      intro hx
      obtain ⟨m, h1, _, h3⟩ := hm hx
      exact ⟨m, h1, h3 rfl⟩
    obtain ⟨m, hlt, heq⟩ := exec_end_number_flush settings buf data jp ctx mark hm1 hnum
    exact ⟨[], m, by simpa using hlt, by simpa using heq⟩
  | cons c rest ih =>
    have hmark := exec_byte_mark h settings buf data c jp ctx mark
      (fun hx => by
        obtain ⟨m, h1, h2, _⟩ := hm hx
        exact ⟨m, h1, h2⟩)
    have hext := exec_byte_ext h settings buf data c jp ctx mark
    simp only [json_parser_exec_loop] at hret hnum ⊢
    cases hb : json_parser_exec_byte h settings buf data c jp ctx mark with
    | next jp1 ctx1 mark1 =>
      rw [hb] at hret hnum hmark hext
      simp only [List.length_cons] at hret hnum ⊢
      have hidx : data + 1 + rest.length = data + (rest.length + 1) := by omega
      obtain ⟨evs, m, hlt, heq⟩ := ih (data + 1) jp1 ctx1 mark1
        (fun hx => by
          obtain ⟨m, h1, h2⟩ := hmark hx
          exact ⟨m, h1, by omega, fun _ => by omega⟩)
        (by rw [hidx]; exact hret) hnum
      obtain ⟨evs1, rfl⟩ := hext
      refine ⟨evs1 ++ evs, m, by omega, ?_⟩
      rw [heq, hidx]
      simp
    | die jp1 ctx1 =>
      rw [hb] at hret
      simp only [List.length_cons] at hret
      omega
    | onerr jp1 ctx1 =>
      rw [hb] at hret
      simp only [List.length_cons] at hret
      omega

theorem exec_mark_number (jp : json_parser_t)
    (hx : json_state_is_number jp.jp_state = true) : json_parser_exec_mark jp = some 0 := by
  unfold json_parser_exec_mark
  cases hst : jp.jp_state <;> rw [hst] at hx <;> first | rfl | exact Bool.noConfusion hx

/-- C8 as stated fails: the chunk `12` leaves a fresh parser in state NUM,
the number still in progress, and yet `on_number("12")` has been invoked in
that call; and the end-of-input call that follows returns 0 without emitting
anything. -/
theorem exec_number_flushed_not_deferred :
    json_parser_exec json_host_c json_settings_ok json_parser_new [] [49, 50] =
      (2, { json_parser_new with jp_state := s_number },
        [json_event.on_number (some [49, 50])]) ∧
    json_parser_exec json_host_c json_settings_ok { json_parser_new with jp_state := s_number }
      [json_event.on_number (some [49, 50])] [] =
      (0, { json_parser_new with jp_state := s_number },
        [json_event.on_number (some [49, 50])]) := by
  decide

/-! ## After the document -/

theorem done_byte (h : json_host) (settings : json_parser_settings) (buf : List Nat)
    (data c : Nat) (jp : json_parser_t) (ctx : json_ctx) (mark : Option Nat)
    (hdone : jp.jp_state = s_done) :
    json_parser_exec_byte h settings buf data c jp ctx mark =
      if isspace h c = true then json_step.next jp ctx mark else json_step.die jp ctx := by
  unfold json_parser_exec_byte
  rw [hdone]

theorem done_loop (h : json_host) (settings : json_parser_settings) (buf rest : List Nat)
    (data : Nat) (jp : json_parser_t) (ctx : json_ctx) (mark : Option Nat)
    (hdone : jp.jp_state = s_done) :
    (json_parser_exec_loop h settings buf rest data jp ctx mark).2.2 = ctx ∧
    ((∀ c ∈ rest, isspace h c = true) →
      (json_parser_exec_loop h settings buf rest data jp ctx mark).2.1 = jp) ∧
    ((∃ c ∈ rest, isspace h c = false) →
      (json_parser_exec_loop h settings buf rest data jp ctx mark).2.1.jp_state = s_dead) := by
  induction rest generalizing data mark with
  | nil =>
    simp [json_parser_exec_loop, json_parser_exec_end, hdone]
  | cons c rest ih =>
    simp only [json_parser_exec_loop, done_byte h settings buf data c jp ctx mark hdone]
    by_cases hc : isspace h c = true
    · rw [if_pos hc]
      obtain ⟨h1, h2, h3⟩ := ih (data + 1) mark
      refine ⟨h1, fun hall => h2 (fun x hx => hall x (List.mem_cons_of_mem _ hx)), ?_⟩
      rintro ⟨x, hx, hsp⟩
      rcases List.mem_cons.mp hx with rfl | hx
      · rw [hc] at hsp; cases hsp
      · exact h3 ⟨x, hx, hsp⟩
    · rw [if_neg hc]
      refine ⟨rfl, fun hall => absurd (hall c (List.mem_cons_self _ _)) hc, fun _ => rfl⟩

theorem exec_of_dead (h : json_host) (settings : json_parser_settings) (jp : json_parser_t)
    (ctx : json_ctx) (buf : List Nat) (hdead : jp.jp_state = s_dead) :
    json_parser_exec h settings jp ctx buf = (0, jp, ctx) := by
  unfold json_parser_exec
  rw [if_pos hdead]

theorem feed_of_dead (h : json_host) (settings : json_parser_settings) (jp : json_parser_t)
    (ctx : json_ctx) (chunks : List (List Nat)) (hdead : jp.jp_state = s_dead) :
    json_parser_feed h settings jp ctx chunks = (jp, ctx) := by
  induction chunks with
  | nil => rfl
  | cons b rest ih => simp only [json_parser_feed, exec_of_dead h settings jp ctx b hdead]; exact ih

theorem done_exec (h : json_host) (settings : json_parser_settings) (buf : List Nat)
    (jp : json_parser_t) (ctx : json_ctx) (hdone : jp.jp_state = s_done) :
    (json_parser_exec h settings jp ctx buf).2.2 = ctx ∧
    ((∀ c ∈ buf, isspace h c = true) → (json_parser_exec h settings jp ctx buf).2.1 = jp) ∧
    ((∃ c ∈ buf, isspace h c = false) →
      (json_parser_exec h settings jp ctx buf).2.1.jp_state = s_dead) := by
  unfold json_parser_exec
  have hlive : jp.jp_state ≠ s_dead := by rw [hdone]; decide
  rw [if_neg hlive]
  by_cases hlen : buf.length = 0
  · rw [if_pos hlen, hdone]
    have hnil : buf = [] := List.length_eq_zero.mp hlen
    subst hnil
    refine ⟨rfl, fun _ => rfl, ?_⟩
    rintro ⟨x, hx, _⟩
    cases hx
  · rw [if_neg hlen]
    exact done_loop h settings buf buf 0 jp ctx _ hdone

/-! ## What `json_parser_pop` does to the stack -/

/-- C15 as stated fails: a failed `json_parser_pop` does not leave the depth
as it was.  On the empty stack of a fresh parser the depth goes from -1 to
-2, and on a stack holding one ARRAY frame a pop expecting OBJECT drops that
frame (depth 0 to -1, frames `[` to none). -/
theorem pop_failure_changes_depth :
    json_parser_new.jp_depth = -1 ∧
    json_parser_pop json_parser_new JSON_PARSER_OBJECT =
      (-1, { json_parser_new with jp_state := s_dead, jp_depth := -2 }) ∧
    json_parser_frames
      { json_parser_new with jp_stack := 91 :: List.replicate 15 0, jp_depth := 0 } = [91] ∧
    json_parser_pop
      { json_parser_new with jp_stack := 91 :: List.replicate 15 0, jp_depth := 0 }
      JSON_PARSER_OBJECT =
      (-1, { json_parser_new with
             jp_stack := 91 :: List.replicate 15 0, jp_state := s_dead, jp_depth := -1 }) ∧
    json_parser_frames (json_parser_pop
      { json_parser_new with jp_stack := 91 :: List.replicate 15 0, jp_depth := 0 }
      JSON_PARSER_OBJECT).2 = [] := by
  decide

/-- C15, amended: when the stack is empty or its top frame differs from the
expected tag, `json_parser_pop` sets the state to DEAD, returns -1 and
decrements `jp_depth` all the same (cells and capacity are untouched); when
the top frame is the expected tag it returns 0, changes nothing but
`jp_depth`, and the frames before the call are that tag on top of the frames
after it. -/
theorem pop_effect (jp : json_parser_t) (type : Nat)
    (hcap : jp.jp_depth + 1 ≤ jp.jp_stack.length) :
    ((jp.jp_depth < 0 ∨ jp.jp_stack.getD jp.jp_depth.toNat 0 ≠ type) →
      json_parser_pop jp type =
        (-1, { jp with jp_state := s_dead, jp_depth := jp.jp_depth - 1 })) ∧
    ((0 ≤ jp.jp_depth ∧ jp.jp_stack.getD jp.jp_depth.toNat 0 = type) →
      json_parser_pop jp type = (0, { jp with jp_depth := jp.jp_depth - 1 }) ∧
      json_parser_frames jp = type :: json_parser_frames (json_parser_pop jp type).2) := by
  constructor
  · intro hbad
    unfold json_parser_pop
    simp only []
    rw [if_pos hbad]
  · rintro ⟨hpos, htop⟩
    have hgood : ¬ (jp.jp_depth < 0 ∨ jp.jp_stack.getD jp.jp_depth.toNat 0 ≠ type) := by
      push_neg
      exact ⟨hpos, htop⟩
    have hpop : json_parser_pop jp type = (0, { jp with jp_depth := jp.jp_depth - 1 }) := by
      unfold json_parser_pop
      simp only []
      rw [if_neg hgood]
    refine ⟨hpop, ?_⟩
    rw [hpop]
    obtain ⟨stack, st, depth, sd, uc⟩ := jp
    simp only at hpos htop hcap ⊢
    obtain ⟨m, rfl⟩ : ∃ m : Nat, depth = (m : Int) := ⟨depth.toNat, by omega⟩
    have hlt : m < stack.length := by omega
    have e1 : ((m : Int) + 1).toNat = m + 1 := by omega
    have e2 : ((m : Int) - 1 + 1).toNat = m := by omega
    have e3 : ((m : Int)).toNat = m := by omega
    rw [e3] at htop
    simp only [json_parser_frames, e1, e2]
    rw [take_succ_getD _ _ hlt, htop]
    simp

/-- C15, amended, on a stack holding an OBJECT frame under an ARRAY frame:
popping ARRAY succeeds and leaves the OBJECT frame. -/
theorem pop_effect_witness :
    json_parser_pop
      { json_parser_new with jp_stack := 123 :: 91 :: List.replicate 14 0, jp_depth := 1 }
      JSON_PARSER_ARRAY =
      (0, { json_parser_new with jp_stack := 123 :: 91 :: List.replicate 14 0, jp_depth := 0 }) ∧
    json_parser_frames
      { json_parser_new with jp_stack := 123 :: 91 :: List.replicate 14 0, jp_depth := 1 } =
      JSON_PARSER_ARRAY :: json_parser_frames (json_parser_pop
        { json_parser_new with jp_stack := 123 :: 91 :: List.replicate 14 0, jp_depth := 1 }
        JSON_PARSER_ARRAY).2 :=
  (pop_effect
    { json_parser_new with jp_stack := 123 :: 91 :: List.replicate 14 0, jp_depth := 1 }
    JSON_PARSER_ARRAY (by decide)).2 ⟨by decide, by decide⟩

/-! ## A comma after a number -/

theorem top_of_empty (jp : json_parser_t) (hempty : jp.jp_depth < 0) :
    json_parser_top jp = JSON_PARSER_NONE := by
  unfold json_parser_top
  rw [if_neg (by omega)]

theorem number_end_comma_empty (h : json_host) (settings : json_parser_settings)
    (jp : json_parser_t) (ctx : json_ctx) (buf : List Nat) (mark : Option Nat) (data : Nat)
    (htop : json_parser_top jp = JSON_PARSER_NONE) :
    json_parser_number_end h jp settings ctx buf mark data 44 =
      (-1, { jp with jp_state := s_dead }, ctx) := by
  unfold json_parser_number_end
  rw [if_neg (by simp [isspace]), if_neg (by decide), if_neg (by decide), if_pos rfl, if_pos htop]

theorem number_end_comma_frame (h : json_host)
    (jp : json_parser_t) (ctx : json_ctx) (buf : List Nat) (mark : Option Nat) (data : Nat)
    (htop : json_parser_top jp ≠ JSON_PARSER_NONE) :
    json_parser_number_end h jp json_settings_ok ctx buf mark data 44 =
      (1, { jp with jp_state :=
              if json_parser_top jp = JSON_PARSER_OBJECT then s_object else s_delim },
        (if mark = some data then ctx
          else ctx ++ [json_event.on_number (json_span buf mark data)]) ++
          [json_event.on_separator]) := by
  unfold json_parser_number_end json_parser_on_number
  rw [if_neg (by simp [isspace]), if_neg (by decide), if_neg (by decide), if_pos rfl, if_neg htop]
  by_cases hm : mark = some data
  · rw [if_pos hm, if_pos hm]
    simp [ok_returns_zero.2.2.2.2.2.2.2.2.2]
  · rw [if_neg hm, if_neg hm]
    simp [ok_returns_zero.2.2.1, ok_returns_zero.2.2.2.2.2.2.2.2.2]

/-- C18: when a number in state NUM_ZERO, NUM, NUM_DEC or NUM_EDIG meets the
byte `,`: with an empty stack the iteration leaves by `goto onerr` with the
parser DEAD and the history unchanged (neither `on_number` nor
`on_separator` is invoked); with a frame on top and callbacks returning 0,
`on_number` is invoked with the span from the mark to this byte unless that
span is empty, then `on_separator`, and the loop goes on in state OBJECT when
the top frame is OBJECT and in state DELIM when it is ARRAY. -/
theorem number_meets_comma (h : json_host) (settings : json_parser_settings)
    (buf : List Nat) (data : Nat) (jp : json_parser_t) (ctx : json_ctx) (mark : Option Nat)
    (hst : json_state_accepts_number jp.jp_state = true) :
    (jp.jp_depth < 0 →
      json_parser_exec_byte h settings buf data 44 jp ctx mark =
        json_step.onerr { jp with jp_state := s_dead } ctx) ∧
    (json_parser_top jp = JSON_PARSER_OBJECT →
      json_parser_exec_byte h json_settings_ok buf data 44 jp ctx mark =
        json_step.next { jp with jp_state := s_object }
          ((if mark = some data then ctx
            else ctx ++ [json_event.on_number (json_span buf mark data)]) ++
            [json_event.on_separator]) mark) ∧
    (json_parser_top jp = JSON_PARSER_ARRAY →
      json_parser_exec_byte h json_settings_ok buf data 44 jp ctx mark =
        json_step.next { jp with jp_state := s_delim }
          ((if mark = some data then ctx
            else ctx ++ [json_event.on_number (json_span buf mark data)]) ++
            [json_event.on_separator]) mark) := by
  refine ⟨fun hempty => ?_, fun htop => ?_, fun htop => ?_⟩
  · have hne := number_end_comma_empty h settings jp ctx buf mark data (top_of_empty jp hempty)
    unfold json_parser_exec_byte json_parser_exec_number
    cases hs : jp.jp_state <;> rw [hs] at hst <;>
      first
        | exact Bool.noConfusion hst
        | (simp only [hne]; rfl)
  · have hne := number_end_comma_frame h jp ctx buf mark data
      (by rw [htop]; decide)
    rw [if_pos htop] at hne
    unfold json_parser_exec_byte json_parser_exec_number
    cases hs : jp.jp_state <;> rw [hs] at hst <;>
      first
        | exact Bool.noConfusion hst
        | (simp only [hne]; rfl)
  · have hne := number_end_comma_frame h jp ctx buf mark data
      (by rw [htop]; decide)
    rw [if_neg (by rw [htop]; decide)] at hne
    unfold json_parser_exec_byte json_parser_exec_number
    cases hs : jp.jp_state <;> rw [hs] at hst <;>
      first
        | exact Bool.noConfusion hst
        | (simp only [hne]; rfl)

/-- C18 on the number `12` inside an array, the `,` at offset 3 of `[12,`:
`on_number("12")` then `on_separator`, and state DELIM. -/
theorem number_meets_comma_witness :
    json_parser_exec_byte json_host_c json_settings_ok [91, 49, 50, 44] 3 44
      { json_parser_new with
        jp_stack := 91 :: List.replicate 15 0, jp_state := s_number, jp_depth := 0 }
      [json_event.on_array_start] (some 1) =
      json_step.next
        { json_parser_new with
          jp_stack := 91 :: List.replicate 15 0, jp_state := s_delim, jp_depth := 0 }
        [json_event.on_array_start, json_event.on_number (some [49, 50]),
          json_event.on_separator] (some 1) :=
  (number_meets_comma json_host_c json_settings_ok [91, 49, 50, 44] 3
    { json_parser_new with
      jp_stack := 91 :: List.replicate 15 0, jp_state := s_number, jp_depth := 0 }
    [json_event.on_array_start] (some 1) rfl).2.2 (by decide)

/-! ## Raw bytes inside strings and keys -/

theorem isprint_control (h : json_host) (c : Nat) (hc : c < 32) : isprint h c = false := by
  unfold isprint
  have h1 : ¬ (32 ≤ c) := by omega
  have h2 : ¬ (128 ≤ c) := by omega
  simp [h1, h2]

theorem isprint_ascii (h : json_host) (c : Nat) (h1 : 32 ≤ c) (h2 : c ≤ 126) :
    isprint h c = true := by
  unfold isprint
  simp [h1, h2]

theorem string_raw_byte (h : json_host) (settings : json_parser_settings) (buf : List Nat)
    (data c : Nat) (jp : json_parser_t) (ctx : json_ctx) (mark : Option Nat) :
    (c < 32 → json_parser_exec_string h settings buf data c jp ctx mark = json_step.die jp ctx) ∧
    (32 ≤ c → c ≤ 126 → c ≠ 34 → c ≠ 92 →
      json_parser_exec_string h settings buf data c jp ctx mark = json_step.next jp ctx mark) := by
  unfold json_parser_exec_string
  constructor
  · intro hc
    rw [if_neg (by omega), if_neg (by omega), isprint_control h c hc]
    rfl
  · intro h1 h2 h3 h4
    rw [if_neg h4, if_neg h3, isprint_ascii h c h1 h2]
    rfl

theorem object_key_raw_byte (h : json_host) (settings : json_parser_settings) (buf : List Nat)
    (data c : Nat) (jp : json_parser_t) (ctx : json_ctx) (mark : Option Nat) :
    (c < 32 →
      json_parser_exec_object_key h settings buf data c jp ctx mark = json_step.die jp ctx) ∧
    (32 ≤ c → c ≤ 126 → c ≠ 34 → c ≠ 92 →
      json_parser_exec_object_key h settings buf data c jp ctx mark =
        json_step.next jp ctx mark) := by
  unfold json_parser_exec_object_key
  constructor
  · intro hc
    rw [if_neg (by omega), if_neg (by omega), isprint_control h c hc]
    rfl
  · intro h1 h2 h3 h4
    rw [if_neg h4, if_neg h3, isprint_ascii h c h1 h2]
    rfl

/-- C20: in the string states STRING_START, STRING_MARK, STRING and in their
OBJECT_KEY twins, a control byte 0x00-0x1F is `goto die` with no callback, so
that a chunk beginning with it returns 0 and leaves the parser DEAD; and a
byte 0x20-0x7E other than `"` and `\` lets the loop go on in the scanning
state (STRING resp. OBJECT_KEY) with the history unchanged, the mark being
set to this byte when the state was a START or MARK state. -/
theorem string_body_byte (h : json_host) (settings : json_parser_settings) (buf : List Nat)
    (data c : Nat) (jp : json_parser_t) (ctx : json_ctx) (mark : Option Nat)
    (hst : json_state_in_string jp.jp_state = true ∨ json_state_in_key jp.jp_state = true) :
    (c < 32 →
      (∃ jp1, json_parser_exec_byte h settings buf data c jp ctx mark = json_step.die jp1 ctx) ∧
      ∀ rest, json_parser_exec h settings jp ctx (c :: rest) =
        (0, { jp with jp_state := s_dead }, ctx)) ∧
    (32 ≤ c → c ≤ 126 → c ≠ 34 → c ≠ 92 →
      json_parser_exec_byte h settings buf data c jp ctx mark =
        json_step.next
          { jp with jp_state :=
              if json_state_in_string jp.jp_state = true then s_string else s_object_key }
          ctx (if jp.jp_state = s_string ∨ jp.jp_state = s_object_key then mark
            else some data)) := by
  have hdie : c < 32 → ∀ b d m,
      ∃ jp1, json_parser_exec_byte h settings b d c jp ctx m = json_step.die jp1 ctx := by
    intro hc b d m
    unfold json_parser_exec_byte
    rcases hst with hst | hst <;> cases hs : jp.jp_state <;> rw [hs] at hst <;>
      first
        | exact Bool.noConfusion hst
        | (simp only [if_neg (show ¬ c = 34 by omega)]
           first
             | exact ⟨_, (string_raw_byte h settings b d c _ ctx _).1 hc⟩
             | exact ⟨_, (object_key_raw_byte h settings b d c _ ctx _).1 hc⟩)
  refine ⟨fun hc => ⟨hdie hc buf data mark, fun rest => ?_⟩, fun h1 h2 h3 h4 => ?_⟩
  · obtain ⟨jp1, hb⟩ := hdie hc (c :: rest) 0 (json_parser_exec_mark jp)
    have hlive : jp.jp_state ≠ s_dead := by
      intro hd
      rw [hd] at hst
      rcases hst with hst | hst <;> exact Bool.noConfusion hst
    have hjp : ({ jp1 with jp_state := s_dead } : json_parser_t) =
        { jp with jp_state := s_dead } := by
      revert hb
      unfold json_parser_exec_byte
      rcases hst with hst | hst <;> cases hs : jp.jp_state <;> rw [hs] at hst <;>
        first
          | exact Bool.noConfusion hst
          | (simp only [if_neg (show ¬ c = 34 by omega),
               (string_raw_byte h settings (c :: rest) 0 c _ ctx _).1 hc,
               (object_key_raw_byte h settings (c :: rest) 0 c _ ctx _).1 hc]
             intro hb
             injection hb with hb1 _
             rw [← hb1])
    unfold json_parser_exec
    rw [if_neg hlive, if_neg (by simp)]
    simp only [json_parser_exec_loop, hb, hjp]
  · unfold json_parser_exec_byte
    obtain ⟨stack, st, depth, sd, uc⟩ := jp
    rcases hst with hst | hst <;> cases st <;>
      first
        | exact Bool.noConfusion hst
        | (simp only [if_neg h3, (string_raw_byte h settings buf data c _ ctx _).2 h1 h2 h3 h4,
             (object_key_raw_byte h settings buf data c _ ctx _).2 h1 h2 h3 h4]
           simp [json_state_in_string])

/-- C20 on the byte `a` met right after the opening quote of a string, at
offset 1: the loop goes on in state STRING with the mark at 1 and no
callback. -/
theorem string_body_byte_witness :
    json_parser_exec_byte json_host_c json_settings_ok [34, 97] 1 97
      { json_parser_new with jp_state := s_string_start } [] none =
      json_step.next { json_parser_new with jp_state := s_string } [] (some 1) :=
  (string_body_byte json_host_c json_settings_ok [34, 97] 1 97
    { json_parser_new with jp_state := s_string_start } [] none (Or.inl rfl)).2
    (by decide) (by decide) (by decide) (by decide)

/-! ## What a refusal leaves behind -/

theorem next_not_dead (jp : json_parser_t) : json_parser_next jp ≠ s_dead := by
  unfold json_parser_next
  split_ifs <;> intro hx <;> cases hx

theorem pop_object_sound (h : json_host) (settings : json_parser_settings) (c : Nat)
    (jp : json_parser_t) (ctx ctx0 : json_ctx) (evs : List json_event) (mark : Option Nat)
    (hctx : ctx = ctx0 ++ evs) :
    json_step_sound h settings c jp ctx0
      (if (json_parser_pop_object jp settings ctx).1 ≠ 0
        then json_step.onerr (json_parser_pop_object jp settings ctx).2.1
          (json_parser_pop_object jp settings ctx).2.2
        else json_step.next
          { (json_parser_pop_object jp settings ctx).2.1 with
            jp_state := json_parser_next (json_parser_pop_object jp settings ctx).2.1 }
          (json_parser_pop_object jp settings ctx).2.2 mark) := by
  unfold json_parser_pop_object json_parser_pop
  simp only []
  by_cases hbad : jp.jp_depth < 0 ∨ jp.jp_stack.getD jp.jp_depth.toNat 0 ≠ JSON_PARSER_OBJECT
  · rw [if_pos hbad]
    simp only [if_true]
    rw [if_pos (by decide)]
    exact Or.inl rfl
  · rw [if_neg hbad]
    simp only [show ¬ ((0 : Int) = -1) by decide, if_false]
    by_cases hcb : settings.on_object_end ctx = 0
    · rw [if_neg (by simpa using hcb)]
      exact next_not_dead _
    · rw [if_pos hcb]
      exact Or.inr (Or.inr ⟨evs, json_event.on_object_end, by rw [hctx],
        by rw [← hctx]; exact hcb, rfl⟩)

theorem pop_array_sound (h : json_host) (settings : json_parser_settings) (c : Nat)
    (jp : json_parser_t) (ctx ctx0 : json_ctx) (evs : List json_event) (mark : Option Nat)
    (hctx : ctx = ctx0 ++ evs) :
    json_step_sound h settings c jp ctx0
      (if (json_parser_pop_array jp settings ctx).1 ≠ 0
        then json_step.onerr (json_parser_pop_array jp settings ctx).2.1
          (json_parser_pop_array jp settings ctx).2.2
        else json_step.next
          { (json_parser_pop_array jp settings ctx).2.1 with
            jp_state := json_parser_next (json_parser_pop_array jp settings ctx).2.1 }
          (json_parser_pop_array jp settings ctx).2.2 mark) := by
  unfold json_parser_pop_array json_parser_pop
  simp only []
  by_cases hbad : jp.jp_depth < 0 ∨ jp.jp_stack.getD jp.jp_depth.toNat 0 ≠ JSON_PARSER_ARRAY
  · rw [if_pos hbad]
    simp only [if_true]
    rw [if_pos (by decide)]
    exact Or.inl rfl
  · rw [if_neg hbad]
    simp only [show ¬ ((0 : Int) = -1) by decide, if_false]
    by_cases hcb : settings.on_array_end ctx = 0
    · rw [if_neg (by simpa using hcb)]
      exact next_not_dead _
    · rw [if_pos hcb]
      exact Or.inr (Or.inr ⟨evs, json_event.on_array_end, by rw [hctx],
        by rw [← hctx]; exact hcb, rfl⟩)

theorem push_cases (h : json_host) (jp : json_parser_t) (t : Nat) :
    (json_parser_push h jp t = (-1, jp) ∧
      h.realloc_ok (jp.jp_stackdepth + 16).toNat = false) ∨
    (json_parser_push h jp t).1 = 0 := by
  unfold json_parser_push
  split_ifs with h1 h2
  · exact Or.inr rfl
  · exact Or.inl ⟨rfl, by simpa using h2⟩
  · exact Or.inr rfl

theorem push_object_sound (h : json_host) (settings : json_parser_settings) (c : Nat)
    (jp : json_parser_t) (ctx : json_ctx) (mark : Option Nat) (hc : c = 123 ∨ c = 91) :
    json_step_sound h settings c jp ctx
      (if (json_parser_push_object h jp settings ctx).1 ≠ 0
        then json_step.onerr (json_parser_push_object h jp settings ctx).2.1
          (json_parser_push_object h jp settings ctx).2.2
        else json_step.next
          { (json_parser_push_object h jp settings ctx).2.1 with jp_state := s_object_start }
          (json_parser_push_object h jp settings ctx).2.2 mark) := by
  unfold json_parser_push_object
  rcases push_cases h jp JSON_PARSER_OBJECT with ⟨hp, hre⟩ | hp
  · rw [hp]
    simp only [if_true]
    rw [if_pos (by decide)]
    exact Or.inr (Or.inl ⟨rfl, rfl, hc, hre⟩)
  · have heff : json_refusal_effect h jp json_event.on_object_start =
        (json_parser_push h jp JSON_PARSER_OBJECT).2 := rfl
    revert hp heff
    rcases json_parser_push h jp JSON_PARSER_OBJECT with ⟨rv, jp1⟩
    intro hp heff
    simp only at hp heff
    subst hp
    simp only [show ¬ ((0 : Int) = -1) by decide, if_false]
    by_cases hcb : settings.on_object_start ctx = 0
    · rw [if_neg (by simpa using hcb)]
      intro hx
      cases hx
    · rw [if_pos hcb]
      exact Or.inr (Or.inr ⟨[], json_event.on_object_start, by simp, by simpa using hcb,
        heff.symm⟩)

theorem push_array_sound (h : json_host) (settings : json_parser_settings) (c : Nat)
    (jp : json_parser_t) (ctx : json_ctx) (mark : Option Nat) (hc : c = 123 ∨ c = 91) :
    json_step_sound h settings c jp ctx
      (if (json_parser_push_array h jp settings ctx).1 = -1
        then json_step.onerr (json_parser_push_array h jp settings ctx).2.1
          (json_parser_push_array h jp settings ctx).2.2
        else json_step.next
          { (json_parser_push_array h jp settings ctx).2.1 with jp_state := s_init }
          (json_parser_push_array h jp settings ctx).2.2 mark) := by
  unfold json_parser_push_array
  rcases push_cases h jp JSON_PARSER_ARRAY with ⟨hp, hre⟩ | hp
  · rw [hp]
    simp only [if_true]
    exact Or.inr (Or.inl ⟨rfl, rfl, hc, hre⟩)
  · have heff : json_refusal_effect h jp json_event.on_array_start =
        (json_parser_push h jp JSON_PARSER_ARRAY).2 := rfl
    revert hp heff
    rcases json_parser_push h jp JSON_PARSER_ARRAY with ⟨rv, jp1⟩
    intro hp heff
    simp only at hp heff
    subst hp
    simp only [show ¬ ((0 : Int) = -1) by decide, if_false]
    by_cases hcb : settings.on_array_start ctx = -1
    · rw [if_pos hcb]
      exact Or.inr (Or.inr ⟨[], json_event.on_array_start, by simp,
        by simp [json_settings_call, hcb], heff.symm⟩)
    · rw [if_neg hcb]
      intro hx
      cases hx

theorem on_number_cases (settings : json_parser_settings) (ctx : json_ctx) (buf : List Nat)
    (mark : Option Nat) (data : Nat) :
    json_parser_on_number settings ctx buf mark data = (0, ctx) ∨
    (∃ s, json_parser_on_number settings ctx buf mark data =
      (0, ctx ++ [json_event.on_number s])) ∨
    (∃ s, (json_parser_on_number settings ctx buf mark data).1 ≠ 0 ∧
      (json_parser_on_number settings ctx buf mark data).2 = ctx ++ [json_event.on_number s] ∧
      settings.on_number ctx s ≠ 0) := by
  unfold json_parser_on_number
  by_cases hm : mark = some data
  · rw [if_pos hm]
    exact Or.inl rfl
  · rw [if_neg hm]
    by_cases hcb : settings.on_number ctx (json_span buf mark data) = 0
    · rw [hcb]
      exact Or.inr (Or.inl ⟨_, rfl⟩)
    · exact Or.inr (Or.inr ⟨_, hcb, rfl, hcb⟩)

theorem number_sound (h : json_host) (settings : json_parser_settings) (buf : List Nat)
    (data c : Nat) (jp : json_parser_t) (ctx : json_ctx) (mark : Option Nat) (rest : json_step)
    (hrest : json_step_sound h settings c jp ctx rest) :
    json_step_sound h settings c jp ctx
      (json_parser_exec_number h settings buf data c jp ctx mark rest) := by
  unfold json_parser_exec_number json_parser_number_end
  have hon := on_number_cases settings ctx buf mark data
  revert hon
  rcases json_parser_on_number settings ctx buf mark data with ⟨rv, ctx1⟩
  intro hon
  simp only [Prod.mk.injEq] at hon
  -- the history after `json_parser_on_number`, when it returned 0
  have hok : rv = 0 → ∃ evs, ctx1 = ctx ++ evs := by
    intro h0
    rcases hon with ⟨_, h2⟩ | ⟨s, _, h2⟩ | ⟨s, h1, _, _⟩
    · exact ⟨[], by simp [h2]⟩
    · exact ⟨_, h2⟩
    · exact absurd h0 h1
  have hrefuse : rv ≠ 0 →
      json_step_sound h settings c jp ctx (json_step.onerr jp ctx1) := by
    intro hne
    rcases hon with ⟨h1, _⟩ | ⟨s, h1, _⟩ | ⟨s, _, h2, h3⟩
    · exact absurd h1 hne
    · exact absurd h1 hne
    · exact Or.inr (Or.inr ⟨[], json_event.on_number s, by simp [h2], by simpa using h3, rfl⟩)
  by_cases h1 : isspace h c = true
  · rw [if_pos h1]
    dsimp only
    by_cases hrv : rv = 0
    · subst hrv
      simp only [ne_eq, not_true_eq_false, if_false, show ¬ ((1 : Int) = -1) by decide, if_true]
      exact next_not_dead _
    · simp only [ne_eq, hrv, not_false_eq_true, if_true]
      exact hrefuse hrv
  rw [if_neg h1]
  by_cases h2 : c = 125
  · rw [if_pos h2]
    dsimp only
    by_cases hrv : rv = 0
    · obtain ⟨evs, hctx⟩ := hok hrv
      subst hrv
      simp only [ne_eq, not_true_eq_false, if_false]
      have hp := pop_object_sound h settings c jp ctx1 ctx evs mark hctx
      revert hp
      rcases json_parser_pop_object jp settings ctx1 with ⟨rv2, jp2, ctx2⟩
      intro hp
      dsimp only at hp ⊢
      by_cases hrv2 : rv2 = 0
      · subst hrv2
        simpa using hp
      · simp only [ne_eq, hrv2, not_false_eq_true, if_true] at hp ⊢
        exact hp
    · simp only [ne_eq, hrv, not_false_eq_true, if_true]
      exact hrefuse hrv
  rw [if_neg h2]
  by_cases h3 : c = 93
  · rw [if_pos h3]
    dsimp only
    by_cases hrv : rv = 0
    · obtain ⟨evs, hctx⟩ := hok hrv
      subst hrv
      simp only [ne_eq, not_true_eq_false, if_false]
      have hp := pop_array_sound h settings c jp ctx1 ctx evs mark hctx
      revert hp
      rcases json_parser_pop_array jp settings ctx1 with ⟨rv2, jp2, ctx2⟩
      intro hp
      dsimp only at hp ⊢
      by_cases hrv2 : rv2 = 0
      · subst hrv2
        simpa using hp
      · simp only [ne_eq, hrv2, not_false_eq_true, if_true] at hp ⊢
        exact hp
    · simp only [ne_eq, hrv, not_false_eq_true, if_true]
      exact hrefuse hrv
  rw [if_neg h3]
  by_cases h4 : c = 44
  · rw [if_pos h4]
    by_cases h5 : json_parser_top jp = JSON_PARSER_NONE
    · rw [if_pos h5]
      simp only [if_true]
      exact Or.inl rfl
    · rw [if_neg h5]
      dsimp only
      by_cases hrv : rv = 0
      · obtain ⟨evs, hctx⟩ := hok hrv
        subst hrv
        simp only [ne_eq, not_true_eq_false, if_false]
        by_cases hsep : settings.on_separator ctx1 = 0
        · simp only [hsep, not_true_eq_false, if_false, show ¬ ((1 : Int) = -1) by decide,
            if_true]
          split_ifs <;> intro hx <;> cases hx
        · simp only [hsep, not_false_eq_true, if_true]
          exact Or.inr (Or.inr ⟨evs, json_event.on_separator, by rw [hctx],
            by rw [← hctx]; exact hsep, rfl⟩)
      · simp only [ne_eq, hrv, not_false_eq_true, if_true]
        exact hrefuse hrv
  rw [if_neg h4]
  simpa using hrest

theorem refusal_intro (h : json_host) (settings : json_parser_settings) (c : Nat)
    (jp : json_parser_t) (ctx : json_ctx) (e : json_event) (jp1 : json_parser_t)
    (hcall : json_settings_call settings ctx e ≠ 0)
    (heff : jp1 = json_refusal_effect h jp e) :
    json_step_sound h settings c jp ctx (json_step.onerr jp1 (ctx ++ [e])) :=
  Or.inr (Or.inr ⟨[], e, by simp, by simpa using hcall, heff⟩)

theorem string_sound (h : json_host) (settings : json_parser_settings) (buf : List Nat)
    (data c : Nat) (jp : json_parser_t) (ctx : json_ctx) (mark : Option Nat)
    (hlive : jp.jp_state ≠ s_dead) :
    json_step_sound h settings c jp ctx
      (json_parser_exec_string h settings buf data c jp ctx mark) := by
  unfold json_parser_exec_string
  split_ifs <;>
    first
      | trivial
      | exact hlive
      | exact next_not_dead _
      | (intro hx; cases hx)
      | (refine refusal_intro h settings c jp ctx _ _ ?_ rfl; assumption)

theorem string_fall_sound (h : json_host) (settings : json_parser_settings) (buf : List Nat)
    (data c : Nat) (jp : json_parser_t) (ctx : json_ctx) :
    json_step_sound h settings c jp ctx
      (json_parser_exec_string h settings buf data c { jp with jp_state := s_string } ctx
        (some data)) := by
  unfold json_parser_exec_string
  simp only [ne_eq, not_true_eq_false, if_false]
  split_ifs <;>
    first
      | trivial
      | exact next_not_dead _
      | (intro hx; cases hx)

theorem object_key_sound (h : json_host) (settings : json_parser_settings) (buf : List Nat)
    (data c : Nat) (jp : json_parser_t) (ctx : json_ctx) (mark : Option Nat)
    (hlive : jp.jp_state ≠ s_dead) :
    json_step_sound h settings c jp ctx
      (json_parser_exec_object_key h settings buf data c jp ctx mark) := by
  unfold json_parser_exec_object_key
  split_ifs <;>
    first
      | trivial
      | exact hlive
      | (intro hx; cases hx)
      | (refine refusal_intro h settings c jp ctx _ _ ?_ rfl; assumption)

theorem object_key_fall_sound (h : json_host) (settings : json_parser_settings)
    (buf : List Nat) (data c : Nat) (jp : json_parser_t) (ctx : json_ctx) :
    json_step_sound h settings c jp ctx
      (json_parser_exec_object_key h settings buf data c { jp with jp_state := s_object_key }
        ctx (some data)) := by
  unfold json_parser_exec_object_key
  simp only [ne_eq, not_true_eq_false, if_false]
  split_ifs <;>
    first
      | trivial
      | (intro hx; cases hx)

theorem close_object_sound (h : json_host) (settings : json_parser_settings) (c : Nat)
    (jp : json_parser_t) (ctx : json_ctx) (mark : Option Nat) :
    json_step_sound h settings c jp ctx
      (json_parser_exec_close_object settings jp ctx mark) :=
  pop_object_sound h settings c jp ctx ctx [] mark (by simp)

theorem init_sound (h : json_host) (settings : json_parser_settings) (data c : Nat)
    (jp : json_parser_t) (ctx : json_ctx) (mark : Option Nat) (hlive : jp.jp_state ≠ s_dead) :
    json_step_sound h settings c jp ctx
      (json_parser_exec_init h settings data c jp ctx mark) := by
  unfold json_parser_exec_init
  by_cases h1 : c = 123
  · rw [if_pos h1]
    exact push_object_sound h settings c jp ctx mark (Or.inl h1)
  rw [if_neg h1]
  by_cases h2 : c = 125
  · rw [if_pos h2]
    exact pop_object_sound h settings c jp ctx ctx [] mark (by simp)
  rw [if_neg h2]
  by_cases h3 : c = 91
  · rw [if_pos h3]
    exact push_array_sound h settings c jp ctx mark (Or.inr h3)
  rw [if_neg h3]
  by_cases h4 : c = 93
  · rw [if_pos h4]
    exact pop_array_sound h settings c jp ctx ctx [] mark (by simp)
  rw [if_neg h4]
  split_ifs <;>
    first
      | trivial
      | exact hlive
      | (intro hx; cases hx)

set_option maxHeartbeats 2000000 in
/-- One iteration of the loop, for any callbacks: what it leaves behind when
it goes on and when it leaves by `goto onerr`. -/
theorem exec_byte_sound (h : json_host) (settings : json_parser_settings) (buf : List Nat)
    (data c : Nat) (jp : json_parser_t) (ctx : json_ctx) (mark : Option Nat)
    (hlive : jp.jp_state ≠ s_dead) :
    json_step_sound h settings c jp ctx
      (json_parser_exec_byte h settings buf data c jp ctx mark) := by
  unfold json_parser_exec_byte
  cases hst : jp.jp_state <;> dsimp only
  case s_dead => exact absurd hst hlive
  case s_init => exact init_sound h settings data c jp ctx mark hlive
  case s_delim =>
    split_ifs
    · trivial
    · exact init_sound h settings data c jp ctx mark hlive
  case s_next =>
    by_cases h1 : isspace h c = true
    · rw [if_pos h1]
      exact hlive
    rw [if_neg h1]
    by_cases h2 : c = 44
    · rw [if_pos h2]
      split_ifs with h3
      · exact refusal_intro h settings c jp ctx _ _ h3 rfl
      · intro hx
        cases hx
    rw [if_neg h2]
    by_cases h3 : c = 125
    · rw [if_pos h3]
      exact close_object_sound h settings c jp ctx mark
    rw [if_neg h3]
    by_cases h4 : c = 93
    · rw [if_pos h4]
      exact pop_array_sound h settings c jp ctx ctx [] mark (by simp)
    rw [if_neg h4]
    trivial
  case s_number_zero =>
    refine number_sound h settings buf data c jp ctx mark _ ?_
    split_ifs <;> first | trivial | (intro hx; cases hx)
  case s_number =>
    refine number_sound h settings buf data c jp ctx mark _ ?_
    split_ifs <;> first | trivial | exact hlive | (intro hx; cases hx)
  case s_number_decimals =>
    refine number_sound h settings buf data c jp ctx mark _ ?_
    split_ifs <;> first | trivial | exact hlive | (intro hx; cases hx)
  case s_number_e_digits =>
    refine number_sound h settings buf data c jp ctx mark _ ?_
    split_ifs <;> trivial
  case s_string => exact string_sound h settings buf data c jp ctx mark hlive
  case s_object_key => exact object_key_sound h settings buf data c jp ctx mark hlive
  case s_string_mark => exact string_fall_sound h settings buf data c jp ctx
  case s_object_key_mark => exact object_key_fall_sound h settings buf data c jp ctx
  all_goals
    split_ifs
    all_goals first
      | trivial
      | exact hlive
      | exact next_not_dead _
      | exact close_object_sound h settings c jp ctx mark
      | exact string_fall_sound h settings buf data c jp ctx
      | exact object_key_fall_sound h settings buf data c jp ctx
      | (intro hx; cases hx)
      | (refine refusal_intro h settings c jp ctx _ _ ?_ rfl; assumption)

theorem upto_live (h : json_host) (settings : json_parser_settings) (buf pre : List Nat)
    (data : Nat) (jp : json_parser_t) (ctx : json_ctx) (mark : Option Nat)
    (jp1 : json_parser_t) (ctx1 : json_ctx) (mark1 : Option Nat)
    (hlive : jp.jp_state ≠ s_dead)
    (hpre : json_parser_exec_upto h settings buf pre data jp ctx mark = some (jp1, ctx1, mark1)) :
    jp1.jp_state ≠ s_dead := by
  induction pre generalizing data jp ctx mark with
  | nil =>
    simp only [json_parser_exec_upto, Option.some.injEq, Prod.mk.injEq] at hpre
    rw [← hpre.1]
    exact hlive
  | cons c pre ih =>
    have hs := exec_byte_sound h settings buf data c jp ctx mark hlive
    simp only [json_parser_exec_upto] at hpre
    cases hb : json_parser_exec_byte h settings buf data c jp ctx mark with
    | next jp2 ctx2 mark2 =>
      rw [hb] at hpre hs
      exact ih (data + 1) jp2 ctx2 mark2 hs hpre
    | die jp2 ctx2 => rw [hb] at hpre; simp at hpre
    | onerr jp2 ctx2 => rw [hb] at hpre; simp at hpre

/-- C14 as stated fails: with `on_object_end` returning 1 the chunk `{}`
returns at offset 1 with the frame already popped (depth -1), whereas just
before that byte, after `{`, the depth was 0; and with `on_null` returning 1
the chunk `null` returns at offset 3 in state DONE, whereas just before that
byte, after `nul`, the state was NULL_NUL. -/
theorem exec_refusal_not_atomic :
    (json_parser_exec json_host_c json_settings_object_end_1 json_parser_new []
      [123, 125]).1 = 1 ∧
    (json_parser_exec json_host_c json_settings_object_end_1 json_parser_new []
      [123, 125]).2.1.jp_depth = -1 ∧
    (json_parser_exec json_host_c json_settings_object_end_1 json_parser_new []
      [123]).2.1.jp_depth = 0 ∧
    (json_parser_exec json_host_c json_settings_null_1 json_parser_new []
      [110, 117, 108, 108]).1 = 3 ∧
    (json_parser_exec json_host_c json_settings_null_1 json_parser_new []
      [110, 117, 108, 108]).2.1.jp_state = s_done ∧
    (json_parser_exec json_host_c json_settings_null_1 json_parser_new []
      [110, 117, 108]).2.1.jp_state = s_null_NUL := by
  decide

/-- C14, amended: when the loop of `json_parser_exec` has consumed the bytes
`pre` and the byte `c` leaves it by `goto onerr` with the parser not DEAD,
the call returns the offset of `c`, and either `realloc` failed on a `{` or
`[` and the parser context and history are those before `c`, or the last
callback invoked returned non-zero and the parser context is the one before
`c` changed by what was done ahead of that callback: nothing for
`on_separator`, `on_number`, `on_string`, `on_object_key`; the frame pushed
for `on_object_start`, `on_array_start`; the frame popped (depth minus one)
for `on_object_end`, `on_array_end`; the state advanced to the one after a
value for `on_null`, `on_bool`. -/
theorem exec_refusal_effect (h : json_host) (settings : json_parser_settings)
    (jp : json_parser_t) (ctx : json_ctx) (pre : List Nat) (c : Nat) (suf : List Nat)
    (jp1 : json_parser_t) (ctx1 : json_ctx) (mark1 : Option Nat)
    (jp2 : json_parser_t) (ctx2 : json_ctx)
    (hlive : jp.jp_state ≠ s_dead)
    (hpre : json_parser_exec_upto h settings (pre ++ c :: suf) pre 0 jp ctx
      (json_parser_exec_mark jp) = some (jp1, ctx1, mark1))
    (hstep : json_parser_exec_byte h settings (pre ++ c :: suf) pre.length c jp1 ctx1 mark1 =
      json_step.onerr jp2 ctx2)
    (halive : jp2.jp_state ≠ s_dead) :
    json_parser_exec h settings jp ctx (pre ++ c :: suf) = (pre.length, jp2, ctx2) ∧
    ((ctx2 = ctx1 ∧ jp2 = jp1 ∧ (c = 123 ∨ c = 91) ∧
        h.realloc_ok (jp1.jp_stackdepth + 16).toNat = false) ∨
      (∃ evs e, ctx2 = ctx1 ++ evs ++ [e] ∧
        json_settings_call settings (ctx1 ++ evs) e ≠ 0 ∧
        jp2 = json_refusal_effect h jp1 e)) := by
  have hlive1 := upto_live h settings _ pre 0 jp ctx _ jp1 ctx1 mark1 hlive hpre
  have hs := exec_byte_sound h settings (pre ++ c :: suf) pre.length c jp1 ctx1 mark1 hlive1
  rw [hstep] at hs
  constructor
  · have hne : (pre ++ c :: suf).length ≠ 0 := by simp
    unfold json_parser_exec
    rw [if_neg hlive, if_neg hne,
      exec_loop_append h settings _ pre (c :: suf) 0 jp ctx _ jp1 ctx1 mark1 hpre]
    simp only [json_parser_exec_loop, hstep, Nat.zero_add]
  · rcases hs with hd | hs | hs
    · exact absurd hd halive
    · exact Or.inl hs
    · exact Or.inr hs

/-- C14, amended, on `{}` with `on_object_end` returning 1: the call returns
1, the offset of `}`, and the context is the one after `{` with its depth
decremented. -/
theorem exec_refusal_effect_witness :
    json_parser_exec json_host_c json_settings_object_end_1 json_parser_new [] [123, 125] =
      (1, { json_parser_new with
            jp_stack := 123 :: List.replicate 15 0, jp_state := s_object_start, jp_depth := -1 },
        [json_event.on_object_start, json_event.on_object_end]) :=
  (exec_refusal_effect json_host_c json_settings_object_end_1 json_parser_new []
    [123] 125 []
    { json_parser_new with
      jp_stack := 123 :: List.replicate 15 0, jp_state := s_object_start, jp_depth := 0 }
    [json_event.on_object_start] none
    { json_parser_new with
      jp_stack := 123 :: List.replicate 15 0, jp_state := s_object_start, jp_depth := -1 }
    [json_event.on_object_start, json_event.on_object_end]
    (by decide) (by decide) (by decide) (by decide)).1

/-! ## The return value when every callback returns 0 -/

theorem ok_call_zero (ctx : json_ctx) (e : json_event) :
    json_settings_call json_settings_ok ctx e = 0 := by
  cases e <;> rfl

theorem exec_end_ok (buf : List Nat) (data : Nat) (jp : json_parser_t) (ctx : json_ctx)
    (mark : Option Nat) :
    (json_parser_exec_end json_settings_ok buf data jp ctx mark).1 = data ∧
    (json_parser_exec_end json_settings_ok buf data jp ctx mark).2.1 = jp := by
  obtain ⟨_, _, z3, z4, _, z6, _, _, _, _⟩ := ok_returns_zero
  unfold json_parser_exec_end
  cases jp.jp_state <;> dsimp only <;>
    (try simp only [z3, z4, z6, ne_eq, not_true_eq_false, if_false]) <;>
    (try split_ifs) <;> first | exact ⟨rfl, rfl⟩ | exact ⟨trivial, trivial⟩

theorem exec_loop_return (h : json_host) (buf rest : List Nat) (data : Nat)
    (jp : json_parser_t) (ctx : json_ctx) (mark : Option Nat) (hlive : jp.jp_state ≠ s_dead) :
    data ≤ (json_parser_exec_loop h json_settings_ok buf rest data jp ctx mark).1 ∧
    (json_parser_exec_loop h json_settings_ok buf rest data jp ctx mark).1 ≤
      data + rest.length ∧
    ((json_parser_exec_loop h json_settings_ok buf rest data jp ctx mark).1 =
        data + rest.length →
      (json_parser_exec_loop h json_settings_ok buf rest data jp ctx mark).2.1.jp_state
        ≠ s_dead) ∧
    ((json_parser_exec_loop h json_settings_ok buf rest data jp ctx mark).2.1.jp_state
        ≠ s_dead →
      (json_parser_exec_loop h json_settings_ok buf rest data jp ctx mark).1 <
        data + rest.length →
      (rest[(json_parser_exec_loop h json_settings_ok buf rest data jp ctx mark).1 - data]?
          = some 123 ∨
        rest[(json_parser_exec_loop h json_settings_ok buf rest data jp ctx mark).1 - data]?
          = some 91) ∧
      h.realloc_ok ((json_parser_exec_loop h json_settings_ok buf rest data jp ctx
        mark).2.1.jp_stackdepth + 16).toNat = false) := by
  induction rest generalizing data jp ctx mark with
  | nil =>
    obtain ⟨h1, h2⟩ := exec_end_ok buf data jp ctx mark
    simp only [json_parser_exec_loop, h1, h2, List.length_nil, Nat.add_zero]
    exact ⟨le_refl _, le_refl _, fun _ => hlive, fun _ hlt => absurd hlt (lt_irrefl _)⟩
  | cons c rest ih =>
    have hs := exec_byte_sound h json_settings_ok buf data c jp ctx mark hlive
    simp only [json_parser_exec_loop, List.length_cons]
    cases hb : json_parser_exec_byte h json_settings_ok buf data c jp ctx mark with
    | next jp1 ctx1 mark1 =>
      rw [hb] at hs
      obtain ⟨i1, i2, i3, i4⟩ := ih (data + 1) jp1 ctx1 mark1 hs
      simp only
      refine ⟨by omega, by omega, fun heq => i3 (by omega), fun hal hlt => ?_⟩
      obtain ⟨j1, j2⟩ := i4 hal (by omega)
      refine ⟨?_, j2⟩
      have hidx : (json_parser_exec_loop h json_settings_ok buf rest (data + 1) jp1 ctx1
          mark1).1 - data =
          ((json_parser_exec_loop h json_settings_ok buf rest (data + 1) jp1 ctx1
            mark1).1 - (data + 1)) + 1 := by omega
      rw [hidx, List.getElem?_cons_succ]
      exact j1
    | die jp1 ctx1 =>
      simp only
      exact ⟨le_refl _, by omega, fun heq => by omega, fun hal => absurd rfl hal⟩
    | onerr jp1 ctx1 =>
      rw [hb] at hs
      simp only
      refine ⟨le_refl _, by omega, fun heq => by omega, fun hal _ => ?_⟩
      rcases hs with hd | ⟨_, hjp, hc, hre⟩ | ⟨evs, e, _, hcall, _⟩
      · exact absurd hd hal
      · rw [hjp]
        refine ⟨?_, hre⟩
        simp only [Nat.sub_self, List.getElem?_cons_zero]
        rcases hc with rfl | rfl
        · exact Or.inl rfl
        · exact Or.inr rfl
      · exact absurd (ok_call_zero _ e) hcall

/-- C13 as stated fails when the stack cannot grow: on a host whose `realloc`
fails, the 17th `[` of a chunk of 17 makes `json_parser_exec` return 16, less
than `len`, although the parser is not DEAD afterwards. -/
theorem exec_short_return_alive :
    (json_parser_exec json_host_nomem json_settings_ok json_parser_new []
      (List.replicate 17 91)).1 = 16 ∧
    (List.replicate 17 91).length = 17 ∧
    json_parser_isdead (json_parser_exec json_host_nomem json_settings_ok json_parser_new []
      (List.replicate 17 91)).2.1 = false := by
  decide

/-- C13, amended: for a chunk with `len > 0` given to a parser that is not
DEAD, with callbacks returning 0: the return value never exceeds `len`; when
it is `len` the parser is not DEAD afterwards; when the parser is DEAD
afterwards it is less than `len`; when it is less than `len` with the parser
not DEAD, the byte at the returned offset is a `{` or `[` for which `realloc`
failed; so where `realloc` does not fail the call returns `len` if and only
if the parser is not DEAD afterwards. -/
theorem exec_return_value (h : json_host) (jp : json_parser_t) (ctx : json_ctx)
    (buf : List Nat) (hlive : jp.jp_state ≠ s_dead) (hlen : buf ≠ []) :
    (json_parser_exec h json_settings_ok jp ctx buf).1 ≤ buf.length ∧
    ((json_parser_exec h json_settings_ok jp ctx buf).1 = buf.length →
      json_parser_isdead (json_parser_exec h json_settings_ok jp ctx buf).2.1 = false) ∧
    (json_parser_isdead (json_parser_exec h json_settings_ok jp ctx buf).2.1 = true →
      (json_parser_exec h json_settings_ok jp ctx buf).1 < buf.length) ∧
    (json_parser_isdead (json_parser_exec h json_settings_ok jp ctx buf).2.1 = false →
      (json_parser_exec h json_settings_ok jp ctx buf).1 < buf.length →
      (buf[(json_parser_exec h json_settings_ok jp ctx buf).1]? = some 123 ∨
        buf[(json_parser_exec h json_settings_ok jp ctx buf).1]? = some 91) ∧
      h.realloc_ok ((json_parser_exec h json_settings_ok jp ctx buf).2.1.jp_stackdepth
        + 16).toNat = false) ∧
    ((∀ n, h.realloc_ok n = true) →
      ((json_parser_exec h json_settings_ok jp ctx buf).1 = buf.length ↔
        json_parser_isdead (json_parser_exec h json_settings_ok jp ctx buf).2.1 = false)) := by
  have hne : buf.length ≠ 0 := fun h0 => hlen (List.length_eq_zero.mp h0)
  have hexec : json_parser_exec h json_settings_ok jp ctx buf =
      json_parser_exec_loop h json_settings_ok buf buf 0 jp ctx (json_parser_exec_mark jp) := by
    unfold json_parser_exec
    rw [if_neg hlive, if_neg hne]
  obtain ⟨_, i2, i3, i4⟩ := exec_loop_return h buf buf 0 jp ctx (json_parser_exec_mark jp) hlive
  rw [← hexec] at i2 i3 i4
  simp only [Nat.zero_add, Nat.sub_zero] at i2 i3 i4
  have hdead_iff : ∀ p : json_parser_t,
      (json_parser_isdead p = false ↔ p.jp_state ≠ s_dead) := by
    intro p
    simp [json_parser_isdead]
  have hA : (json_parser_exec h json_settings_ok jp ctx buf).1 = buf.length →
      json_parser_isdead (json_parser_exec h json_settings_ok jp ctx buf).2.1 = false :=
    fun heq => (hdead_iff _).mpr (i3 heq)
  have hD : json_parser_isdead (json_parser_exec h json_settings_ok jp ctx buf).2.1 = false →
      (json_parser_exec h json_settings_ok jp ctx buf).1 < buf.length →
      (buf[(json_parser_exec h json_settings_ok jp ctx buf).1]? = some 123 ∨
        buf[(json_parser_exec h json_settings_ok jp ctx buf).1]? = some 91) ∧
      h.realloc_ok ((json_parser_exec h json_settings_ok jp ctx buf).2.1.jp_stackdepth
        + 16).toNat = false :=
    fun hal hlt => i4 ((hdead_iff _).mp hal) hlt
  refine ⟨i2, hA, ?_, hD, ?_⟩
  · intro hd
    rcases Nat.lt_or_ge (json_parser_exec h json_settings_ok jp ctx buf).1 buf.length with hlt | hge
    · exact hlt
    · have := hA (le_antisymm i2 hge)
      rw [hd] at this
      cases this
  · intro hre
    refine ⟨hA, fun hal => ?_⟩
    rcases Nat.lt_or_ge (json_parser_exec h json_settings_ok jp ctx buf).1 buf.length with hlt | hge
    · have := (hD hal hlt).2
      rw [hre] at this
      cases this
    · exact le_antisymm i2 hge

/-- C13, amended, on the chunk `[1,]` given to a fresh parser: the call
returns 3, less than `len = 4`, and the parser is DEAD. -/
theorem exec_return_value_witness :
    (json_parser_exec json_host_c json_settings_ok json_parser_new [] [91, 49, 44, 93]).1 <
      [91, 49, 44, 93].length :=
  (exec_return_value json_host_c json_parser_new [] [91, 49, 44, 93] (by decide)
    (by decide)).2.2.1 (by decide)

/-! ## The state agrees with the stack -/

theorem top_depth (jp : json_parser_t) (htop : json_parser_top jp ≠ JSON_PARSER_NONE) :
    0 ≤ jp.jp_depth := by
  unfold json_parser_top at htop
  by_contra hneg
  rw [if_neg hneg] at htop
  exact htop rfl

/-- The state `st` asks nothing of the stack. -/
theorem frame_free (jp : json_parser_t) (st : json_parser_state)
    (h1 : st ≠ s_next) (h2 : json_state_in_object st = false) (h3 : st ≠ s_delim)
    (h4 : st ≠ s_done) : json_state_frame_ok { jp with jp_state := st } :=
  ⟨fun hx => absurd hx h1, fun hx => absurd hx (by simp [h2]), fun hx => absurd hx h3,
    fun hx => absurd hx h4⟩

/-- The state `st` is inside an object and an OBJECT frame is on top. -/
theorem frame_object (jp : json_parser_t) (st : json_parser_state)
    (htop : json_parser_top jp = JSON_PARSER_OBJECT)
    (h1 : st ≠ s_next) (h3 : st ≠ s_delim) (h4 : st ≠ s_done) :
    json_state_frame_ok { jp with jp_state := st } :=
  ⟨fun hx => absurd hx h1, fun _ => htop, fun hx => absurd hx h3, fun hx => absurd hx h4⟩

theorem frame_delim (jp : json_parser_t) (hd : 0 ≤ jp.jp_depth) :
    json_state_frame_ok { jp with jp_state := s_delim } :=
  ⟨fun hx => (by cases hx), fun hx => (by cases hx), fun _ => hd, fun hx => (by cases hx)⟩

theorem frame_after_value (jp : json_parser_t) (ctx : json_ctx) (hs : json_stack_inv jp ctx) :
    json_state_frame_ok { jp with jp_state := json_parser_next jp } := by
  refine ⟨fun hx => ?_, fun hx => ?_, fun hx => ?_, fun hx => next_done_depth jp ctx hs hx⟩
  · simp only [json_parser_next] at hx
    split_ifs at hx with h1 h2
    exact h1
  · simp only [json_parser_next] at hx
    split_ifs at hx with h1 h2 <;> first | exact h2 | cases hx
  · simp only [json_parser_next] at hx
    split_ifs at hx

theorem push_top (h : json_host) (jp : json_parser_t) (ctx : json_ctx) (t : Nat)
    (hs : json_stack_inv jp ctx) (hok : (json_parser_push h jp t).1 = 0) :
    json_parser_top (json_parser_push h jp t).2 = t := by
  obtain ⟨stack, st, depth, sd, uc⟩ := jp
  obtain ⟨h1, h2, h3, _, _⟩ := hs
  simp only at h1 h2 h3
  obtain ⟨n, rfl⟩ : ∃ n : Nat, depth = (n : Int) - 1 := ⟨(depth + 1).toNat, by omega⟩
  have e1 : ((n : Int) - 1 + 1).toNat = n := by omega
  have e0 : (n : Int) - 1 + 1 ≥ 0 := by omega
  revert hok
  unfold json_parser_push json_parser_top
  by_cases g1 : (n : Int) - 1 + 1 ≥ sd
  · rw [if_pos g1]
    by_cases g2 : h.realloc_ok (sd + 16).toNat = true
    · rw [if_pos g2]
      intro _
      dsimp only
      rw [if_pos e0, e1, List.getD_eq_getElem?_getD, List.getElem?_set_self (by simp; omega)]
      rfl
    · rw [if_neg g2]
      intro hx
      simp at hx
  · rw [if_neg g1]
    intro _
    dsimp only
    rw [if_pos e0, e1, List.getD_eq_getElem?_getD, List.getElem?_set_self (by omega)]
    rfl

theorem pop_result_frame (r : Int × json_parser_t × json_ctx) (mark : Option Nat)
    (hr : (r.1 ≠ 0 ∧ r.2.1.jp_state = s_dead) ∨ (r.1 = 0 ∧ json_stack_inv r.2.1 r.2.2)) :
    json_step_frame (if r.1 ≠ 0 then json_step.onerr r.2.1 r.2.2
      else json_step.next { r.2.1 with jp_state := json_parser_next r.2.1 } r.2.2 mark) := by
  rcases hr with ⟨h1, h2⟩ | ⟨h1, h2⟩
  · rw [if_pos h1]
    exact Or.inl h2
  · rw [if_neg (by simp [h1])]
    exact frame_after_value _ _ h2

theorem push_object_top (h : json_host) (jp : json_parser_t) (ctx : json_ctx)
    (hs : json_stack_inv jp ctx)
    (hok : (json_parser_push_object h jp json_settings_ok ctx).1 = 0) :
    json_parser_top (json_parser_push_object h jp json_settings_ok ctx).2.1 =
      JSON_PARSER_OBJECT := by
  revert hok
  unfold json_parser_push_object
  rcases push_cases h jp JSON_PARSER_OBJECT with ⟨hp, _⟩ | hp
  · rw [hp]
    intro hx
    simp at hx
  · have htop := push_top h jp ctx JSON_PARSER_OBJECT hs hp
    revert hp htop
    rcases json_parser_push h jp JSON_PARSER_OBJECT with ⟨rv, jp1⟩
    intro hp htop _
    simp only at hp htop
    subst hp
    simpa using htop

theorem push_object_frame (h : json_host) (jp : json_parser_t) (ctx : json_ctx)
    (mark : Option Nat) (hs : json_stack_inv jp ctx) (hf : json_state_frame_ok jp) :
    json_step_frame
      (if (json_parser_push_object h jp json_settings_ok ctx).1 ≠ 0
        then json_step.onerr (json_parser_push_object h jp json_settings_ok ctx).2.1
          (json_parser_push_object h jp json_settings_ok ctx).2.2
        else json_step.next
          { (json_parser_push_object h jp json_settings_ok ctx).2.1 with
            jp_state := s_object_start }
          (json_parser_push_object h jp json_settings_ok ctx).2.2 mark) := by
  rcases push_object_result h jp ctx hs with hp | ⟨h1, _⟩
  · rw [hp]
    dsimp only
    rw [if_pos (by decide)]
    exact Or.inr hf
  · rw [if_neg (by simp [h1])]
    exact frame_object _ _ (push_object_top h jp ctx hs h1)
      (fun hx => json_parser_state.noConfusion hx) (fun hx => json_parser_state.noConfusion hx)
      (fun hx => json_parser_state.noConfusion hx)

theorem push_array_frame (h : json_host) (jp : json_parser_t) (ctx : json_ctx)
    (mark : Option Nat) (hs : json_stack_inv jp ctx) (hf : json_state_frame_ok jp) :
    json_step_frame
      (if (json_parser_push_array h jp json_settings_ok ctx).1 = -1
        then json_step.onerr (json_parser_push_array h jp json_settings_ok ctx).2.1
          (json_parser_push_array h jp json_settings_ok ctx).2.2
        else json_step.next
          { (json_parser_push_array h jp json_settings_ok ctx).2.1 with jp_state := s_init }
          (json_parser_push_array h jp json_settings_ok ctx).2.2 mark) := by
  rcases push_array_result h jp ctx hs with hp | ⟨h1, _⟩
  · rw [hp]
    rw [if_pos rfl]
    exact Or.inr hf
  · rw [if_neg (by rw [h1]; decide)]
    exact frame_free _ _ (fun hx => json_parser_state.noConfusion hx) rfl
      (fun hx => json_parser_state.noConfusion hx) (fun hx => json_parser_state.noConfusion hx)

theorem init_frame (h : json_host) (data c : Nat) (jp : json_parser_t) (ctx : json_ctx)
    (mark : Option Nat) (hs : json_stack_inv jp ctx) (hf : json_state_frame_ok jp) :
    json_step_frame (json_parser_exec_init h json_settings_ok data c jp ctx mark) := by
  unfold json_parser_exec_init
  by_cases h1 : c = 123
  · rw [if_pos h1]
    exact push_object_frame h jp ctx mark hs hf
  rw [if_neg h1]
  by_cases h2 : c = 125
  · rw [if_pos h2]
    exact pop_result_frame _ mark (pop_object_result jp ctx hs)
  rw [if_neg h2]
  by_cases h3 : c = 91
  · rw [if_pos h3]
    exact push_array_frame h jp ctx mark hs hf
  rw [if_neg h3]
  by_cases h4 : c = 93
  · rw [if_pos h4]
    exact pop_result_frame _ mark (pop_array_result jp ctx hs)
  rw [if_neg h4]
  split_ifs <;>
    first
      | trivial
      | exact hf
      | exact frame_free jp _ (fun hx => json_parser_state.noConfusion hx) rfl
          (fun hx => json_parser_state.noConfusion hx)
          (fun hx => json_parser_state.noConfusion hx)

theorem object_ne_none : JSON_PARSER_OBJECT ≠ JSON_PARSER_NONE := by decide

theorem array_ne_none : JSON_PARSER_ARRAY ≠ JSON_PARSER_NONE := by decide

theorem number_end_frame (h : json_host) (jp : json_parser_t) (ctx : json_ctx)
    (buf : List Nat) (mark : Option Nat) (data c : Nat) (hs : json_stack_inv jp ctx)
    (hrv : (json_parser_number_end h jp json_settings_ok ctx buf mark data c).1 = 1) :
    json_state_frame_ok
      (json_parser_number_end h jp json_settings_ok ctx buf mark data c).2.1 := by
  revert hrv
  unfold json_parser_number_end
  obtain ⟨hn1, hn2⟩ := on_number_result jp ctx buf mark data hs
  revert hn1 hn2
  rcases json_parser_on_number json_settings_ok ctx buf mark data with ⟨rv, ctx1⟩
  intro hn1 hn2
  simp only at hn1 hn2
  subst hn1
  have hpo := pop_object_result jp ctx1 hn2
  have hpa := pop_array_result jp ctx1 hn2
  revert hpo hpa
  dsimp only
  rcases json_parser_pop_object jp json_settings_ok ctx1 with ⟨rv2, jp2, ctx2⟩
  rcases json_parser_pop_array jp json_settings_ok ctx1 with ⟨rv3, jp3, ctx3⟩
  intro hpo hpa
  simp only [ne_eq, not_true_eq_false, if_false, ok_returns_zero.2.2.2.2.2.2.2.2.2] at hpo hpa ⊢
  by_cases h1 : isspace h c = true
  · rw [if_pos h1]
    intro _
    exact frame_after_value jp ctx1 hn2
  rw [if_neg h1]
  by_cases h2 : c = 125
  · rw [if_pos h2]
    rcases hpo with ⟨g1, _⟩ | ⟨g1, g2⟩
    · rw [if_pos g1]
      intro hx
      simp at hx
    · rw [if_neg (not_not.mpr g1)]
      intro _
      exact frame_after_value jp2 ctx2 g2
  rw [if_neg h2]
  by_cases h3 : c = 93
  · rw [if_pos h3]
    rcases hpa with ⟨g1, _⟩ | ⟨g1, g2⟩
    · rw [if_pos g1]
      intro hx
      simp at hx
    · rw [if_neg (not_not.mpr g1)]
      intro _
      exact frame_after_value jp3 ctx3 g2
  rw [if_neg h3]
  by_cases h4 : c = 44
  · rw [if_pos h4]
    by_cases h5 : json_parser_top jp = JSON_PARSER_NONE
    · rw [if_pos h5]
      intro hx
      simp at hx
    · rw [if_neg h5]
      intro _
      by_cases h6 : json_parser_top jp = JSON_PARSER_OBJECT
      · rw [if_pos h6]
        exact frame_object jp _ h6 (fun hx => json_parser_state.noConfusion hx)
          (fun hx => json_parser_state.noConfusion hx)
          (fun hx => json_parser_state.noConfusion hx)
      · rw [if_neg h6]
        exact frame_delim jp (top_depth jp h5)
  rw [if_neg h4]
  intro hx
  simp at hx

theorem number_frame (h : json_host) (buf : List Nat) (data c : Nat) (jp : json_parser_t)
    (ctx : json_ctx) (mark : Option Nat) (rest : json_step)
    (hs : json_stack_inv jp ctx) (hrest : json_step_frame rest) :
    json_step_frame (json_parser_exec_number h json_settings_ok buf data c jp ctx mark rest) := by
  unfold json_parser_exec_number
  have hres := number_end_result h jp ctx buf mark data c hs
  have hfr := number_end_frame h jp ctx buf mark data c hs
  revert hres hfr
  rcases json_parser_number_end h jp json_settings_ok ctx buf mark data c with ⟨rv, jp1, ctx1⟩
  intro hres hfr
  simp only [Prod.mk.injEq] at hres hfr
  dsimp only
  rcases hres with ⟨g1, _, _⟩ | ⟨g1, g2⟩ | ⟨g1, _⟩
  · subst g1
    simpa using hrest
  · subst g1
    rw [if_pos rfl]
    exact Or.inl g2
  · subst g1
    rw [if_neg (by decide), if_pos rfl]
    exact hfr rfl

theorem string_frame (h : json_host) (buf : List Nat) (data c : Nat) (jp : json_parser_t)
    (ctx : json_ctx) (mark : Option Nat)
    (hs : json_stack_inv jp ctx) (hf : json_state_frame_ok jp) :
    json_step_frame (json_parser_exec_string h json_settings_ok buf data c jp ctx mark) := by
  unfold json_parser_exec_string
  simp only [ok_returns_zero.2.2.2.1, ne_eq, not_true_eq_false, if_false]
  split_ifs <;>
    first
      | exact hf
      | trivial
      | exact frame_after_value jp ctx hs
      | exact frame_free jp _ (fun hx => json_parser_state.noConfusion hx) rfl
          (fun hx => json_parser_state.noConfusion hx)
          (fun hx => json_parser_state.noConfusion hx)

theorem object_key_frame (h : json_host) (buf : List Nat) (data c : Nat) (jp : json_parser_t)
    (ctx : json_ctx) (mark : Option Nat)
    (htop : json_parser_top jp = JSON_PARSER_OBJECT) (hf : json_state_frame_ok jp) :
    json_step_frame (json_parser_exec_object_key h json_settings_ok buf data c jp ctx mark) := by
  unfold json_parser_exec_object_key
  simp only [ok_returns_zero.2.2.2.2.2.1, ne_eq, not_true_eq_false, if_false]
  split_ifs <;>
    first
      | exact hf
      | trivial
      | exact frame_object jp _ htop (fun hx => json_parser_state.noConfusion hx)
          (fun hx => json_parser_state.noConfusion hx)
          (fun hx => json_parser_state.noConfusion hx)

set_option maxHeartbeats 2000000 in
/-- One iteration of the loop keeps the state in agreement with the stack
when every callback returns 0. -/
theorem exec_byte_frame (h : json_host) (buf : List Nat) (data c : Nat) (jp : json_parser_t)
    (ctx : json_ctx) (mark : Option Nat)
    (hs : json_stack_inv jp ctx) (hf : json_state_frame_ok jp) :
    json_step_frame (json_parser_exec_byte h json_settings_ok buf data c jp ctx mark) := by
  obtain ⟨z1, z2, z3, z4, z5, z6, z7, z8, z9, z10⟩ := ok_returns_zero
  have hnext := hf.1
  have hobj := hf.2.1
  unfold json_parser_exec_byte
  cases hst : jp.jp_state <;> rw [hst] at hnext hobj <;> dsimp only
  case s_dead => exact Or.inr hf
  case s_init => exact init_frame h data c jp ctx mark hs hf
  case s_delim =>
    split_ifs
    · trivial
    · exact init_frame h data c jp ctx mark hs hf
  case s_next =>
    by_cases h1 : isspace h c = true
    · rw [if_pos h1]
      exact hf
    rw [if_neg h1]
    by_cases h2 : c = 44
    · rw [if_pos h2]
      simp only [z10, ne_eq, not_true_eq_false, if_false]
      exact frame_delim jp (top_depth jp (ne_of_eq_of_ne (hnext rfl) array_ne_none))
    rw [if_neg h2]
    by_cases h3 : c = 125
    · rw [if_pos h3]
      exact pop_result_frame _ mark (pop_object_result jp ctx hs)
    rw [if_neg h3]
    by_cases h4 : c = 93
    · rw [if_pos h4]
      exact pop_result_frame _ mark (pop_array_result jp ctx hs)
    rw [if_neg h4]
    trivial
  case s_object_key_start =>
    simp only [z6, ne_eq, not_true_eq_false, if_false]
    split_ifs
    · exact frame_object jp _ (hobj rfl) (fun hx => json_parser_state.noConfusion hx)
        (fun hx => json_parser_state.noConfusion hx)
        (fun hx => json_parser_state.noConfusion hx)
    · exact object_key_frame h buf data c _ ctx _ (hobj rfl)
        (frame_object jp _ (hobj rfl) (fun hx => json_parser_state.noConfusion hx)
          (fun hx => json_parser_state.noConfusion hx)
          (fun hx => json_parser_state.noConfusion hx))
  case s_object_key_mark =>
    exact object_key_frame h buf data c _ ctx _ (hobj rfl)
      (frame_object jp _ (hobj rfl) (fun hx => json_parser_state.noConfusion hx)
        (fun hx => json_parser_state.noConfusion hx)
        (fun hx => json_parser_state.noConfusion hx))
  case s_object_key => exact object_key_frame h buf data c jp ctx mark (hobj rfl) hf
  case s_string_start =>
    simp only [z4, ne_eq, not_true_eq_false, if_false]
    split_ifs
    · exact frame_after_value jp ctx hs
    · exact string_frame h buf data c _ ctx _ (stack_inv_keep jp _ ctx hs rfl rfl rfl)
        (frame_free jp _ (fun hx => json_parser_state.noConfusion hx) rfl
          (fun hx => json_parser_state.noConfusion hx)
          (fun hx => json_parser_state.noConfusion hx))
  case s_string_mark =>
    exact string_frame h buf data c _ ctx _ (stack_inv_keep jp _ ctx hs rfl rfl rfl)
      (frame_free jp _ (fun hx => json_parser_state.noConfusion hx) rfl
        (fun hx => json_parser_state.noConfusion hx)
        (fun hx => json_parser_state.noConfusion hx))
  case s_string => exact string_frame h buf data c jp ctx mark hs hf
  case s_number_zero =>
    refine number_frame h buf data c jp ctx mark _ hs ?_
    split_ifs <;>
      first
        | exact hf
        | trivial
        | exact frame_free jp _ (fun hx => json_parser_state.noConfusion hx) rfl
            (fun hx => json_parser_state.noConfusion hx)
            (fun hx => json_parser_state.noConfusion hx)
  case s_number =>
    refine number_frame h buf data c jp ctx mark _ hs ?_
    split_ifs <;>
      first
        | exact hf
        | trivial
        | exact frame_free jp _ (fun hx => json_parser_state.noConfusion hx) rfl
            (fun hx => json_parser_state.noConfusion hx)
            (fun hx => json_parser_state.noConfusion hx)
  case s_number_decimals =>
    refine number_frame h buf data c jp ctx mark _ hs ?_
    split_ifs <;>
      first
        | exact hf
        | trivial
        | exact frame_free jp _ (fun hx => json_parser_state.noConfusion hx) rfl
            (fun hx => json_parser_state.noConfusion hx)
            (fun hx => json_parser_state.noConfusion hx)
  case s_number_e_digits =>
    refine number_frame h buf data c jp ctx mark _ hs ?_
    split_ifs <;> first | exact hf | trivial
  all_goals
    try simp only [z1, z2, z3, z4, z5, z6, z7, z8, z9, z10, ne_eq, not_true_eq_false, if_false]
    split_ifs
    all_goals first
      | exact hf
      | trivial
      | exact frame_after_value jp ctx hs
      | exact pop_result_frame _ mark (pop_object_result jp ctx hs)
      | exact frame_free jp _ (fun hx => json_parser_state.noConfusion hx) rfl
          (fun hx => json_parser_state.noConfusion hx)
          (fun hx => json_parser_state.noConfusion hx)
      | exact frame_object jp _ (hobj rfl) (fun hx => json_parser_state.noConfusion hx)
          (fun hx => json_parser_state.noConfusion hx)
          (fun hx => json_parser_state.noConfusion hx)
      | exact frame_delim jp (top_depth jp (ne_of_eq_of_ne (hobj rfl) object_ne_none))

theorem exec_loop_of_dead (h : json_host) (settings : json_parser_settings)
    (buf rest : List Nat) (data : Nat) (jp : json_parser_t) (ctx : json_ctx)
    (mark : Option Nat) (hdead : jp.jp_state = s_dead) :
    (json_parser_exec_loop h settings buf rest data jp ctx mark).2.1.jp_state = s_dead := by
  cases rest with
  | nil =>
    simp only [json_parser_exec_loop]
    unfold json_parser_exec_end
    rw [hdead]
    exact hdead
  | cons c rest =>
    simp only [json_parser_exec_loop]
    unfold json_parser_exec_byte
    rw [hdead]
    exact hdead

theorem exec_loop_inv2 (h : json_host) (buf rest : List Nat) (data : Nat) (jp : json_parser_t)
    (ctx : json_ctx) (mark : Option Nat) (hinv : json_parser_inv2 jp ctx) :
    json_parser_inv2 (json_parser_exec_loop h json_settings_ok buf rest data jp ctx mark).2.1
      (json_parser_exec_loop h json_settings_ok buf rest data jp ctx mark).2.2 := by
  induction rest generalizing data jp ctx mark with
  | nil =>
    rcases hinv with hdead | ⟨hs, hf⟩
    · exact Or.inl (exec_loop_of_dead h json_settings_ok buf [] data jp ctx mark hdead)
    · simp only [json_parser_exec_loop]
      have hinv1 := exec_end_inv buf data jp ctx mark (Or.inr ⟨hs, hf.2.2.2⟩)
      rw [(exec_end_ok buf data jp ctx mark).2] at hinv1 ⊢
      rcases hinv1 with hdead | ⟨hs1, _⟩
      · exact Or.inl hdead
      · exact Or.inr ⟨hs1, hf⟩
  | cons c rest ih =>
    rcases hinv with hdead | ⟨hs, hf⟩
    · exact Or.inl (exec_loop_of_dead h json_settings_ok buf (c :: rest) data jp ctx mark hdead)
    · have h1 := exec_byte_inv h buf data c jp ctx mark (Or.inr ⟨hs, hf.2.2.2⟩)
      have h2 := exec_byte_frame h buf data c jp ctx mark hs hf
      simp only [json_parser_exec_loop]
      cases hb : json_parser_exec_byte h json_settings_ok buf data c jp ctx mark with
      | next jp1 ctx1 mark1 =>
        rw [hb] at h1 h2
        refine ih (data + 1) jp1 ctx1 mark1 ?_
        rcases h1 with hdead | ⟨hs1, _⟩
        · exact Or.inl hdead
        · exact Or.inr ⟨hs1, h2⟩
      | die jp1 ctx1 => exact Or.inl rfl
      | onerr jp1 ctx1 =>
        rw [hb] at h1 h2
        rcases h1 with hdead | ⟨hs1, _⟩
        · exact Or.inl hdead
        · rcases h2 with hdead | h2
          · exact Or.inl hdead
          · exact Or.inr ⟨hs1, h2⟩

theorem exec_inv2 (h : json_host) (buf : List Nat) (jp : json_parser_t) (ctx : json_ctx)
    (hinv : json_parser_inv2 jp ctx) :
    json_parser_inv2 (json_parser_exec h json_settings_ok jp ctx buf).2.1
      (json_parser_exec h json_settings_ok jp ctx buf).2.2 := by
  unfold json_parser_exec
  by_cases hdead : jp.jp_state = s_dead
  · rw [if_pos hdead]
    exact hinv
  rw [if_neg hdead]
  by_cases hlen : buf.length = 0
  · rw [if_pos hlen]
    cases hst : jp.jp_state <;> dsimp only <;>
      first
        | exact Or.inl rfl
        | exact hinv
  · rw [if_neg hlen]
    exact exec_loop_inv2 h buf buf 0 jp ctx _ hinv

theorem feed_inv2 (h : json_host) (chunks : List (List Nat)) (jp : json_parser_t)
    (ctx : json_ctx) (hinv : json_parser_inv2 jp ctx) :
    json_parser_inv2 (json_parser_feed h json_settings_ok jp ctx chunks).1
      (json_parser_feed h json_settings_ok jp ctx chunks).2 := by
  induction chunks generalizing jp ctx with
  | nil => exact hinv
  | cons buf rest ih =>
    simp only [json_parser_feed]
    exact ih _ _ (exec_inv2 h buf jp ctx hinv)

theorem new_inv2 : json_parser_inv2 json_parser_new [] := by
  rcases new_inv with hdead | ⟨hs, _⟩
  · cases hdead
  · exact Or.inr ⟨hs, fun hx => (by cases hx), fun hx => (by cases hx),
      fun hx => (by cases hx), fun _ => rfl⟩

/-- C16: whatever chunks a fresh parser has been given, on any host, with
callbacks returning 0: if it is not DEAD, then state NEXT has an ARRAY frame
on top; the states OBJECT_START, OBJECT_NEXT, OBJECT, OBJECT_KEY_* and
OBJECT_KEY_END have an OBJECT frame on top; state DELIM has a non-empty
stack; state DONE has an empty stack (depth -1); and the depth is at least -1
and below the capacity of the stack. -/
theorem reachable_state_frame (h : json_host) (chunks : List (List Nat))
    (hlive : json_parser_isdead
      (json_parser_feed h json_settings_ok json_parser_new [] chunks).1 = false) :
    ((json_parser_feed h json_settings_ok json_parser_new [] chunks).1.jp_state = s_next →
      json_parser_top (json_parser_feed h json_settings_ok json_parser_new [] chunks).1 =
        JSON_PARSER_ARRAY) ∧
    (json_state_in_object
        (json_parser_feed h json_settings_ok json_parser_new [] chunks).1.jp_state = true →
      json_parser_top (json_parser_feed h json_settings_ok json_parser_new [] chunks).1 =
        JSON_PARSER_OBJECT) ∧
    ((json_parser_feed h json_settings_ok json_parser_new [] chunks).1.jp_state = s_delim →
      0 ≤ (json_parser_feed h json_settings_ok json_parser_new [] chunks).1.jp_depth) ∧
    ((json_parser_feed h json_settings_ok json_parser_new [] chunks).1.jp_state = s_done →
      (json_parser_feed h json_settings_ok json_parser_new [] chunks).1.jp_depth = -1) ∧
    -1 ≤ (json_parser_feed h json_settings_ok json_parser_new [] chunks).1.jp_depth ∧
    (json_parser_feed h json_settings_ok json_parser_new [] chunks).1.jp_depth <
      (json_parser_feed h json_settings_ok json_parser_new [] chunks).1.jp_stackdepth := by
  rcases feed_inv2 h chunks json_parser_new [] new_inv2 with hdead | ⟨hs, hf⟩
  · simp [json_parser_isdead, hdead] at hlive
  · refine ⟨hf.1, hf.2.1, hf.2.2.1, hf.2.2.2, hs.depth_ge, ?_⟩
    have h1 := hs.depth_lt
    have h2 := hs.cap
    omega

/-- C16 after the chunk `{"a"` given to a fresh parser: the parser is not
DEAD, it is in state OBJECT_KEY_END, and it has an OBJECT frame on top. -/
theorem reachable_state_frame_witness :
    json_parser_isdead (json_parser_feed json_host_c json_settings_ok json_parser_new []
      [[123, 34, 97, 34]]).1 = false ∧
    json_parser_top (json_parser_feed json_host_c json_settings_ok json_parser_new []
      [[123, 34, 97, 34]]).1 = JSON_PARSER_OBJECT :=
  ⟨by decide,
   (reachable_state_frame json_host_c [[123, 34, 97, 34]] (by decide)).2.1 (by decide)⟩

/-! ## No trailing comma -/

theorem delim_closer (h : json_host) (settings : json_parser_settings) (buf : List Nat)
    (data c : Nat) (jp : json_parser_t) (ctx : json_ctx) (mark : Option Nat)
    (hst : jp.jp_state = s_delim) (hc : c = 125 ∨ c = 93) :
    json_parser_exec_byte h settings buf data c jp ctx mark = json_step.die jp ctx := by
  unfold json_parser_exec_byte
  rw [hst]
  dsimp only
  rw [if_pos hc]

theorem object_other (h : json_host) (settings : json_parser_settings) (buf : List Nat)
    (data c : Nat) (jp : json_parser_t) (ctx : json_ctx) (mark : Option Nat)
    (hst : jp.jp_state = s_object) (hsp : isspace h c = false) (hc : c ≠ 34) :
    json_parser_exec_byte h settings buf data c jp ctx mark = json_step.die jp ctx := by
  unfold json_parser_exec_byte
  rw [hst]
  dsimp only
  rw [hsp, if_neg (by decide), if_pos hc]

theorem space_ascii (h : json_host) (c : Nat) (hsp : isspace h c = true) :
    c = 32 ∨ (9 ≤ c ∧ c ≤ 13) ∨ 128 ≤ c := by
  simp only [isspace, Bool.or_eq_true, Bool.and_eq_true, beq_iff_eq, decide_eq_true_eq] at hsp
  rcases hsp with (h1 | h1) | h1
  · exact Or.inl h1
  · exact Or.inr (Or.inl h1)
  · exact Or.inr (Or.inr h1.1)

theorem init_space (h : json_host) (settings : json_parser_settings)
    (data c : Nat) (jp : json_parser_t) (ctx : json_ctx) (mark : Option Nat)
    (hsp : isspace h c = true) :
    json_parser_exec_init h settings data c jp ctx mark = json_step.next jp ctx mark := by
  have ha := space_ascii h c hsp
  unfold json_parser_exec_init
  rw [if_neg (show ¬c = 123 by omega), if_neg (show ¬c = 125 by omega),
    if_neg (show ¬c = 91 by omega), if_neg (show ¬c = 93 by omega),
    if_neg (show ¬c = 110 by omega), if_neg (show ¬c = 116 by omega),
    if_neg (show ¬c = 102 by omega), if_neg (show ¬c = 34 by omega),
    if_neg (show ¬c = 45 by omega), if_neg (show ¬c = 48 by omega), if_pos hsp]

theorem awaits_space (h : json_host) (settings : json_parser_settings) (buf : List Nat)
    (data c : Nat) (jp : json_parser_t) (ctx : json_ctx) (mark : Option Nat)
    (hst : jp.jp_state = s_delim ∨ jp.jp_state = s_object) (hsp : isspace h c = true) :
    json_parser_exec_byte h settings buf data c jp ctx mark = json_step.next jp ctx mark := by
  have ha := space_ascii h c hsp
  unfold json_parser_exec_byte
  rcases hst with hst | hst
  · rw [hst]
    dsimp only
    rw [if_neg (by omega)]
    exact init_space h settings data c jp ctx mark hsp
  · rw [hst]
    dsimp only
    rw [if_pos hsp]

theorem awaits_closer (h : json_host) (settings : json_parser_settings) (buf : List Nat)
    (data c : Nat) (jp : json_parser_t) (ctx : json_ctx) (mark : Option Nat)
    (hst : jp.jp_state = s_delim ∨ jp.jp_state = s_object) (hc : c = 93 ∨ c = 125) :
    json_parser_exec_byte h settings buf data c jp ctx mark = json_step.die jp ctx := by
  rcases hst with hst | hst
  · exact delim_closer h settings buf data c jp ctx mark hst (by omega)
  · refine object_other h settings buf data c jp ctx mark hst ?_ (by omega)
    rcases hc with rfl | rfl <;> simp [isspace]

theorem awaits_loop (h : json_host) (settings : json_parser_settings) (buf rest : List Nat)
    (data : Nat) (jp : json_parser_t) (ctx : json_ctx) (mark : Option Nat)
    (hst : jp.jp_state = s_delim ∨ jp.jp_state = s_object) :
    (json_first_nonspace h rest = none →
      (json_parser_exec_loop h settings buf rest data jp ctx mark).2.1 = jp) ∧
    (∀ closer, json_first_nonspace h rest = some closer → (closer = 93 ∨ closer = 125) →
      (json_parser_exec_loop h settings buf rest data jp ctx mark).2.1.jp_state = s_dead) := by
  induction rest generalizing data mark with
  | nil =>
    refine ⟨fun _ => ?_, fun closer hx => ?_⟩
    · simp only [json_parser_exec_loop]
      unfold json_parser_exec_end
      rcases hst with hst | hst <;> rw [hst]
    · simp [json_first_nonspace] at hx
  | cons c rest ih =>
    by_cases hsp : isspace h c = true
    · have hstep := awaits_space h settings buf data c jp ctx mark hst hsp
      have hfind : json_first_nonspace h (c :: rest) = json_first_nonspace h rest := by
        simp [json_first_nonspace, hsp]
      simp only [json_parser_exec_loop, hstep, hfind]
      exact ih (data + 1) mark
    · have hfind : json_first_nonspace h (c :: rest) = some c := by
        simp [json_first_nonspace, hsp]
      rw [hfind]
      refine ⟨fun hx => (by cases hx), fun closer hx hc => ?_⟩
      cases hx
      simp only [json_parser_exec_loop, awaits_closer h settings buf data c jp ctx mark hst hc]

theorem awaits_exec (h : json_host) (settings : json_parser_settings) (buf : List Nat)
    (jp : json_parser_t) (ctx : json_ctx)
    (hst : jp.jp_state = s_delim ∨ jp.jp_state = s_object) :
    (json_first_nonspace h buf = none →
      (json_parser_exec h settings jp ctx buf).2.1.jp_state = s_dead ∨
      (json_parser_exec h settings jp ctx buf).2.1 = jp) ∧
    (∀ closer, json_first_nonspace h buf = some closer → (closer = 93 ∨ closer = 125) →
      (json_parser_exec h settings jp ctx buf).2.1.jp_state = s_dead) := by
  have hlive : jp.jp_state ≠ s_dead := by
    rcases hst with hst | hst <;> rw [hst] <;> intro hx <;> cases hx
  unfold json_parser_exec
  rw [if_neg hlive]
  by_cases hlen : buf.length = 0
  · rw [if_pos hlen]
    have hnil : buf = [] := List.length_eq_zero.mp hlen
    subst hnil
    refine ⟨fun _ => Or.inl ?_, fun closer hx => ?_⟩
    · rcases hst with hst | hst <;> rw [hst]
    · simp [json_first_nonspace] at hx
  · rw [if_neg hlen]
    obtain ⟨h1, h2⟩ := awaits_loop h settings buf buf 0 jp ctx (json_parser_exec_mark jp) hst
    exact ⟨fun hx => Or.inr (h1 hx), h2⟩

theorem first_nonspace_append (h : json_host) (a b : List Nat) :
    json_first_nonspace h (a ++ b) =
      match json_first_nonspace h a with
      | some x => some x
      | none => json_first_nonspace h b := by
  unfold json_first_nonspace
  rw [List.find?_append]
  cases List.find? (fun c => !isspace h c) a <;> rfl

theorem awaits_feed (h : json_host) (settings : json_parser_settings)
    (chunks : List (List Nat)) (jp : json_parser_t) (ctx : json_ctx) (closer : Nat)
    (hst : jp.jp_state = s_dead ∨ jp.jp_state = s_delim ∨ jp.jp_state = s_object)
    (hfind : json_first_nonspace h chunks.flatten = some closer)
    (hc : closer = 93 ∨ closer = 125) :
    (json_parser_feed h settings jp ctx chunks).1.jp_state = s_dead := by
  induction chunks generalizing jp ctx with
  | nil => simp [json_first_nonspace] at hfind
  | cons buf rest ih =>
    rcases hst with hdead | hst
    · rw [feed_of_dead h settings jp ctx _ hdead]
      exact hdead
    · simp only [json_parser_feed]
      rw [List.flatten_cons, first_nonspace_append] at hfind
      obtain ⟨h1, h2⟩ := awaits_exec h settings buf jp ctx hst
      cases hb : json_first_nonspace h buf with
      | some x =>
        rw [hb] at hfind
        have hx : x = closer := Option.some.inj hfind
        rw [hx] at hb
        rw [feed_of_dead h settings _ _ _ (h2 closer hb hc)]
        exact h2 closer hb hc
      | none =>
        rw [hb] at hfind
        rcases h1 hb with hdead | hsame
        · exact ih _ _ (Or.inl hdead) hfind
        · refine ih _ _ (Or.inr ?_) hfind
          rw [hsame]
          exact hst

set_option maxHeartbeats 2000000 in
theorem comma_step (h : json_host) (buf : List Nat) (data : Nat) (jp : json_parser_t)
    (ctx : json_ctx) (mark : Option Nat)
    (hs : json_state_in_string jp.jp_state = false)
    (hk : json_state_in_key jp.jp_state = false) :
    json_step_awaits (json_parser_exec_byte h json_settings_ok buf data 44 jp ctx mark) := by
  obtain ⟨_, _, _, _, _, _, _, _, _, z10⟩ := ok_returns_zero
  have hne : json_step_awaits
      (json_parser_exec_number h json_settings_ok buf data 44 jp ctx mark
        (json_step.die jp ctx)) := by
    unfold json_parser_exec_number
    by_cases htop : json_parser_top jp = JSON_PARSER_NONE
    · rw [number_end_comma_empty h json_settings_ok jp ctx buf mark data htop]
      rfl
    · rw [number_end_comma_frame h jp ctx buf mark data htop]
      dsimp only
      rw [if_neg (by decide), if_pos rfl]
      by_cases ho : json_parser_top jp = JSON_PARSER_OBJECT
      · rw [if_pos ho]; exact Or.inr rfl
      · rw [if_neg ho]; exact Or.inl rfl
  unfold json_parser_exec_byte
  cases hst : jp.jp_state <;> rw [hst] at hs hk <;>
    first
      | exact Bool.noConfusion hs
      | exact Bool.noConfusion hk
      | exact hst
      | (simp [json_step_awaits, json_parser_exec_init, isspace, isdigit, json_parser_echar,
          json_parser_uchar, z10]; done)
      | (simpa [isdigit] using hne)

theorem isdead_of_state (jp : json_parser_t) (hdead : jp.jp_state = s_dead) :
    json_parser_isdead jp = true := by
  simp [json_parser_isdead, hdead]

theorem isdead_feed (h : json_host) (settings : json_parser_settings) (jp : json_parser_t)
    (ctx : json_ctx) (chunks : List (List Nat)) (hdead : jp.jp_state = s_dead) :
    json_parser_isdead (json_parser_feed h settings jp ctx chunks).1 = true := by
  rw [feed_of_dead h settings jp ctx chunks hdead]
  exact isdead_of_state jp hdead

/-- C17: no trailing comma.  In state DELIM the bytes `}` and `]` end the
call with the parser DEAD and the history unchanged, and so does in state
OBJECT every byte that is neither whitespace nor a double quote (any
callbacks, any host).  Consequently, with callbacks returning 0: when the
loop meets a `,` in a state outside a string or key body, and the first
non-whitespace byte after it, in the rest of this chunk or in the chunks
that follow, however the bytes are cut, is `]` or `}`, the parser is DEAD
afterwards; so it is after `[1,]` and after `{"a":1,` followed by `}`. -/
theorem no_trailing_comma (h : json_host) (settings : json_parser_settings)
    (buf rest : List Nat) (data c : Nat) (jp : json_parser_t) (ctx : json_ctx)
    (mark : Option Nat) (tail : List Nat) (chunks : List (List Nat)) (closer : Nat) :
    (jp.jp_state = s_delim → (c = 125 ∨ c = 93) →
      json_parser_exec_loop h settings buf (c :: rest) data jp ctx mark =
        (data, { jp with jp_state := s_dead }, ctx)) ∧
    (jp.jp_state = s_object → isspace h c = false → c ≠ 34 →
      json_parser_exec_loop h settings buf (c :: rest) data jp ctx mark =
        (data, { jp with jp_state := s_dead }, ctx)) ∧
    (json_state_in_string jp.jp_state = false → json_state_in_key jp.jp_state = false →
      json_first_nonspace h (tail ++ chunks.flatten) = some closer →
      (closer = 93 ∨ closer = 125) →
      json_parser_isdead (json_parser_feed h json_settings_ok
        (json_parser_exec_loop h json_settings_ok buf (44 :: tail) data jp ctx mark).2.1
        (json_parser_exec_loop h json_settings_ok buf (44 :: tail) data jp ctx mark).2.2
        chunks).1 = true) ∧
    json_parser_isdead (json_parser_feed json_host_c json_settings_ok json_parser_new []
      [[91, 49, 44, 93]]).1 = true ∧
    json_parser_isdead (json_parser_feed json_host_c json_settings_ok json_parser_new []
      [[123, 34, 97, 34, 58, 49, 44], [125]]).1 = true := by
  refine ⟨fun hst hc => ?_, fun hst hsp hc => ?_, fun hs hk hfind hc => ?_, by decide,
    by decide⟩
  · simp only [json_parser_exec_loop, delim_closer h settings buf data c jp ctx mark hst hc]
  · simp only [json_parser_exec_loop, object_other h settings buf data c jp ctx mark hst hsp hc]
  · have hstep := comma_step h buf data jp ctx mark hs hk
    simp only [json_parser_exec_loop]
    cases hb : json_parser_exec_byte h json_settings_ok buf data 44 jp ctx mark with
    | next jp1 ctx1 mark1 =>
      rw [hb] at hstep
      dsimp only
      rw [first_nonspace_append] at hfind
      obtain ⟨h1, h2⟩ :=
        awaits_loop h json_settings_ok buf tail (data + 1) jp1 ctx1 mark1 hstep
      cases ht : json_first_nonspace h tail with
      | some x =>
        rw [ht] at hfind
        have hx : x = closer := Option.some.inj hfind
        rw [hx] at ht
        exact isdead_feed h json_settings_ok _ _ chunks (h2 closer ht hc)
      | none =>
        rw [ht] at hfind
        refine isdead_of_state _ (awaits_feed h json_settings_ok chunks _ _ closer ?_ hfind hc)
        rw [h1 ht]
        exact Or.inr hstep
    | die jp1 ctx1 => exact isdead_feed h json_settings_ok _ _ chunks rfl
    | onerr jp1 ctx1 =>
      rw [hb] at hstep
      exact isdead_feed h json_settings_ok _ _ chunks hstep

/-- C17 on `[1, ]` cut after the blank: the loop is at the `,` (offset 2 of
the chunk `[1, `) in state NUM, the next chunk is `]`, and the parser is
DEAD afterwards. -/
theorem no_trailing_comma_witness :
    json_parser_isdead (json_parser_feed json_host_c json_settings_ok
      (json_parser_exec_loop json_host_c json_settings_ok [91, 49, 44, 32] [44, 32] 2
        { json_parser_new with
          jp_stack := 91 :: List.replicate 15 0, jp_state := s_number, jp_depth := 0 }
        [json_event.on_array_start] (some 1)).2.1
      (json_parser_exec_loop json_host_c json_settings_ok [91, 49, 44, 32] [44, 32] 2
        { json_parser_new with
          jp_stack := 91 :: List.replicate 15 0, jp_state := s_number, jp_depth := 0 }
        [json_event.on_array_start] (some 1)).2.2
      [[93]]).1 = true :=
  (no_trailing_comma json_host_c json_settings_ok [91, 49, 44, 32] [] 2 0
    { json_parser_new with
      jp_stack := 91 :: List.replicate 15 0, jp_state := s_number, jp_depth := 0 }
    [json_event.on_array_start] (some 1) [32] [[93]] 93).2.2.1 rfl rfl (by decide) (by decide)

/-! ## Raw runs and single-character escapes -/

theorem escape_letters (c v : Nat) (hv : spec_escape_value c = some v) :
    json_parser_echar c = (v : Int) ∧ json_parser_echar c ≠ 117 ∧ json_parser_echar c ≠ -1 := by
  unfold spec_escape_value at hv
  unfold json_parser_echar
  split_ifs at hv with h1 h2 h3 h4 h5 h6 h7 h8 <;> cases hv <;> subst_vars <;> decide

theorem slices_run_flatten (run : List Nat) (body : List spec_body_item) :
    (spec_body_slices_run run body).flatten = run ++ spec_body_value body := by
  induction body generalizing run with
  | nil =>
    by_cases hr : run = []
    · simp [spec_body_slices_run, spec_body_value, hr]
    · simp [spec_body_slices_run, spec_body_value, hr]
  | cons it rest ih =>
    cases it with
    | raw c => simp [spec_body_slices_run, spec_body_value, ih]
    | esc c =>
      by_cases hr : run = []
      · simp [spec_body_slices_run, spec_body_value, ih, hr]
      · simp [spec_body_slices_run, spec_body_value, ih, hr]

theorem span_run (buf run more : List Nat) (m : Nat) (hbuf : buf.drop m = run ++ more) :
    json_span buf (some m) (m + run.length) = some run := by
  unfold json_span
  simp [hbuf]

theorem drop_after (buf pre more : List Nat) (m : Nat) (hbuf : buf.drop m = pre ++ more) :
    buf.drop (m + pre.length) = more := by
  rw [← List.drop_drop, hbuf]
  simp

theorem string_close_byte (h : json_host) (buf : List Nat) (data : Nat) (jp : json_parser_t)
    (ctx : json_ctx) (mark : Option Nat) :
    json_parser_exec_string h json_settings_ok buf data 34 jp ctx mark =
      if mark ≠ some data then
        json_step.next { jp with jp_state := json_parser_next jp }
          (ctx ++ [json_event.on_string (json_span buf mark data)]) mark
      else json_step.next { jp with jp_state := json_parser_next jp } ctx mark := by
  unfold json_parser_exec_string
  rw [if_neg (by decide), if_pos rfl]
  simp only [ok_returns_zero.2.2.2.1, ne_eq, not_true_eq_false, if_false]

theorem string_backslash_byte (h : json_host) (buf : List Nat) (data : Nat)
    (jp : json_parser_t) (ctx : json_ctx) (mark : Option Nat) :
    json_parser_exec_string h json_settings_ok buf data 92 jp ctx mark =
      if mark ≠ some data then
        json_step.next { jp with jp_state := s_string_escape }
          (ctx ++ [json_event.on_string (json_span buf mark data)]) mark
      else json_step.next { jp with jp_state := s_string_escape } ctx mark := by
  unfold json_parser_exec_string
  rw [if_pos rfl]
  simp only [ok_returns_zero.2.2.2.1, ne_eq, not_true_eq_false, if_false]

theorem string_escape_byte (h : json_host) (buf : List Nat) (data c v : Nat)
    (jp : json_parser_t) (ctx : json_ctx) (mark : Option Nat)
    (hst : jp.jp_state = s_string_escape) (hv : spec_escape_value c = some v) :
    json_parser_exec_byte h json_settings_ok buf data c jp ctx mark =
      json_step.next { jp with jp_state := s_string_mark }
        (ctx ++ [json_event.on_string (some [v])]) mark := by
  obtain ⟨e1, e2, e3⟩ := escape_letters c v hv
  unfold json_parser_exec_byte
  rw [hst]
  dsimp only
  rw [if_neg e2, if_neg e3]
  simp only [ok_returns_zero.2.2.2.1, ne_eq, not_true_eq_false, if_false, e1, Int.toNat_ofNat]

theorem next_of_state (jp : json_parser_t) (st : json_parser_state) :
    json_parser_next { jp with jp_state := st } = json_parser_next jp := rfl

theorem string_mark_step (h : json_host) (settings : json_parser_settings) (buf : List Nat)
    (data c : Nat) (jp : json_parser_t) (ctx : json_ctx) (mark : Option Nat)
    (hst : jp.jp_state = s_string_mark) :
    json_parser_exec_byte h settings buf data c jp ctx mark =
      json_parser_exec_string h settings buf data c
        { jp with jp_state := s_string } ctx (some data) := by
  unfold json_parser_exec_byte
  rw [hst]

theorem string_step (h : json_host) (settings : json_parser_settings) (buf : List Nat)
    (data c : Nat) (jp : json_parser_t) (ctx : json_ctx) (mark : Option Nat)
    (hst : jp.jp_state = s_string) :
    json_parser_exec_byte h settings buf data c jp ctx mark =
      json_parser_exec_string h settings buf data c jp ctx mark := by
  unfold json_parser_exec_byte
  rw [hst]

theorem string_start_step (h : json_host) (settings : json_parser_settings) (buf : List Nat)
    (data c : Nat) (jp : json_parser_t) (ctx : json_ctx) (mark : Option Nat)
    (hst : jp.jp_state = s_string_start) (hc : c ≠ 34) :
    json_parser_exec_byte h settings buf data c jp ctx mark =
      json_parser_exec_string h settings buf data c
        { jp with jp_state := s_string } ctx (some data) := by
  unfold json_parser_exec_byte
  rw [hst]
  dsimp only
  rw [if_neg hc]

theorem body_raw_ok (c : Nat) (hok : spec_body_item_ok (spec_body_item.raw c) = true) :
    32 ≤ c ∧ c ≤ 126 ∧ c ≠ 34 ∧ c ≠ 92 := by
  simp only [spec_body_item_ok, Bool.and_eq_true, decide_eq_true_eq] at hok
  exact ⟨hok.1.1.1, hok.1.1.2, hok.1.2, hok.2⟩

theorem body_esc_ok (c : Nat) (hok : spec_body_item_ok (spec_body_item.esc c) = true) :
    ∃ v, spec_escape_value c = some v := by
  simp only [spec_body_item_ok] at hok
  exact Option.isSome_iff_exists.mp hok

theorem string_run_upto (h : json_host) (buf post : List Nat) (items : List spec_body_item)
    (hok : ∀ it ∈ items, spec_body_item_ok it = true) :
    ∀ (run : List Nat) (m : Nat) (jp : json_parser_t) (ctx : json_ctx) (mark : Option Nat),
      buf.drop m = run ++ (spec_body_bytes items ++ 34 :: post) →
      ((run = [] ∧ jp.jp_state = s_string_mark) ∨
        (run ≠ [] ∧ jp.jp_state = s_string ∧ mark = some m)) →
      ∃ mark1, json_parser_exec_upto h json_settings_ok buf (spec_body_bytes items ++ [34])
          (m + run.length) jp ctx mark =
        some ({ jp with jp_state := json_parser_next jp },
          ctx ++ (spec_body_slices_run run items).map (fun s => json_event.on_string (some s)),
          mark1) := by
  induction items with
  | nil =>
    intro run m jp ctx mark hbuf hst
    rcases hst with ⟨hr, hst⟩ | ⟨hr, hst, hmark⟩
    · subst hr
      refine ⟨some (m + 0), ?_⟩
      simp only [spec_body_bytes, List.nil_append, json_parser_exec_upto, List.length_nil,
        string_mark_step h json_settings_ok buf _ 34 jp ctx mark hst, string_close_byte,
        ne_eq, not_true_eq_false, if_false, spec_body_slices_run, if_true, List.map_nil,
        List.append_nil, next_of_state]
    · subst hmark
      have hlen : 0 < run.length := List.length_pos.mpr hr
      refine ⟨some m, ?_⟩
      simp only [spec_body_bytes, List.nil_append, json_parser_exec_upto,
        string_step h json_settings_ok buf _ 34 jp ctx (some m) hst, string_close_byte,
        span_run buf run _ m hbuf, spec_body_slices_run, if_neg hr, List.map_cons,
        List.map_nil]
      rw [if_pos (fun hx => absurd (Option.some.inj hx) (by omega))]
  | cons it rest ih =>
    intro run m jp ctx mark hbuf hst
    have hrest : ∀ it ∈ rest, spec_body_item_ok it = true :=
      fun x hx => hok x (List.mem_cons_of_mem _ hx)
    have ih1 := ih hrest
    cases it with
    | raw c =>
      obtain ⟨c1, c2, c3, c4⟩ := body_raw_ok c (hok _ (List.mem_cons_self _ _))
      rcases hst with ⟨hr, hst⟩ | ⟨hr, hst, hmark⟩
      · subst hr
        obtain ⟨mk, hmk⟩ := ih1 [c] m { jp with jp_state := s_string } ctx (some m)
          (by simpa [spec_body_bytes] using hbuf) (Or.inr ⟨by simp, rfl, rfl⟩)
        refine ⟨mk, ?_⟩
        simp only [spec_body_bytes, List.cons_append, json_parser_exec_upto, List.length_nil,
          Nat.add_zero, string_mark_step h json_settings_ok buf _ c jp ctx mark hst,
          (string_raw_byte h json_settings_ok buf m c _ ctx (some m)).2 c1 c2 c3 c4,
          spec_body_slices_run, List.nil_append]
        exact hmk
      · subst hmark
        obtain ⟨mk, hmk⟩ := ih1 (run ++ [c]) m jp ctx (some m)
          (by simpa [spec_body_bytes] using hbuf) (Or.inr ⟨by simp, hst, rfl⟩)
        refine ⟨mk, ?_⟩
        simp only [spec_body_bytes, List.cons_append, json_parser_exec_upto,
          string_step h json_settings_ok buf _ c jp ctx (some m) hst,
          (string_raw_byte h json_settings_ok buf _ c _ ctx (some m)).2 c1 c2 c3 c4,
          spec_body_slices_run]
        rw [List.length_append, List.length_singleton, ← Nat.add_assoc] at hmk
        exact hmk
    | esc c =>
      obtain ⟨v, hv⟩ := body_esc_ok c (hok _ (List.mem_cons_self _ _))
      have hdrop : buf.drop (m + run.length + 2) = spec_body_bytes rest ++ 34 :: post := by
        have h1 := drop_after buf (run ++ [92, c]) (spec_body_bytes rest ++ 34 :: post) m
          (by simpa [spec_body_bytes] using hbuf)
        simpa [Nat.add_assoc] using h1
      rcases hst with ⟨hr, hst⟩ | ⟨hr, hst, hmark⟩
      · subst hr
        obtain ⟨mk, hmk⟩ := ih1 [] (m + 2) { jp with jp_state := s_string_mark }
          (ctx ++ [json_event.on_string (some [v])])
          (some m) (by simpa using hdrop) (Or.inl ⟨rfl, rfl⟩)
        have he := string_escape_byte h buf (m + 1) c v
          { jp with jp_state := s_string_escape } ctx (some m) rfl hv
        refine ⟨mk, ?_⟩
        simp only [spec_body_bytes, List.cons_append, json_parser_exec_upto, List.length_nil,
          Nat.add_zero,
          string_mark_step h json_settings_ok buf _ 92 jp ctx mark hst, string_backslash_byte,
          ne_eq, not_true_eq_false, if_false, he,
          spec_body_slices_run, if_true, List.nil_append, hv, Option.getD_some,
          List.map_cons]
        simp only [List.length_nil, Nat.add_zero, next_of_state, List.append_assoc,
          List.cons_append, List.nil_append, List.singleton_append] at hmk
        exact hmk
      · subst hmark
        have hlen : 0 < run.length := List.length_pos.mpr hr
        obtain ⟨mk, hmk⟩ := ih1 [] (m + run.length + 2) { jp with jp_state := s_string_mark }
          (ctx ++ [json_event.on_string (some run)] ++ [json_event.on_string (some [v])])
          (some m) (by simpa using hdrop) (Or.inl ⟨rfl, rfl⟩)
        have he := string_escape_byte h buf (m + run.length + 1) c v
          { jp with jp_state := s_string_escape } (ctx ++ [json_event.on_string (some run)])
          (some m) rfl hv
        refine ⟨mk, ?_⟩
        simp only [spec_body_bytes, List.cons_append, json_parser_exec_upto,
          string_step h json_settings_ok buf _ 92 jp ctx (some m) hst, string_backslash_byte,
          span_run buf run _ m hbuf,
          spec_body_slices_run, if_neg hr, hv, Option.getD_some, List.map_cons,
          List.map_append, List.map_nil]
        rw [if_pos (fun hx => absurd (Option.some.inj hx) (by omega))]
        simp only [he]
        simp only [List.length_nil, Nat.add_zero, next_of_state, List.append_assoc,
          List.cons_append, List.nil_append, List.singleton_append] at hmk ⊢
        exact hmk

theorem key_close_byte (h : json_host) (buf : List Nat) (data : Nat) (jp : json_parser_t)
    (ctx : json_ctx) (mark : Option Nat) :
    json_parser_exec_object_key h json_settings_ok buf data 34 jp ctx mark =
      if mark ≠ some data then
        json_step.next { jp with jp_state := s_object_key_end }
          (ctx ++ [json_event.on_object_key (json_span buf mark data)]) mark
      else json_step.next { jp with jp_state := s_object_key_end } ctx mark := by
  unfold json_parser_exec_object_key
  rw [if_neg (by decide), if_pos rfl]
  simp only [ok_returns_zero.2.2.2.2.2.1, ne_eq, not_true_eq_false, if_false]

theorem key_backslash_byte (h : json_host) (buf : List Nat) (data : Nat)
    (jp : json_parser_t) (ctx : json_ctx) (mark : Option Nat) :
    json_parser_exec_object_key h json_settings_ok buf data 92 jp ctx mark =
      if mark ≠ some data then
        json_step.next { jp with jp_state := s_object_key_escape }
          (ctx ++ [json_event.on_object_key (json_span buf mark data)]) mark
      else json_step.next { jp with jp_state := s_object_key_escape } ctx mark := by
  unfold json_parser_exec_object_key
  rw [if_pos rfl]
  simp only [ok_returns_zero.2.2.2.2.2.1, ne_eq, not_true_eq_false, if_false]

theorem key_escape_byte (h : json_host) (buf : List Nat) (data c v : Nat)
    (jp : json_parser_t) (ctx : json_ctx) (mark : Option Nat)
    (hst : jp.jp_state = s_object_key_escape) (hv : spec_escape_value c = some v) :
    json_parser_exec_byte h json_settings_ok buf data c jp ctx mark =
      json_step.next { jp with jp_state := s_object_key_mark }
        (ctx ++ [json_event.on_object_key (some [v])]) mark := by
  obtain ⟨e1, e2, e3⟩ := escape_letters c v hv
  unfold json_parser_exec_byte
  rw [hst]
  dsimp only
  rw [if_neg e2, if_neg e3]
  simp only [ok_returns_zero.2.2.2.2.2.1, ne_eq, not_true_eq_false, if_false, e1, Int.toNat_ofNat]

theorem key_mark_step (h : json_host) (settings : json_parser_settings) (buf : List Nat)
    (data c : Nat) (jp : json_parser_t) (ctx : json_ctx) (mark : Option Nat)
    (hst : jp.jp_state = s_object_key_mark) :
    json_parser_exec_byte h settings buf data c jp ctx mark =
      json_parser_exec_object_key h settings buf data c
        { jp with jp_state := s_object_key } ctx (some data) := by
  unfold json_parser_exec_byte
  rw [hst]

theorem key_step (h : json_host) (settings : json_parser_settings) (buf : List Nat)
    (data c : Nat) (jp : json_parser_t) (ctx : json_ctx) (mark : Option Nat)
    (hst : jp.jp_state = s_object_key) :
    json_parser_exec_byte h settings buf data c jp ctx mark =
      json_parser_exec_object_key h settings buf data c jp ctx mark := by
  unfold json_parser_exec_byte
  rw [hst]

theorem key_start_step (h : json_host) (settings : json_parser_settings) (buf : List Nat)
    (data c : Nat) (jp : json_parser_t) (ctx : json_ctx) (mark : Option Nat)
    (hst : jp.jp_state = s_object_key_start) (hc : c ≠ 34) :
    json_parser_exec_byte h settings buf data c jp ctx mark =
      json_parser_exec_object_key h settings buf data c
        { jp with jp_state := s_object_key } ctx (some data) := by
  unfold json_parser_exec_byte
  rw [hst]
  dsimp only
  rw [if_neg hc]

theorem key_run_upto (h : json_host) (buf post : List Nat) (items : List spec_body_item)
    (hok : ∀ it ∈ items, spec_body_item_ok it = true) :
    ∀ (run : List Nat) (m : Nat) (jp : json_parser_t) (ctx : json_ctx) (mark : Option Nat),
      buf.drop m = run ++ (spec_body_bytes items ++ 34 :: post) →
      ((run = [] ∧ jp.jp_state = s_object_key_mark) ∨
        (run ≠ [] ∧ jp.jp_state = s_object_key ∧ mark = some m)) →
      ∃ mark1, json_parser_exec_upto h json_settings_ok buf (spec_body_bytes items ++ [34])
          (m + run.length) jp ctx mark =
        some ({ jp with jp_state := s_object_key_end },
          ctx ++ (spec_body_slices_run run items).map (fun s => json_event.on_object_key (some s)),
          mark1) := by
  induction items with
  | nil =>
    intro run m jp ctx mark hbuf hst
    rcases hst with ⟨hr, hst⟩ | ⟨hr, hst, hmark⟩
    · subst hr
      refine ⟨some (m + 0), ?_⟩
      simp only [spec_body_bytes, List.nil_append, json_parser_exec_upto, List.length_nil,
        key_mark_step h json_settings_ok buf _ 34 jp ctx mark hst, key_close_byte,
        ne_eq, not_true_eq_false, if_false, spec_body_slices_run, if_true, List.map_nil,
        List.append_nil, next_of_state]
    · subst hmark
      have hlen : 0 < run.length := List.length_pos.mpr hr
      refine ⟨some m, ?_⟩
      simp only [spec_body_bytes, List.nil_append, json_parser_exec_upto,
        key_step h json_settings_ok buf _ 34 jp ctx (some m) hst, key_close_byte,
        span_run buf run _ m hbuf, spec_body_slices_run, if_neg hr, List.map_cons,
        List.map_nil]
      rw [if_pos (fun hx => absurd (Option.some.inj hx) (by omega))]
  | cons it rest ih =>
    intro run m jp ctx mark hbuf hst
    have hrest : ∀ it ∈ rest, spec_body_item_ok it = true :=
      fun x hx => hok x (List.mem_cons_of_mem _ hx)
    have ih1 := ih hrest
    cases it with
    | raw c =>
      obtain ⟨c1, c2, c3, c4⟩ := body_raw_ok c (hok _ (List.mem_cons_self _ _))
      rcases hst with ⟨hr, hst⟩ | ⟨hr, hst, hmark⟩
      · subst hr
        obtain ⟨mk, hmk⟩ := ih1 [c] m { jp with jp_state := s_object_key } ctx (some m)
          (by simpa [spec_body_bytes] using hbuf) (Or.inr ⟨by simp, rfl, rfl⟩)
        refine ⟨mk, ?_⟩
        simp only [spec_body_bytes, List.cons_append, json_parser_exec_upto, List.length_nil,
          Nat.add_zero, key_mark_step h json_settings_ok buf _ c jp ctx mark hst,
          (object_key_raw_byte h json_settings_ok buf m c _ ctx (some m)).2 c1 c2 c3 c4,
          spec_body_slices_run, List.nil_append]
        exact hmk
      · subst hmark
        obtain ⟨mk, hmk⟩ := ih1 (run ++ [c]) m jp ctx (some m)
          (by simpa [spec_body_bytes] using hbuf) (Or.inr ⟨by simp, hst, rfl⟩)
        refine ⟨mk, ?_⟩
        simp only [spec_body_bytes, List.cons_append, json_parser_exec_upto,
          key_step h json_settings_ok buf _ c jp ctx (some m) hst,
          (object_key_raw_byte h json_settings_ok buf _ c _ ctx (some m)).2 c1 c2 c3 c4,
          spec_body_slices_run]
        rw [List.length_append, List.length_singleton, ← Nat.add_assoc] at hmk
        exact hmk
    | esc c =>
      obtain ⟨v, hv⟩ := body_esc_ok c (hok _ (List.mem_cons_self _ _))
      have hdrop : buf.drop (m + run.length + 2) = spec_body_bytes rest ++ 34 :: post := by
        have h1 := drop_after buf (run ++ [92, c]) (spec_body_bytes rest ++ 34 :: post) m
          (by simpa [spec_body_bytes] using hbuf)
        simpa [Nat.add_assoc] using h1
      rcases hst with ⟨hr, hst⟩ | ⟨hr, hst, hmark⟩
      · subst hr
        obtain ⟨mk, hmk⟩ := ih1 [] (m + 2) { jp with jp_state := s_object_key_mark }
          (ctx ++ [json_event.on_object_key (some [v])])
          (some m) (by simpa using hdrop) (Or.inl ⟨rfl, rfl⟩)
        have he := key_escape_byte h buf (m + 1) c v
          { jp with jp_state := s_object_key_escape } ctx (some m) rfl hv
        refine ⟨mk, ?_⟩
        simp only [spec_body_bytes, List.cons_append, json_parser_exec_upto, List.length_nil,
          Nat.add_zero,
          key_mark_step h json_settings_ok buf _ 92 jp ctx mark hst, key_backslash_byte,
          ne_eq, not_true_eq_false, if_false, he,
          spec_body_slices_run, if_true, List.nil_append, hv, Option.getD_some,
          List.map_cons]
        simp only [List.length_nil, Nat.add_zero, next_of_state, List.append_assoc,
          List.cons_append, List.nil_append, List.singleton_append] at hmk
        exact hmk
      · subst hmark
        have hlen : 0 < run.length := List.length_pos.mpr hr
        obtain ⟨mk, hmk⟩ := ih1 [] (m + run.length + 2) { jp with jp_state := s_object_key_mark }
          (ctx ++ [json_event.on_object_key (some run)] ++ [json_event.on_object_key (some [v])])
          (some m) (by simpa using hdrop) (Or.inl ⟨rfl, rfl⟩)
        have he := key_escape_byte h buf (m + run.length + 1) c v
          { jp with jp_state := s_object_key_escape } (ctx ++ [json_event.on_object_key (some run)])
          (some m) rfl hv
        refine ⟨mk, ?_⟩
        simp only [spec_body_bytes, List.cons_append, json_parser_exec_upto,
          key_step h json_settings_ok buf _ 92 jp ctx (some m) hst, key_backslash_byte,
          span_run buf run _ m hbuf,
          spec_body_slices_run, if_neg hr, hv, Option.getD_some, List.map_cons,
          List.map_append, List.map_nil]
        rw [if_pos (fun hx => absurd (Option.some.inj hx) (by omega))]
        simp only [he]
        simp only [List.length_nil, Nat.add_zero, next_of_state, List.append_assoc,
          List.cons_append, List.nil_append, List.singleton_append] at hmk ⊢
        exact hmk

theorem init_quote (h : json_host) (settings : json_parser_settings)
    (data : Nat) (jp : json_parser_t) (ctx : json_ctx) (mark : Option Nat) :
    json_parser_exec_init h settings data 34 jp ctx mark =
      json_step.next { jp with jp_state := s_string_start } ctx mark := by
  unfold json_parser_exec_init
  rw [if_neg (by decide), if_neg (by decide), if_neg (by decide), if_neg (by decide),
    if_neg (by decide), if_neg (by decide), if_neg (by decide), if_pos rfl]

theorem value_quote (h : json_host) (settings : json_parser_settings) (buf : List Nat)
    (data : Nat) (jp : json_parser_t) (ctx : json_ctx) (mark : Option Nat)
    (hst : jp.jp_state = s_init ∨ jp.jp_state = s_delim) :
    json_parser_exec_byte h settings buf data 34 jp ctx mark =
      json_step.next { jp with jp_state := s_string_start } ctx mark := by
  unfold json_parser_exec_byte
  rcases hst with hst | hst
  · rw [hst]
    exact init_quote h settings data jp ctx mark
  · rw [hst]
    dsimp only
    rw [if_neg (by decide)]
    exact init_quote h settings data jp ctx mark

theorem member_quote (h : json_host) (settings : json_parser_settings) (buf : List Nat)
    (data : Nat) (jp : json_parser_t) (ctx : json_ctx) (mark : Option Nat)
    (hst : jp.jp_state = s_object_start ∨ jp.jp_state = s_object) :
    json_parser_exec_byte h settings buf data 34 jp ctx mark =
      json_step.next { jp with jp_state := s_object_key_start } ctx mark := by
  unfold json_parser_exec_byte
  rcases hst with hst | hst
  · rw [hst]
    dsimp only
    rw [if_neg (by simp [isspace]), if_pos rfl]
  · rw [hst]
    dsimp only
    rw [if_neg (by simp [isspace]), if_neg (by decide)]

theorem empty_string_quote (h : json_host) (buf : List Nat)
    (data : Nat) (jp : json_parser_t) (ctx : json_ctx) (mark : Option Nat)
    (hst : jp.jp_state = s_string_start) :
    json_parser_exec_byte h json_settings_ok buf data 34 jp ctx mark =
      json_step.next { jp with jp_state := json_parser_next jp }
        (ctx ++ [json_event.on_string none]) mark := by
  unfold json_parser_exec_byte
  rw [hst]
  dsimp only
  rw [if_pos rfl]
  simp only [ok_returns_zero.2.2.2.1, ne_eq, not_true_eq_false, if_false]

theorem empty_key_quote (h : json_host) (buf : List Nat)
    (data : Nat) (jp : json_parser_t) (ctx : json_ctx) (mark : Option Nat)
    (hst : jp.jp_state = s_object_key_start) :
    json_parser_exec_byte h json_settings_ok buf data 34 jp ctx mark =
      json_step.next { jp with jp_state := s_object_key_end }
        (ctx ++ [json_event.on_object_key none]) mark := by
  unfold json_parser_exec_byte
  rw [hst]
  dsimp only
  rw [if_pos rfl]
  simp only [ok_returns_zero.2.2.2.2.2.1, ne_eq, not_true_eq_false, if_false]

theorem body_bytes_head (it : spec_body_item) (rest : List spec_body_item)
    (hok : spec_body_item_ok it = true) :
    ∃ c tl, spec_body_bytes (it :: rest) = c :: tl ∧ c ≠ 34 := by
  cases it with
  | raw c => exact ⟨c, _, rfl, (body_raw_ok c hok).2.2.1⟩
  | esc c => exact ⟨92, _, rfl, by decide⟩

theorem string_body_upto (h : json_host) (buf post : List Nat) (body : List spec_body_item)
    (data : Nat) (jp : json_parser_t) (ctx : json_ctx) (mark : Option Nat)
    (hok : ∀ it ∈ body, spec_body_item_ok it = true)
    (hbuf : buf.drop data = 34 :: (spec_body_bytes body ++ 34 :: post))
    (hst : jp.jp_state = s_init ∨ jp.jp_state = s_delim) :
    ∃ mark1, json_parser_exec_upto h json_settings_ok buf
        (34 :: (spec_body_bytes body ++ [34])) data jp ctx mark =
      some ({ jp with jp_state := json_parser_next jp },
        ctx ++ (if body = [] then [json_event.on_string none]
          else (spec_body_slices body).map (fun s => json_event.on_string (some s))),
        mark1) := by
  have hdrop : buf.drop (data + 1) = [] ++ (spec_body_bytes body ++ 34 :: post) :=
    drop_after buf [34] _ data hbuf
  cases body with
  | nil =>
    refine ⟨mark, ?_⟩
    simp only [spec_body_bytes, List.nil_append, json_parser_exec_upto,
      value_quote h json_settings_ok buf data jp ctx mark hst,
      empty_string_quote h buf (data + 1) { jp with jp_state := s_string_start } ctx mark rfl,
      if_true, next_of_state]
  | cons it rest =>
    obtain ⟨c, tl, hb, hc⟩ := body_bytes_head it rest (hok it (List.mem_cons_self _ _))
    obtain ⟨mk, hmk⟩ := string_run_upto h buf post (it :: rest) hok [] (data + 1)
      { jp with jp_state := s_string_mark } ctx mark hdrop (Or.inl ⟨rfl, rfl⟩)
    refine ⟨mk, ?_⟩
    rw [if_neg (List.cons_ne_nil _ _)]
    rw [hb] at hmk ⊢
    simp only [List.cons_append, json_parser_exec_upto, List.length_nil, Nat.add_zero,
      value_quote h json_settings_ok buf data jp ctx mark hst,
      string_mark_step h json_settings_ok buf (data + 1) c
        { jp with jp_state := s_string_mark } ctx mark rfl,
      string_start_step h json_settings_ok buf (data + 1) c
        { jp with jp_state := s_string_start } ctx mark rfl hc] at hmk ⊢
    exact hmk

theorem key_body_upto (h : json_host) (buf post : List Nat) (body : List spec_body_item)
    (data : Nat) (jp : json_parser_t) (ctx : json_ctx) (mark : Option Nat)
    (hok : ∀ it ∈ body, spec_body_item_ok it = true)
    (hbuf : buf.drop data = 34 :: (spec_body_bytes body ++ 34 :: post))
    (hst : jp.jp_state = s_object_start ∨ jp.jp_state = s_object) :
    ∃ mark1, json_parser_exec_upto h json_settings_ok buf
        (34 :: (spec_body_bytes body ++ [34])) data jp ctx mark =
      some ({ jp with jp_state := s_object_key_end },
        ctx ++ (if body = [] then [json_event.on_object_key none]
          else (spec_body_slices body).map (fun s => json_event.on_object_key (some s))),
        mark1) := by
  have hdrop : buf.drop (data + 1) = [] ++ (spec_body_bytes body ++ 34 :: post) :=
    drop_after buf [34] _ data hbuf
  cases body with
  | nil =>
    refine ⟨mark, ?_⟩
    simp only [spec_body_bytes, List.nil_append, json_parser_exec_upto,
      member_quote h json_settings_ok buf data jp ctx mark hst,
      empty_key_quote h buf (data + 1) { jp with jp_state := s_object_key_start } ctx mark rfl,
      if_true]
  | cons it rest =>
    obtain ⟨c, tl, hb, hc⟩ := body_bytes_head it rest (hok it (List.mem_cons_self _ _))
    obtain ⟨mk, hmk⟩ := key_run_upto h buf post (it :: rest) hok [] (data + 1)
      { jp with jp_state := s_object_key_mark } ctx mark hdrop (Or.inl ⟨rfl, rfl⟩)
    refine ⟨mk, ?_⟩
    rw [if_neg (List.cons_ne_nil _ _)]
    rw [hb] at hmk ⊢
    simp only [List.cons_append, json_parser_exec_upto, List.length_nil, Nat.add_zero,
      member_quote h json_settings_ok buf data jp ctx mark hst,
      key_mark_step h json_settings_ok buf (data + 1) c
        { jp with jp_state := s_object_key_mark } ctx mark rfl,
      key_start_step h json_settings_ok buf (data + 1) c
        { jp with jp_state := s_object_key_start } ctx mark rfl hc] at hmk ⊢
    exact hmk

/-- C19: let a string (resp. key) body be made of raw bytes 0x20-0x7E other
than `"` and `\` and of the escapes `\b \t \n \f \r \" \/ \\`, and let it
stand between its quotes in one chunk `buf`, the opening quote at offset
`data`, where the loop is in state INIT or DELIM (resp. OBJECT_START or
OBJECT).  With callbacks returning 0, on any host, the loop gets past the
closing quote into the state `json_parser_next` gives (resp. OBJECT_KEY_END),
and the calls of `on_string` (resp. `on_object_key`) it adds to the history
are, in document order, one slice for each maximal run of raw bytes and a
one-byte slice holding the decoded byte for each escape (the empty marker for
an empty body); the concatenation of these slices is the decoded value. -/
theorem string_body_slices (h : json_host) (buf post : List Nat)
    (body : List spec_body_item) (data : Nat) (jp : json_parser_t) (ctx : json_ctx)
    (mark : Option Nat)
    (hok : ∀ it ∈ body, spec_body_item_ok it = true)
    (hbuf : buf.drop data = 34 :: (spec_body_bytes body ++ 34 :: post)) :
    ((jp.jp_state = s_init ∨ jp.jp_state = s_delim) →
      ∃ mark1, json_parser_exec_upto h json_settings_ok buf
          (34 :: (spec_body_bytes body ++ [34])) data jp ctx mark =
        some ({ jp with jp_state := json_parser_next jp },
          ctx ++ (if body = [] then [json_event.on_string none]
            else (spec_body_slices body).map (fun s => json_event.on_string (some s))),
          mark1)) ∧
    ((jp.jp_state = s_object_start ∨ jp.jp_state = s_object) →
      ∃ mark1, json_parser_exec_upto h json_settings_ok buf
          (34 :: (spec_body_bytes body ++ [34])) data jp ctx mark =
        some ({ jp with jp_state := s_object_key_end },
          ctx ++ (if body = [] then [json_event.on_object_key none]
            else (spec_body_slices body).map (fun s => json_event.on_object_key (some s))),
          mark1)) ∧
    (spec_body_slices body).flatten = spec_body_value body :=
  ⟨string_body_upto h buf post body data jp ctx mark hok hbuf,
    key_body_upto h buf post body data jp ctx mark hok hbuf,
    by simpa [spec_body_slices] using slices_run_flatten [] body⟩

/-- C19 on the chunk `"he\tllo"` given to a fresh parser: the slices are
`he`, the byte 0x09 and `llo`, and the parser is in state DONE. -/
theorem string_body_slices_witness :
    ∃ mark1, json_parser_exec_upto json_host_c json_settings_ok
        [34, 104, 101, 92, 116, 108, 108, 111, 34]
        [34, 104, 101, 92, 116, 108, 108, 111, 34] 0 json_parser_new [] none =
      some ({ json_parser_new with jp_state := s_done },
        [json_event.on_string (some [104, 101]), json_event.on_string (some [9]),
          json_event.on_string (some [108, 108, 111])],
        mark1) :=
  (string_body_slices json_host_c [34, 104, 101, 92, 116, 108, 108, 111, 34] []
    [spec_body_item.raw 104, spec_body_item.raw 101, spec_body_item.esc 116,
      spec_body_item.raw 108, spec_body_item.raw 108, spec_body_item.raw 111]
    0 json_parser_new [] none (by decide) (by decide)).1 (Or.inl rfl)

/-! ## The mark inside strings and keys -/

theorem eof_accept (h : json_host) (settings : json_parser_settings) (jp : json_parser_t)
    (ctx : json_ctx) (hret : (json_parser_exec h settings jp ctx []).1 = 0)
    (hlive : jp.jp_state ≠ s_dead) :
    jp.jp_state = s_done ∨ json_state_accepts_number jp.jp_state = true := by
  revert hret
  unfold json_parser_exec
  rw [if_neg hlive, if_pos List.length_nil]
  cases jp.jp_state <;> intro hret <;>
    first
      | exact Or.inl rfl
      | exact Or.inr rfl
      | exact absurd hret one_ne_zero

/-- An end-of-input call that returns 0 on a parser that is not DEAD found it
in state DONE, and then with an empty stack, or in one of the four number
states in which a number may end, whatever the stack holds. -/
theorem eof_accept_states (h : json_host) (chunks : List (List Nat))
    (hret : (json_parser_exec h json_settings_ok
      (json_parser_feed h json_settings_ok json_parser_new [] chunks).1
      (json_parser_feed h json_settings_ok json_parser_new [] chunks).2 []).1 = 0)
    (hlive : json_parser_isdead
      (json_parser_feed h json_settings_ok json_parser_new [] chunks).1 = false) :
    ((json_parser_feed h json_settings_ok json_parser_new [] chunks).1.jp_state = s_done ∧
      (json_parser_feed h json_settings_ok json_parser_new [] chunks).1.jp_depth = -1) ∨
    json_state_accepts_number
      (json_parser_feed h json_settings_ok json_parser_new [] chunks).1.jp_state = true := by
  have hne : (json_parser_feed h json_settings_ok json_parser_new [] chunks).1.jp_state
      ≠ s_dead := by
    intro hx
    simp [json_parser_isdead, hx] at hlive
  rcases feed_inv2 h chunks json_parser_new [] new_inv2 with hdead | ⟨_, hf⟩
  · exact absurd hdead hne
  · rcases eof_accept h json_settings_ok _ _ hret hne with hd | hn
    · exact Or.inl ⟨hd, hf.2.2.2 hd⟩
    · exact Or.inr hn

/-- C21 fails on `[1`: after this chunk a fresh parser is in state NUM with
the ARRAY frame still on its stack (depth 0), the history holding an
`on_array_start` that no `on_array_end` closes; the end-of-input call
returns 0 and leaves the parser as it is, not DEAD.  The same happens for
`{"a":1`, with an OBJECT frame left.  With one more blank, `[1 `, the parser
is in state NEXT and the end-of-input call returns 1 and leaves it DEAD. -/
theorem exec_unclosed_accepted_at_eof :
    json_parser_feed json_host_c json_settings_ok json_parser_new [] [[91, 49]] =
      ({ json_parser_new with
          jp_stack := 91 :: List.replicate 15 0, jp_state := s_number, jp_depth := 0 },
        [json_event.on_array_start, json_event.on_number (some [49])]) ∧
    json_parser_exec json_host_c json_settings_ok
      { json_parser_new with
        jp_stack := 91 :: List.replicate 15 0, jp_state := s_number, jp_depth := 0 }
      [json_event.on_array_start, json_event.on_number (some [49])] [] =
      (0, { json_parser_new with
          jp_stack := 91 :: List.replicate 15 0, jp_state := s_number, jp_depth := 0 },
        [json_event.on_array_start, json_event.on_number (some [49])]) ∧
    json_parser_isdead
      { json_parser_new with
        jp_stack := 91 :: List.replicate 15 0, jp_state := s_number, jp_depth := 0 } = false ∧
    json_parser_frames
      { json_parser_new with
        jp_stack := 91 :: List.replicate 15 0, jp_state := s_number, jp_depth := 0 } =
      [JSON_PARSER_ARRAY] ∧
    json_open_containers [json_event.on_array_start, json_event.on_number (some [49])] =
      some [JSON_PARSER_ARRAY] ∧
    (json_parser_exec json_host_c json_settings_ok
      (json_parser_feed json_host_c json_settings_ok json_parser_new []
        [[123, 34, 97, 34, 58, 49]]).1
      (json_parser_feed json_host_c json_settings_ok json_parser_new []
        [[123, 34, 97, 34, 58, 49]]).2 []).1 = 0 ∧
    json_parser_isdead (json_parser_feed json_host_c json_settings_ok json_parser_new []
      [[123, 34, 97, 34, 58, 49], []]).1 = false ∧
    json_parser_frames (json_parser_feed json_host_c json_settings_ok json_parser_new []
      [[123, 34, 97, 34, 58, 49], []]).1 = [JSON_PARSER_OBJECT] ∧
    (json_parser_feed json_host_c json_settings_ok json_parser_new [] [[91, 49, 32]]).1.jp_state
      = s_next ∧
    (json_parser_exec json_host_c json_settings_ok
      (json_parser_feed json_host_c json_settings_ok json_parser_new [] [[91, 49, 32]]).1
      (json_parser_feed json_host_c json_settings_ok json_parser_new [] [[91, 49, 32]]).2
      []).1 = 1 ∧
    json_parser_isdead (json_parser_feed json_host_c json_settings_ok json_parser_new []
      [[91, 49, 32], []]).1 = true := by
  decide

/-! ## The flushed span is the part of the number in the chunk -/

theorem origin_free (data : Nat) (jp : json_parser_t) (mark : Option Nat)
    (jp1 : json_parser_t) (ctx1 : json_ctx) (mark1 : Option Nat)
    (hst : json_state_is_number jp1.jp_state = false) :
    json_step_mark_origin data jp mark (json_step.next jp1 ctx1 mark1) :=
  fun hx => absurd hx (ne_true_of_eq_false hst)

theorem origin_keep (data : Nat) (jp : json_parser_t) (mark : Option Nat)
    (jp1 : json_parser_t) (ctx1 : json_ctx)
    (hst : json_state_is_number jp.jp_state = true) :
    json_step_mark_origin data jp mark (json_step.next jp1 ctx1 mark) :=
  fun _ => Or.inl ⟨hst, rfl⟩

theorem origin_start (data : Nat) (jp : json_parser_t) (mark : Option Nat)
    (jp1 : json_parser_t) (ctx1 : json_ctx)
    (hst : json_state_is_number jp.jp_state = false) :
    json_step_mark_origin data jp mark (json_step.next jp1 ctx1 (some data)) :=
  fun _ => Or.inr ⟨hst, rfl⟩

theorem result_origin (data : Nat) (jp : json_parser_t) (mark : Option Nat)
    (r : Int × json_parser_t × json_ctx)
    (st : json_parser_state) (mark1 : Option Nat) (hst : json_state_is_number st = false) :
    json_step_mark_origin data jp mark (if r.1 ≠ 0 then json_step.onerr r.2.1 r.2.2
      else json_step.next { r.2.1 with jp_state := st } r.2.2 mark1) ∧
    json_step_mark_origin data jp mark (if r.1 = -1 then json_step.onerr r.2.1 r.2.2
      else json_step.next { r.2.1 with jp_state := st } r.2.2 mark1) := by
  constructor <;> split_ifs <;>
    first
      | trivial
      | exact origin_free data jp mark _ _ _ hst

theorem init_origin (h : json_host) (settings : json_parser_settings) (data c : Nat)
    (jp : json_parser_t) (ctx : json_ctx) (mark : Option Nat)
    (hst : json_state_is_number jp.jp_state = false) :
    json_step_mark_origin data jp mark (json_parser_exec_init h settings data c jp ctx mark) := by
  unfold json_parser_exec_init
  by_cases h1 : c = 123
  · rw [if_pos h1]
    exact (result_origin data jp mark _ s_object_start mark rfl).1
  rw [if_neg h1]
  by_cases h2 : c = 125
  · rw [if_pos h2]
    exact (result_origin data jp mark _ _ mark (next_not_number _)).1
  rw [if_neg h2]
  by_cases h3 : c = 91
  · rw [if_pos h3]
    exact (result_origin data jp mark _ s_init mark rfl).2
  rw [if_neg h3]
  by_cases h4 : c = 93
  · rw [if_pos h4]
    exact (result_origin data jp mark _ _ mark (next_not_number _)).1
  rw [if_neg h4]
  split_ifs <;>
    first
      | trivial
      | exact origin_start data jp mark _ ctx hst
      | exact origin_free data jp mark _ ctx _ rfl
      | exact origin_free data jp mark _ ctx _ hst

theorem number_origin (h : json_host) (settings : json_parser_settings) (buf : List Nat)
    (data c : Nat) (jp : json_parser_t) (ctx : json_ctx) (mark : Option Nat) (rest : json_step)
    (hrest : json_step_mark_origin data jp mark rest) :
    json_step_mark_origin data jp mark
      (json_parser_exec_number h settings buf data c jp ctx mark rest) := by
  unfold json_parser_exec_number
  have hnum := number_end_not_number h settings jp ctx buf mark data c
  revert hnum
  rcases json_parser_number_end h jp settings ctx buf mark data c with ⟨rv, jp1, ctx1⟩
  intro hnum
  simp only [] at hnum ⊢
  split_ifs with h1 h2
  · trivial
  · exact origin_free data jp mark _ _ _ (hnum h2)
  · exact hrest

theorem object_key_origin (h : json_host) (settings : json_parser_settings) (buf : List Nat)
    (data c : Nat) (jp jp1 : json_parser_t) (ctx : json_ctx) (mark mark1 : Option Nat)
    (hst : json_state_is_number jp1.jp_state = false) :
    json_step_mark_origin data jp mark
      (json_parser_exec_object_key h settings buf data c jp1 ctx mark1) := by
  unfold json_parser_exec_object_key
  split_ifs <;>
    first
      | trivial
      | exact origin_free data jp mark _ _ _ rfl
      | exact origin_free data jp mark _ _ _ hst

theorem string_origin (h : json_host) (settings : json_parser_settings) (buf : List Nat)
    (data c : Nat) (jp jp1 : json_parser_t) (ctx : json_ctx) (mark mark1 : Option Nat)
    (hst : json_state_is_number jp1.jp_state = false) :
    json_step_mark_origin data jp mark
      (json_parser_exec_string h settings buf data c jp1 ctx mark1) := by
  unfold json_parser_exec_string
  split_ifs <;>
    first
      | trivial
      | exact origin_free data jp mark _ _ _ rfl
      | exact origin_free data jp mark _ _ _ (next_not_number _)
      | exact origin_free data jp mark _ _ _ hst

theorem close_object_origin (settings : json_parser_settings) (data : Nat)
    (jp : json_parser_t) (ctx : json_ctx) (mark : Option Nat) :
    json_step_mark_origin data jp mark (json_parser_exec_close_object settings jp ctx mark) := by
  unfold json_parser_exec_close_object
  rcases json_parser_pop_object jp settings ctx with ⟨rv2, jp2, ctx2⟩
  simp only []
  split_ifs <;>
    first
      | trivial
      | exact origin_free data jp mark _ _ _ (next_not_number _)

set_option maxHeartbeats 2000000 in
/-- One iteration of the loop keeps the mark of a number in progress and
sets it to the offset of the byte that begins a number. -/
theorem exec_byte_origin (h : json_host) (settings : json_parser_settings) (buf : List Nat)
    (data c : Nat) (jp : json_parser_t) (ctx : json_ctx) (mark : Option Nat) :
    json_step_mark_origin data jp mark
      (json_parser_exec_byte h settings buf data c jp ctx mark) := by
  unfold json_parser_exec_byte
  cases hst : jp.jp_state <;> simp only []
  case s_init =>
    exact init_origin h settings data c jp ctx mark (by rw [hst]; rfl)
  case s_delim =>
    split_ifs
    · trivial
    · exact init_origin h settings data c jp ctx mark (by rw [hst]; rfl)
  case s_next =>
    rcases json_parser_pop_array jp settings ctx with ⟨rv4, jp4, ctx4⟩
    simp only []
    split_ifs <;>
      first
        | trivial
        | exact close_object_origin settings data jp ctx mark
        | exact origin_free data jp mark _ _ _ rfl
        | exact origin_free data jp mark _ _ _ (next_not_number _)
        | (refine origin_free data jp mark _ _ _ ?_; rw [hst]; rfl)
  case s_number_zero =>
    refine number_origin h settings buf data c jp ctx mark _ ?_
    split_ifs <;> first | trivial | (refine origin_keep data jp mark _ _ ?_; rw [hst]; rfl)
  case s_number =>
    refine number_origin h settings buf data c jp ctx mark _ ?_
    split_ifs <;> first | trivial | (refine origin_keep data jp mark _ _ ?_; rw [hst]; rfl)
  case s_number_decimals =>
    refine number_origin h settings buf data c jp ctx mark _ ?_
    split_ifs <;> first | trivial | (refine origin_keep data jp mark _ _ ?_; rw [hst]; rfl)
  case s_number_e_digits =>
    refine number_origin h settings buf data c jp ctx mark _ ?_
    split_ifs <;> first | trivial | (refine origin_keep data jp mark _ _ ?_; rw [hst]; rfl)
  all_goals
    try split_ifs
    all_goals first
      | trivial
      | exact close_object_origin settings data jp ctx mark
      | exact object_key_origin h settings buf data c jp _ ctx mark _ rfl
      | exact string_origin h settings buf data c jp _ ctx mark _ rfl
      | (refine object_key_origin h settings buf data c jp jp ctx mark mark ?_; rw [hst]; rfl)
      | (refine string_origin h settings buf data c jp jp ctx mark mark ?_; rw [hst]; rfl)
      | exact origin_free data jp mark _ _ _ rfl
      | exact origin_free data jp mark _ _ _ (next_not_number _)
      | (refine origin_keep data jp mark _ _ ?_; rw [hst]; rfl)
      | (refine origin_free data jp mark _ _ _ ?_; rw [hst]; rfl)

theorem exec_upto_snoc (h : json_host) (settings : json_parser_settings) (buf pre : List Nat)
    (c data : Nat) (jp : json_parser_t) (ctx : json_ctx) (mark : Option Nat)
    (jp1 : json_parser_t) (ctx1 : json_ctx) (mark1 : Option Nat)
    (jp2 : json_parser_t) (ctx2 : json_ctx) (mark2 : Option Nat)
    (hpre : json_parser_exec_upto h settings buf pre data jp ctx mark = some (jp1, ctx1, mark1))
    (hstep : json_parser_exec_byte h settings buf (data + pre.length) c jp1 ctx1 mark1 =
      json_step.next jp2 ctx2 mark2) :
    json_parser_exec_upto h settings buf (pre ++ [c]) data jp ctx mark =
      some (jp2, ctx2, mark2) := by
  induction pre generalizing data jp ctx mark with
  | nil =>
    simp only [json_parser_exec_upto, Option.some.injEq, Prod.mk.injEq] at hpre
    obtain ⟨rfl, rfl, rfl⟩ := hpre
    simp only [List.length_nil, Nat.add_zero] at hstep
    simp only [List.nil_append, json_parser_exec_upto, hstep]
  | cons d pre ih =>
    simp only [json_parser_exec_upto] at hpre
    simp only [List.cons_append, json_parser_exec_upto]
    cases hb : json_parser_exec_byte h settings buf data d jp ctx mark with
    | next jp3 ctx3 mark3 =>
      rw [hb] at hpre
      simp only at hpre ⊢
      refine ih (data + 1) jp3 ctx3 mark3 hpre ?_
      have hidx : data + 1 + pre.length = data + (d :: pre).length := by
        simp only [List.length_cons]; omega
      rw [hidx]
      exact hstep
    | die jp3 ctx3 => rw [hb] at hpre; simp at hpre
    | onerr jp3 ctx3 => rw [hb] at hpre; simp at hpre

theorem exec_upto_ext (h : json_host) (settings : json_parser_settings) (buf pre : List Nat)
    (data : Nat) (jp : json_parser_t) (ctx : json_ctx) (mark : Option Nat)
    (jp1 : json_parser_t) (ctx1 : json_ctx) (mark1 : Option Nat)
    (hpre : json_parser_exec_upto h settings buf pre data jp ctx mark = some (jp1, ctx1, mark1)) :
    ctx <+: ctx1 := by
  induction pre generalizing data jp ctx mark with
  | nil =>
    simp only [json_parser_exec_upto, Option.some.injEq, Prod.mk.injEq] at hpre
    rw [← hpre.2.1]
  | cons d pre ih =>
    have hext := exec_byte_ext h settings buf data d jp ctx mark
    simp only [json_parser_exec_upto] at hpre
    cases hb : json_parser_exec_byte h settings buf data d jp ctx mark with
    | next jp3 ctx3 mark3 =>
      rw [hb] at hpre hext
      exact hext.trans (ih (data + 1) jp3 ctx3 mark3 hpre)
    | die jp3 ctx3 => rw [hb] at hpre; simp at hpre
    | onerr jp3 ctx3 => rw [hb] at hpre; simp at hpre

theorem take_succ_of_drop (buf rest : List Nat) (c data : Nat)
    (hbuf : buf.drop data = c :: rest) :
    buf.take (data + 1) = buf.take data ++ [c] ∧ buf.drop (data + 1) = rest ∧
      data < buf.length := by
  have hlt : data < buf.length := by
    by_contra hge
    rw [List.drop_eq_nil_of_le (by omega)] at hbuf
    cases hbuf
  have hc : buf[data]? = some c := by
    rw [← List.head?_drop, hbuf]
    rfl
  have h2 : buf.drop (data + 1) = (buf.drop data).drop 1 := by
    rw [List.drop_drop]
  refine ⟨?_, ?_, hlt⟩
  · rw [List.take_succ, hc]
    rfl
  · rw [h2, hbuf]
    rfl

theorem exec_end_flush_at (settings : json_parser_settings) (buf : List Nat) (data m : Nat)
    (jp : json_parser_t) (ctx : json_ctx) (hlt : m < data)
    (hnum : json_state_flushes_number
      (json_parser_exec_end settings buf data jp ctx (some m)).2.1.jp_state = true) :
    json_parser_exec_end settings buf data jp ctx (some m) =
      (data, jp, ctx ++ [json_event.on_number (json_span buf (some m) data)]) := by
  have hne : some m ≠ some data := by
    intro heq
    injection heq with heq
    omega
  revert hnum
  unfold json_parser_exec_end
  cases hst : jp.jp_state <;> dsimp only <;>
    first
      | (rw [if_pos hne]
         split_ifs
         · intro hnum
           simp [json_state_flushes_number] at hnum
         · intro _
           rfl)
      | (split_ifs <;> intro hnum <;> simp [json_state_flushes_number, hst] at hnum)
      | (intro hnum; simp [json_state_flushes_number, hst] at hnum)

theorem flushes_is_number (st : json_parser_state)
    (hst : json_state_flushes_number st = true) : json_state_is_number st = true := by
  cases st <;> first | rfl | exact Bool.noConfusion hst

theorem exec_end_state (settings : json_parser_settings) (buf : List Nat) (data : Nat)
    (jp : json_parser_t) (ctx : json_ctx) (mark : Option Nat)
    (hnum : json_state_flushes_number
      (json_parser_exec_end settings buf data jp ctx mark).2.1.jp_state = true) :
    json_state_flushes_number jp.jp_state = true := by
  revert hnum
  unfold json_parser_exec_end
  cases hst : jp.jp_state <;> dsimp only <;> (try split_ifs) <;> intro hnum <;>
    first
      | rfl
      | (rw [hst] at hnum; exact Bool.noConfusion hnum)
      | exact Bool.noConfusion hnum

theorem exec_loop_number_origin (h : json_host) (settings : json_parser_settings)
    (buf : List Nat) (jp0 : json_parser_t) (ctx0 : json_ctx) (hpos : 0 < buf.length)
    (rest : List Nat) (data : Nat) (jp : json_parser_t) (ctx : json_ctx) (mark : Option Nat)
    (hbuf : buf.drop data = rest) (hdata : data ≤ buf.length)
    (hpre : json_parser_exec_upto h settings buf (buf.take data) 0 jp0 ctx0
      (json_parser_exec_mark jp0) = some (jp, ctx, mark))
    (hinv : json_number_origin h settings buf jp0 ctx0 data jp mark)
    (hret : (json_parser_exec_loop h settings buf rest data jp ctx mark).1 = data + rest.length)
    (hnum : json_state_flushes_number
      (json_parser_exec_loop h settings buf rest data jp ctx mark).2.1.jp_state = true) :
    ∃ m jp1 ctx1, m < buf.length ∧
      json_parser_exec_upto h settings buf buf 0 jp0 ctx0 (json_parser_exec_mark jp0) =
        some (jp1, ctx1, some m) ∧
      json_parser_exec_loop h settings buf rest data jp ctx mark =
        (buf.length, jp1, ctx1 ++ [json_event.on_number (some (buf.drop m))]) ∧
      (∀ k, m < k → k ≤ buf.length →
        ∃ jpk ctxk, json_parser_exec_upto h settings buf (buf.take k) 0 jp0 ctx0
            (json_parser_exec_mark jp0) = some (jpk, ctxk, some m) ∧
          json_state_is_number jpk.jp_state = true) ∧
      ((m = 0 ∧ json_state_is_number jp0.jp_state = true) ∨
        ∃ jpm ctxm markm, json_parser_exec_upto h settings buf (buf.take m) 0 jp0 ctx0
            (json_parser_exec_mark jp0) = some (jpm, ctxm, markm) ∧
          json_state_is_number jpm.jp_state = false) := by
  induction rest generalizing data jp ctx mark with
  | nil =>
    have hlen : data = buf.length := by
      have h1 := congrArg List.length hbuf
      simp only [List.length_drop, List.length_nil] at h1
      omega
    subst hlen
    rw [List.take_length] at hpre
    simp only [json_parser_exec_loop] at hnum ⊢
    have hjp := flushes_is_number _ (exec_end_state settings buf _ jp ctx mark hnum)
    obtain ⟨m, hmark, hle, hall, horig⟩ := hinv hjp
    subst hmark
    have hlt : m < buf.length := by
      rcases Nat.lt_or_ge m buf.length with hlt | hge
      · exact hlt
      · have hm : m = buf.length := le_antisymm hle hge
        rcases horig with ⟨h0, _⟩ | ⟨jpm, ctxm, markm, hup, hnot⟩
        · omega
        · rw [hm, List.take_length, hpre] at hup
          simp only [Option.some.injEq, Prod.mk.injEq] at hup
          rw [← hup.1, hjp] at hnot
          cases hnot
    refine ⟨m, jp, ctx, hlt, hpre, ?_, hall, horig⟩
    rw [exec_end_flush_at settings buf buf.length m jp ctx hlt hnum]
    simp [json_span]
  | cons c rest ih =>
    obtain ⟨htake, hdrop, hlt⟩ := take_succ_of_drop buf rest c data hbuf
    have horigin := exec_byte_origin h settings buf data c jp ctx mark
    simp only [json_parser_exec_loop] at hret hnum ⊢
    cases hb : json_parser_exec_byte h settings buf data c jp ctx mark with
    | next jp1 ctx1 mark1 =>
      rw [hb] at hret hnum horigin
      simp only [List.length_cons] at hret hnum ⊢
      have hpre1 : json_parser_exec_upto h settings buf (buf.take (data + 1)) 0 jp0 ctx0
          (json_parser_exec_mark jp0) = some (jp1, ctx1, mark1) := by
        rw [htake]
        refine exec_upto_snoc h settings buf _ c 0 jp0 ctx0 _ jp ctx mark jp1 ctx1 mark1 hpre ?_
        rw [List.length_take, Nat.min_eq_left hdata, Nat.zero_add]
        exact hb
      refine ih (data + 1) jp1 ctx1 mark1 hdrop hlt hpre1 ?_ (by rw [hret]; omega) hnum
      intro hn1
      rcases horigin hn1 with ⟨hn, hm1⟩ | ⟨hn, hm1⟩
      · obtain ⟨m, hmark, hle, hall, horig⟩ := hinv hn
        refine ⟨m, by rw [hm1, hmark], by omega, ?_, horig⟩
        intro k hk1 hk2
        rcases Nat.lt_or_ge k (data + 1) with hk | hk
        · exact hall k hk1 (by omega)
        · have hk3 : k = data + 1 := by omega
          subst hk3
          exact ⟨jp1, ctx1, by rw [hpre1, hm1, hmark], hn1⟩
      · refine ⟨data, hm1, by omega, ?_, Or.inr ⟨jp, ctx, mark, hpre, hn⟩⟩
        intro k hk1 hk2
        have hk3 : k = data + 1 := by omega
        subst hk3
        exact ⟨jp1, ctx1, by rw [hpre1, hm1], hn1⟩
    | die jp1 ctx1 =>
      rw [hb] at hret
      simp only [List.length_cons] at hret
      omega
    | onerr jp1 ctx1 =>
      rw [hb] at hret
      simp only [List.length_cons] at hret
      omega

theorem exec_mark_origin (h : json_host) (settings : json_parser_settings) (buf : List Nat)
    (jp : json_parser_t) (ctx : json_ctx) :
    json_number_origin h settings buf jp ctx 0 jp (json_parser_exec_mark jp) := by
  intro hn
  exact ⟨0, exec_mark_number jp hn, le_refl 0, fun k h1 h2 => absurd h1 (by omega),
    Or.inl ⟨rfl, hn⟩⟩

/-- C8, amended: when a chunk with `len > 0` has been consumed to its end
(the call returns `len`) and leaves the parser in state NUM_NEG, NUM_ZERO,
NUM, NUM_DEC, NUM_E, NUM_ESIGN or NUM_EDIG, the last callback of that call is
`on_number` with the non-empty part of the number that lies in this chunk,
the bytes from the mark to the end of the chunk.  Here the mark is the offset
`m` with which the loop reaches the end of the chunk; after each byte from
`m` on the loop was in a number state with this mark, and the byte at `m` was
read in a state that is not a number state (it began the number) unless
`m = 0` and the call was entered in a number state (the number began in an
earlier chunk).  The history the loop had built before the flush extends the
one the call was entered with, the flush leaves the parser as the loop left
it, and the zero-length end-of-input call that follows invokes no
callback. -/
theorem exec_number_flush_at_chunk_end (h : json_host) (settings : json_parser_settings)
    (jp : json_parser_t) (ctx : json_ctx) (buf : List Nat)
    (hlive : jp.jp_state ≠ s_dead) (hlen : buf ≠ [])
    (hret : (json_parser_exec h settings jp ctx buf).1 = buf.length)
    (hnum : json_state_flushes_number
      (json_parser_exec h settings jp ctx buf).2.1.jp_state = true) :
    (∃ m jp1 ctx1 evs, m < buf.length ∧
      json_parser_exec_upto h settings buf buf 0 jp ctx (json_parser_exec_mark jp) =
        some (jp1, ctx1, some m) ∧
      ctx1 = ctx ++ evs ∧
      json_parser_exec h settings jp ctx buf =
        (buf.length, jp1, ctx ++ evs ++ [json_event.on_number (some (buf.drop m))]) ∧
      (∀ k, m < k → k ≤ buf.length →
        ∃ jpk ctxk, json_parser_exec_upto h settings buf (buf.take k) 0 jp ctx
            (json_parser_exec_mark jp) = some (jpk, ctxk, some m) ∧
          json_state_is_number jpk.jp_state = true) ∧
      ((m = 0 ∧ json_state_is_number jp.jp_state = true) ∨
        ∃ jpm ctxm markm, json_parser_exec_upto h settings buf (buf.take m) 0 jp ctx
            (json_parser_exec_mark jp) = some (jpm, ctxm, markm) ∧
          json_state_is_number jpm.jp_state = false)) ∧
    (json_parser_exec h settings (json_parser_exec h settings jp ctx buf).2.1
      (json_parser_exec h settings jp ctx buf).2.2 []).2.2 =
        (json_parser_exec h settings jp ctx buf).2.2 := by
  constructor
  · have hne : buf.length ≠ 0 := by
      intro h0
      exact hlen (List.length_eq_zero.mp h0)
    have hexec : json_parser_exec h settings jp ctx buf =
        json_parser_exec_loop h settings buf buf 0 jp ctx (json_parser_exec_mark jp) := by
      unfold json_parser_exec
      rw [if_neg hlive, if_neg hne]
    rw [hexec] at hret hnum ⊢
    obtain ⟨m, jp1, ctx1, hlt, hup, hres, hall, horig⟩ :=
      exec_loop_number_origin h settings buf jp ctx (Nat.pos_of_ne_zero hne) buf 0 jp ctx
        (json_parser_exec_mark jp) rfl (Nat.zero_le _) rfl
        (exec_mark_origin h settings buf jp ctx) (by simpa using hret) hnum
    obtain ⟨evs, hevs⟩ := exec_upto_ext h settings buf buf 0 jp ctx _ jp1 ctx1 _ hup
    refine ⟨m, jp1, ctx1, evs, hlt, hup, hevs.symm, ?_, hall, horig⟩
    rw [hres, ← hevs]
  · generalize json_parser_exec h settings jp ctx buf = r
    unfold json_parser_exec
    by_cases hd : r.2.1.jp_state = s_dead
    · rw [if_pos hd]
    · rw [if_neg hd, if_pos List.length_nil]
      cases r.2.1.jp_state <;> rfl

/-- C8, amended, on the chunk `[12` given to a fresh parser: the call
returns 3 in state NUM, the loop reaches the end of the chunk with a mark
`m`, the last callback is `on_number` with the bytes from `m` on, and the
end-of-input call adds nothing.  The mark is 1 here: the history after the
call is `on_array_start`, `on_number("12")`. -/
theorem exec_number_flush_at_chunk_end_witness :
    ((∃ m jp1 ctx1 evs, m < [91, 49, 50].length ∧
      json_parser_exec_upto json_host_c json_settings_ok [91, 49, 50] [91, 49, 50] 0
          json_parser_new [] (json_parser_exec_mark json_parser_new) =
        some (jp1, ctx1, some m) ∧
      ctx1 = [] ++ evs ∧
      json_parser_exec json_host_c json_settings_ok json_parser_new [] [91, 49, 50] =
        ([91, 49, 50].length, jp1,
          [] ++ evs ++ [json_event.on_number (some ([91, 49, 50].drop m))]) ∧
      (∀ k, m < k → k ≤ [91, 49, 50].length →
        ∃ jpk ctxk, json_parser_exec_upto json_host_c json_settings_ok [91, 49, 50]
            ([91, 49, 50].take k) 0 json_parser_new []
            (json_parser_exec_mark json_parser_new) = some (jpk, ctxk, some m) ∧
          json_state_is_number jpk.jp_state = true) ∧
      ((m = 0 ∧ json_state_is_number json_parser_new.jp_state = true) ∨
        ∃ jpm ctxm markm, json_parser_exec_upto json_host_c json_settings_ok [91, 49, 50]
            ([91, 49, 50].take m) 0 json_parser_new []
            (json_parser_exec_mark json_parser_new) = some (jpm, ctxm, markm) ∧
          json_state_is_number jpm.jp_state = false)) ∧
    (json_parser_exec json_host_c json_settings_ok
      (json_parser_exec json_host_c json_settings_ok json_parser_new [] [91, 49, 50]).2.1
      (json_parser_exec json_host_c json_settings_ok json_parser_new [] [91, 49, 50]).2.2
      []).2.2 =
        (json_parser_exec json_host_c json_settings_ok json_parser_new [] [91, 49, 50]).2.2) ∧
    (json_parser_exec json_host_c json_settings_ok json_parser_new [] [91, 49, 50]).2.2 =
      [json_event.on_array_start, json_event.on_number (some [49, 50])] :=
  ⟨exec_number_flush_at_chunk_end json_host_c json_settings_ok json_parser_new []
    [91, 49, 50] (by decide) (by decide) (by decide) (by decide), by decide⟩

/-! ## The parser reached does not depend on the chunking -/

theorem push_object_indep (h : json_host) (jp : json_parser_t) (ctx ctx1 : json_ctx) :
    (json_parser_push_object h jp json_settings_ok ctx).1 =
      (json_parser_push_object h jp json_settings_ok ctx1).1 ∧
    (json_parser_push_object h jp json_settings_ok ctx).2.1 =
      (json_parser_push_object h jp json_settings_ok ctx1).2.1 := by
  unfold json_parser_push_object
  rcases json_parser_push h jp JSON_PARSER_OBJECT with ⟨rv, jp1⟩
  dsimp only
  split_ifs <;> exact ⟨rfl, rfl⟩

theorem push_array_indep (h : json_host) (jp : json_parser_t) (ctx ctx1 : json_ctx) :
    (json_parser_push_array h jp json_settings_ok ctx).1 =
      (json_parser_push_array h jp json_settings_ok ctx1).1 ∧
    (json_parser_push_array h jp json_settings_ok ctx).2.1 =
      (json_parser_push_array h jp json_settings_ok ctx1).2.1 := by
  unfold json_parser_push_array
  rcases json_parser_push h jp JSON_PARSER_ARRAY with ⟨rv, jp1⟩
  dsimp only
  split_ifs <;> exact ⟨rfl, rfl⟩

theorem pop_object_indep (jp : json_parser_t) (ctx ctx1 : json_ctx) :
    (json_parser_pop_object jp json_settings_ok ctx).1 =
      (json_parser_pop_object jp json_settings_ok ctx1).1 ∧
    (json_parser_pop_object jp json_settings_ok ctx).2.1 =
      (json_parser_pop_object jp json_settings_ok ctx1).2.1 := by
  unfold json_parser_pop_object
  rcases json_parser_pop jp JSON_PARSER_OBJECT with ⟨rv, jp1⟩
  dsimp only
  split_ifs <;> exact ⟨rfl, rfl⟩

theorem pop_array_indep (jp : json_parser_t) (ctx ctx1 : json_ctx) :
    (json_parser_pop_array jp json_settings_ok ctx).1 =
      (json_parser_pop_array jp json_settings_ok ctx1).1 ∧
    (json_parser_pop_array jp json_settings_ok ctx).2.1 =
      (json_parser_pop_array jp json_settings_ok ctx1).2.1 := by
  unfold json_parser_pop_array
  rcases json_parser_pop jp JSON_PARSER_ARRAY with ⟨rv, jp1⟩
  dsimp only
  split_ifs <;> exact ⟨rfl, rfl⟩

theorem result_indep (r r1 : Int × json_parser_t × json_ctx)
    (st : json_parser_state) (mark mark1 : Option Nat)
    (h1 : r.1 = r1.1) (h2 : r.2.1 = r1.2.1) :
    json_step_jp (if r.1 ≠ 0 then json_step.onerr r.2.1 r.2.2
      else json_step.next { r.2.1 with jp_state := st } r.2.2 mark) =
    json_step_jp (if r1.1 ≠ 0 then json_step.onerr r1.2.1 r1.2.2
      else json_step.next { r1.2.1 with jp_state := st } r1.2.2 mark1) ∧
    json_step_jp (if r.1 = -1 then json_step.onerr r.2.1 r.2.2
      else json_step.next { r.2.1 with jp_state := st } r.2.2 mark) =
    json_step_jp (if r1.1 = -1 then json_step.onerr r1.2.1 r1.2.2
      else json_step.next { r1.2.1 with jp_state := st } r1.2.2 mark1) := by
  obtain ⟨rv, jp, ctx⟩ := r
  obtain ⟨rv1, jp1, ctx1⟩ := r1
  dsimp only at h1 h2 ⊢
  subst h1 h2
  constructor <;> split_ifs <;> rfl

theorem result_next_indep (r r1 : Int × json_parser_t × json_ctx)
    (mark mark1 : Option Nat)
    (h1 : r.1 = r1.1) (h2 : r.2.1 = r1.2.1) :
    json_step_jp (if r.1 ≠ 0 then json_step.onerr r.2.1 r.2.2
      else json_step.next { r.2.1 with jp_state := json_parser_next r.2.1 } r.2.2 mark) =
    json_step_jp (if r1.1 ≠ 0 then json_step.onerr r1.2.1 r1.2.2
      else json_step.next { r1.2.1 with jp_state := json_parser_next r1.2.1 } r1.2.2
        mark1) := by
  obtain ⟨rv, jp, ctx⟩ := r
  obtain ⟨rv1, jp1, ctx1⟩ := r1
  dsimp only at h1 h2 ⊢
  subst h1 h2
  split_ifs <;> rfl

theorem init_indep (h : json_host) (data data1 c : Nat) (jp : json_parser_t)
    (ctx ctx1 : json_ctx) (mark mark1 : Option Nat) :
    json_step_jp (json_parser_exec_init h json_settings_ok data c jp ctx mark) =
      json_step_jp (json_parser_exec_init h json_settings_ok data1 c jp ctx1 mark1) := by
  unfold json_parser_exec_init
  by_cases h1 : c = 123
  · rw [if_pos h1, if_pos h1]
    exact (result_indep _ _ s_object_start mark mark1
      (push_object_indep h jp ctx ctx1).1 (push_object_indep h jp ctx ctx1).2).1
  rw [if_neg h1, if_neg h1]
  by_cases h2 : c = 125
  · rw [if_pos h2, if_pos h2]
    exact result_next_indep _ _ mark mark1
      (pop_object_indep jp ctx ctx1).1 (pop_object_indep jp ctx ctx1).2
  rw [if_neg h2, if_neg h2]
  by_cases h3 : c = 91
  · rw [if_pos h3, if_pos h3]
    exact (result_indep _ _ s_init mark mark1
      (push_array_indep h jp ctx ctx1).1 (push_array_indep h jp ctx ctx1).2).2
  rw [if_neg h3, if_neg h3]
  by_cases h4 : c = 93
  · rw [if_pos h4, if_pos h4]
    exact result_next_indep _ _ mark mark1
      (pop_array_indep jp ctx ctx1).1 (pop_array_indep jp ctx ctx1).2
  rw [if_neg h4, if_neg h4]
  split_ifs <;> rfl

theorem close_object_indep (jp : json_parser_t) (ctx ctx1 : json_ctx)
    (mark mark1 : Option Nat) :
    json_step_jp (json_parser_exec_close_object json_settings_ok jp ctx mark) =
      json_step_jp (json_parser_exec_close_object json_settings_ok jp ctx1 mark1) :=
  result_next_indep _ _ mark mark1
    (pop_object_indep jp ctx ctx1).1 (pop_object_indep jp ctx ctx1).2

theorem string_indep (h : json_host) (buf buf1 : List Nat) (data data1 c : Nat)
    (jp : json_parser_t) (ctx ctx1 : json_ctx) (mark mark1 : Option Nat) :
    json_step_jp (json_parser_exec_string h json_settings_ok buf data c jp ctx mark) =
      json_step_jp
        (json_parser_exec_string h json_settings_ok buf1 data1 c jp ctx1 mark1) := by
  obtain ⟨_, _, _, z4, _, _, _, _, _, _⟩ := ok_returns_zero
  unfold json_parser_exec_string
  simp only [z4, ne_eq, not_true_eq_false, if_false]
  split_ifs <;> rfl

theorem object_key_indep (h : json_host) (buf buf1 : List Nat) (data data1 c : Nat)
    (jp : json_parser_t) (ctx ctx1 : json_ctx) (mark mark1 : Option Nat) :
    json_step_jp (json_parser_exec_object_key h json_settings_ok buf data c jp ctx mark) =
      json_step_jp
        (json_parser_exec_object_key h json_settings_ok buf1 data1 c jp ctx1 mark1) := by
  obtain ⟨_, _, _, _, _, z6, _, _, _, _⟩ := ok_returns_zero
  unfold json_parser_exec_object_key
  simp only [z6, ne_eq, not_true_eq_false, if_false]
  split_ifs <;> rfl

theorem on_number_ok (ctx : json_ctx) (buf : List Nat) (mark : Option Nat) (data : Nat) :
    (json_parser_on_number json_settings_ok ctx buf mark data).1 = 0 := by
  unfold json_parser_on_number
  split_ifs <;> rfl

theorem number_end_indep (h : json_host) (jp : json_parser_t) (ctx ctx1 : json_ctx)
    (buf buf1 : List Nat) (mark mark1 : Option Nat) (data data1 c : Nat) :
    (json_parser_number_end h jp json_settings_ok ctx buf mark data c).1 =
      (json_parser_number_end h jp json_settings_ok ctx1 buf1 mark1 data1 c).1 ∧
    (json_parser_number_end h jp json_settings_ok ctx buf mark data c).2.1 =
      (json_parser_number_end h jp json_settings_ok ctx1 buf1 mark1 data1 c).2.1 := by
  obtain ⟨_, _, _, _, _, _, _, _, _, z10⟩ := ok_returns_zero
  unfold json_parser_number_end
  have e1 := on_number_ok ctx buf mark data
  have e2 := on_number_ok ctx1 buf1 mark1 data1
  revert e1 e2
  rcases json_parser_on_number json_settings_ok ctx buf mark data with ⟨rv, c1⟩
  rcases json_parser_on_number json_settings_ok ctx1 buf1 mark1 data1 with ⟨rv1, c2⟩
  intro e1 e2
  dsimp only at e1 e2 ⊢
  subst e1 e2
  have p1 := pop_object_indep jp c1 c2
  have p2 := pop_array_indep jp c1 c2
  revert p1 p2
  rcases json_parser_pop_object jp json_settings_ok c1 with ⟨a1, a2, a3⟩
  rcases json_parser_pop_object jp json_settings_ok c2 with ⟨b1, b2, b3⟩
  rcases json_parser_pop_array jp json_settings_ok c1 with ⟨d1, d2, d3⟩
  rcases json_parser_pop_array jp json_settings_ok c2 with ⟨e1, e2, e3⟩
  rintro ⟨rfl, rfl⟩ ⟨rfl, rfl⟩
  simp only [z10, ne_eq, not_true_eq_false, if_false]
  split_ifs <;> exact ⟨rfl, rfl⟩

theorem number_indep (h : json_host) (buf buf1 : List Nat) (data data1 c : Nat)
    (jp : json_parser_t) (ctx ctx1 : json_ctx) (mark mark1 : Option Nat)
    (rest rest1 : json_step) (hrest : json_step_jp rest = json_step_jp rest1) :
    json_step_jp (json_parser_exec_number h json_settings_ok buf data c jp ctx mark rest) =
      json_step_jp
        (json_parser_exec_number h json_settings_ok buf1 data1 c jp ctx1 mark1 rest1) := by
  unfold json_parser_exec_number
  have hn := number_end_indep h jp ctx ctx1 buf buf1 mark mark1 data data1 c
  revert hn
  rcases json_parser_number_end h jp json_settings_ok ctx buf mark data c with ⟨a1, a2, a3⟩
  rcases json_parser_number_end h jp json_settings_ok ctx1 buf1 mark1 data1 c with ⟨b1, b2, b3⟩
  rintro ⟨rfl, rfl⟩
  dsimp only
  split_ifs
  · rfl
  · rfl
  · exact hrest

set_option maxHeartbeats 2000000 in
/-- With callbacks returning 0, the parser with which an iteration of the
loop ends depends on the parser and the byte only. -/
theorem exec_byte_indep (h : json_host) (buf buf1 : List Nat) (data data1 c : Nat)
    (jp : json_parser_t) (ctx ctx1 : json_ctx) (mark mark1 : Option Nat) :
    json_step_jp (json_parser_exec_byte h json_settings_ok buf data c jp ctx mark) =
      json_step_jp
        (json_parser_exec_byte h json_settings_ok buf1 data1 c jp ctx1 mark1) := by
  obtain ⟨z1, z2, z3, z4, z5, z6, z7, z8, z9, z10⟩ := ok_returns_zero
  unfold json_parser_exec_byte
  cases jp.jp_state <;> dsimp only
  case s_init => exact init_indep h data data1 c jp ctx ctx1 mark mark1
  case s_delim =>
    split_ifs
    · rfl
    · exact init_indep h data data1 c jp ctx ctx1 mark mark1
  case s_next =>
    simp only [z10, ne_eq, not_true_eq_false, if_false]
    by_cases hs : isspace h c = true
    · rw [if_pos hs, if_pos hs]
      rfl
    rw [if_neg hs, if_neg hs]
    by_cases h1 : c = 44
    · rw [if_pos h1, if_pos h1]
      rfl
    rw [if_neg h1, if_neg h1]
    by_cases h2 : c = 125
    · rw [if_pos h2, if_pos h2]
      exact close_object_indep jp ctx ctx1 mark mark1
    rw [if_neg h2, if_neg h2]
    by_cases h3 : c = 93
    · rw [if_pos h3, if_pos h3]
      exact result_next_indep _ _ mark mark1
        (pop_array_indep jp ctx ctx1).1 (pop_array_indep jp ctx ctx1).2
    rw [if_neg h3, if_neg h3]
    rfl
  case s_number_zero =>
    refine number_indep h buf buf1 data data1 c jp ctx ctx1 mark mark1 _ _ ?_
    split_ifs <;> rfl
  case s_number =>
    refine number_indep h buf buf1 data data1 c jp ctx ctx1 mark mark1 _ _ ?_
    split_ifs <;> rfl
  case s_number_decimals =>
    refine number_indep h buf buf1 data data1 c jp ctx ctx1 mark mark1 _ _ ?_
    split_ifs <;> rfl
  case s_number_e_digits =>
    refine number_indep h buf buf1 data data1 c jp ctx ctx1 mark mark1 _ _ ?_
    split_ifs <;> rfl
  all_goals
    try simp only [z1, z2, z4, z6, z10, ne_eq, not_true_eq_false, if_false]
    try split_ifs
    all_goals first
      | rfl
      | exact close_object_indep jp ctx ctx1 mark mark1
      | exact object_key_indep h buf buf1 data data1 c _ ctx ctx1 _ _
      | exact string_indep h buf buf1 data data1 c _ ctx ctx1 _ _

theorem step_of_byte (h : json_host) (buf : List Nat) (data c : Nat) (jp : json_parser_t)
    (ctx : json_ctx) (mark : Option Nat) :
    json_step_jp (json_parser_exec_byte h json_settings_ok buf data c jp ctx mark) =
      json_parser_step h jp c :=
  exec_byte_indep h buf [] data 0 c jp ctx [] mark none

theorem step_dead (h : json_host) (jp : json_parser_t) (c : Nat)
    (hdead : jp.jp_state = s_dead) : json_parser_step h jp c = jp := by
  unfold json_parser_step json_parser_exec_byte
  rw [hdead]
  rfl

theorem run_dead (h : json_host) (jp : json_parser_t) (bytes : List Nat)
    (hdead : jp.jp_state = s_dead) : json_parser_run h jp bytes = jp := by
  induction bytes with
  | nil => rfl
  | cons c rest ih =>
    simp only [json_parser_run, List.foldl_cons, step_dead h jp c hdead] at ih ⊢
    exact ih

theorem run_append (h : json_host) (jp : json_parser_t) (a b : List Nat) :
    json_parser_run h jp (a ++ b) = json_parser_run h (json_parser_run h jp a) b := by
  simp only [json_parser_run, List.foldl_append]

theorem run_cons (h : json_host) (jp : json_parser_t) (c : Nat) (rest : List Nat) :
    json_parser_run h jp (c :: rest) = json_parser_run h (json_parser_step h jp c) rest := rfl

theorem run_nil (h : json_host) (jp : json_parser_t) : json_parser_run h jp [] = jp := rfl

theorem onerr_dead (h : json_host) (hmem : ∀ n, h.realloc_ok n = true) (buf : List Nat)
    (data c : Nat) (jp : json_parser_t) (ctx : json_ctx) (mark : Option Nat)
    (jp1 : json_parser_t) (ctx1 : json_ctx)
    (hb : json_parser_exec_byte h json_settings_ok buf data c jp ctx mark =
      json_step.onerr jp1 ctx1) : jp1.jp_state = s_dead := by
  by_cases hlive : jp.jp_state = s_dead
  · revert hb
    unfold json_parser_exec_byte
    rw [hlive]
    intro hb
    injection hb with h1 _
    rw [← h1]
    exact hlive
  · have hs := exec_byte_sound h json_settings_ok buf data c jp ctx mark hlive
    rw [hb] at hs
    rcases hs with hd | ⟨_, _, _, hre⟩ | ⟨evs, e, _, hcall, _⟩
    · exact hd
    · rw [hmem] at hre
      cases hre
    · exact absurd (ok_call_zero _ e) hcall

theorem loop_run (h : json_host) (hmem : ∀ n, h.realloc_ok n = true) (buf rest : List Nat)
    (data : Nat) (jp : json_parser_t) (ctx : json_ctx) (mark : Option Nat) :
    (json_parser_exec_loop h json_settings_ok buf rest data jp ctx mark).2.1 =
      json_parser_run h jp rest := by
  induction rest generalizing data jp ctx mark with
  | nil =>
    simp only [json_parser_exec_loop]
    exact (exec_end_ok buf data jp ctx mark).2
  | cons c rest ih =>
    have hstep := step_of_byte h buf data c jp ctx mark
    simp only [json_parser_exec_loop, run_cons]
    cases hb : json_parser_exec_byte h json_settings_ok buf data c jp ctx mark with
    | next jp1 ctx1 mark1 =>
      rw [hb] at hstep
      rw [← hstep]
      exact ih (data + 1) jp1 ctx1 mark1
    | die jp1 ctx1 =>
      rw [hb] at hstep
      rw [← hstep]
      exact (run_dead h _ rest rfl).symm
    | onerr jp1 ctx1 =>
      have hd := onerr_dead h hmem buf data c jp ctx mark jp1 ctx1 hb
      rw [hb] at hstep
      rw [← hstep]
      exact (run_dead h _ rest hd).symm

theorem exec_run (h : json_host) (hmem : ∀ n, h.realloc_ok n = true) (buf : List Nat)
    (jp : json_parser_t) (ctx : json_ctx) (hbuf : buf ≠ []) :
    (json_parser_exec h json_settings_ok jp ctx buf).2.1 = json_parser_run h jp buf := by
  unfold json_parser_exec
  by_cases hdead : jp.jp_state = s_dead
  · rw [if_pos hdead]
    exact (run_dead h jp buf hdead).symm
  · rw [if_neg hdead, if_neg (fun hx => hbuf (List.length_eq_zero.mp hx))]
    exact loop_run h hmem buf buf 0 jp ctx _

theorem feed_run (h : json_host) (hmem : ∀ n, h.realloc_ok n = true)
    (chunks : List (List Nat)) (jp : json_parser_t) (ctx : json_ctx)
    (hne : ∀ b ∈ chunks, b ≠ []) :
    (json_parser_feed h json_settings_ok jp ctx chunks).1 =
      json_parser_run h jp chunks.flatten := by
  induction chunks generalizing jp ctx with
  | nil => rfl
  | cons b rest ih =>
    simp only [json_parser_feed, List.flatten_cons, run_append]
    rw [ih _ _ (fun x hx => hne x (List.mem_cons_of_mem _ hx)),
      exec_run h hmem b jp ctx (hne b (List.mem_cons_self _ _))]

theorem run_of_upto (h : json_host) (buf pre : List Nat) (data : Nat) (jp : json_parser_t)
    (ctx : json_ctx) (mark : Option Nat) (jp1 : json_parser_t) (ctx1 : json_ctx)
    (mark1 : Option Nat)
    (hpre : json_parser_exec_upto h json_settings_ok buf pre data jp ctx mark =
      some (jp1, ctx1, mark1)) :
    json_parser_run h jp pre = jp1 := by
  induction pre generalizing data jp ctx mark with
  | nil =>
    simp only [json_parser_exec_upto, Option.some.injEq, Prod.mk.injEq] at hpre
    rw [← hpre.1]
    rfl
  | cons c pre ih =>
    have hstep := step_of_byte h buf data c jp ctx mark
    simp only [json_parser_exec_upto] at hpre
    cases hb : json_parser_exec_byte h json_settings_ok buf data c jp ctx mark with
    | next jp2 ctx2 mark2 =>
      rw [hb] at hpre hstep
      rw [run_cons, ← hstep]
      exact ih (data + 1) jp2 ctx2 mark2 hpre
    | die jp2 ctx2 => rw [hb] at hpre; simp at hpre
    | onerr jp2 ctx2 => rw [hb] at hpre; simp at hpre

/-! ## Strings and keys, state by state -/

theorem state_eta (jp : json_parser_t) (st : json_parser_state) (hst : jp.jp_state = st) :
    { jp with jp_state := st } = jp := by
  cases jp
  cases hst
  rfl

theorem hex_uchar (c : Nat) (hc : spec_hex_digit c = true) : json_parser_uchar c ≠ -1 := by
  simp only [spec_hex_digit, Bool.or_eq_true, Bool.and_eq_true, decide_eq_true_eq] at hc
  unfold json_parser_uchar
  split_ifs <;> omega

theorem text_raw_ok (h : json_host) (c : Nat)
    (hok : spec_text_item_ok h (spec_text_item.raw c) = true) :
    isprint h c = true ∧ c ≠ 34 ∧ c ≠ 92 := by
  simpa [spec_text_item_ok, and_assoc] using hok

theorem exec_string_raw (h : json_host) (settings : json_parser_settings) (buf : List Nat)
    (data c : Nat) (jp : json_parser_t) (ctx : json_ctx) (mark : Option Nat)
    (hp : isprint h c = true) (h34 : c ≠ 34) (h92 : c ≠ 92) :
    json_parser_exec_string h settings buf data c jp ctx mark = json_step.next jp ctx mark := by
  unfold json_parser_exec_string
  rw [if_neg h92, if_neg h34, if_neg (by rw [hp]; decide)]

theorem step_string_raw (h : json_host) (jp : json_parser_t) (c : Nat)
    (hst : jp.jp_state = s_string_start ∨ jp.jp_state = s_string_mark ∨
      jp.jp_state = s_string)
    (hp : isprint h c = true) (h34 : c ≠ 34) (h92 : c ≠ 92) :
    json_parser_step h jp c = { jp with jp_state := s_string } := by
  unfold json_parser_step
  rcases hst with hst | hst | hst
  · rw [string_start_step h _ [] 0 c jp [] none hst h34, exec_string_raw h _ _ _ c _ _ _ hp h34 h92]
    rfl
  · rw [string_mark_step h _ [] 0 c jp [] none hst, exec_string_raw h _ _ _ c _ _ _ hp h34 h92]
    rfl
  · rw [string_step h _ [] 0 c jp [] none hst, exec_string_raw h _ _ _ c _ _ _ hp h34 h92]
    exact (state_eta jp _ hst).symm

theorem step_string_backslash (h : json_host) (jp : json_parser_t)
    (hst : jp.jp_state = s_string_start ∨ jp.jp_state = s_string_mark ∨
      jp.jp_state = s_string) :
    json_parser_step h jp 92 = { jp with jp_state := s_string_escape } := by
  unfold json_parser_step
  rcases hst with hst | hst | hst
  · rw [string_start_step h _ [] 0 92 jp [] none hst (by decide), string_backslash_byte]
    split_ifs <;> rfl
  · rw [string_mark_step h _ [] 0 92 jp [] none hst, string_backslash_byte]
    split_ifs <;> rfl
  · rw [string_step h _ [] 0 92 jp [] none hst, string_backslash_byte]
    split_ifs <;> rfl

theorem step_string_close (h : json_host) (jp : json_parser_t)
    (hst : jp.jp_state = s_string_start ∨ jp.jp_state = s_string_mark ∨
      jp.jp_state = s_string) :
    json_parser_step h jp 34 = { jp with jp_state := json_parser_next jp } := by
  unfold json_parser_step
  rcases hst with hst | hst | hst
  · rw [empty_string_quote h [] 0 jp [] none hst]
    rfl
  · rw [string_mark_step h _ [] 0 34 jp [] none hst, string_close_byte]
    split_ifs <;> rfl
  · rw [string_step h _ [] 0 34 jp [] none hst, string_close_byte]
    split_ifs <;> rfl

theorem step_string_escape (h : json_host) (jp : json_parser_t) (c : Nat)
    (hst : jp.jp_state = s_string_escape) (hv : (spec_escape_value c).isSome = true) :
    json_parser_step h jp c = { jp with jp_state := s_string_mark } := by
  obtain ⟨v, hv⟩ := Option.isSome_iff_exists.mp hv
  unfold json_parser_step
  rw [string_escape_byte h [] 0 c v jp [] none hst hv]
  rfl

theorem step_string_hex (h : json_host) (jp : json_parser_t) (a b : Nat)
    (hst : jp.jp_state = s_string_escape) (ha : spec_hex_digit a = true)
    (hb : spec_hex_digit b = true) :
    ∃ u, json_parser_run h jp [117, 48, 48, a, b] =
      { jp with jp_uchar := u, jp_state := s_string_mark } := by
  obtain ⟨_, _, _, z4, _, z6, _⟩ := ok_returns_zero
  have ua := hex_uchar a ha
  have ub := hex_uchar b hb
  have e1 : json_parser_step h jp 117 = { jp with jp_state := s_string_u } := by
    unfold json_parser_step json_parser_exec_byte
    rw [hst]
    dsimp only
    rw [if_pos (by decide)]
    rfl
  have e2 : ∀ jp2 : json_parser_t, jp2.jp_state = s_string_u →
      json_parser_step h jp2 48 = { jp2 with jp_state := s_string_u0 } := by
    intro jp2 h2
    unfold json_parser_step json_parser_exec_byte
    rw [h2]
    rfl
  have e3 : ∀ jp2 : json_parser_t, jp2.jp_state = s_string_u0 →
      json_parser_step h jp2 48 = { jp2 with jp_state := s_string_u00 } := by
    intro jp2 h2
    unfold json_parser_step json_parser_exec_byte
    rw [h2]
    rfl
  have e4 : ∀ jp2 : json_parser_t, jp2.jp_state = s_string_u00 →
      json_parser_step h jp2 a =
        { jp2 with jp_uchar := ((json_parser_uchar a).toNat * 16) % 256
                   jp_state := s_string_u00X } := by
    intro jp2 h2
    unfold json_parser_step json_parser_exec_byte
    rw [h2]
    dsimp only
    rw [if_neg ua]
    rfl
  have e5 : ∀ jp2 : json_parser_t, jp2.jp_state = s_string_u00X →
      json_parser_step h jp2 b =
        { jp2 with jp_uchar := (jp2.jp_uchar ||| (json_parser_uchar b).toNat) % 256
                   jp_state := s_string_mark } := by
    intro jp2 h2
    unfold json_parser_step json_parser_exec_byte
    rw [h2]
    dsimp only
    rw [if_neg ub, if_neg (by rw [z4]; decide)]
    rfl
  refine ⟨(((json_parser_uchar a).toNat * 16) % 256 ||| (json_parser_uchar b).toNat) % 256,
    ?_⟩
  simp only [json_parser_run, List.foldl_cons, List.foldl_nil]
  rw [e1, e2 { jp with jp_state := s_string_u } rfl, e3 { jp with jp_state := s_string_u0 } rfl,
    e4 { jp with jp_state := s_string_u00 } rfl]
  exact e5 _ rfl

theorem run_string_body (h : json_host) (body : List spec_text_item)
    (hok : spec_text_ok h body = true) (jp : json_parser_t)
    (hst : jp.jp_state = s_string_start ∨ jp.jp_state = s_string_mark ∨
      jp.jp_state = s_string) :
    ∃ u st, json_parser_run h jp (spec_text_bytes body) =
        { jp with jp_uchar := u, jp_state := st } ∧
      (st = s_string_start ∨ st = s_string_mark ∨ st = s_string) := by
  induction body generalizing jp with
  | nil => exact ⟨jp.jp_uchar, jp.jp_state, rfl, hst⟩
  | cons it rest ih =>
    have hok2 : spec_text_item_ok h it = true ∧ spec_text_ok h rest = true := by
      simpa [spec_text_ok] using hok
    cases it with
    | raw c =>
      obtain ⟨hp, h34, h92⟩ := text_raw_ok h c hok2.1
      obtain ⟨u, st, hrun, hst2⟩ := ih hok2.2 { jp with jp_state := s_string }
        (Or.inr (Or.inr rfl))
      refine ⟨u, st, ?_, hst2⟩
      rw [spec_text_bytes, run_cons, step_string_raw h jp c hst hp h34 h92, hrun]
    | esc c =>
      obtain ⟨u, st, hrun, hst2⟩ := ih hok2.2 { jp with jp_state := s_string_mark }
        (Or.inr (Or.inl rfl))
      refine ⟨u, st, ?_, hst2⟩
      rw [spec_text_bytes, run_cons, step_string_backslash h jp hst, run_cons,
        step_string_escape h { jp with jp_state := s_string_escape } c rfl hok2.1, hrun]
    | hex a b =>
      have hab : spec_hex_digit a = true ∧ spec_hex_digit b = true := by
        simpa [spec_text_item_ok] using hok2.1
      obtain ⟨u1, h1⟩ := step_string_hex h { jp with jp_state := s_string_escape } a b rfl
        hab.1 hab.2
      obtain ⟨u, st, hrun, hst2⟩ := ih hok2.2
        { jp with jp_uchar := u1, jp_state := s_string_mark } (Or.inr (Or.inl rfl))
      refine ⟨u, st, ?_, hst2⟩
      rw [spec_text_bytes, run_cons, step_string_backslash h jp hst,
        show (117 :: 48 :: 48 :: a :: b :: spec_text_bytes rest) =
          [117, 48, 48, a, b] ++ spec_text_bytes rest from rfl, run_append, h1]
      exact hrun

theorem run_string_text (h : json_host) (jp : json_parser_t) (body : List spec_text_item)
    (hok : spec_text_ok h body = true)
    (hst : jp.jp_state = s_init ∨ jp.jp_state = s_delim) :
    ∃ u, json_parser_run h jp (34 :: (spec_text_bytes body ++ [34])) =
      { jp with jp_uchar := u, jp_state := json_parser_next jp } := by
  have e1 : json_parser_step h jp 34 = { jp with jp_state := s_string_start } := by
    unfold json_parser_step
    rw [value_quote h _ [] 0 jp [] none hst]
    rfl
  obtain ⟨u, st, hrun, hst2⟩ := run_string_body h body hok
    { jp with jp_state := s_string_start } (Or.inl rfl)
  refine ⟨u, ?_⟩
  rw [run_cons, e1, run_append, hrun, run_cons,
    step_string_close h { jp with jp_uchar := u, jp_state := st } hst2]
  rfl

theorem exec_key_raw (h : json_host) (settings : json_parser_settings) (buf : List Nat)
    (data c : Nat) (jp : json_parser_t) (ctx : json_ctx) (mark : Option Nat)
    (hp : isprint h c = true) (h34 : c ≠ 34) (h92 : c ≠ 92) :
    json_parser_exec_object_key h settings buf data c jp ctx mark = json_step.next jp ctx mark := by
  unfold json_parser_exec_object_key
  rw [if_neg h92, if_neg h34, if_neg (by rw [hp]; decide)]

theorem step_key_raw (h : json_host) (jp : json_parser_t) (c : Nat)
    (hst : jp.jp_state = s_object_key_start ∨ jp.jp_state = s_object_key_mark ∨
      jp.jp_state = s_object_key)
    (hp : isprint h c = true) (h34 : c ≠ 34) (h92 : c ≠ 92) :
    json_parser_step h jp c = { jp with jp_state := s_object_key } := by
  unfold json_parser_step
  rcases hst with hst | hst | hst
  · rw [key_start_step h _ [] 0 c jp [] none hst h34, exec_key_raw h _ _ _ c _ _ _ hp h34 h92]
    rfl
  · rw [key_mark_step h _ [] 0 c jp [] none hst, exec_key_raw h _ _ _ c _ _ _ hp h34 h92]
    rfl
  · rw [key_step h _ [] 0 c jp [] none hst, exec_key_raw h _ _ _ c _ _ _ hp h34 h92]
    exact (state_eta jp _ hst).symm

theorem step_key_backslash (h : json_host) (jp : json_parser_t)
    (hst : jp.jp_state = s_object_key_start ∨ jp.jp_state = s_object_key_mark ∨
      jp.jp_state = s_object_key) :
    json_parser_step h jp 92 = { jp with jp_state := s_object_key_escape } := by
  unfold json_parser_step
  rcases hst with hst | hst | hst
  · rw [key_start_step h _ [] 0 92 jp [] none hst (by decide), key_backslash_byte]
    split_ifs <;> rfl
  · rw [key_mark_step h _ [] 0 92 jp [] none hst, key_backslash_byte]
    split_ifs <;> rfl
  · rw [key_step h _ [] 0 92 jp [] none hst, key_backslash_byte]
    split_ifs <;> rfl

theorem step_key_close (h : json_host) (jp : json_parser_t)
    (hst : jp.jp_state = s_object_key_start ∨ jp.jp_state = s_object_key_mark ∨
      jp.jp_state = s_object_key) :
    json_parser_step h jp 34 = { jp with jp_state := s_object_key_end } := by
  unfold json_parser_step
  rcases hst with hst | hst | hst
  · rw [empty_key_quote h [] 0 jp [] none hst]
    rfl
  · rw [key_mark_step h _ [] 0 34 jp [] none hst, key_close_byte]
    split_ifs <;> rfl
  · rw [key_step h _ [] 0 34 jp [] none hst, key_close_byte]
    split_ifs <;> rfl

theorem step_key_escape (h : json_host) (jp : json_parser_t) (c : Nat)
    (hst : jp.jp_state = s_object_key_escape) (hv : (spec_escape_value c).isSome = true) :
    json_parser_step h jp c = { jp with jp_state := s_object_key_mark } := by
  obtain ⟨v, hv⟩ := Option.isSome_iff_exists.mp hv
  unfold json_parser_step
  rw [key_escape_byte h [] 0 c v jp [] none hst hv]
  rfl

theorem step_key_hex (h : json_host) (jp : json_parser_t) (a b : Nat)
    (hst : jp.jp_state = s_object_key_escape) (ha : spec_hex_digit a = true)
    (hb : spec_hex_digit b = true) :
    ∃ u, json_parser_run h jp [117, 48, 48, a, b] =
      { jp with jp_uchar := u, jp_state := s_object_key_mark } := by
  obtain ⟨_, _, _, z4, _, z6, _⟩ := ok_returns_zero
  have ua := hex_uchar a ha
  have ub := hex_uchar b hb
  have e1 : json_parser_step h jp 117 = { jp with jp_state := s_object_key_u } := by
    unfold json_parser_step json_parser_exec_byte
    rw [hst]
    dsimp only
    rw [if_pos (by decide)]
    rfl
  have e2 : ∀ jp2 : json_parser_t, jp2.jp_state = s_object_key_u →
      json_parser_step h jp2 48 = { jp2 with jp_state := s_object_key_u0 } := by
    intro jp2 h2
    unfold json_parser_step json_parser_exec_byte
    rw [h2]
    rfl
  have e3 : ∀ jp2 : json_parser_t, jp2.jp_state = s_object_key_u0 →
      json_parser_step h jp2 48 = { jp2 with jp_state := s_object_key_u00 } := by
    intro jp2 h2
    unfold json_parser_step json_parser_exec_byte
    rw [h2]
    rfl
  have e4 : ∀ jp2 : json_parser_t, jp2.jp_state = s_object_key_u00 →
      json_parser_step h jp2 a =
        { jp2 with jp_uchar := ((json_parser_uchar a).toNat * 16) % 256
                   jp_state := s_object_key_u00X } := by
    intro jp2 h2
    unfold json_parser_step json_parser_exec_byte
    rw [h2]
    dsimp only
    rw [if_neg ua]
    rfl
  have e5 : ∀ jp2 : json_parser_t, jp2.jp_state = s_object_key_u00X →
      json_parser_step h jp2 b =
        { jp2 with jp_uchar := (jp2.jp_uchar ||| (json_parser_uchar b).toNat) % 256
                   jp_state := s_object_key_mark } := by
    intro jp2 h2
    unfold json_parser_step json_parser_exec_byte
    rw [h2]
    dsimp only
    rw [if_neg ub, if_neg (by rw [z6]; decide)]
    rfl
  refine ⟨(((json_parser_uchar a).toNat * 16) % 256 ||| (json_parser_uchar b).toNat) % 256,
    ?_⟩
  simp only [json_parser_run, List.foldl_cons, List.foldl_nil]
  rw [e1, e2 { jp with jp_state := s_object_key_u } rfl, e3 { jp with jp_state := s_object_key_u0 } rfl,
    e4 { jp with jp_state := s_object_key_u00 } rfl]
  exact e5 _ rfl

theorem run_key_body (h : json_host) (body : List spec_text_item)
    (hok : spec_text_ok h body = true) (jp : json_parser_t)
    (hst : jp.jp_state = s_object_key_start ∨ jp.jp_state = s_object_key_mark ∨
      jp.jp_state = s_object_key) :
    ∃ u st, json_parser_run h jp (spec_text_bytes body) =
        { jp with jp_uchar := u, jp_state := st } ∧
      (st = s_object_key_start ∨ st = s_object_key_mark ∨ st = s_object_key) := by
  induction body generalizing jp with
  | nil => exact ⟨jp.jp_uchar, jp.jp_state, rfl, hst⟩
  | cons it rest ih =>
    have hok2 : spec_text_item_ok h it = true ∧ spec_text_ok h rest = true := by
      simpa [spec_text_ok] using hok
    cases it with
    | raw c =>
      obtain ⟨hp, h34, h92⟩ := text_raw_ok h c hok2.1
      obtain ⟨u, st, hrun, hst2⟩ := ih hok2.2 { jp with jp_state := s_object_key }
        (Or.inr (Or.inr rfl))
      refine ⟨u, st, ?_, hst2⟩
      rw [spec_text_bytes, run_cons, step_key_raw h jp c hst hp h34 h92, hrun]
    | esc c =>
      obtain ⟨u, st, hrun, hst2⟩ := ih hok2.2 { jp with jp_state := s_object_key_mark }
        (Or.inr (Or.inl rfl))
      refine ⟨u, st, ?_, hst2⟩
      rw [spec_text_bytes, run_cons, step_key_backslash h jp hst, run_cons,
        step_key_escape h { jp with jp_state := s_object_key_escape } c rfl hok2.1, hrun]
    | hex a b =>
      have hab : spec_hex_digit a = true ∧ spec_hex_digit b = true := by
        simpa [spec_text_item_ok] using hok2.1
      obtain ⟨u1, h1⟩ := step_key_hex h { jp with jp_state := s_object_key_escape } a b rfl
        hab.1 hab.2
      obtain ⟨u, st, hrun, hst2⟩ := ih hok2.2
        { jp with jp_uchar := u1, jp_state := s_object_key_mark } (Or.inr (Or.inl rfl))
      refine ⟨u, st, ?_, hst2⟩
      rw [spec_text_bytes, run_cons, step_key_backslash h jp hst,
        show (117 :: 48 :: 48 :: a :: b :: spec_text_bytes rest) =
          [117, 48, 48, a, b] ++ spec_text_bytes rest from rfl, run_append, h1]
      exact hrun

theorem run_key_text (h : json_host) (jp : json_parser_t) (body : List spec_text_item)
    (hok : spec_text_ok h body = true)
    (hst : jp.jp_state = s_object_start ∨ jp.jp_state = s_object) :
    ∃ u, json_parser_run h jp (34 :: (spec_text_bytes body ++ [34])) =
      { jp with jp_uchar := u, jp_state := s_object_key_end } := by
  have e1 : json_parser_step h jp 34 = { jp with jp_state := s_object_key_start } := by
    unfold json_parser_step
    rw [member_quote h _ [] 0 jp [] none hst]
    rfl
  obtain ⟨u, st, hrun, hst2⟩ := run_key_body h body hok
    { jp with jp_state := s_object_key_start } (Or.inl rfl)
  refine ⟨u, ?_⟩
  rw [run_cons, e1, run_append, hrun, run_cons,
    step_key_close h { jp with jp_uchar := u, jp_state := st } hst2]
  rfl

/-! ## Complete values -/

theorem space_not_ascii (h : json_host) (c : Nat) (hsp : isspace h c = true) :
    c ≠ 125 ∧ c ≠ 93 ∧ c ≠ 44 ∧ c ≠ 34 ∧ c ≠ 58 := by
  have ha := space_ascii h c hsp
  omega

theorem step_space (h : json_host) (jp : json_parser_t) (c : Nat)
    (hsp : isspace h c = true) (hst : json_state_skips_space jp.jp_state = true) :
    json_parser_step h jp c = jp := by
  have hn := space_not_ascii h c hsp
  have hnc : ¬(c = 125 ∨ c = 93) := by omega
  have hi := init_space h json_settings_ok 0 c jp [] none hsp
  unfold json_parser_step json_parser_exec_byte
  cases hs : jp.jp_state <;> rw [hs] at hst <;>
    first
      | exact Bool.noConfusion hst
      | (dsimp only; rw [hi]; rfl)
      | (dsimp only; rw [if_neg hnc, hi]; rfl)
      | (dsimp only; rw [if_pos hsp]; rfl)

theorem run_space (h : json_host) (jp : json_parser_t) (ws : List Nat)
    (hws : spec_ws_ok h ws = true) (hst : json_state_skips_space jp.jp_state = true) :
    json_parser_run h jp ws = jp := by
  induction ws with
  | nil => rfl
  | cons c rest ih =>
    simp only [spec_ws_ok, List.all_cons, Bool.and_eq_true] at hws
    rw [run_cons, step_space h jp c hws.1 hst]
    exact ih hws.2

theorem number_parser_cases (h : json_host) (buf : List Nat) (data c : Nat)
    (jp : json_parser_t) (ctx : json_ctx) (mark : Option Nat) (rest : json_step) :
    json_step_jp (json_parser_exec_number h json_settings_ok buf data c jp ctx mark rest) =
      if (json_parser_number_end h jp json_settings_ok ctx buf mark data c).1 = -1 ∨
          (json_parser_number_end h jp json_settings_ok ctx buf mark data c).1 = 1
        then (json_parser_number_end h jp json_settings_ok ctx buf mark data c).2.1
        else json_step_jp rest := by
  unfold json_parser_exec_number
  rcases json_parser_number_end h jp json_settings_ok ctx buf mark data c with ⟨rv, jp1, ctx1⟩
  dsimp only
  by_cases h1 : rv = -1
  · rw [if_pos h1, if_pos (Or.inl h1)]
    rfl
  · rw [if_neg h1]
    by_cases h2 : rv = 1
    · rw [if_pos h2, if_pos (Or.inr h2)]
      rfl
    · rw [if_neg h2, if_neg (by rintro (hx | hx) <;> contradiction)]

theorem number_end_space (h : json_host) (jp : json_parser_t) (ctx : json_ctx)
    (buf : List Nat) (mark : Option Nat) (data c : Nat) (hsp : isspace h c = true) :
    (json_parser_number_end h jp json_settings_ok ctx buf mark data c).1 = 1 ∧
    (json_parser_number_end h jp json_settings_ok ctx buf mark data c).2.1 =
      { jp with jp_state := json_parser_next jp } := by
  unfold json_parser_number_end
  rw [if_pos hsp]
  have e1 := on_number_ok ctx buf mark data
  revert e1
  rcases json_parser_on_number json_settings_ok ctx buf mark data with ⟨rv, c1⟩
  intro e1
  dsimp only at e1 ⊢
  rw [if_neg (by rw [e1]; decide)]
  exact ⟨rfl, rfl⟩

theorem number_end_other (h : json_host) (jp : json_parser_t)
    (settings : json_parser_settings) (ctx : json_ctx)
    (buf : List Nat) (mark : Option Nat) (data c : Nat) (hsp : isspace h c = false)
    (h1 : c ≠ 125) (h2 : c ≠ 93) (h3 : c ≠ 44) :
    json_parser_number_end h jp settings ctx buf mark data c = (0, jp, ctx) := by
  unfold json_parser_number_end
  rw [if_neg (by rw [hsp]; decide), if_neg h1, if_neg h2, if_neg h3]

theorem pop_ok (jp : json_parser_t) (t : Nat) (ht : t ≠ JSON_PARSER_NONE)
    (htop : json_parser_top jp = t) :
    json_parser_pop jp t = (0, { jp with jp_depth := jp.jp_depth - 1 }) := by
  have hd : 0 ≤ jp.jp_depth := top_depth jp (by rw [htop]; exact ht)
  unfold json_parser_top at htop
  rw [if_pos hd] at htop
  unfold json_parser_pop
  dsimp only
  rw [if_neg (by rw [htop]; omega)]

theorem pop_array_ok (jp : json_parser_t) (ctx : json_ctx)
    (htop : json_parser_top jp = JSON_PARSER_ARRAY) :
    (json_parser_pop_array jp json_settings_ok ctx).1 = 0 ∧
    (json_parser_pop_array jp json_settings_ok ctx).2.1 =
      { jp with jp_depth := jp.jp_depth - 1 } := by
  unfold json_parser_pop_array
  rw [pop_ok jp JSON_PARSER_ARRAY (by decide) htop]
  dsimp only
  rw [if_neg (by decide)]
  exact ⟨rfl, rfl⟩

theorem pop_object_ok (jp : json_parser_t) (ctx : json_ctx)
    (htop : json_parser_top jp = JSON_PARSER_OBJECT) :
    (json_parser_pop_object jp json_settings_ok ctx).1 = 0 ∧
    (json_parser_pop_object jp json_settings_ok ctx).2.1 =
      { jp with jp_depth := jp.jp_depth - 1 } := by
  unfold json_parser_pop_object
  rw [pop_ok jp JSON_PARSER_OBJECT (by decide) htop]
  dsimp only
  rw [if_neg (by decide)]
  exact ⟨rfl, rfl⟩

theorem result_next_ok (r : Int × json_parser_t × json_ctx) (mark : Option Nat)
    (h1 : r.1 = 0) :
    json_step_jp (if r.1 ≠ 0 then json_step.onerr r.2.1 r.2.2
      else json_step.next { r.2.1 with jp_state := json_parser_next r.2.1 } r.2.2 mark) =
      { r.2.1 with jp_state := json_parser_next r.2.1 } := by
  rw [if_neg (by rw [h1]; decide)]
  rfl

theorem step_space_number (h : json_host) (jp : json_parser_t) (c : Nat)
    (hsp : isspace h c = true) (hst : json_state_accepts_number jp.jp_state = true) :
    json_parser_step h jp c = { jp with jp_state := json_parser_next jp } := by
  obtain ⟨e1, e2⟩ := number_end_space h jp [] [] none 0 c hsp
  unfold json_parser_step json_parser_exec_byte
  cases hs : jp.jp_state <;> rw [hs] at hst <;>
    first
      | exact Bool.noConfusion hst
      | (dsimp only; rw [number_parser_cases, if_pos (Or.inr e1), e2])

theorem number_end_close_array (h : json_host) (jp : json_parser_t) (ctx : json_ctx)
    (buf : List Nat) (mark : Option Nat) (data : Nat)
    (htop : json_parser_top jp = JSON_PARSER_ARRAY) :
    (json_parser_number_end h jp json_settings_ok ctx buf mark data 93).1 = 1 ∧
    (json_parser_number_end h jp json_settings_ok ctx buf mark data 93).2.1 =
      { jp with jp_depth := jp.jp_depth - 1
                jp_state := json_parser_next { jp with jp_depth := jp.jp_depth - 1 } } := by
  unfold json_parser_number_end
  rw [if_neg (by simp [isspace]), if_neg (by decide), if_pos rfl]
  have e1 := on_number_ok ctx buf mark data
  revert e1
  rcases json_parser_on_number json_settings_ok ctx buf mark data with ⟨rv, c1⟩
  intro e1
  dsimp only at e1 ⊢
  rw [if_neg (by rw [e1]; decide)]
  have p := pop_array_ok jp c1 htop
  revert p
  rcases json_parser_pop_array jp json_settings_ok c1 with ⟨a1, a2, a3⟩
  rintro ⟨rfl, rfl⟩
  exact ⟨rfl, rfl⟩

theorem number_end_close_object (h : json_host) (jp : json_parser_t) (ctx : json_ctx)
    (buf : List Nat) (mark : Option Nat) (data : Nat)
    (htop : json_parser_top jp = JSON_PARSER_OBJECT) :
    (json_parser_number_end h jp json_settings_ok ctx buf mark data 125).1 = 1 ∧
    (json_parser_number_end h jp json_settings_ok ctx buf mark data 125).2.1 =
      { jp with jp_depth := jp.jp_depth - 1
                jp_state := json_parser_next { jp with jp_depth := jp.jp_depth - 1 } } := by
  unfold json_parser_number_end
  rw [if_neg (by simp [isspace]), if_pos rfl]
  have e1 := on_number_ok ctx buf mark data
  revert e1
  rcases json_parser_on_number json_settings_ok ctx buf mark data with ⟨rv, c1⟩
  intro e1
  dsimp only at e1 ⊢
  rw [if_neg (by rw [e1]; decide)]
  have p := pop_object_ok jp c1 htop
  revert p
  rcases json_parser_pop_object jp json_settings_ok c1 with ⟨a1, a2, a3⟩
  rintro ⟨rfl, rfl⟩
  exact ⟨rfl, rfl⟩

theorem step_close_array (h : json_host) (jp : json_parser_t)
    (htop : json_parser_top jp = JSON_PARSER_ARRAY)
    (hst : jp.jp_state = s_next ∨ jp.jp_state = s_init ∨
      json_state_accepts_number jp.jp_state = true) :
    json_parser_step h jp 93 =
      { jp with jp_depth := jp.jp_depth - 1
                jp_state := json_parser_next { jp with jp_depth := jp.jp_depth - 1 } } := by
  obtain ⟨e1, e2⟩ := number_end_close_array h jp [] [] none 0 htop
  obtain ⟨p1, p2⟩ := pop_array_ok jp [] htop
  have hr := result_next_ok (json_parser_pop_array jp json_settings_ok []) none p1
  unfold json_parser_step json_parser_exec_byte
  rcases hst with hst | hst | hst
  · rw [hst]
    dsimp only
    rw [if_neg (by simp [isspace]), if_neg (by decide), if_neg (by decide), if_pos rfl]
    refine Eq.trans hr ?_
    rw [p2]
    rfl
  · rw [hst]
    dsimp only
    unfold json_parser_exec_init
    rw [if_neg (by decide), if_neg (by decide), if_neg (by decide), if_pos rfl]
    refine Eq.trans hr ?_
    rw [p2]
    rfl
  · cases hs : jp.jp_state <;> rw [hs] at hst <;>
      first
        | exact Bool.noConfusion hst
        | (dsimp only; rw [number_parser_cases, if_pos (Or.inr e1), e2]; done)
        | (dsimp only; rw [number_parser_cases, if_pos (Or.inr e1), e2]; rfl)

theorem step_close_object (h : json_host) (jp : json_parser_t)
    (htop : json_parser_top jp = JSON_PARSER_OBJECT)
    (hst : jp.jp_state = s_object_next ∨ jp.jp_state = s_object_start ∨
      json_state_accepts_number jp.jp_state = true) :
    json_parser_step h jp 125 =
      { jp with jp_depth := jp.jp_depth - 1
                jp_state := json_parser_next { jp with jp_depth := jp.jp_depth - 1 } } := by
  obtain ⟨e1, e2⟩ := number_end_close_object h jp [] [] none 0 htop
  obtain ⟨p1, p2⟩ := pop_object_ok jp [] htop
  have hr := result_next_ok (json_parser_pop_object jp json_settings_ok []) none p1
  unfold json_parser_step json_parser_exec_byte
  rcases hst with hst | hst | hst
  · rw [hst]
    dsimp only
    rw [if_neg (by simp [isspace]), if_neg (by decide), if_pos rfl]
    refine Eq.trans hr ?_
    rw [p2]
    rfl
  · rw [hst]
    dsimp only
    rw [if_neg (by simp [isspace]), if_neg (by decide), if_pos rfl]
    refine Eq.trans hr ?_
    rw [p2]
    rfl
  · cases hs : jp.jp_state <;> rw [hs] at hst <;>
      first
        | exact Bool.noConfusion hst
        | (dsimp only; rw [number_parser_cases, if_pos (Or.inr e1), e2]; done)
        | (dsimp only; rw [number_parser_cases, if_pos (Or.inr e1), e2]; rfl)

theorem step_comma (h : json_host) (jp : json_parser_t)
    (htop : json_parser_top jp = JSON_PARSER_ARRAY ∨ json_parser_top jp = JSON_PARSER_OBJECT)
    (hst : (jp.jp_state = s_next ∧ json_parser_top jp = JSON_PARSER_ARRAY) ∨
      (jp.jp_state = s_object_next ∧ json_parser_top jp = JSON_PARSER_OBJECT) ∨
      json_state_accepts_number jp.jp_state = true) :
    json_parser_step h jp 44 =
      { jp with jp_state :=
          if json_parser_top jp = JSON_PARSER_OBJECT then s_object else s_delim } := by
  have hne : json_parser_top jp ≠ JSON_PARSER_NONE := by
    rcases htop with ht | ht <;> rw [ht] <;> decide
  have e := number_end_comma_frame h jp [] [] none 0 hne
  obtain ⟨_, _, _, _, _, _, _, _, _, z10⟩ := ok_returns_zero
  unfold json_parser_step json_parser_exec_byte
  rcases hst with ⟨hst, ht⟩ | ⟨hst, ht⟩ | hst
  · rw [hst]
    dsimp only
    rw [if_neg (by simp [isspace]), if_pos rfl, if_neg (by rw [z10]; decide),
      if_neg (by rw [ht]; decide)]
    rfl
  · rw [hst]
    dsimp only
    rw [if_neg (by simp [isspace]), if_pos rfl, if_neg (by rw [z10]; decide), if_pos ht]
    rfl
  · cases hs : jp.jp_state <;> rw [hs] at hst <;>
      first
        | exact Bool.noConfusion hst
        | (dsimp only; rw [number_parser_cases, e]; rfl)

theorem step_colon (h : json_host) (jp : json_parser_t)
    (hst : jp.jp_state = s_object_key_end) :
    json_parser_step h jp 58 = { jp with jp_state := s_delim } := by
  unfold json_parser_step json_parser_exec_byte
  rw [hst]
  dsimp only
  rw [if_neg (by simp [isspace]), if_neg (by decide)]
  rfl

theorem take_set_same (l : List Nat) (n t : Nat) : (l.set n t).take n = l.take n := by
  induction l generalizing n with
  | nil => simp
  | cons a l ih =>
    cases n with
    | zero => simp
    | succ n => simp [ih n]

theorem push_shape (h : json_host) (hmem : ∀ n, h.realloc_ok n = true) (jp : json_parser_t)
    (t : Nat) (hs : json_stack_shape jp) :
    (json_parser_push h jp t).1 = 0 ∧
    (json_parser_push h jp t).2.jp_depth = jp.jp_depth + 1 ∧
    json_stack_shape (json_parser_push h jp t).2 ∧
    json_parser_top (json_parser_push h jp t).2 = t ∧
    (json_parser_push h jp t).2.jp_stack.take (jp.jp_depth + 1).toNat =
      jp.jp_stack.take (jp.jp_depth + 1).toNat := by
  obtain ⟨stack, st, depth, sd, uc⟩ := jp
  obtain ⟨h1, h2, h3⟩ := hs
  simp only at h1 h2 h3
  obtain ⟨n, rfl⟩ : ∃ n : Nat, depth = (n : Int) - 1 := ⟨(depth + 1).toNat, by omega⟩
  have hn : n ≤ stack.length := by omega
  have e1 : ((n : Int) - 1 + 1).toNat = n := by omega
  have e0 : (n : Int) - 1 + 1 ≥ 0 := by omega
  have e3 : ((n : Int) - 1 + 1 + 1).toNat = n + 1 := by omega
  unfold json_parser_push json_parser_top json_stack_shape
  dsimp only
  by_cases hfull : (n : Int) - 1 + 1 ≥ sd
  · rw [if_pos hfull, hmem, if_pos rfl]
    dsimp only
    have hlen : n = stack.length := by omega
    have hlt : n < (stack ++ List.replicate 16 0).length := by simp; omega
    rw [if_pos e0, e1]
    refine ⟨rfl, rfl, ⟨by omega, by simp; omega, by simp; omega⟩, ?_, ?_⟩
    · rw [List.getD_eq_getElem?_getD, List.getElem?_set_self hlt]
      rfl
    · rw [take_set_same, List.take_append_of_le_length hn]
  · rw [if_neg hfull]
    dsimp only
    have hlt : n < stack.length := by omega
    rw [if_pos e0, e1]
    refine ⟨rfl, rfl, ⟨by omega, by simp; omega, by simp; omega⟩, ?_, ?_⟩
    · rw [List.getD_eq_getElem?_getD, List.getElem?_set_self hlt]
      rfl
    · rw [take_set_same]

theorem push_array_ok (h : json_host) (jp : json_parser_t) (ctx : json_ctx)
    (hp : (json_parser_push h jp JSON_PARSER_ARRAY).1 = 0) :
    (json_parser_push_array h jp json_settings_ok ctx).1 = 0 ∧
    (json_parser_push_array h jp json_settings_ok ctx).2.1 =
      (json_parser_push h jp JSON_PARSER_ARRAY).2 := by
  revert hp
  unfold json_parser_push_array
  rcases json_parser_push h jp JSON_PARSER_ARRAY with ⟨rv, jp1⟩
  intro hp
  dsimp only at hp ⊢
  rw [if_neg (by rw [hp]; decide)]
  exact ⟨rfl, rfl⟩

theorem push_object_ok (h : json_host) (jp : json_parser_t) (ctx : json_ctx)
    (hp : (json_parser_push h jp JSON_PARSER_OBJECT).1 = 0) :
    (json_parser_push_object h jp json_settings_ok ctx).1 = 0 ∧
    (json_parser_push_object h jp json_settings_ok ctx).2.1 =
      (json_parser_push h jp JSON_PARSER_OBJECT).2 := by
  revert hp
  unfold json_parser_push_object
  rcases json_parser_push h jp JSON_PARSER_OBJECT with ⟨rv, jp1⟩
  intro hp
  dsimp only at hp ⊢
  rw [if_neg (by rw [hp]; decide)]
  exact ⟨rfl, rfl⟩

theorem result_state_ok (r : Int × json_parser_t × json_ctx) (st : json_parser_state)
    (mark : Option Nat) (h1 : r.1 = 0) :
    json_step_jp (if r.1 ≠ 0 then json_step.onerr r.2.1 r.2.2
      else json_step.next { r.2.1 with jp_state := st } r.2.2 mark) =
      { r.2.1 with jp_state := st } ∧
    json_step_jp (if r.1 = -1 then json_step.onerr r.2.1 r.2.2
      else json_step.next { r.2.1 with jp_state := st } r.2.2 mark) =
      { r.2.1 with jp_state := st } := by
  rw [if_neg (by rw [h1]; decide), if_neg (by rw [h1]; decide)]
  exact ⟨rfl, rfl⟩

theorem step_open_array (h : json_host) (hmem : ∀ n, h.realloc_ok n = true)
    (jp : json_parser_t) (hs : json_stack_shape jp)
    (hst : jp.jp_state = s_init ∨ jp.jp_state = s_delim) :
    json_parser_step h jp 91 =
      { (json_parser_push h jp JSON_PARSER_ARRAY).2 with jp_state := s_init } := by
  obtain ⟨hp, _⟩ := push_shape h hmem jp JSON_PARSER_ARRAY hs
  obtain ⟨p1, p2⟩ := push_array_ok h jp [] hp
  have hr := (result_state_ok (json_parser_push_array h jp json_settings_ok []) s_init
    none p1).2
  have hi : json_step_jp (json_parser_exec_init h json_settings_ok 0 91 jp [] none) =
      { (json_parser_push h jp JSON_PARSER_ARRAY).2 with jp_state := s_init } := by
    unfold json_parser_exec_init
    rw [if_neg (by decide), if_neg (by decide), if_pos rfl]
    refine Eq.trans hr ?_
    rw [p2]
  unfold json_parser_step json_parser_exec_byte
  rcases hst with hst | hst
  · rw [hst]
    exact hi
  · rw [hst]
    dsimp only
    rw [if_neg (by decide)]
    exact hi

theorem step_open_object (h : json_host) (hmem : ∀ n, h.realloc_ok n = true)
    (jp : json_parser_t) (hs : json_stack_shape jp)
    (hst : jp.jp_state = s_init ∨ jp.jp_state = s_delim) :
    json_parser_step h jp 123 =
      { (json_parser_push h jp JSON_PARSER_OBJECT).2 with jp_state := s_object_start } := by
  obtain ⟨hp, _⟩ := push_shape h hmem jp JSON_PARSER_OBJECT hs
  obtain ⟨p1, p2⟩ := push_object_ok h jp [] hp
  have hr := (result_state_ok (json_parser_push_object h jp json_settings_ok [])
    s_object_start none p1).1
  have hi : json_step_jp (json_parser_exec_init h json_settings_ok 0 123 jp [] none) =
      { (json_parser_push h jp JSON_PARSER_OBJECT).2 with jp_state := s_object_start } := by
    unfold json_parser_exec_init
    rw [if_pos rfl]
    refine Eq.trans hr ?_
    rw [p2]
  unfold json_parser_step json_parser_exec_byte
  rcases hst with hst | hst
  · rw [hst]
    exact hi
  · rw [hst]
    dsimp only
    rw [if_neg (by decide)]
    exact hi

theorem init_letter (h : json_host) (jp : json_parser_t) :
    json_step_jp (json_parser_exec_init h json_settings_ok 0 110 jp [] none) =
      { jp with jp_state := s_null_N } ∧
    json_step_jp (json_parser_exec_init h json_settings_ok 0 116 jp [] none) =
      { jp with jp_state := s_true_T } ∧
    json_step_jp (json_parser_exec_init h json_settings_ok 0 102 jp [] none) =
      { jp with jp_state := s_false_F } := by
  unfold json_parser_exec_init
  refine ⟨?_, ?_, ?_⟩
  · rw [if_neg (by decide), if_neg (by decide), if_neg (by decide), if_neg (by decide),
      if_pos rfl]
    rfl
  · rw [if_neg (by decide), if_neg (by decide), if_neg (by decide), if_neg (by decide),
      if_neg (by decide), if_pos rfl]
    rfl
  · rw [if_neg (by decide), if_neg (by decide), if_neg (by decide), if_neg (by decide),
      if_neg (by decide), if_neg (by decide), if_pos rfl]
    rfl

theorem step_letter (h : json_host) (jp : json_parser_t)
    (hst : jp.jp_state = s_init ∨ jp.jp_state = s_delim) :
    json_parser_step h jp 110 = { jp with jp_state := s_null_N } ∧
    json_parser_step h jp 116 = { jp with jp_state := s_true_T } ∧
    json_parser_step h jp 102 = { jp with jp_state := s_false_F } := by
  obtain ⟨e1, e2, e3⟩ := init_letter h jp
  unfold json_parser_step json_parser_exec_byte
  rcases hst with hst | hst
  · rw [hst]
    exact ⟨e1, e2, e3⟩
  · rw [hst]
    dsimp only
    rw [if_neg (by decide), if_neg (by decide), if_neg (by decide)]
    exact ⟨e1, e2, e3⟩

theorem run_literal (h : json_host) (jp : json_parser_t)
    (hst : jp.jp_state = s_init ∨ jp.jp_state = s_delim) :
    json_parser_run h jp [110, 117, 108, 108] = { jp with jp_state := json_parser_next jp } ∧
    json_parser_run h jp [116, 114, 117, 101] = { jp with jp_state := json_parser_next jp } ∧
    json_parser_run h jp [102, 97, 108, 115, 101] =
      { jp with jp_state := json_parser_next jp } := by
  obtain ⟨e1, e2, e3⟩ := step_letter h jp hst
  refine ⟨?_, ?_, ?_⟩
  · rw [run_cons, e1]
    rfl
  · rw [run_cons, e2]
    rfl
  · rw [run_cons, e3]
    rfl

theorem digit_bounds (d : Nat) (hd : isdigit d = true) : 48 ≤ d ∧ d ≤ 57 := by
  simpa [isdigit] using hd

theorem digit_not_space (h : json_host) (d : Nat) (hd : isdigit d = true) :
    isspace h d = false := by
  obtain ⟨h1, h2⟩ := digit_bounds d hd
  have e1 : (d == 32) = false := by simp; omega
  have e2 : decide (d ≤ 13) = false := by simp; omega
  have e3 : decide (128 ≤ d) = false := by simp; omega
  simp [isspace, e1, e2, e3]

theorem number_rest (h : json_host) (jp : json_parser_t) (c : Nat) (rest : json_step)
    (hsp : isspace h c = false) (h1 : c ≠ 125) (h2 : c ≠ 93) (h3 : c ≠ 44) :
    json_step_jp (json_parser_exec_number h json_settings_ok [] 0 c jp [] none rest) =
      json_step_jp rest := by
  rw [number_parser_cases, number_end_other h jp json_settings_ok [] [] none 0 c hsp h1 h2 h3]
  rfl

theorem step_digit_stay (h : json_host) (jp : json_parser_t) (d : Nat)
    (hd : isdigit d = true)
    (hst : jp.jp_state = s_number ∨ jp.jp_state = s_number_decimals ∨
      jp.jp_state = s_number_e_digits) :
    json_parser_step h jp d = jp := by
  obtain ⟨b1, b2⟩ := digit_bounds d hd
  have hsp := digit_not_space h d hd
  unfold json_parser_step json_parser_exec_byte
  rcases hst with hst | hst | hst <;> rw [hst] <;> dsimp only <;>
    rw [number_rest h jp d _ hsp (by omega) (by omega) (by omega), if_pos hd] <;> rfl

theorem run_digits_stay (h : json_host) (jp : json_parser_t) (ds : List Nat)
    (hds : ds.all isdigit = true)
    (hst : jp.jp_state = s_number ∨ jp.jp_state = s_number_decimals ∨
      jp.jp_state = s_number_e_digits) :
    json_parser_run h jp ds = jp := by
  induction ds with
  | nil => rfl
  | cons d rest ih =>
    simp only [List.all_cons, Bool.and_eq_true] at hds
    rw [run_cons, step_digit_stay h jp d hds.1 hst]
    exact ih hds.2

theorem init_number (h : json_host) (jp : json_parser_t) (d : Nat) :
    json_step_jp (json_parser_exec_init h json_settings_ok 0 45 jp [] none) =
      { jp with jp_state := s_number_negative } ∧
    json_step_jp (json_parser_exec_init h json_settings_ok 0 48 jp [] none) =
      { jp with jp_state := s_number_zero } ∧
    (49 ≤ d → d ≤ 57 →
      json_step_jp (json_parser_exec_init h json_settings_ok 0 d jp [] none) =
        { jp with jp_state := s_number }) := by
  unfold json_parser_exec_init
  refine ⟨?_, ?_, fun h1 h2 => ?_⟩
  · rw [if_neg (by decide), if_neg (by decide), if_neg (by decide), if_neg (by decide),
      if_neg (by decide), if_neg (by decide), if_neg (by decide), if_neg (by decide),
      if_pos rfl]
    rfl
  · rw [if_neg (by decide), if_neg (by decide), if_neg (by decide), if_neg (by decide),
      if_neg (by decide), if_neg (by decide), if_neg (by decide), if_neg (by decide),
      if_neg (by decide), if_pos rfl]
    rfl
  · have hd : isdigit d = true := by simp [isdigit]; omega
    have hsp := digit_not_space h d hd
    rw [if_neg (show ¬d = 123 by omega), if_neg (show ¬d = 125 by omega),
      if_neg (show ¬d = 91 by omega), if_neg (show ¬d = 93 by omega),
      if_neg (show ¬d = 110 by omega), if_neg (show ¬d = 116 by omega),
      if_neg (show ¬d = 102 by omega), if_neg (show ¬d = 34 by omega),
      if_neg (show ¬d = 45 by omega), if_neg (show ¬d = 48 by omega),
      if_neg (by rw [hsp]; decide), if_pos hd]
    rfl

theorem step_number_start (h : json_host) (jp : json_parser_t) (d : Nat)
    (hst : jp.jp_state = s_init ∨ jp.jp_state = s_delim) :
    json_parser_step h jp 45 = { jp with jp_state := s_number_negative } ∧
    json_parser_step h jp 48 = { jp with jp_state := s_number_zero } ∧
    (49 ≤ d → d ≤ 57 → json_parser_step h jp d = { jp with jp_state := s_number }) := by
  obtain ⟨e1, e2, e3⟩ := init_number h jp d
  unfold json_parser_step json_parser_exec_byte
  rcases hst with hst | hst
  · rw [hst]
    exact ⟨e1, e2, e3⟩
  · rw [hst]
    dsimp only
    rw [if_neg (by decide), if_neg (by decide)]
    refine ⟨e1, e2, fun h1 h2 => ?_⟩
    rw [if_neg (by omega)]
    exact e3 h1 h2

theorem step_negative (h : json_host) (jp : json_parser_t) (d : Nat)
    (hst : jp.jp_state = s_number_negative) :
    json_parser_step h jp 48 = { jp with jp_state := s_number_zero } ∧
    (49 ≤ d → d ≤ 57 → json_parser_step h jp d = { jp with jp_state := s_number }) := by
  unfold json_parser_step json_parser_exec_byte
  rw [hst]
  dsimp only
  refine ⟨rfl, fun h1 h2 => ?_⟩
  have hd : isdigit d = true := by simp [isdigit]; omega
  rw [if_neg (by omega), if_pos hd]
  rfl

theorem step_point (h : json_host) (jp : json_parser_t)
    (hst : jp.jp_state = s_number ∨ jp.jp_state = s_number_zero) :
    json_parser_step h jp 46 = { jp with jp_state := s_number_point } := by
  unfold json_parser_step json_parser_exec_byte
  rcases hst with hst | hst <;> rw [hst] <;> dsimp only <;>
    rw [number_rest h jp 46 _ (by simp [isspace]) (by decide) (by decide) (by decide)] <;> rfl

theorem step_point_digit (h : json_host) (jp : json_parser_t) (d : Nat)
    (hd : isdigit d = true) (hst : jp.jp_state = s_number_point) :
    json_parser_step h jp d = { jp with jp_state := s_number_decimals } := by
  unfold json_parser_step json_parser_exec_byte
  rw [hst]
  dsimp only
  rw [if_pos hd]
  rfl

theorem step_exp_letter (h : json_host) (jp : json_parser_t) (e : Nat)
    (he : e = 101 ∨ e = 69)
    (hst : jp.jp_state = s_number ∨ jp.jp_state = s_number_decimals) :
    json_parser_step h jp e = { jp with jp_state := s_number_e } := by
  have hsp : isspace h e = false := by rcases he with rfl | rfl <;> simp [isspace]
  have hnd : isdigit e = false := by rcases he with rfl | rfl <;> decide
  unfold json_parser_step json_parser_exec_byte
  rcases hst with hst | hst
  · rw [hst]
    dsimp only
    rw [number_rest h jp e _ hsp (by omega) (by omega) (by omega), hnd,
      if_neg (by decide), if_neg (by omega), if_pos he]
    rfl
  · rw [hst]
    dsimp only
    rw [number_rest h jp e _ hsp (by omega) (by omega) (by omega), hnd,
      if_neg (by decide), if_pos he]
    rfl

theorem step_exp_sign (h : json_host) (jp : json_parser_t) (s : Nat)
    (hs : s = 43 ∨ s = 45) (hst : jp.jp_state = s_number_e) :
    json_parser_step h jp s = { jp with jp_state := s_number_e_sign } := by
  have hnd : isdigit s = false := by rcases hs with rfl | rfl <;> decide
  unfold json_parser_step json_parser_exec_byte
  rw [hst]
  dsimp only
  rw [hnd, if_neg (by decide), if_pos hs]
  rfl

theorem step_exp_digit (h : json_host) (jp : json_parser_t) (d : Nat)
    (hd : isdigit d = true)
    (hst : jp.jp_state = s_number_e ∨ jp.jp_state = s_number_e_sign) :
    json_parser_step h jp d = { jp with jp_state := s_number_e_digits } := by
  unfold json_parser_step json_parser_exec_byte
  rcases hst with hst | hst <;> rw [hst] <;> dsimp only <;> rw [if_pos hd] <;> rfl

theorem run_int (h : json_host) (jp : json_parser_t) (d : Nat) (ds : List Nat)
    (hst : jp.jp_state = s_init ∨ jp.jp_state = s_delim ∨ jp.jp_state = s_number_negative)
    (hint : (d = 48 ∧ ds = []) ∨ (49 ≤ d ∧ d ≤ 57 ∧ ds.all isdigit = true)) :
    json_parser_run h jp (d :: ds) =
      { jp with jp_state := if d = 48 then s_number_zero else s_number } := by
  have hstart : json_parser_step h jp 48 = { jp with jp_state := s_number_zero } ∧
      (49 ≤ d → d ≤ 57 → json_parser_step h jp d = { jp with jp_state := s_number }) := by
    rcases hst with hst | hst | hst
    · exact (step_number_start h jp d (Or.inl hst)).2
    · exact (step_number_start h jp d (Or.inr hst)).2
    · exact step_negative h jp d hst
  rcases hint with ⟨rfl, rfl⟩ | ⟨h1, h2, h3⟩
  · rw [run_cons, hstart.1, if_pos rfl]
    rfl
  · rw [run_cons, hstart.2 h1 h2, if_neg (by omega),
      run_digits_stay h _ ds h3 (Or.inl rfl)]

theorem run_sign_int (h : json_host) (jp : json_parser_t) (neg : Bool) (d : Nat)
    (ds : List Nat) (hst : jp.jp_state = s_init ∨ jp.jp_state = s_delim)
    (hint : (d = 48 ∧ ds = []) ∨ (49 ≤ d ∧ d ≤ 57 ∧ ds.all isdigit = true)) :
    json_parser_run h jp ((if neg = true then [45] else []) ++ d :: ds) =
      { jp with jp_state := if d = 48 then s_number_zero else s_number } := by
  cases neg with
  | false =>
    rw [if_neg (by decide), List.nil_append]
    exact run_int h jp d ds (by rcases hst with hst | hst <;> simp [hst]) hint
  | true =>
    rw [if_pos rfl, List.singleton_append, run_cons, (step_number_start h jp d hst).1,
      run_int h _ d ds (Or.inr (Or.inr rfl)) hint]

theorem run_frac (h : json_host) (jp : json_parser_t) (frac : List Nat)
    (hf : frac.all isdigit = true)
    (hst : jp.jp_state = s_number ∨ jp.jp_state = s_number_zero) :
    json_parser_run h jp (if frac.isEmpty = true then [] else 46 :: frac) =
      { jp with jp_state := if frac.isEmpty = true then jp.jp_state else s_number_decimals } := by
  cases frac with
  | nil =>
    show json_parser_run h jp [] = { jp with jp_state := jp.jp_state }
    rw [run_nil]
  | cons f fs =>
    simp only [List.all_cons, Bool.and_eq_true] at hf
    rw [if_neg (by simp), if_neg (by simp), run_cons, step_point h jp hst, run_cons,
      step_point_digit h _ f hf.1 rfl, run_digits_stay h _ fs hf.2 (Or.inr (Or.inl rfl))]

theorem run_exp (h : json_host) (jp : json_parser_t) (e : Nat) (sign ds : List Nat)
    (he : e = 101 ∨ e = 69) (hsign : sign = [] ∨ sign = [43] ∨ sign = [45])
    (hne : ds ≠ []) (hds : ds.all isdigit = true)
    (hst : jp.jp_state = s_number ∨ jp.jp_state = s_number_decimals) :
    json_parser_run h jp (e :: (sign ++ ds)) = { jp with jp_state := s_number_e_digits } := by
  cases ds with
  | nil => exact absurd rfl hne
  | cons x xs =>
    simp only [List.all_cons, Bool.and_eq_true] at hds
    rw [run_cons, step_exp_letter h jp e he hst]
    rcases hsign with rfl | rfl | rfl
    · rw [List.nil_append, run_cons, step_exp_digit h _ x hds.1 (Or.inl rfl),
        run_digits_stay h _ xs hds.2 (Or.inr (Or.inr rfl))]
    · rw [List.singleton_append, run_cons, step_exp_sign h _ 43 (Or.inl rfl) rfl, run_cons,
        step_exp_digit h _ x hds.1 (Or.inr rfl),
        run_digits_stay h _ xs hds.2 (Or.inr (Or.inr rfl))]
    · rw [List.singleton_append, run_cons, step_exp_sign h _ 45 (Or.inr rfl) rfl, run_cons,
        step_exp_digit h _ x hds.1 (Or.inr rfl),
        run_digits_stay h _ xs hds.2 (Or.inr (Or.inr rfl))]

theorem run_number (h : json_host) (jp : json_parser_t) (n : spec_number)
    (hok : spec_number_ok n = true)
    (hst : jp.jp_state = s_init ∨ jp.jp_state = s_delim) :
    ∃ st, json_state_accepts_number st = true ∧
      json_parser_run h jp (spec_number_text n) = { jp with jp_state := st } := by
  obtain ⟨neg, int, frac, exp⟩ := n
  simp only [spec_number_ok, Bool.and_eq_true] at hok
  obtain ⟨⟨hint, hfrac⟩, hexp⟩ := hok
  cases int with
  | nil => simp at hint
  | cons d ds =>
    have hint1 : (d = 48 ∧ ds = []) ∨ (49 ≤ d ∧ d ≤ 57 ∧ ds.all isdigit = true) := by
      simp only [Bool.or_eq_true, Bool.and_eq_true, beq_iff_eq, decide_eq_true_eq] at hint
      rcases hint with ⟨h1, h2⟩ | ⟨⟨h1, h2⟩, h3⟩
      · exact Or.inl ⟨h1, h2⟩
      · exact Or.inr ⟨h1, h2, h3⟩
    have e1 := run_sign_int h jp neg d ds hst hint1
    have hsI : ({ jp with jp_state := if d = 48 then s_number_zero else s_number } :
        json_parser_t).jp_state = s_number ∨
        ({ jp with jp_state := if d = 48 then s_number_zero else s_number } :
        json_parser_t).jp_state = s_number_zero := by
      by_cases hd : d = 48
      · exact Or.inr (by simp [hd])
      · exact Or.inl (by simp [hd])
    have e2 := run_frac h _ frac hfrac hsI
    simp only [spec_number_text]
    rw [run_append, run_append, e1, e2]
    cases exp with
    | none =>
      refine ⟨_, ?_, rfl⟩
      dsimp only
      by_cases hf : frac.isEmpty = true
      · rw [if_pos hf]
        by_cases hd : d = 48
        · rw [if_pos hd]; rfl
        · rw [if_neg hd]; rfl
      · rw [if_neg hf]; rfl
    | some x =>
      obtain ⟨e, sign, xs⟩ := x
      simp only [Bool.and_eq_true, Bool.or_eq_true, beq_iff_eq, Bool.not_eq_true',
        List.isEmpty_eq_true, Bool.and_eq_false_imp] at hexp
      obtain ⟨⟨⟨⟨he, hsign⟩, hne⟩, hds⟩, hz⟩ := hexp
      have hsF : ({ ({ jp with jp_state := if d = 48 then s_number_zero else s_number } :
          json_parser_t) with jp_state := if frac.isEmpty = true
            then ({ jp with jp_state := if d = 48 then s_number_zero else s_number } :
              json_parser_t).jp_state
            else s_number_decimals } : json_parser_t).jp_state = s_number ∨
          ({ ({ jp with jp_state := if d = 48 then s_number_zero else s_number } :
          json_parser_t) with jp_state := if frac.isEmpty = true
            then ({ jp with jp_state := if d = 48 then s_number_zero else s_number } :
              json_parser_t).jp_state
            else s_number_decimals } : json_parser_t).jp_state = s_number_decimals := by
        dsimp only
        by_cases hf : frac.isEmpty = true
        · rw [if_pos hf]
          by_cases hd : d = 48
          · exfalso
            have hds0 : ds = [] := by
              rcases hint1 with ⟨_, h2⟩ | ⟨h1, _, _⟩
              · exact h2
              · omega
            have hz1 := hz (by rw [hd, hds0])
            rw [hf] at hz1
            exact Bool.noConfusion hz1
          · rw [if_neg hd]
            exact Or.inl rfl
        · rw [if_neg hf]
          exact Or.inr rfl
      have e3 := run_exp h _ e sign xs he (by tauto) (by simpa using hne) hds hsF
      exact ⟨s_number_e_digits, rfl, e3⟩

theorem run_snoc (h : json_host) (jp : json_parser_t) (a : List Nat) (c : Nat) :
    json_parser_run h jp (a ++ [c]) = json_parser_step h (json_parser_run h jp a) c := by
  rw [run_append]
  rfl

theorem next_skips_space (jp : json_parser_t) :
    json_state_skips_space (json_parser_next jp) = true := by
  unfold json_parser_next
  split_ifs <;> rfl

theorem next_array (jp : json_parser_t) (htop : json_parser_top jp = JSON_PARSER_ARRAY) :
    json_parser_next jp = s_next := by
  unfold json_parser_next
  rw [if_pos htop]

theorem next_object (jp : json_parser_t) (htop : json_parser_top jp = JSON_PARSER_OBJECT) :
    json_parser_next jp = s_object_next := by
  unfold json_parser_next
  rw [if_neg (by rw [htop]; decide), if_pos htop]

theorem next_none (jp : json_parser_t) (htop : json_parser_top jp = JSON_PARSER_NONE) :
    json_parser_next jp = s_done := by
  unfold json_parser_next
  rw [if_neg (by rw [htop]; decide), if_neg (by rw [htop]; decide)]

theorem getD_take (l : List Nat) (n : Nat) : (l.take (n + 1)).getD n 0 = l.getD n 0 := by
  induction l generalizing n with
  | nil => rfl
  | cons a l ih =>
    cases n with
    | zero => rfl
    | succ k => simp [ih k]

theorem take_of_take (l1 l2 : List Nat) (n m : Nat) (hnm : n ≤ m)
    (he : l1.take m = l2.take m) : l1.take n = l2.take n := by
  have e := congrArg (List.take n) he
  rwa [List.take_take, List.take_take, Nat.min_eq_left hnm] at e

theorem top_of_same (jp r : json_parser_t) (hf : json_same_frames jp r) :
    json_parser_top r = json_parser_top jp := by
  obtain ⟨hd, _, ht⟩ := hf
  unfold json_parser_top
  rw [hd]
  by_cases hge : jp.jp_depth ≥ 0
  · rw [if_pos hge, if_pos hge]
    have e : (jp.jp_depth + 1).toNat = jp.jp_depth.toNat + 1 := by omega
    rw [e] at ht
    rw [← getD_take r.jp_stack, ht, getD_take]
  · rw [if_neg hge, if_neg hge]

theorem next_of_same (jp r : json_parser_t) (hf : json_same_frames jp r) :
    json_parser_next r = json_parser_next jp := by
  unfold json_parser_next
  rw [top_of_same jp r hf]

theorem same_refl (jp : json_parser_t) (st : json_parser_state) (hs : json_stack_shape jp) :
    json_same_frames jp { jp with jp_state := st } :=
  ⟨rfl, hs, rfl⟩

theorem same_trans (a b c : json_parser_t) (h1 : json_same_frames a b)
    (h2 : json_same_frames b c) : json_same_frames a c := by
  obtain ⟨d1, _, t1⟩ := h1
  obtain ⟨d2, s2, t2⟩ := h2
  refine ⟨d2.trans d1, s2, ?_⟩
  rw [d1] at t2
  exact t2.trans t1

theorem popped_of_close (jp : json_parser_t) (st : json_parser_state)
    (hs : json_stack_shape jp) (hd : 0 ≤ jp.jp_depth) :
    json_popped_frames jp { jp with jp_depth := jp.jp_depth - 1, jp_state := st } := by
  obtain ⟨s1, s2, s3⟩ := hs
  refine ⟨rfl, ⟨?_, ?_, s3⟩, rfl⟩
  · show -1 ≤ jp.jp_depth - 1
    omega
  · show jp.jp_depth - 1 + 1 ≤ (jp.jp_stack.length : Int)
    omega

theorem popped_of_same (jp r r2 : json_parser_t) (hf : json_same_frames jp r)
    (hp : json_popped_frames r r2) : json_popped_frames jp r2 := by
  obtain ⟨d1, _, t1⟩ := hf
  obtain ⟨d2, s2, t2⟩ := hp
  rw [d1] at d2 t2
  refine ⟨d2, s2, t2.trans ?_⟩
  exact take_of_take _ _ _ _ (by omega) t1

theorem same_of_push (h : json_host) (hmem : ∀ n, h.realloc_ok n = true) (jp : json_parser_t)
    (t : Nat) (st : json_parser_state) (r : json_parser_t) (hs : json_stack_shape jp)
    (hp : json_popped_frames { (json_parser_push h jp t).2 with jp_state := st } r)
    (hst : r.jp_state = json_parser_next r) :
    json_same_frames jp r ∧ r.jp_state = json_parser_next jp := by
  obtain ⟨_, p2, _, _, p5⟩ := push_shape h hmem jp t hs
  obtain ⟨d2, s2, t2⟩ := hp
  have d3 : r.jp_depth = (json_parser_push h jp t).2.jp_depth - 1 := d2
  have t3 : r.jp_stack.take (json_parser_push h jp t).2.jp_depth.toNat =
      (json_parser_push h jp t).2.jp_stack.take (json_parser_push h jp t).2.jp_depth.toNat := t2
  rw [p2] at d3 t3
  have hsame : json_same_frames jp r := ⟨by omega, s2, t3.trans p5⟩
  exact ⟨hsame, hst.trans (next_of_same jp r hsame)⟩

theorem push_state_shape (h : json_host) (hmem : ∀ n, h.realloc_ok n = true)
    (jp : json_parser_t) (t : Nat) (st : json_parser_state) (hs : json_stack_shape jp) :
    json_stack_shape { (json_parser_push h jp t).2 with jp_state := st } ∧
    json_parser_top { (json_parser_push h jp t).2 with jp_state := st } = t :=
  ⟨(push_shape h hmem jp t hs).2.2.1, (push_shape h hmem jp t hs).2.2.2.1⟩

theorem close_of_push (h : json_host) (hmem : ∀ n, h.realloc_ok n = true)
    (jp : json_parser_t) (t : Nat) (st : json_parser_state) (hs : json_stack_shape jp)
    (ht : t ≠ JSON_PARSER_NONE) :
    json_same_frames jp
      { (json_parser_push h jp t).2 with
        jp_depth := (json_parser_push h jp t).2.jp_depth - 1
        jp_state := json_parser_next { (json_parser_push h jp t).2 with
          jp_depth := (json_parser_push h jp t).2.jp_depth - 1 } } ∧
    json_parser_next { (json_parser_push h jp t).2 with
      jp_depth := (json_parser_push h jp t).2.jp_depth - 1 } = json_parser_next jp := by
  obtain ⟨q1, q2⟩ := push_state_shape h hmem jp t st hs
  have hp := popped_of_close { (json_parser_push h jp t).2 with jp_state := st }
    (json_parser_next { (json_parser_push h jp t).2 with
      jp_depth := (json_parser_push h jp t).2.jp_depth - 1 }) q1
    (top_depth _ (by rw [q2]; exact ht))
  exact same_of_push h hmem jp t st _ hs hp rfl

theorem run_after_value (h : json_host) (r : json_parser_t) (ws : List Nat)
    (hws : spec_ws_ok h ws = true)
    (hst : r.jp_state = json_parser_next r ∨ json_state_accepts_number r.jp_state = true) :
    ∃ st, json_parser_run h r ws = { r with jp_state := st } ∧
      (st = json_parser_next r ∨ (json_state_accepts_number st = true ∧ ws = [])) := by
  cases ws with
  | nil =>
    refine ⟨r.jp_state, rfl, ?_⟩
    rcases hst with hst | hst
    · exact Or.inl hst
    · exact Or.inr ⟨hst, rfl⟩
  | cons w rest =>
    refine ⟨json_parser_next r, ?_, Or.inl rfl⟩
    rcases hst with hst | hst
    · rw [run_space h r (w :: rest) hws (by rw [hst]; exact next_skips_space r)]
      exact (state_eta r _ hst).symm
    · have hw : isspace h w = true ∧ spec_ws_ok h rest = true := by
        simpa [spec_ws_ok] using hws
      rw [run_cons, step_space_number h r w hw.1 hst,
        run_space h _ rest hw.2 (next_skips_space r)]

theorem step_ws_close_array (h : json_host) (r : json_parser_t) (ws : List Nat)
    (hws : spec_ws_ok h ws = true) (htop : json_parser_top r = JSON_PARSER_ARRAY)
    (hst : r.jp_state = json_parser_next r ∨ json_state_accepts_number r.jp_state = true) :
    json_parser_step h (json_parser_run h r ws) 93 =
      { r with jp_depth := r.jp_depth - 1
               jp_state := json_parser_next { r with jp_depth := r.jp_depth - 1 } } := by
  obtain ⟨st, hrun, hst2⟩ := run_after_value h r ws hws hst
  have hst3 : st = s_next ∨ st = s_init ∨ json_state_accepts_number st = true := by
    rcases hst2 with e | ⟨e, _⟩
    · exact Or.inl (e.trans (next_array r htop))
    · exact Or.inr (Or.inr e)
  rw [hrun, step_close_array h { r with jp_state := st } htop hst3]
  rfl

theorem step_ws_close_object (h : json_host) (r : json_parser_t) (ws : List Nat)
    (hws : spec_ws_ok h ws = true) (htop : json_parser_top r = JSON_PARSER_OBJECT)
    (hst : r.jp_state = json_parser_next r ∨ json_state_accepts_number r.jp_state = true) :
    json_parser_step h (json_parser_run h r ws) 125 =
      { r with jp_depth := r.jp_depth - 1
               jp_state := json_parser_next { r with jp_depth := r.jp_depth - 1 } } := by
  obtain ⟨st, hrun, hst2⟩ := run_after_value h r ws hws hst
  have hst3 : st = s_object_next ∨ st = s_object_start ∨
      json_state_accepts_number st = true := by
    rcases hst2 with e | ⟨e, _⟩
    · exact Or.inl (e.trans (next_object r htop))
    · exact Or.inr (Or.inr e)
  rw [hrun, step_close_object h { r with jp_state := st } htop hst3]
  rfl

theorem step_ws_comma_array (h : json_host) (r : json_parser_t) (ws : List Nat)
    (hws : spec_ws_ok h ws = true) (htop : json_parser_top r = JSON_PARSER_ARRAY)
    (hst : r.jp_state = json_parser_next r ∨ json_state_accepts_number r.jp_state = true) :
    json_parser_step h (json_parser_run h r ws) 44 = { r with jp_state := s_delim } := by
  obtain ⟨st, hrun, hst2⟩ := run_after_value h r ws hws hst
  have htop2 : json_parser_top { r with jp_state := st } = JSON_PARSER_ARRAY := htop
  rw [hrun, step_comma h { r with jp_state := st } (Or.inl htop2) (by
    rcases hst2 with e | ⟨e, _⟩
    · exact Or.inl ⟨e.trans (next_array r htop), htop⟩
    · exact Or.inr (Or.inr e)), if_neg (by rw [htop2]; decide)]

theorem step_ws_comma_object (h : json_host) (r : json_parser_t) (ws : List Nat)
    (hws : spec_ws_ok h ws = true) (htop : json_parser_top r = JSON_PARSER_OBJECT)
    (hst : r.jp_state = json_parser_next r ∨ json_state_accepts_number r.jp_state = true) :
    json_parser_step h (json_parser_run h r ws) 44 = { r with jp_state := s_object } := by
  obtain ⟨st, hrun, hst2⟩ := run_after_value h r ws hws hst
  have htop2 : json_parser_top { r with jp_state := st } = JSON_PARSER_OBJECT := htop
  rw [hrun, step_comma h { r with jp_state := st } (Or.inr htop2) (by
    rcases hst2 with e | ⟨e, _⟩
    · exact Or.inr (Or.inl ⟨e.trans (next_object r htop), htop⟩)
    · exact Or.inr (Or.inr e)), if_pos htop2]

theorem items_text_last (wsb : List Nat) (v : spec_value) (wsa : List Nat) :
    spec_items_text (.last wsb v wsa) ++ [93] =
      wsb ++ (spec_value_text v ++ (wsa ++ [93])) := by
  simp [spec_items_text]

theorem items_text_cons (wsb : List Nat) (v : spec_value) (wsa : List Nat)
    (rest : spec_items) :
    spec_items_text (.cons wsb v wsa rest) ++ [93] =
      wsb ++ (spec_value_text v ++ (wsa ++ 44 :: (spec_items_text rest ++ [93]))) := by
  simp [spec_items_text]

theorem members_text_last (wsb : List Nat) (key : List spec_text_item) (wsk wsc : List Nat)
    (v : spec_value) (wsa : List Nat) :
    spec_members_text (.last wsb key wsk wsc v wsa) ++ [125] =
      wsb ++ ((34 :: (spec_text_bytes key ++ [34])) ++ (wsk ++ 58 :: (wsc ++
        (spec_value_text v ++ (wsa ++ [125]))))) := by
  simp [spec_members_text]

theorem members_text_cons (wsb : List Nat) (key : List spec_text_item) (wsk wsc : List Nat)
    (v : spec_value) (wsa : List Nat) (rest : spec_members) :
    spec_members_text (.cons wsb key wsk wsc v wsa rest) ++ [125] =
      wsb ++ ((34 :: (spec_text_bytes key ++ [34])) ++ (wsk ++ 58 :: (wsc ++
        (spec_value_text v ++ (wsa ++ 44 :: (spec_members_text rest ++ [125])))))) := by
  simp [spec_members_text]

theorem run_member_head (h : json_host) (jp : json_parser_t) (wsb : List Nat)
    (key : List spec_text_item) (wsk wsc tail : List Nat)
    (hst : jp.jp_state = s_object_start ∨ jp.jp_state = s_object)
    (hwb : spec_ws_ok h wsb = true) (hkey : spec_text_ok h key = true)
    (hwk : spec_ws_ok h wsk = true) (hwc : spec_ws_ok h wsc = true) :
    ∃ u, json_parser_run h jp (wsb ++ ((34 :: (spec_text_bytes key ++ [34])) ++
      (wsk ++ 58 :: (wsc ++ tail)))) =
      json_parser_run h { jp with jp_uchar := u, jp_state := s_delim } tail := by
  obtain ⟨u, hkeyrun⟩ := run_key_text h jp key hkey hst
  refine ⟨u, ?_⟩
  rw [run_append h jp wsb, run_space h jp wsb hwb (by rcases hst with e | e <;> rw [e] <;> rfl),
    run_append h jp, hkeyrun, run_append h _ wsk,
    run_space h { jp with jp_uchar := u, jp_state := s_object_key_end } wsk hwk rfl, run_cons,
    step_colon h { jp with jp_uchar := u, jp_state := s_object_key_end } rfl,
    run_append h _ wsc,
    run_space h { jp with jp_uchar := u, jp_state := s_delim } wsc hwc rfl]

theorem same_uchar (jp : json_parser_t) (u : Nat) (st : json_parser_state)
    (hs : json_stack_shape jp) :
    json_same_frames jp { jp with jp_uchar := u, jp_state := st } :=
  ⟨rfl, hs, rfl⟩

mutual
theorem value_run (h : json_host) (hmem : ∀ n, h.realloc_ok n = true) (v : spec_value)
    (jp : json_parser_t) (hs : json_stack_shape jp)
    (hst : jp.jp_state = s_init ∨ jp.jp_state = s_delim)
    (hok : spec_value_ok h v = true) :
    json_same_frames jp (json_parser_run h jp (spec_value_text v)) ∧
    ((spec_value_is_number v = false ∧
        (json_parser_run h jp (spec_value_text v)).jp_state = json_parser_next jp) ∨
      (spec_value_is_number v = true ∧
        json_state_accepts_number (json_parser_run h jp (spec_value_text v)).jp_state =
          true)) := by
  cases v with
  | lit_null =>
    rw [spec_value_text, (run_literal h jp hst).1]
    exact ⟨same_refl jp _ hs, Or.inl ⟨rfl, rfl⟩⟩
  | lit_true =>
    rw [spec_value_text, (run_literal h jp hst).2.1]
    exact ⟨same_refl jp _ hs, Or.inl ⟨rfl, rfl⟩⟩
  | lit_false =>
    rw [spec_value_text, (run_literal h jp hst).2.2]
    exact ⟨same_refl jp _ hs, Or.inl ⟨rfl, rfl⟩⟩
  | number n =>
    rw [spec_value_ok] at hok
    obtain ⟨st, hacc, hrun⟩ := run_number h jp n hok hst
    rw [spec_value_text, hrun]
    exact ⟨same_refl jp st hs, Or.inr ⟨rfl, hacc⟩⟩
  | string body =>
    rw [spec_value_ok] at hok
    obtain ⟨u, hrun⟩ := run_string_text h jp body hok hst
    rw [spec_value_text, hrun]
    exact ⟨same_uchar jp u _ hs, Or.inl ⟨rfl, rfl⟩⟩
  | array_empty ws =>
    rw [spec_value_ok] at hok
    obtain ⟨q1, q2⟩ := push_state_shape h hmem jp JSON_PARSER_ARRAY s_init hs
    rw [spec_value_text, run_cons, step_open_array h hmem jp hs hst, run_snoc,
      run_space h { (json_parser_push h jp JSON_PARSER_ARRAY).2 with jp_state := s_init } ws hok rfl,
      step_close_array h { (json_parser_push h jp JSON_PARSER_ARRAY).2 with jp_state := s_init } q2
        (Or.inr (Or.inl rfl))]
    obtain ⟨r1, r2⟩ := close_of_push h hmem jp JSON_PARSER_ARRAY s_init hs (by decide)
    exact ⟨r1, Or.inl ⟨rfl, r2⟩⟩
  | array items =>
    rw [spec_value_ok] at hok
    obtain ⟨q1, q2⟩ := push_state_shape h hmem jp JSON_PARSER_ARRAY s_init hs
    obtain ⟨i1, i2⟩ := items_run h hmem items _ q1 q2 (Or.inl rfl) hok
    rw [spec_value_text, run_cons, step_open_array h hmem jp hs hst]
    obtain ⟨r1, r2⟩ := same_of_push h hmem jp JSON_PARSER_ARRAY s_init _ hs i1 i2
    exact ⟨r1, Or.inl ⟨rfl, r2⟩⟩
  | object_empty ws =>
    rw [spec_value_ok] at hok
    obtain ⟨q1, q2⟩ := push_state_shape h hmem jp JSON_PARSER_OBJECT s_object_start hs
    rw [spec_value_text, run_cons, step_open_object h hmem jp hs hst, run_snoc,
      run_space h { (json_parser_push h jp JSON_PARSER_OBJECT).2 with jp_state := s_object_start } ws hok rfl,
      step_close_object h { (json_parser_push h jp JSON_PARSER_OBJECT).2 with jp_state := s_object_start } q2
        (Or.inr (Or.inl rfl))]
    obtain ⟨r1, r2⟩ := close_of_push h hmem jp JSON_PARSER_OBJECT s_object_start hs (by decide)
    exact ⟨r1, Or.inl ⟨rfl, r2⟩⟩
  | object members =>
    rw [spec_value_ok] at hok
    obtain ⟨q1, q2⟩ := push_state_shape h hmem jp JSON_PARSER_OBJECT s_object_start hs
    obtain ⟨i1, i2⟩ := members_run h hmem members _ q1 q2 (Or.inl rfl) hok
    rw [spec_value_text, run_cons, step_open_object h hmem jp hs hst]
    obtain ⟨r1, r2⟩ := same_of_push h hmem jp JSON_PARSER_OBJECT s_object_start _ hs i1 i2
    exact ⟨r1, Or.inl ⟨rfl, r2⟩⟩
theorem items_run (h : json_host) (hmem : ∀ n, h.realloc_ok n = true) (items : spec_items)
    (jp : json_parser_t) (hs : json_stack_shape jp)
    (htop : json_parser_top jp = JSON_PARSER_ARRAY)
    (hst : jp.jp_state = s_init ∨ jp.jp_state = s_delim)
    (hok : spec_items_ok h items = true) :
    json_popped_frames jp (json_parser_run h jp (spec_items_text items ++ [93])) ∧
    (json_parser_run h jp (spec_items_text items ++ [93])).jp_state =
      json_parser_next (json_parser_run h jp (spec_items_text items ++ [93])) := by
  have hskip : json_state_skips_space jp.jp_state = true := by
    rcases hst with e | e <;> rw [e] <;> rfl
  cases items with
  | last wsb v wsa =>
    simp only [spec_items_ok, Bool.and_eq_true] at hok
    obtain ⟨⟨hwb, hv⟩, hwa⟩ := hok
    obtain ⟨hsame, hstv⟩ := value_run h hmem v jp hs hst hv
    have htopr := (top_of_same jp _ hsame).trans htop
    have hstr : (json_parser_run h jp (spec_value_text v)).jp_state =
        json_parser_next (json_parser_run h jp (spec_value_text v)) ∨
        json_state_accepts_number (json_parser_run h jp (spec_value_text v)).jp_state =
          true := by
      rcases hstv with ⟨_, e⟩ | ⟨_, e⟩
      · exact Or.inl (e.trans (next_of_same jp _ hsame).symm)
      · exact Or.inr e
    rw [items_text_last, run_append h jp wsb, run_space h jp wsb hwb hskip,
      run_append h jp, run_snoc, step_ws_close_array h _ wsa hwa htopr hstr]
    exact ⟨popped_of_same jp _ _ hsame (popped_of_close _ _ hsame.2.1
      (top_depth _ (by rw [htopr]; decide))), rfl⟩
  | cons wsb v wsa rest =>
    simp only [spec_items_ok, Bool.and_eq_true] at hok
    obtain ⟨⟨⟨hwb, hv⟩, hwa⟩, hrest⟩ := hok
    obtain ⟨hsame, hstv⟩ := value_run h hmem v jp hs hst hv
    have htopr := (top_of_same jp _ hsame).trans htop
    have hstr : (json_parser_run h jp (spec_value_text v)).jp_state =
        json_parser_next (json_parser_run h jp (spec_value_text v)) ∨
        json_state_accepts_number (json_parser_run h jp (spec_value_text v)).jp_state =
          true := by
      rcases hstv with ⟨_, e⟩ | ⟨_, e⟩
      · exact Or.inl (e.trans (next_of_same jp _ hsame).symm)
      · exact Or.inr e
    obtain ⟨i1, i2⟩ := items_run h hmem rest
      { json_parser_run h jp (spec_value_text v) with jp_state := s_delim }
      hsame.2.1 htopr (Or.inr rfl) hrest
    rw [items_text_cons, run_append h jp wsb, run_space h jp wsb hwb hskip,
      run_append h jp, run_append h _ wsa, run_cons,
      step_ws_comma_array h _ wsa hwa htopr hstr]
    exact ⟨popped_of_same jp _ _ (same_trans _ _ _ hsame (same_refl _ _ hsame.2.1)) i1, i2⟩
theorem members_run (h : json_host) (hmem : ∀ n, h.realloc_ok n = true)
    (members : spec_members) (jp : json_parser_t) (hs : json_stack_shape jp)
    (htop : json_parser_top jp = JSON_PARSER_OBJECT)
    (hst : jp.jp_state = s_object_start ∨ jp.jp_state = s_object)
    (hok : spec_members_ok h members = true) :
    json_popped_frames jp (json_parser_run h jp (spec_members_text members ++ [125])) ∧
    (json_parser_run h jp (spec_members_text members ++ [125])).jp_state =
      json_parser_next (json_parser_run h jp (spec_members_text members ++ [125])) := by
  cases members with
  | last wsb key wsk wsc v wsa =>
    simp only [spec_members_ok, Bool.and_eq_true] at hok
    obtain ⟨⟨⟨⟨⟨hwb, hkey⟩, hwk⟩, hwc⟩, hv⟩, hwa⟩ := hok
    obtain ⟨u, hhead⟩ := run_member_head h jp wsb key wsk wsc
      (spec_value_text v ++ (wsa ++ [125])) hst hwb hkey hwk hwc
    have hsd := same_uchar jp u s_delim hs
    obtain ⟨hsame, hstv⟩ := value_run h hmem v { jp with jp_uchar := u, jp_state := s_delim }
      hs (Or.inr rfl) hv
    have htopr := (top_of_same _ _ hsame).trans htop
    have hstr : (json_parser_run h { jp with jp_uchar := u, jp_state := s_delim }
          (spec_value_text v)).jp_state =
        json_parser_next (json_parser_run h { jp with jp_uchar := u, jp_state := s_delim }
          (spec_value_text v)) ∨
        json_state_accepts_number (json_parser_run h
          { jp with jp_uchar := u, jp_state := s_delim } (spec_value_text v)).jp_state =
            true := by
      rcases hstv with ⟨_, e⟩ | ⟨_, e⟩
      · exact Or.inl (e.trans (next_of_same _ _ hsame).symm)
      · exact Or.inr e
    rw [members_text_last, hhead, run_append h _ (spec_value_text v), run_snoc,
      step_ws_close_object h _ wsa hwa htopr hstr]
    exact ⟨popped_of_same jp _ _ (same_trans _ _ _ hsd hsame) (popped_of_close _ _ hsame.2.1
      (top_depth _ (by rw [htopr]; decide))), rfl⟩
  | cons wsb key wsk wsc v wsa rest =>
    simp only [spec_members_ok, Bool.and_eq_true] at hok
    obtain ⟨⟨⟨⟨⟨⟨hwb, hkey⟩, hwk⟩, hwc⟩, hv⟩, hwa⟩, hrest⟩ := hok
    obtain ⟨u, hhead⟩ := run_member_head h jp wsb key wsk wsc
      (spec_value_text v ++ (wsa ++ 44 :: (spec_members_text rest ++ [125]))) hst hwb hkey
      hwk hwc
    have hsd := same_uchar jp u s_delim hs
    obtain ⟨hsame, hstv⟩ := value_run h hmem v { jp with jp_uchar := u, jp_state := s_delim }
      hs (Or.inr rfl) hv
    have htopr := (top_of_same _ _ hsame).trans htop
    have hstr : (json_parser_run h { jp with jp_uchar := u, jp_state := s_delim }
          (spec_value_text v)).jp_state =
        json_parser_next (json_parser_run h { jp with jp_uchar := u, jp_state := s_delim }
          (spec_value_text v)) ∨
        json_state_accepts_number (json_parser_run h
          { jp with jp_uchar := u, jp_state := s_delim } (spec_value_text v)).jp_state =
            true := by
      rcases hstv with ⟨_, e⟩ | ⟨_, e⟩
      · exact Or.inl (e.trans (next_of_same _ _ hsame).symm)
      · exact Or.inr e
    obtain ⟨i1, i2⟩ := members_run h hmem rest
      { json_parser_run h { jp with jp_uchar := u, jp_state := s_delim }
          (spec_value_text v) with jp_state := s_object }
      hsame.2.1 htopr (Or.inr rfl) hrest
    rw [members_text_cons, hhead, run_append h _ (spec_value_text v), run_append h _ wsa,
      run_cons, step_ws_comma_object h _ wsa hwa htopr hstr]
    exact ⟨popped_of_same jp _ _
      (same_trans _ _ _ (same_trans _ _ _ hsd hsame) (same_refl _ _ hsame.2.1)) i1, i2⟩
end

/-! ## The byte after a complete top-level value -/

theorem pop_fail (jp : json_parser_t) (t : Nat) (ht : t ≠ JSON_PARSER_NONE)
    (htop : json_parser_top jp = JSON_PARSER_NONE) :
    json_parser_pop jp t =
      (-1, { jp with jp_depth := jp.jp_depth - 1, jp_state := s_dead }) := by
  have hcond : jp.jp_depth < 0 ∨ jp.jp_stack.getD jp.jp_depth.toNat 0 ≠ t := by
    unfold json_parser_top at htop
    by_cases hd : jp.jp_depth < 0
    · exact Or.inl hd
    · rw [if_pos (by omega)] at htop
      exact Or.inr (by rw [htop]; exact fun e => ht e.symm)
  unfold json_parser_pop
  dsimp only
  exact (if_pos hcond).trans rfl

theorem number_end_close_none (h : json_host) (jp : json_parser_t) (ctx : json_ctx)
    (buf : List Nat) (mark : Option Nat) (data c : Nat) (hc : c = 93 ∨ c = 125)
    (htop : json_parser_top jp = JSON_PARSER_NONE) :
    (json_parser_number_end h jp json_settings_ok ctx buf mark data c).1 = -1 ∧
    (json_parser_number_end h jp json_settings_ok ctx buf mark data c).2.1.jp_state =
      s_dead := by
  have e1 := on_number_ok ctx buf mark data
  unfold json_parser_number_end
  rcases hc with rfl | rfl
  · rw [if_neg (by simp [isspace]), if_neg (by decide), if_pos rfl]
    revert e1
    rcases json_parser_on_number json_settings_ok ctx buf mark data with ⟨rv, c1⟩
    intro e1
    dsimp only at e1 ⊢
    rw [if_neg (by rw [e1]; decide)]
    unfold json_parser_pop_array
    rw [pop_fail jp JSON_PARSER_ARRAY (by decide) htop]
    exact ⟨rfl, rfl⟩
  · rw [if_neg (by simp [isspace]), if_pos rfl]
    revert e1
    rcases json_parser_on_number json_settings_ok ctx buf mark data with ⟨rv, c1⟩
    intro e1
    dsimp only at e1 ⊢
    rw [if_neg (by rw [e1]; decide)]
    unfold json_parser_pop_object
    rw [pop_fail jp JSON_PARSER_OBJECT (by decide) htop]
    exact ⟨rfl, rfl⟩

theorem step_number_other (h : json_host) (jp : json_parser_t) (c : Nat)
    (hsp : isspace h c = false) (htop : json_parser_top jp = JSON_PARSER_NONE)
    (hst : json_state_accepts_number jp.jp_state = true) :
    (json_parser_step h jp c).jp_state = s_dead ∨
      json_state_is_number (json_parser_step h jp c).jp_state = true := by
  unfold json_parser_step json_parser_exec_byte
  by_cases h1 : c = 44
  · subst h1
    have e := number_end_comma_empty h json_settings_ok jp [] [] none 0 htop
    cases hs : jp.jp_state <;> rw [hs] at hst <;>
      first
        | exact Bool.noConfusion hst
        | (dsimp only; rw [number_parser_cases, e]; exact Or.inl rfl)
  · by_cases h2 : c = 93 ∨ c = 125
    · obtain ⟨e1, e2⟩ := number_end_close_none h jp [] [] none 0 c h2 htop
      cases hs : jp.jp_state <;> rw [hs] at hst <;>
        first
          | exact Bool.noConfusion hst
          | (dsimp only; rw [number_parser_cases, if_pos (Or.inl e1)]; exact Or.inl e2)
    · have h3 : c ≠ 93 := fun e => h2 (Or.inl e)
      have h4 : c ≠ 125 := fun e => h2 (Or.inr e)
      cases hs : jp.jp_state <;> rw [hs] at hst <;>
        first
          | exact Bool.noConfusion hst
          | (dsimp only
             rw [number_rest h jp c _ hsp h4 h3 h1]
             split_ifs <;>
               first
                 | exact Or.inl rfl
                 | exact Or.inr rfl
                 | (right; show json_state_is_number jp.jp_state = true; rw [hs]; rfl))

theorem step_done_other (h : json_host) (jp : json_parser_t) (c : Nat)
    (hsp : isspace h c = false) (hst : jp.jp_state = s_done) :
    (json_parser_step h jp c).jp_state = s_dead := by
  unfold json_parser_step
  rw [done_byte h json_settings_ok [] 0 c jp [] none hst, if_neg (by rw [hsp]; decide)]
  rfl

theorem new_shape : json_stack_shape json_parser_new :=
  ⟨by decide, by decide, by decide⟩

theorem value_from_new (h : json_host) (hmem : ∀ n, h.realloc_ok n = true) (v : spec_value)
    (ws : List Nat) (hok : spec_value_ok h v = true) (hws : spec_ws_ok h ws = true) :
    json_parser_top (json_parser_run h json_parser_new (spec_value_text v ++ ws)) =
      JSON_PARSER_NONE ∧
    (json_parser_run h json_parser_new (spec_value_text v ++ ws)).jp_depth = -1 ∧
    ((spec_value_is_number v = false ∨ ws ≠ []) →
      (json_parser_run h json_parser_new (spec_value_text v ++ ws)).jp_state = s_done) ∧
    ((json_parser_run h json_parser_new (spec_value_text v ++ ws)).jp_state = s_done ∨
      json_state_accepts_number
        (json_parser_run h json_parser_new (spec_value_text v ++ ws)).jp_state = true) := by
  obtain ⟨hsame, hstv⟩ := value_run h hmem v json_parser_new new_shape (Or.inl rfl) hok
  have htop : json_parser_top (json_parser_run h json_parser_new (spec_value_text v)) =
      JSON_PARSER_NONE := (top_of_same _ _ hsame).trans rfl
  have hnext := next_none _ htop
  have hd : (json_parser_run h json_parser_new (spec_value_text v)).jp_depth = -1 := hsame.1
  have hstr : (json_parser_run h json_parser_new (spec_value_text v)).jp_state =
      json_parser_next (json_parser_run h json_parser_new (spec_value_text v)) ∨
      json_state_accepts_number
        (json_parser_run h json_parser_new (spec_value_text v)).jp_state = true := by
    rcases hstv with ⟨_, e⟩ | ⟨_, e⟩
    · exact Or.inl (e.trans (next_of_same _ _ hsame).symm)
    · exact Or.inr e
  obtain ⟨st, hrun, hst2⟩ := run_after_value h _ ws hws hstr
  rw [run_append, hrun]
  refine ⟨htop, hd, ?_, ?_⟩
  · intro hcase
    show st = s_done
    rcases hst2 with e | ⟨e, hnil⟩
    · exact e.trans hnext
    · rcases hcase with hn | hn
      · rcases hstv with ⟨_, e2⟩ | ⟨e2, _⟩
        · rw [hnil, run_nil] at hrun
          have e3 : st = json_parser_next json_parser_new := by
            rw [← e2, hrun]
          exact e3
        · rw [hn] at e2
          exact Bool.noConfusion e2
      · exact absurd hnil hn
  · rcases hst2 with e | ⟨e, _⟩
    · exact Or.inl (e.trans hnext)
    · exact Or.inr e

theorem done_feed (h : json_host) (settings : json_parser_settings)
    (jp : json_parser_t) (ctx : json_ctx) (hdone : jp.jp_state = s_done) :
    (∀ chunks : List (List Nat), (∀ c ∈ chunks.flatten, isspace h c = true) →
      json_parser_feed h settings jp ctx chunks = (jp, ctx)) ∧
    (∀ chunks : List (List Nat), (∃ c ∈ chunks.flatten, isspace h c = false) →
      json_parser_isdead (json_parser_feed h settings jp ctx chunks).1 = true ∧
      (json_parser_feed h settings jp ctx chunks).2 = ctx) := by
  refine ⟨?_, ?_⟩
  · intro chunks
    induction chunks with
    | nil => intro _; rfl
    | cons b rest ih =>
      intro hall
      obtain ⟨h1, h2, _⟩ := done_exec h settings b jp ctx hdone
      have hb : ∀ c ∈ b, isspace h c = true := fun c hc =>
        hall c (by rw [List.flatten_cons]; exact List.mem_append_left _ hc)
      have hrest : ∀ c ∈ rest.flatten, isspace h c = true := fun c hc =>
        hall c (by rw [List.flatten_cons]; exact List.mem_append_right _ hc)
      simp only [json_parser_feed]
      rw [h1, h2 hb]
      exact ih hrest
  · intro chunks
    induction chunks with
    | nil =>
      rintro ⟨c, hc, _⟩
      cases hc
    | cons b rest ih =>
      rintro ⟨c, hc, hsp⟩
      obtain ⟨h1, h2, h3⟩ := done_exec h settings b jp ctx hdone
      simp only [json_parser_feed]
      rw [h1]
      by_cases hb : ∃ x ∈ b, isspace h x = false
      · rw [feed_of_dead h settings _ ctx rest (h3 hb)]
        exact ⟨by simp [json_parser_isdead, h3 hb], rfl⟩
      · have hb2 : ∀ x ∈ b, isspace h x = true := by
          intro x hx
          by_contra hne
          exact hb ⟨x, hx, by simpa using hne⟩
        rw [h2 hb2]
        rw [List.flatten_cons] at hc
        rcases List.mem_append.mp hc with hc | hc
        · rw [hb2 c hc] at hsp; cases hsp
        · exact ih ⟨c, hc, hsp⟩

/-- C12 as stated fails in its last part: the number `1` is a complete
top-level value, and the input `1` followed directly by `2`, by `.` or by
`e` (no whitespace, then a non-whitespace byte) leaves the parser alive, in
one chunk or in two. -/
theorem number_then_byte_not_dead :
    spec_value_ok json_host_c (.number ⟨false, [49], [], none⟩) = true ∧
    spec_value_text (.number ⟨false, [49], [], none⟩) = [49] ∧
    isspace json_host_c 50 = false ∧ isspace json_host_c 46 = false ∧
    isspace json_host_c 101 = false ∧
    json_parser_isdead
      (json_parser_feed json_host_c json_settings_ok json_parser_new [] [[49, 50]]).1 =
        false ∧
    json_parser_isdead
      (json_parser_feed json_host_c json_settings_ok json_parser_new [] [[49], [50]]).1 =
        false ∧
    json_parser_isdead
      (json_parser_feed json_host_c json_settings_ok json_parser_new [] [[49, 46]]).1 =
        false ∧
    json_parser_isdead
      (json_parser_feed json_host_c json_settings_ok json_parser_new [] [[49, 101]]).1 =
        false := by
  decide

/-- C12, amended.  A parser in state DONE stays as it is on a whitespace
byte and goes to DEAD on any other byte, with no callback invoked, whatever
the callbacks are and however the bytes are cut into chunks.  A fresh parser
(callbacks returning 0, `realloc` never failing, non-empty chunks) that has
read a complete value followed by whitespace is in DONE when the value is
not a number or at least one whitespace byte follows it; after a bare number
it is in one of the four number states that accept the end of input, with
the stack empty.  Hence a value, whitespace and one non-whitespace byte end
with `json_parser_isdead` true when the value is not a number or whitespace
stands between them; when the byte follows a number directly the parser is
DEAD or still inside the number.  The values are those of the grammar
`spec_value`: literals, numbers of the parser's syntax, strings and keys
made of printable bytes, single-character escapes and `u00` escapes with two
hex digits, arrays and objects, with whitespace between their tokens. -/
theorem done_then_only_whitespace (h : json_host) (settings : json_parser_settings)
    (jp : json_parser_t) (ctx : json_ctx) :
    (jp.jp_state = s_done →
      (∀ (buf : List Nat) (data c : Nat) (mark : Option Nat),
        json_parser_exec_byte h settings buf data c jp ctx mark =
          if isspace h c = true then json_step.next jp ctx mark else json_step.die jp ctx) ∧
      (∀ chunks : List (List Nat), (∀ c ∈ chunks.flatten, isspace h c = true) →
        json_parser_feed h settings jp ctx chunks = (jp, ctx)) ∧
      (∀ chunks : List (List Nat), (∃ c ∈ chunks.flatten, isspace h c = false) →
        json_parser_isdead (json_parser_feed h settings jp ctx chunks).1 = true ∧
        (json_parser_feed h settings jp ctx chunks).2 = ctx)) ∧
    ((∀ n, h.realloc_ok n = true) →
      ∀ (v : spec_value) (ws : List Nat) (chunks : List (List Nat)),
        spec_value_ok h v = true → spec_ws_ok h ws = true → (∀ b ∈ chunks, b ≠ []) →
        chunks.flatten = spec_value_text v ++ ws →
        ((spec_value_is_number v = false ∨ ws ≠ []) →
          (json_parser_feed h json_settings_ok json_parser_new ctx chunks).1.jp_state =
            s_done) ∧
        ((json_parser_feed h json_settings_ok json_parser_new ctx chunks).1.jp_state =
            s_done ∨
          (json_state_accepts_number
            (json_parser_feed h json_settings_ok json_parser_new ctx chunks).1.jp_state =
              true ∧
            (json_parser_feed h json_settings_ok json_parser_new ctx chunks).1.jp_depth =
              -1))) ∧
    ((∀ n, h.realloc_ok n = true) →
      ∀ (v : spec_value) (ws : List Nat) (c : Nat) (chunks : List (List Nat)),
        spec_value_ok h v = true → spec_ws_ok h ws = true → isspace h c = false →
        (∀ b ∈ chunks, b ≠ []) → chunks.flatten = spec_value_text v ++ ws ++ [c] →
        ((spec_value_is_number v = false ∨ ws ≠ []) →
          json_parser_isdead
            (json_parser_feed h json_settings_ok json_parser_new ctx chunks).1 = true) ∧
        (json_parser_isdead
            (json_parser_feed h json_settings_ok json_parser_new ctx chunks).1 = true ∨
          json_state_is_number
            (json_parser_feed h json_settings_ok json_parser_new ctx chunks).1.jp_state =
              true)) := by
  refine ⟨fun hdone => ⟨fun buf data c mark => done_byte h settings buf data c jp ctx mark
    hdone, done_feed h settings jp ctx hdone⟩, ?_, ?_⟩
  · intro hmem v ws chunks hok hws hne hflat
    obtain ⟨_, hd, hdone, hcases⟩ := value_from_new h hmem v ws hok hws
    rw [feed_run h hmem chunks json_parser_new ctx hne, hflat]
    refine ⟨hdone, ?_⟩
    rcases hcases with e | e
    · exact Or.inl e
    · exact Or.inr ⟨e, hd⟩
  · intro hmem v ws c chunks hok hws hc hne hflat
    obtain ⟨htop, _, hdone, hcases⟩ := value_from_new h hmem v ws hok hws
    rw [feed_run h hmem chunks json_parser_new ctx hne, hflat, run_snoc]
    refine ⟨fun hcase => isdead_of_state _ (step_done_other h _ c hc (hdone hcase)), ?_⟩
    rcases hcases with e | e
    · exact Or.inl (isdead_of_state _ (step_done_other h _ c hc e))
    · rcases step_number_other h _ c hc htop e with e2 | e2
      · exact Or.inl (isdead_of_state _ e2)
      · exact Or.inr e2

/-- C12 on the document `{"k":["\u00e9",1]}`, a space and `x`, cut into three
chunks, and on a parser in DONE that is fed a space, then a line feed and
`x`: both end DEAD, the second with no callback added. -/
theorem done_then_only_whitespace_witness :
    json_parser_isdead (json_parser_feed json_host_c json_settings_ok json_parser_new []
      [[123, 34, 107, 34, 58, 91, 34, 92, 117], [48, 48, 101, 57, 34, 44, 49],
        [93, 125, 32, 120]]).1 = true ∧
    json_parser_isdead (json_parser_feed json_host_c json_settings_ok
      { json_parser_new with jp_state := s_done } [json_event.on_number (some [55])]
      [[32], [10, 120]]).1 = true ∧
    (json_parser_feed json_host_c json_settings_ok
      { json_parser_new with jp_state := s_done } [json_event.on_number (some [55])]
      [[32], [10, 120]]).2 = [json_event.on_number (some [55])] :=
  ⟨((done_then_only_whitespace json_host_c json_settings_ok json_parser_new []).2.2
      (fun _ => rfl)
      (.object (.last [] [.raw 107] [] [] (.array (.cons [] (.string [.hex 101 57]) []
        (.last [] (.number ⟨false, [49], [], none⟩) []))) []))
      [32] 120
      [[123, 34, 107, 34, 58, 91, 34, 92, 117], [48, 48, 101, 57, 34, 44, 49],
        [93, 125, 32, 120]]
      (by decide) (by decide) (by decide) (by decide) (by decide)).1 (Or.inl rfl),
    ((done_then_only_whitespace json_host_c json_settings_ok
      { json_parser_new with jp_state := s_done } [json_event.on_number (some [55])]).1
      rfl).2.2 [[32], [10, 120]] ⟨120, by decide, by decide⟩⟩

end JsonParser
